import Mathlib

/-!
# Verification development for the CS106 class templates `BST`, `Vector`, `Grid`

The bounds-checked containers of `vector.h` and `grid.h` are embedded in the
section on `Vector` and `Grid` below.
The AVL tree of `src/CS106x/assignment01/cs106/bst.h` is embedded as pure
functions over an inductive node type.  Reference parameters (`nodeT * & t`,
`bool & createdNewNode`) and the member `numNodes` that the recursive helpers
update become explicit inputs and outputs.  Every pointer dereference is an
`Option`: a function returns `none` exactly where the C++ code would
dereference `NULL`.  The fields `bf`, `numNodes` and `timestamp` are C++
`int`/`long`; they are embedded as unbounded `Int` (no wrap-around is
modelled, signed overflow being undefined in the source language).
-/

namespace Stanford

/-! ## Data model -/

/-- The `nodeT` struct of `bst.h` (fields `data`, `left`, `right`, `bf`);
a `nodeT *` is a value of this type, the null pointer being `NULL`. -/
inductive nodeT (α : Type) where
  | NULL : nodeT α
  | node (data : α) (left : nodeT α) (right : nodeT α) (bf : Int) : nodeT α
  deriving Repr, DecidableEq

/-- The private data members of `BST<ElemType>`. -/
structure BST (α : Type) where
  root : nodeT α
  numNodes : Int
  timestamp : Int
  cmpFn : α → α → Int

/-- The constant `RightHeavy` of `bst.h`. -/
def RightHeavy : Int := 1
/-- The constant `Even` of `bst.h`. -/
def Even : Int := 0
/-- The constant `LeftHeavy` of `bst.h`. -/
def LeftHeavy : Int := -1

/-! ### Pointer accessors (`none` on a null dereference) -/

/-- The expression `t->data`. -/
def getData {α : Type} : nodeT α → Option α
  | .NULL => none
  | .node d _ _ _ => some d

/-- The expression `t->left`. -/
def getLeft {α : Type} : nodeT α → Option (nodeT α)
  | .NULL => none
  | .node _ l _ _ => some l

/-- The expression `t->right`. -/
def getRight {α : Type} : nodeT α → Option (nodeT α)
  | .NULL => none
  | .node _ _ r _ => some r

/-- The expression `t->bf`. -/
def getBF {α : Type} : nodeT α → Option Int
  | .NULL => none
  | .node _ _ _ bf => some bf

/-- The assignment `t->data = d`. -/
def setData {α : Type} : nodeT α → α → Option (nodeT α)
  | .NULL, _ => none
  | .node _ l r bf, d => some (.node d l r bf)

/-- The assignment `t->left = l`. -/
def setLeft {α : Type} : nodeT α → nodeT α → Option (nodeT α)
  | .NULL, _ => none
  | .node d _ r bf, l => some (.node d l r bf)

/-- The assignment `t->right = r`. -/
def setRight {α : Type} : nodeT α → nodeT α → Option (nodeT α)
  | .NULL, _ => none
  | .node d l _ bf, r => some (.node d l r bf)

/-- The assignment `t->bf = bf`. -/
def setBF {α : Type} : nodeT α → Int → Option (nodeT α)
  | .NULL, _ => none
  | .node d l r _, bf => some (.node d l r bf)

/-! ## The constructor, `size`, `isEmpty`, `clear` -/

/-- The constructor `BST(cmpFn)`: an empty tree. -/
def BST.new {α : Type} (cmp : α → α → Int) : BST α :=
  { root := .NULL, cmpFn := cmp, numNodes := 0, timestamp := 0 }

/-- Member function `size`. -/
def BST.size {α : Type} (b : BST α) : Int := b.numNodes

/-- Member function `isEmpty`. -/
def BST.isEmpty {α : Type} (b : BST α) : Bool :=
  match b.root with
  | .NULL => true
  | .node _ _ _ _ => false

/-- Member function `clear`. -/
def BST.clear {α : Type} (b : BST α) : BST α :=
  { b with root := .NULL, numNodes := 0, timestamp := b.timestamp + 1 }

/-! ## `find` -/

/-- `recFindNode(t, key)`: binary-search descent; returns the node found. -/
def recFindNode {α : Type} (cmpFn : α → α → Int) : nodeT α → α → nodeT α
  | .NULL, _ => .NULL
  | .node d l r bf, key =>
    let sign := cmpFn key d
    if sign = 0 then .node d l r bf
    else if sign < 0 then recFindNode cmpFn l key
    else recFindNode cmpFn r key

/-- Member function `find`: `some e` is a pointer to the stored element `e`,
`none` is the `NULL` result. -/
def BST.find {α : Type} (b : BST α) (key : α) : Option α :=
  match recFindNode b.cmpFn b.root key with
  | .NULL => none
  | .node d _ _ _ => some d

/-! ## Rotations and rebalancing -/

/-- `rotateLeft(t)`: the new value of the reference `t`. -/
def rotateLeft {α : Type} (t : nodeT α) : Option (nodeT α) := do
  let child ← getRight t
  let t ← setRight t (← getLeft child)
  let child ← setLeft child t
  pure child

/-- `rotateRight(t)`: the new value of the reference `t`. -/
def rotateRight {α : Type} (t : nodeT α) : Option (nodeT α) := do
  let child ← getLeft t
  let t ← setLeft t (← getRight child)
  let child ← setRight child t
  pure child

/-- The assignment `t->left->bf = bf`. -/
def setLeftBF {α : Type} (t : nodeT α) (bf : Int) : Option (nodeT α) := do
  setLeft t (← setBF (← getLeft t) bf)

/-- The assignment `t->right->bf = bf`. -/
def setRightBF {α : Type} (t : nodeT α) (bf : Int) : Option (nodeT α) := do
  setRight t (← setBF (← getRight t) bf)

/-- `fixLeftImbalance(t)`: the new value of the reference `t`. -/
def fixLeftImbalance {α : Type} (t : nodeT α) : Option (nodeT α) := do
  let child ← getLeft t
  if (← getBF child) = RightHeavy then
    let oldBF ← getBF (← getRight child)
    let t ← setLeft t (← rotateLeft (← getLeft t))
    let t ← rotateRight t
    let t ← setBF t Even
    if oldBF = LeftHeavy then
      setRightBF (← setLeftBF t Even) RightHeavy
    else if oldBF = Even then
      setLeftBF (← setRightBF t Even) Even
    else if oldBF = RightHeavy then
      setRightBF (← setLeftBF t LeftHeavy) Even
    else pure t
  else if (← getBF child) = Even then
    let t ← rotateRight t
    let t ← setBF t RightHeavy
    setRightBF t LeftHeavy
  else
    let t ← rotateRight t
    let t ← setBF t Even
    setRightBF t Even

/-- `fixRightImbalance(t)`: the new value of the reference `t`. -/
def fixRightImbalance {α : Type} (t : nodeT α) : Option (nodeT α) := do
  let child ← getRight t
  if (← getBF child) = LeftHeavy then
    let oldBF ← getBF (← getLeft child)
    let t ← setRight t (← rotateRight (← getRight t))
    let t ← rotateLeft t
    let t ← setBF t Even
    if oldBF = LeftHeavy then
      setRightBF (← setLeftBF t Even) RightHeavy
    else if oldBF = Even then
      setLeftBF (← setRightBF t Even) Even
    else if oldBF = RightHeavy then
      setRightBF (← setLeftBF t LeftHeavy) Even
    else pure t
  else if (← getBF child) = Even then
    let t ← rotateLeft t
    let t ← setBF t LeftHeavy
    setLeftBF t RightHeavy
  else
    let t ← rotateLeft t
    let t ← setBF t Even
    setLeftBF t Even

/-- `updateBF(t, bfDelta)`: the new value of the reference `t`. -/
def updateBF {α : Type} (t : nodeT α) (bfDelta : Int) : Option (nodeT α) := do
  let t ← setBF t ((← getBF t) + bfDelta)
  if (← getBF t) < LeftHeavy then fixLeftImbalance t
  else if (← getBF t) > RightHeavy then fixRightImbalance t
  else pure t

/-! ## `add` -/

/-- `recAddNode(t, data, createdNewNode)`.  The result lists the returned
`bool` (height of the subtree increased), the new value of the reference `t`,
the new value of the reference `createdNewNode` and the new value of the
member `numNodes`. -/
def recAddNode {α : Type} (cmpFn : α → α → Int) :
    nodeT α → α → Bool → Int → Option (Bool × nodeT α × Bool × Int)
  | .NULL, data, _, numNodes =>
    some (true, .node data .NULL .NULL Even, true, numNodes + 1)
  | .node d l r bf, data, createdNewNode, numNodes =>
    let sign := cmpFn data d
    if sign = 0 then
      some (false, .node data l r bf, false, numNodes)
    else if sign < 0 then do
      let (grew, l', createdNewNode', numNodes') ← recAddNode cmpFn l data createdNewNode numNodes
      let bfDelta : Int := if grew then -1 else 0
      let t ← updateBF (.node d l' r bf) bfDelta
      pure (decide (bfDelta ≠ 0) && decide ((← getBF t) ≠ Even), t, createdNewNode', numNodes')
    else do
      let (grew, r', createdNewNode', numNodes') ← recAddNode cmpFn r data createdNewNode numNodes
      let bfDelta : Int := if grew then 1 else 0
      let t ← updateBF (.node d l r' bf) bfDelta
      pure (decide (bfDelta ≠ 0) && decide ((← getBF t) ≠ Even), t, createdNewNode', numNodes')

/-- Member function `add`: the returned `bool` and the tree afterwards. -/
def BST.add {α : Type} (b : BST α) (data : α) : Option (Bool × BST α) := do
  let (_, root, createdNewNode, numNodes) ← recAddNode b.cmpFn b.root data false b.numNodes
  let timestamp := if createdNewNode then b.timestamp + 1 else b.timestamp
  pure (createdNewNode, { b with root := root, numNodes := numNodes, timestamp := timestamp })

/-! ## `remove` -/

/-- The loop `while (successor->right != NULL) successor = successor->right`
of `removeTargetNode`, started at `successor`; returns `successor->data`. -/
def successorData {α : Type} : nodeT α → Option α
  | .NULL => none
  | .node d _ .NULL _ => some d
  | .node _ _ (.node rd rl rr rbf) _ => successorData (.node rd rl rr rbf)

/-- `removeTargetNode(t)`.  The source function is mutually recursive with
`recRemoveNode`; its one recursive call, `recRemoveNode(t->left, key, unused)`,
is received here as the function `recLeft` of the key and of the current
`numNodes`.  The result lists the returned `bool` (height of the subtree
decreased), the new value of the reference `t` and the new `numNodes`. -/
def removeTargetNode {α : Type} (recLeft : α → Int → Option (Bool × nodeT α × Bool × Int))
    (t : nodeT α) (numNodes : Int) : Option (Bool × nodeT α × Int) := do
  match (← getLeft t), (← getRight t) with
  | .NULL, right => pure (true, right, numNodes - 1)
  | left, .NULL => pure (true, left, numNodes - 1)
  | left, _ =>
    let succData ← successorData left
    let t ← setData t succData
    let (shrank, left', _, numNodes') ← recLeft succData numNodes
    let t ← setLeft t left'
    if shrank then
      let t ← updateBF t 1
      pure (decide ((← getBF t) = Even), t, numNodes')
    else
      pure (false, t, numNodes')

/-- `recRemoveNode(t, data, didRemove)`.  The result lists the returned
`bool` (height of the subtree decreased), the new value of the reference `t`,
the new value of the reference `didRemove` and the new `numNodes`. -/
def recRemoveNode {α : Type} (cmpFn : α → α → Int) :
    nodeT α → α → Bool → Int → Option (Bool × nodeT α × Bool × Int)
  | .NULL, _, didRemove, numNodes => some (false, .NULL, didRemove, numNodes)
  | .node d l r bf, data, didRemove, numNodes =>
    let sign := cmpFn data d
    if sign = 0 then do
      let (shrank, t, numNodes') ←
        removeTargetNode (fun key n => recRemoveNode cmpFn l key false n) (.node d l r bf) numNodes
      pure (shrank, t, true, numNodes')
    else if sign < 0 then do
      let (shrank, l', didRemove', numNodes') ← recRemoveNode cmpFn l data didRemove numNodes
      let bfDelta : Int := if shrank then 1 else 0
      let t ← updateBF (.node d l' r bf) bfDelta
      pure (decide (bfDelta ≠ 0) && decide ((← getBF t) = Even), t, didRemove', numNodes')
    else do
      let (shrank, r', didRemove', numNodes') ← recRemoveNode cmpFn r data didRemove numNodes
      let bfDelta : Int := if shrank then -1 else 0
      let t ← updateBF (.node d l r' bf) bfDelta
      pure (decide (bfDelta ≠ 0) && decide ((← getBF t) = Even), t, didRemove', numNodes')

/-- Member function `remove`: the returned `bool` and the tree afterwards. -/
def BST.remove {α : Type} (b : BST α) (data : α) : Option (Bool × BST α) := do
  let (_, root, didRemove, numNodes) ← recRemoveNode b.cmpFn b.root data false b.numNodes
  pure (didRemove, { b with root := root, numNodes := numNodes })

/-! ## `mapAll` -/

/-- `recBSTAll(t, fn)`: the sequence of elements `fn` is called on. -/
def recBSTAll {α : Type} : nodeT α → List α
  | .NULL => []
  | .node d l r _ => recBSTAll l ++ d :: recBSTAll r

/-- Member function `mapAll`: the sequence of elements visited. -/
def BST.mapAll {α : Type} (b : BST α) : List α := recBSTAll b.root

/-! ## `BST::Iterator` -/

/-- Modelled from the spec: the class template `Stack` of `stack.h` is not
among the sources; the "sequence of pending node markers (a stack)" is a list
whose head is the top of the stack. -/
abbrev Stack (β : Type) : Type := List β

/-- Modelled from the spec: `Stack::push` (see `Stack`). -/
def Stack.push {β : Type} (s : Stack β) (x : β) : Stack β := x :: s

/-- Modelled from the spec: `Stack::isEmpty` (see `Stack`). -/
def Stack.isEmpty {β : Type} : Stack β → Bool
  | [] => true
  | _ :: _ => false

/-- Modelled from the spec: `Stack::peek`, an error on the empty stack (see `Stack`). -/
def Stack.peek {β : Type} : Stack β → Except String β
  | [] => throw "peek: Attempting to peek at an empty stack"
  | x :: _ => pure x

/-- Modelled from the spec: `Stack::pop`, an error on the empty stack (see `Stack`);
the popped element and the stack afterwards. -/
def Stack.pop {β : Type} : Stack β → Except String (β × Stack β)
  | [] => throw "pop: Attempting to pop an empty stack"
  | x :: s => pure (x, s)

/-- A pointer dereference inside the iterator: the null dereference is an error. -/
def deref {β : Type} : Option β → Except String β
  | none => throw "NULL pointer dereferenced"
  | some x => pure x

/-- The struct `iteratorMarkerT`.  The untyped pointer `np` is represented by the
node it points to, so a marker stands for the marker of the code exactly while
that node is a node of the tree as it is now (`Iterator.Attached`): throughout
an iteration during which the tree is left alone, but not after a call that
frees, moves or overwrites the node. -/
structure iteratorMarkerT (α : Type) where
  np : nodeT α
  processed : Bool

/-- The data members of `BST::Iterator`.  `bstp` records whether the pointer
`bstp` is non-null; the tree it points to is passed to every operation. -/
structure Iterator (α : Type) where
  bstp : Bool
  stack : Stack (iteratorMarkerT α)
  timestamp : Int

/-- The default constructor `Iterator()`: an unbound iterator (`timestamp`
is left uninitialised by the source; it is never read while `bstp` is null). -/
def Iterator.new {α : Type} : Iterator α :=
  { bstp := false, stack := [], timestamp := 0 }

/-- The loop `while (np->left != NULL) ...` of `findLeftmostChild`. -/
def findLeftmostChildLoop {α : Type} :
    nodeT α → Stack (iteratorMarkerT α) → Except String (Stack (iteratorMarkerT α))
  | .NULL, _ => throw "NULL pointer dereferenced"
  | .node _ .NULL _ _, stack => pure stack
  | .node _ (.node ld ll lr lbf) _ _, stack =>
    findLeftmostChildLoop (.node ld ll lr lbf)
      (stack.push { np := .node ld ll lr lbf, processed := false })

/-- `Iterator::findLeftmostChild()`: the stack afterwards. -/
def findLeftmostChild {α : Type} (stack : Stack (iteratorMarkerT α)) :
    Except String (Stack (iteratorMarkerT α)) := do
  let np := (← stack.peek).np
  match np with
  | .NULL => pure stack
  | .node d l r bf => findLeftmostChildLoop (.node d l r bf) stack

/-- The loop `while (!stack.isEmpty() && stack.peek().processed) stack.pop()`
of `advanceToNextNode`. -/
def popProcessed {α : Type} : Stack (iteratorMarkerT α) → Stack (iteratorMarkerT α)
  | [] => []
  | m :: s => if m.processed then popProcessed s else m :: s

/-- `Iterator::advanceToNextNode()`: the stack afterwards. -/
def advanceToNextNode {α : Type} (stack : Stack (iteratorMarkerT α)) :
    Except String (Stack (iteratorMarkerT α)) := do
  let (marker, stack) ← stack.pop
  let np := marker.np
  match (← deref (getRight np)) with
  | .NULL => pure (popProcessed stack)
  | .node rd rl rr rbf =>
    let stack := stack.push { marker with processed := true }
    let stack := stack.push { np := .node rd rl rr rbf, processed := false }
    findLeftmostChild stack

/-- The private constructor `Iterator(BST *bstptr)`, reached through the
member function `iterator()`. -/
def BST.iterator {α : Type} (b : BST α) : Except String (Iterator α) := do
  match b.root with
  | .NULL => pure { bstp := true, stack := [], timestamp := b.timestamp }
  | .node d l r bf =>
    let stack ← findLeftmostChild (Stack.push [] { np := .node d l r bf, processed := false })
    pure { bstp := true, stack := stack, timestamp := b.timestamp }

/-- `Iterator::hasNext()`; `bst` is the current state of the tree `bstp` points to. -/
def Iterator.hasNext {α : Type} (it : Iterator α) (bst : BST α) : Except String Bool := do
  if it.bstp = false then throw "hasNext called on uninitialized iterator"
  if it.timestamp ≠ bst.timestamp then throw "BST structure has been modified"
  pure (!it.stack.isEmpty)

/-- `Iterator::next()`: the element returned and the iterator afterwards. -/
def Iterator.next {α : Type} (it : Iterator α) (bst : BST α) : Except String (α × Iterator α) := do
  if it.bstp = false then throw "next called on uninitialized iterator"
  if !(← it.hasNext bst) then throw "Attempt to get next from iterator where hasNext() is false"
  let np := (← it.stack.peek).np
  let result ← deref (getData np)
  let stack ← advanceToNextNode it.stack
  pure (result, { it with stack := stack })

/-- The idiomatic client loop of the interface comment,
`while (itr.hasNext()) ... itr.next()`, cut off after at most `fuel` calls of
`next()`: the elements obtained, in order, and the iterator afterwards. -/
def iterate {α : Type} (bst : BST α) : Nat → Iterator α → Except String (List α × Iterator α)
  | 0, it => pure ([], it)
  | fuel + 1, it => do
    if (← it.hasNext bst) then
      let (x, it) ← it.next bst
      let (xs, it) ← iterate bst fuel it
      pure (x :: xs, it)
    else
      pure ([], it)

/-! ## Specification vocabulary -/

/-- Height of a subtree, by an independent recursive traversal: the number of
nodes on a longest path from the root to a leaf. -/
def height {α : Type} : nodeT α → Nat
  | .NULL => 0
  | .node _ l r _ => max (height l) (height r) + 1

/-- Number of nodes of a subtree. -/
def countNodes {α : Type} : nodeT α → Nat
  | .NULL => 0
  | .node _ l r _ => countNodes l + countNodes r + 1

/-- The AVL invariant on stored balance factors: at every node, `bf` equals
the height of the right subtree minus the height of the left subtree and lies
in `{-1, 0, +1}`. -/
def Balanced {α : Type} : nodeT α → Prop
  | .NULL => True
  | .node _ l r bf =>
    Balanced l ∧ Balanced r ∧ bf = (height r : Int) - (height l : Int) ∧ -1 ≤ bf ∧ bf ≤ 1

/-- Decision procedure for `Balanced`. -/
instance Balanced.decide {α : Type} : (t : nodeT α) → Decidable (Balanced t)
  | .NULL => isTrue trivial
  | .node _ l r bf =>
    have := Balanced.decide l
    have := Balanced.decide r
    inferInstanceAs (Decidable (Balanced l ∧ Balanced r ∧
      bf = (height r : Int) - (height l : Int) ∧ -1 ≤ bf ∧ bf ≤ 1))

/-- A list is strictly ascending under the three-way comparator `cmpFn`. -/
def Ascending {α : Type} (cmpFn : α → α → Int) (xs : List α) : Prop :=
  xs.Pairwise (fun a b => cmpFn a b < 0)

/-- Decision procedure for `Ascending`. -/
instance Ascending.decide {α : Type} (cmpFn : α → α → Int) (xs : List α) :
    Decidable (Ascending cmpFn xs) :=
  inferInstanceAs (Decidable (xs.Pairwise (fun a b => cmpFn a b < 0)))

/-- The search-tree order invariant: the in-order traversal is strictly ascending. -/
def Ordered {α : Type} (cmpFn : α → α → Int) (t : nodeT α) : Prop :=
  Ascending cmpFn (recBSTAll t)

/-- Decision procedure for `Ordered`. -/
instance Ordered.decide {α : Type} (cmpFn : α → α → Int) (t : nodeT α) :
    Decidable (Ordered cmpFn t) :=
  inferInstanceAs (Decidable (Ascending cmpFn (recBSTAll t)))

/-- A three-way comparator that is a consistent total order: negative and
positive results mirror each other when the arguments are swapped, and
"not greater" is transitive. -/
structure ConsistentCmp {α : Type} (cmpFn : α → α → Int) : Prop where
  antisymm : ∀ a b, cmpFn a b < 0 ↔ 0 < cmpFn b a
  le_trans : ∀ a b c, cmpFn a b ≤ 0 → cmpFn b c ≤ 0 → cmpFn a c ≤ 0

/-- A valid tree: consistent comparator, ordered, AVL-balanced with correct
stored balance factors, and `numNodes` counting the nodes. -/
structure BST.Valid {α : Type} (b : BST α) : Prop where
  cmp : ConsistentCmp b.cmpFn
  ordered : Ordered b.cmpFn b.root
  balanced : Balanced b.root
  count : b.numNodes = (countNodes b.root : Int)

/-- A call of one of the two mutating member functions `add` and `remove`. -/
inductive Call (α : Type) where
  | add (elem : α) : Call α
  | remove (key : α) : Call α

/-- Apply one call to a tree, discarding the returned `bool`. -/
def BST.step {α : Type} (b : BST α) : Call α → Option (BST α)
  | .add x => (b.add x).map Prod.snd
  | .remove k => (b.remove k).map Prod.snd

/-- Apply a finite sequence of calls, first call first. -/
def BST.run {α : Type} (b : BST α) : List (Call α) → Option (BST α)
  | [] => some b
  | c :: cs => (b.step c).bind (fun b' => BST.run b' cs)

/-- Modelled from the spec: `cmpfn.h` is not among the sources; the default
comparator `OperatorCmp` is the natural-ordering three-way comparator built
from `==` and `<`, here at element type `int`. -/
def OperatorCmp (one two : Int) : Int :=
  if one = two then 0 else if one < two then -1 else 1

/-- A client comparator on (key, value) records that compares the keys only:
records with the same key compare equal without being identical. -/
def CompareKey (one two : Int × Int) : Int := OperatorCmp one.1 two.1

/-- The elements a pending stack still stands for, top marker first: an
unprocessed marker stands for its node's element followed by the in-order
sequence of the node's right subtree; a processed marker stands for nothing
(its right subtree is represented by the markers above it). -/
def pendingElems {α : Type} : Stack (iteratorMarkerT α) → List α
  | [] => []
  | m :: s =>
    (if m.processed then []
     else match m.np with
       | .NULL => []
       | .node d _ r _ => d :: recBSTAll r) ++ pendingElems s

/-- Well-formed pending stack: no marker holds the null pointer and the top
marker, if any, is unprocessed. -/
def StackOK {α : Type} : Stack (iteratorMarkerT α) → Prop
  | [] => True
  | m :: s => m.processed = false ∧ ∀ m' ∈ m :: s, m'.np ≠ .NULL

/-- An iterator bound to the tree `bst`, whose epoch it captured, with a
well-formed pending stack. -/
structure Iterator.Active {α : Type} (it : Iterator α) (bst : BST α) : Prop where
  bound : it.bstp = true
  epoch : it.timestamp = bst.timestamp
  stackOK : StackOK it.stack

/-! ### Concrete trees used to exercise the theorems -/

/-- The `BST<int>` obtained from the empty tree by `add(5); add(3); add(8)`. -/
def exampleTree : BST Int :=
  { root := .node 5 (.node 3 .NULL .NULL 0) (.node 8 .NULL .NULL 0) 0,
    numNodes := 3, timestamp := 3, cmpFn := OperatorCmp }

/-- A tree of (key, value) records under `CompareKey`, obtained from the empty
tree by adding `(2, 20)`, `(1, 10)`, `(3, 30)`. -/
def exampleRecords : BST (Int × Int) :=
  { root := .node (2, 20) (.node (1, 10) .NULL .NULL 0) (.node (3, 30) .NULL .NULL 0) 0,
    numNodes := 3, timestamp := 3, cmpFn := CompareKey }

/-- The `BST<int>` obtained from `exampleTree` by `add(4)`. -/
def exampleTreeWith4 : BST Int :=
  { root := .node 5 (.node 3 .NULL (.node 4 .NULL .NULL 0) 1) (.node 8 .NULL .NULL 0) (-1),
    numNodes := 4, timestamp := 4, cmpFn := OperatorCmp }

/-- The iterator `exampleTree.iterator()` returns: the left spine 5, 3 is pending. -/
def exampleIterator : Iterator Int :=
  { bstp := true,
    stack := [{ np := .node 3 .NULL .NULL 0, processed := false },
              { np := exampleTree.root, processed := false }],
    timestamp := 3 }

/-- The iterator `exampleIterator` after one call of `next()` (which returned 3). -/
def exampleIteratorAfterNext : Iterator Int :=
  { bstp := true,
    stack := [{ np := exampleTree.root, processed := false }],
    timestamp := 3 }

/-- A call of one of the three mutating member functions `add`, `remove`, `clear`. -/
inductive Mutator (α : Type) where
  | add (elem : α) : Mutator α
  | remove (key : α) : Mutator α
  | clear : Mutator α

/-- Apply one mutating call to a tree, discarding the returned `bool`. -/
def BST.mutate {α : Type} (b : BST α) : Mutator α → Option (BST α)
  | .add x => (b.add x).map Prod.snd
  | .remove k => (b.remove k).map Prod.snd
  | .clear => some b.clear

/-- Apply a finite sequence of mutating calls, first call first. -/
def BST.mutateAll {α : Type} (b : BST α) : List (Mutator α) → Option (BST α)
  | [] => some b
  | m :: ms => (b.mutate m).bind (fun b' => BST.mutateAll b' ms)

/-! ## Deep copying -/

/-- The two-argument `recBSTAll(t, fn, data)`: the in-order walk calling
`fn(t->data, data)`, where `fn` updates the client data passed by reference
(`none` when a call of `fn` does not return). -/
def recBSTAllData {α σ : Type} (fn : α → σ → Option σ) : nodeT α → σ → Option σ
  | .NULL, data => some data
  | .node d l r _, data => do
    let data ← recBSTAllData fn l data
    let data ← fn d data
    recBSTAllData fn r data

/-- The callback `AddToTree(elem, tree)`: `tree.add(elem)`. -/
def AddToTree {α : Type} (elem : α) (tree : BST α) : Option (BST α) :=
  (tree.add elem).map Prod.snd

/-- `copyOtherEntries(rhs)` applied to the tree `self` (a different object
from `rhs`): the tree `self` afterwards. -/
def BST.copyOtherEntries {α : Type} (self rhs : BST α) : Option (BST α) := do
  let self := { self with cmpFn := rhs.cmpFn }
  let self ← recBSTAllData AddToTree rhs.root self
  pure { self with numNodes := rhs.numNodes }

/-- The copy constructor `BST(const BST &rhs)`.  It sets `root = NULL` and
calls `copyOtherEntries`; the members `numNodes`, `timestamp` and `cmpFn` are
not initialised before that call, their indeterminate values are those of
`raw`. -/
def BST.copyConstruct {α : Type} (raw rhs : BST α) : Option (BST α) :=
  BST.copyOtherEntries { raw with root := .NULL } rhs

/-- The assignment `self = rhs` (`operator=`): `sameObject` is the outcome of
the test `this == &rhs`; the tree `self` afterwards. -/
def BST.assign {α : Type} (self rhs : BST α) (sameObject : Bool) : Option (BST α) :=
  if sameObject then some self
  else BST.copyOtherEntries self.clear rhs

/-- The elements of `xs` that are kept when `xs` is added to a tree element by
element: an element is overwritten, hence dropped, exactly when a later
element of `xs` compares equal to it. -/
def keptLast {α : Type} (cmpFn : α → α → Int) : List α → List α
  | [] => []
  | x :: xs => if xs.all (fun y => decide (cmpFn y x ≠ 0)) then x :: keptLast cmpFn xs
    else keptLast cmpFn xs

/-- The client loop `while (itr.hasNext()) ... itr.next()` on a fresh
`iterator()` of `bst`, cut off after `fuel` calls of `next()`: the elements
obtained, or `none` if an error was raised. -/
def BST.iterateFresh {α : Type} (bst : BST α) (fuel : Nat) : Option (List α) :=
  bst.iterator.toOption.bind (fun it0 => (iterate bst fuel it0).toOption.map Prod.fst)

/-- The pair `(N h, N (h + 1))` of `minNodes`, computed by one linear recursion. -/
def minNodesAux : Nat → Nat × Nat
  | 0 => (0, 1)
  | h + 1 => ((minNodesAux h).2, (minNodesAux h).1 + (minNodesAux h).2 + 1)

/-- The least number of nodes of a tree of height `h` whose subtree heights
differ by at most one at every node: `N 0 = 0`, `N 1 = 1`,
`N (h + 2) = N (h + 1) + N h + 1`. -/
def minNodes (h : Nat) : Nat := (minNodesAux h).1

/-! ## `Vector` and `Grid` (`vector.h`, `grid.h`)

Both classes keep their elements in a heap array `elements`.  The array is a
list holding every allocated slot; an access outside the allocated block is
undefined behaviour in the source and `none` here.  `Error(msg)` prints the
message and exits the program: a member function that calls it ends in
`Outcome.raised`, which records the message and the object as it was then. -/

/-- How a member-function call on an object with state `σ` ends. -/
inductive Outcome (σ β : Type) where
  | returned (value : β) (state : σ) : Outcome σ β
  | raised (msg : String) (state : σ) : Outcome σ β
  | undefined : Outcome σ β

/-- The array read `a[i]`. -/
def arrayGet {α : Type} (a : List α) (i : Int) : Option α :=
  if 0 ≤ i then a[i.toNat]? else none

/-- The array write `a[i] = x`: the array afterwards. -/
def arraySet {α : Type} (a : List α) (i : Int) (x : α) : Option (List α) :=
  if 0 ≤ i ∧ i.toNat < a.length then some (a.set i.toNat x) else none

/-- Modelled from the spec: `strutils.h` is not among the sources;
`IntegerToString` is the decimal rendering of an `int`. -/
def IntegerToString (n : Int) : String := toString n

/-- The private data members of `Vector<ElemType>`. -/
structure Vector (α : Type) where
  elements : List α
  numAllocated : Int
  numUsed : Int
  timestamp : Int

/-- Member function `Vector::size`. -/
def Vector.size {α : Type} (v : Vector α) : Int := v.numUsed

/-- `Vector::checkRange(index, verb)`: `some msg` when it calls `Error(msg)`,
`none` when it returns. -/
def Vector.checkRange {α : Type} (v : Vector α) (index : Int) (verb : String) : Option String :=
  if index < 0 ∨ index ≥ v.size then
    some ("Attempt to " ++ verb ++ " index " ++ IntegerToString index ++
      " in a vector of size " ++ IntegerToString v.size ++ ".")
  else none

/-- The loop `for (int i = 0; i < numUsed; i++) newArray[i] = elements[i]` of
`enlargeCapacity`, at loop index `i` with `k` iterations left (`k` is
`numUsed - i`): the array `newArray` afterwards. -/
def copyElements {α : Type} (elements : List α) : List α → Int → Nat → Option (List α)
  | newArray, _, 0 => some newArray
  | newArray, i, k + 1 => do
    let x ← arrayGet elements i
    let newArray ← arraySet newArray i x
    copyElements elements newArray (i + 1) k

/-- `Vector::enlargeCapacity()`; `new ElemType[n]` is an array of `n`
default-constructed elements. -/
def Vector.enlargeCapacity {α : Type} [Inhabited α] (v : Vector α) : Option (Vector α) := do
  let numAllocated := if v.numAllocated = 0 then 10 else v.numAllocated * 2
  let newArray := List.replicate numAllocated.toNat (default : α)
  let newArray ← copyElements v.elements newArray 0 v.numUsed.toNat
  pure { v with elements := newArray, numAllocated := numAllocated }

/-- The loop `for (int i = numUsed; i > index; i--) elements[i] = elements[i-1]`
of `insertAt`, at loop index `i = index + k` with `k` iterations left: the
array afterwards. -/
def shiftUp {α : Type} (index : Int) : List α → Nat → Option (List α)
  | elements, 0 => some elements
  | elements, k + 1 => do
    let x ← arrayGet elements (index + (k + 1 : Nat) - 1)
    let elements ← arraySet elements (index + (k + 1 : Nat)) x
    shiftUp index elements k

/-- Member function `Vector::insertAt`. -/
def Vector.insertAt {α : Type} [Inhabited α] (v : Vector α) (index : Int) (elem : α) :
    Outcome (Vector α) Unit :=
  match (if v.numAllocated = v.numUsed then v.enlargeCapacity else some v) with
  | none => .undefined
  | some v =>
    match (if index ≠ v.numUsed then v.checkRange index "insertAt" else none) with
    | some msg => .raised msg v
    | none =>
      match (shiftUp index v.elements (v.numUsed - index).toNat).bind
          (fun elements => arraySet elements index elem) with
      | none => .undefined
      | some elements =>
        .returned () { v with elements := elements, numUsed := v.numUsed + 1,
                              timestamp := v.timestamp + 1 }

/-- Member function `Vector::add`. -/
def Vector.add {α : Type} [Inhabited α] (v : Vector α) (elem : α) : Outcome (Vector α) Unit :=
  v.insertAt v.numUsed elem

/-- The loop `for (int i = index; i < numUsed-1; i++) elements[i] = elements[i+1]`
of `removeAt`, at loop index `i` with `k` iterations left (`k` is
`numUsed - 1 - i`): the array afterwards. -/
def shiftDown {α : Type} : List α → Int → Nat → Option (List α)
  | elements, _, 0 => some elements
  | elements, i, k + 1 => do
    let x ← arrayGet elements (i + 1)
    let elements ← arraySet elements i x
    shiftDown elements (i + 1) k

/-- Member function `Vector::removeAt`. -/
def Vector.removeAt {α : Type} (v : Vector α) (index : Int) : Outcome (Vector α) Unit :=
  match v.checkRange index "removeAt" with
  | some msg => .raised msg v
  | none =>
    match shiftDown v.elements index (v.numUsed - 1 - index).toNat with
    | none => .undefined
    | some elements =>
      .returned () { v with elements := elements, numUsed := v.numUsed - 1,
                            timestamp := v.timestamp + 1 }

/-- The contents `e0 .. e(n-1)` of a vector: the first `numUsed` slots. -/
def Vector.contents {α : Type} (v : Vector α) : List α := v.elements.take v.numUsed.toNat

/-- A well-formed vector: `elements` has `numAllocated` slots and
`0 <= numUsed <= numAllocated`. -/
structure Vector.WF {α : Type} (v : Vector α) : Prop where
  used_nonneg : 0 ≤ v.numUsed
  used_le : v.numUsed ≤ v.numAllocated
  allocated : v.elements.length = v.numAllocated.toNat

/-- The private data members of `Grid<ElemType>`. -/
structure Grid (α : Type) where
  elements : List α
  nRows : Int
  nCols : Int
  timestamp : Int

/-- Member function `Grid::numRows`. -/
def Grid.numRows {α : Type} (g : Grid α) : Int := g.nRows

/-- Member function `Grid::numCols`. -/
def Grid.numCols {α : Type} (g : Grid α) : Int := g.nCols

/-- `Grid::checkRange(row, col)`: `some msg` when it calls `Error(msg)`,
`none` when it returns. -/
def Grid.checkRange {α : Type} (g : Grid α) (row col : Int) : Option String :=
  if row < 0 ∨ row ≥ g.numRows ∨ col < 0 ∨ col ≥ g.numCols then
    some ("Attempt to access location (" ++ IntegerToString row ++ ", " ++
      IntegerToString col ++ ") in a grid of size (" ++ IntegerToString g.numRows ++ ", " ++
      IntegerToString g.numCols ++ ")")
  else none

/-- `Grid::operator()(row, col)`: the error message when `checkRange` raises,
otherwise the index into `elements` of the element whose reference is returned. -/
def Grid.elementRef {α : Type} (g : Grid α) (row col : Int) : Except String Int :=
  match g.checkRange row col with
  | some msg => .error msg
  | none => .ok ((row * g.nCols) + col)

/-- Member function `Grid::getAt`: reads through the reference `(*this)(row, col)`. -/
def Grid.getAt {α : Type} (g : Grid α) (row col : Int) : Outcome (Grid α) α :=
  match g.elementRef row col with
  | .error msg => .raised msg g
  | .ok i =>
    match arrayGet g.elements i with
    | none => .undefined
    | some x => .returned x g

/-- Member function `Grid::setAt`: writes through the reference `(*this)(row, col)`. -/
def Grid.setAt {α : Type} (g : Grid α) (row col : Int) (value : α) : Outcome (Grid α) Unit :=
  match g.elementRef row col with
  | .error msg => .raised msg g
  | .ok i =>
    match arraySet g.elements i value with
    | none => .undefined
    | some elements => .returned () { g with elements := elements }

/-- A well-formed grid: non-negative dimensions and `nRows * nCols` slots. -/
structure Grid.WF {α : Type} (g : Grid α) : Prop where
  rows_nonneg : 0 ≤ g.nRows
  cols_nonneg : 0 ≤ g.nCols
  allocated : g.elements.length = (g.nRows * g.nCols).toNat

/-- A `Vector<int>` holding 10, 20, 30 in a block of 4 slots. -/
def exampleVector : Vector Int :=
  { elements := [10, 20, 30, 0], numAllocated := 4, numUsed := 3, timestamp := 3 }

/-- A full `Vector<int>` holding 1, 2: the next insertion enlarges the block. -/
def exampleFullVector : Vector Int :=
  { elements := [1, 2], numAllocated := 2, numUsed := 2, timestamp := 2 }

/-- A 2 x 3 `Grid<int>` holding 1..6 in row-major order. -/
def exampleGrid : Grid Int :=
  { elements := [1, 2, 3, 4, 5, 6], nRows := 2, nCols := 3, timestamp := 1 }

/-- The shape of a tree together with every stored balance factor: the tree
with the data field of every node erased. -/
def skeleton {α : Type} : nodeT α → nodeT Unit
  | .NULL => .NULL
  | .node _ l r bf => .node () (skeleton l) (skeleton r) bf

/-! ### Calls of the rebalancing functions during `add` -/

/-- A call of `fixLeftImbalance` or `fixRightImbalance` made during
`recAddNode`: `depth` is the number of ancestors above the node the call is
made on, `onLeft` tells `fixLeftImbalance` (`true`) from `fixRightImbalance`
(`false`), `before` is the subtree at that node when `recAddNode` was entered
on it and `arg` is the value of `t` passed to the call. -/
structure FixCall (α : Type) where
  depth : Nat
  onLeft : Bool
  before : nodeT α
  arg : nodeT α
  deriving Repr, DecidableEq

/-- The calls of the two rebalancing functions that `updateBF(t, bfDelta)`
makes: `(true, t)` stands for `fixLeftImbalance(t)` and `(false, t)` for
`fixRightImbalance(t)`, with `t` as it is after `t->bf += bfDelta`. -/
def updateBFCalls {α : Type} (t : nodeT α) (bfDelta : Int) : List (Bool × nodeT α) :=
  match (do setBF t ((← getBF t) + bfDelta) : Option (nodeT α)) with
  | none => []
  | some t =>
    match getBF t with
    | none => []
    | some bf =>
      if bf < LeftHeavy then [(true, t)]
      else if bf > RightHeavy then [(false, t)]
      else []

/-- The calls of the rebalancing functions made during
`recAddNode(t, data, createdNewNode)`, in the order they are made: those of the
recursive call (one level deeper) and then those of the `updateBF` call on `t`
itself. -/
def recAddNodeCalls {α : Type} (cmpFn : α → α → Int) :
    nodeT α → α → Bool → Int → List (FixCall α)
  | .NULL, _, _, _ => []
  | .node d l r bf, data, createdNewNode, numNodes =>
    let sign := cmpFn data d
    if sign = 0 then []
    else if sign < 0 then
      (recAddNodeCalls cmpFn l data createdNewNode numNodes).map
          (fun e => { e with depth := e.depth + 1 }) ++
        match recAddNode cmpFn l data createdNewNode numNodes with
        | none => []
        | some (grew, l', _, _) =>
          (updateBFCalls (.node d l' r bf) (if grew then -1 else 0)).map
            (fun p => { depth := 0, onLeft := p.1, before := .node d l r bf, arg := p.2 })
    else
      (recAddNodeCalls cmpFn r data createdNewNode numNodes).map
          (fun e => { e with depth := e.depth + 1 }) ++
        match recAddNode cmpFn r data createdNewNode numNodes with
        | none => []
        | some (grew, r', _, _) =>
          (updateBFCalls (.node d l r' bf) (if grew then 1 else 0)).map
            (fun p => { depth := 0, onLeft := p.1, before := .node d l r bf, arg := p.2 })

/-- The subtree on which `recAddNode(t, data, ...)` is entered after `k`
recursive calls (`NULL` when the descent ends earlier). -/
def subtreeAt {α : Type} (cmpFn : α → α → Int) : nodeT α → α → Nat → nodeT α
  | t, _, 0 => t
  | .NULL, _, _ + 1 => .NULL
  | .node d l r _, data, k + 1 =>
    let sign := cmpFn data d
    if sign = 0 then .NULL
    else if sign < 0 then subtreeAt cmpFn l data k
    else subtreeAt cmpFn r data k

/-- The tree `t` with the subtree that `recAddNode(t, data, ...)` reaches after
`k` recursive calls replaced by `sub`; the `k` ancestors above it keep their
data, their balance factor and their other child. -/
def graftAt {α : Type} (cmpFn : α → α → Int) : nodeT α → α → Nat → nodeT α → nodeT α
  | _, _, 0, sub => sub
  | .NULL, _, _ + 1, _ => .NULL
  | .node d l r bf, data, k + 1, sub =>
    let sign := cmpFn data d
    if sign = 0 then .node d l r bf
    else if sign < 0 then .node d (graftAt cmpFn l data k sub) r bf
    else .node d l (graftAt cmpFn r data k sub) bf

/-- The balance factors of the first `k` nodes that `recAddNode(t, data, ...)`
visits on its way down, outermost first. -/
def ancestorBFs {α : Type} (cmpFn : α → α → Int) : nodeT α → α → Nat → List Int
  | _, _, 0 => []
  | .NULL, _, _ + 1 => []
  | .node d l r bf, data, k + 1 =>
    let sign := cmpFn data d
    if sign = 0 then [bf]
    else if sign < 0 then bf :: ancestorBFs cmpFn l data k
    else bf :: ancestorBFs cmpFn r data k

/-- The `BST<int>` obtained from the empty tree by
`add(50); add(30); add(80); add(40)`. -/
def exampleTreeTens : BST Int :=
  { root := .node 50 (.node 30 .NULL (.node 40 .NULL .NULL 0) 1) (.node 80 .NULL .NULL 0) (-1),
    numNodes := 4, timestamp := 4, cmpFn := OperatorCmp }

/-! ## Boggle (`boggle.cpp`) -/

/-- `AdjacentPoint(boardRow, boardCol, row, col)`: the returned `bool` and the
values of the references `row` and `col` afterwards. -/
def AdjacentPoint (boardRow boardCol row col : Int) : Bool × Int × Int :=
  let col := if col < boardRow then col + 1 else col
  let rc : Int × Int := if col ≥ boardCol then (row + 1, 0) else (row, col)
  if rc.1 ≥ boardRow then (false, rc.1, rc.2) else (true, rc.1, rc.2)

/-- The loop shared by `DrawBoggleBoard`, `CreateMarker`, `UnhighlightBoard`
and the other callers of `AdjacentPoint`,
`while (true) { body(row, col); if (!AdjacentPoint(rows, cols, row, col)) break; }`,
started at `(row, col)` and cut off after `fuel` iterations: the positions the
body ran on, in order, or `none` when the loop has not ended by then. -/
def boardWalk (boardRow boardCol : Int) : Nat → Int → Int → Option (List (Int × Int))
  | 0, _, _ => none
  | fuel + 1, row, col =>
    match AdjacentPoint boardRow boardCol row col with
    | (false, _, _) => some [(row, col)]
    | (true, row', col') =>
      (boardWalk boardRow boardCol fuel row' col').map (fun visited => (row, col) :: visited)

/-! ## Life (`life.cpp`)

The free functions of `life.cpp` work on `Grid<int>` objects.  A function
body is a sequence of calls, each ending in an `Outcome`; the state of an
`Outcome` is the object the function received by reference (`Unit` when it
received none).  A grid received by value is a local copy: reading it leaves
the state as it is. -/

/-- Sequencing inside a function body: the rest of the body runs on the value
and the state the call returned with; `Error(msg)` and undefined behaviour end
the body. -/
def Outcome.bind {σ β γ : Type} (o : Outcome σ β) (f : β → σ → Outcome σ γ) : Outcome σ γ :=
  match o with
  | .returned value state => f value state
  | .raised msg state => .raised msg state
  | .undefined => .undefined

/-- A call `g.getAt(row, col)` on a grid `g` received by value, made while the
state is `state`. -/
def Grid.readIn {α σ : Type} (g : Grid α) (row col : Int) (state : σ) : Outcome σ α :=
  match g.getAt row col with
  | .returned x _ => .returned x state
  | .raised msg _ => .raised msg state
  | .undefined => .undefined

/-- A call of a function that receives nothing by reference, made while the
state is `state`. -/
def Outcome.inState {σ β : Type} (o : Outcome Unit β) (state : σ) : Outcome σ β :=
  match o with
  | .returned x _ => .returned x state
  | .raised msg _ => .raised msg state
  | .undefined => .undefined

/-- The values `lo, lo + 1, ..., lo + n - 1` a `for` loop's control variable takes. -/
def countUp (lo : Int) : Nat → List Int
  | 0 => []
  | n + 1 => lo :: countUp (lo + 1) n

/-- A `for` loop without `return` or `break`: `body` runs for each value of
the control variable in turn on the local variables `locals` and the state. -/
def forEach {σ τ : Type} (body : Int → τ → σ → Outcome σ τ) : List Int → τ → σ → Outcome σ τ
  | [], locals, state => .returned locals state
  | i :: rest, locals, state =>
    (body i locals state).bind (fun locals' state' => forEach body rest locals' state')

/-- A `for` loop whose body may execute `return value`: the body yields
`.error value` for a `return` and `.ok locals` to go on. -/
def forEachReturn {σ τ ρ : Type} (body : Int → τ → σ → Outcome σ (Except ρ τ)) :
    List Int → τ → σ → Outcome σ (Except ρ τ)
  | [], locals, state => .returned (.ok locals) state
  | i :: rest, locals, state =>
    (body i locals state).bind (fun flow state' =>
      match flow with
      | .ok locals' => forEachReturn body rest locals' state'
      | .error value => .returned (.error value) state')

/-- The largest value of the type `int` (32 bits). -/
def INT_MAX : Int := 2147483647

/-- The `int` addition `a + 1`: signed overflow is undefined behaviour. -/
def intSucc {σ : Type} (a : Int) (state : σ) : Outcome σ Int :=
  if a + 1 ≤ INT_MAX then .returned (a + 1) state else .undefined

/-- `MirrorAdjust(access, max)`. -/
def MirrorAdjust (access max : Int) : Int :=
  if access < 0 then 1
  else if access = max then -1
  else 0

/-- `DonutAdjust(access, max)`. -/
def DonutAdjust (access max : Int) : Int :=
  if access < 0 then max
  else if access = max then -max
  else 0

/-- The body of the inner loop (`j`) of `CountNeighbors`, for the row `i` with
the current `rowAdjust`; the local variables are `(neighbors, colAdjust)`. -/
def CountNeighbors.column (mainGrid : Grid Int) (mode : Char) (i rowAdjust : Int)
    (j : Int) (locals : Int × Int) (state : Unit) : Outcome Unit (Int × Int) :=
  let neighbors := locals.1
  let colAdjust :=
    if mode = 'D' then DonutAdjust j mainGrid.numCols
    else if mode = 'M' then MirrorAdjust j mainGrid.numCols
    else locals.2
  if mode = 'P' then
    if i ≥ 0 ∧ i < mainGrid.numRows ∧ j ≥ 0 ∧ j < mainGrid.numCols then
      (mainGrid.readIn i j state).bind (fun value state =>
        .returned (if value ≠ 0 then neighbors + 1 else neighbors, colAdjust) state)
    else .returned (neighbors, colAdjust) state
  else
    (mainGrid.readIn (i + rowAdjust) (j + colAdjust) state).bind (fun value state =>
      .returned (if value ≠ 0 then neighbors + 1 else neighbors, colAdjust) state)

/-- The body of the outer loop (`i`) of `CountNeighbors`; the local variables
are `(neighbors, rowAdjust, colAdjust)`. -/
def CountNeighbors.row (mainGrid : Grid Int) (mode : Char) (col : Int)
    (i : Int) (locals : Int × Int × Int) (state : Unit) : Outcome Unit (Int × Int × Int) :=
  let rowAdjust :=
    if mode = 'D' then DonutAdjust i mainGrid.numRows
    else if mode = 'M' then MirrorAdjust i mainGrid.numRows
    else locals.2.1
  (forEach (CountNeighbors.column mainGrid mode i rowAdjust) (countUp (col - 1) 3)
      (locals.1, locals.2.2) state).bind (fun inner state =>
    .returned (inner.1, rowAdjust, inner.2) state)

/-- `CountNeighbors(row, col, mainGrid, mode)`. -/
def CountNeighbors (row col : Int) (mainGrid : Grid Int) (mode : Char) : Outcome Unit Int :=
  (mainGrid.readIn row col ()).bind (fun value state =>
    let neighbors : Int := if value ≠ 0 then 0 - 1 else 0
    (forEach (CountNeighbors.row mainGrid mode col) (countUp (row - 1) 3)
        (neighbors, 0, 0) state).bind (fun locals state =>
      .returned locals.1 state))

/-- The locations of the `getAt` calls `CountNeighbors(row, col, mainGrid, mode)`
makes when none of them fails, in the order they are made. -/
def CountNeighbors.reads (row col : Int) (mainGrid : Grid Int) (mode : Char) :
    List (Int × Int) :=
  (row, col) :: (countUp (row - 1) 3).flatMap (fun i =>
    let rowAdjust :=
      if mode = 'D' then DonutAdjust i mainGrid.numRows
      else if mode = 'M' then MirrorAdjust i mainGrid.numRows
      else 0
    (countUp (col - 1) 3).filterMap (fun j =>
      let colAdjust :=
        if mode = 'D' then DonutAdjust j mainGrid.numCols
        else if mode = 'M' then MirrorAdjust j mainGrid.numCols
        else 0
      if mode = 'P' then
        if i ≥ 0 ∧ i < mainGrid.numRows ∧ j ≥ 0 ∧ j < mainGrid.numCols then some (i, j)
        else none
      else some (i + rowAdjust, j + colAdjust)))

/-- The body of the inner loop of `GenerateNewGeneration` for the cell
`(i, j)`; the state is `newGrid`. -/
def GenerateNewGeneration.cell (mainGrid : Grid Int) (mode : Char) (i j : Int)
    (newGrid : Grid Int) : Outcome (Grid Int) Unit :=
  ((CountNeighbors i j mainGrid mode).inState newGrid).bind (fun numNeighbors newGrid =>
    if numNeighbors = 3 then
      (mainGrid.readIn i j newGrid).bind (fun a newGrid =>
        (intSucc a newGrid).bind (fun value newGrid => newGrid.setAt i j value))
    else if numNeighbors = 2 then
      (mainGrid.readIn i j newGrid).bind (fun a newGrid =>
        if a = 0 then
          (mainGrid.readIn i j newGrid).bind (fun value newGrid => newGrid.setAt i j value)
        else
          (mainGrid.readIn i j newGrid).bind (fun a newGrid =>
            (intSucc a newGrid).bind (fun value newGrid => newGrid.setAt i j value)))
    else newGrid.setAt i j 0)

/-- The body of the outer loop of `GenerateNewGeneration` for the row `i`. -/
def GenerateNewGeneration.row (mainGrid : Grid Int) (mode : Char) (i : Int) (locals : Unit)
    (newGrid : Grid Int) : Outcome (Grid Int) Unit :=
  forEach (fun j _ newGrid => GenerateNewGeneration.cell mainGrid mode i j newGrid)
    (countUp 0 mainGrid.numCols.toNat) locals newGrid

/-- `GenerateNewGeneration(mainGrid, newGrid, mode)`: `mainGrid` is received by
value, the state is the grid `newGrid` received by reference. -/
def GenerateNewGeneration (mainGrid : Grid Int) (mode : Char) (newGrid : Grid Int) :
    Outcome (Grid Int) Unit :=
  forEach (GenerateNewGeneration.row mainGrid mode) (countUp 0 mainGrid.numRows.toNat) ()
    newGrid

/-- The body of the inner loop of `StableColony` for the cell `(i, j)`; the
local variable is `deadCells`.  The constant `MaxAge` comes from
`lifeGraphics.h`, which is not among the sources: it is a parameter here. -/
def StableColony.cell (MaxAge : Int) (mainGrid : Grid Int) (i j : Int) (deadCells : Int)
    (state : Unit) : Outcome Unit (Except Bool Int) :=
  (mainGrid.readIn i j state).bind (fun value state =>
    let deadCells : Int := if value = 0 then deadCells + 1 else deadCells
    (mainGrid.readIn i j state).bind (fun value state =>
      if value ≠ 0 then
        (mainGrid.readIn i j state).bind (fun value state =>
          if value < MaxAge then .returned (.error false) state
          else .returned (.ok deadCells) state)
      else .returned (.ok deadCells) state))

/-- The body of the outer loop of `StableColony` for the row `i`. -/
def StableColony.row (MaxAge : Int) (mainGrid : Grid Int) (i : Int) (deadCells : Int)
    (state : Unit) : Outcome Unit (Except Bool Int) :=
  forEachReturn (StableColony.cell MaxAge mainGrid i) (countUp 0 mainGrid.numCols.toNat)
    deadCells state

/-- `StableColony(mainGrid)`, with the constant `MaxAge` as a parameter. -/
def StableColony (MaxAge : Int) (mainGrid : Grid Int) : Outcome Unit Bool :=
  (forEachReturn (StableColony.row MaxAge mainGrid) (countUp 0 mainGrid.numRows.toNat)
      (0 : Int) ()).bind (fun flow state =>
    match flow with
    | .error value => .returned value state
    | .ok deadCells =>
      if deadCells = mainGrid.numRows * mainGrid.numCols then .returned true state
      else .returned true state)

/-- The location a neighbour reference `(r, c)` of an `R x C` grid is mapped
to: in Plateau mode the location itself when it is in range and nothing
otherwise, in Donut mode each coordinate wrapped modulo `R` resp. `C`, in
Mirror mode each coordinate clamped into `[0, R-1]` resp. `[0, C-1]`. -/
def mappedCell (R C : Int) (mode : Char) (r c : Int) : Option (Int × Int) :=
  if mode = 'P' then
    if 0 ≤ r ∧ r < R ∧ 0 ≤ c ∧ c < C then some (r, c) else none
  else if mode = 'D' then some (r % R, c % C)
  else some (max 0 (min r (R - 1)), max 0 (min c (C - 1)))

/-- The value `getAt(row, col)` returns, `none` when it does not return. -/
def Grid.cell {α : Type} (g : Grid α) (row col : Int) : Option α :=
  match g.getAt row col with
  | .returned x _ => some x
  | _ => none

/-- The neighbour reference `(r, c)` is mapped to a non-zero cell. -/
def liveAt (g : Grid Int) (mode : Char) (r c : Int) : Bool :=
  match mappedCell g.numRows g.numCols mode r c with
  | none => false
  | some (r', c') =>
    match g.cell r' c' with
    | some value => decide (value ≠ 0)
    | none => false

/-- The eight offsets `(dr, dc) ≠ (0, 0)` with `dr, dc` in `{-1, 0, 1}`. -/
def neighbourOffsets : List (Int × Int) :=
  [(-1, -1), (-1, 0), (-1, 1), (0, -1), (0, 1), (1, -1), (1, 0), (1, 1)]

/-- The number of the eight offsets whose mapped cell is non-zero. -/
def liveNeighbours (g : Grid Int) (mode : Char) (row col : Int) : Nat :=
  neighbourOffsets.countP (fun d => liveAt g mode (row + d.1) (col + d.2))

/-- A 3 x 3 colony with five live cells: rows `1 1 0`, `0 2 0`, `0 1 1`. -/
def exampleColony : Grid Int :=
  { elements := [1, 1, 0,
                 0, 2, 0,
                 0, 1, 1], nRows := 3, nCols := 3, timestamp := 1 }

/-- The value the rules of the game give a cell of old value `a` with `n`
live neighbours: `a + 1` if `n = 3`; `a + 1` if `n = 2` and `a ≠ 0`; `0` if
`n = 2` and `a = 0`; `0` if `n < 2` or `n > 3`. -/
def lifeRule (n a : Int) : Int :=
  if n = 3 then a + 1
  else if n = 2 then (if a ≠ 0 then a + 1 else 0)
  else 0

/-- The loop of `GenerateSimulation(mainGrid, newGrid, mode, speed)` when the
user never intervenes (`speed <= 2`, mouse button up), cut off after `fuel`
generations: `GenerateNewGeneration(mainGrid, newGrid, mode); mainGrid = newGrid;`
(the assignment copies the contents and increments `mainGrid.timestamp`), then
`if (StableColony(mainGrid)) break;`.  The result is the number of generations
computed and `mainGrid` when "Colony stabilized." is printed. -/
def GenerateSimulation (MaxAge : Int) (mode : Char) :
    Nat → Grid Int → Grid Int → Option (Nat × Grid Int)
  | 0, _, _ => none
  | fuel + 1, mainGrid, newGrid =>
    match GenerateNewGeneration mainGrid mode newGrid with
    | .returned _ newGrid =>
      let mainGrid := { newGrid with timestamp := mainGrid.timestamp + 1 }
      match StableColony MaxAge mainGrid with
      | .returned true _ => some (1, mainGrid)
      | .returned false _ =>
        (GenerateSimulation MaxAge mode fuel mainGrid newGrid).map
          (fun result => (result.1 + 1, result.2))
      | _ => none
    | _ => none

/-- A colony in a grid of one row and `n` columns with every cell alive at age 1. -/
def rowColony (n : Nat) : Grid Int :=
  { elements := List.replicate n 1, nRows := 1, nCols := n, timestamp := 1 }

/-- The pending stack (top first) traces a path of the tree rooted at `root`:
the bottom marker holds `root`, no marker holds the null pointer, and the
marker right above a marker `m` holds a child of the node of `m`, the right
child if `m` is flagged processed and the left child if it is not. -/
def StackPath {α : Type} (root : nodeT α) : Stack (iteratorMarkerT α) → Prop
  | [] => True
  | [m] => m.np = root ∧ m.np ≠ .NULL
  | m :: m' :: s =>
    m.np ≠ .NULL ∧
    (if m'.processed then getRight m'.np = some m.np else getLeft m'.np = some m.np) ∧
    StackPath root (m' :: s)

/-- The left spine of a subtree: the subtree, its left child, the left child
of that, and so on down to the node of the minimum element. -/
def leftSpine {α : Type} : nodeT α → List (nodeT α)
  | .NULL => []
  | .node d l r bf => .node d l r bf :: leftSpine l

/-- The calls of the rebalancing functions made during
`recRemoveNode(t, data, didRemove)`, in the order they are made (`(true, t)`
for `fixLeftImbalance(t)`, `(false, t)` for `fixRightImbalance(t)`): at the
target node those of `removeTargetNode` (none with fewer than two children,
otherwise those of the recursive removal of the predecessor and then those of
`updateBF(t, 1)` when the left subtree shrank), elsewhere those of the
recursive call and then those of the `updateBF` call on `t` itself. -/
def recRemoveNodeCalls {α : Type} (cmpFn : α → α → Int) :
    nodeT α → α → Bool → Int → List (Bool × nodeT α)
  | .NULL, _, _, _ => []
  | .node d l r bf, data, didRemove, numNodes =>
    let sign := cmpFn data d
    if sign = 0 then
      match l, r with
      | .NULL, _ => []
      | _, .NULL => []
      | _, _ =>
        match successorData l with
        | none => []
        | some succData =>
          recRemoveNodeCalls cmpFn l succData false numNodes ++
            match recRemoveNode cmpFn l succData false numNodes with
            | some (true, l', _, _) => updateBFCalls (.node succData l' r bf) 1
            | _ => []
    else if sign < 0 then
      recRemoveNodeCalls cmpFn l data didRemove numNodes ++
        match recRemoveNode cmpFn l data didRemove numNodes with
        | none => []
        | some (shrank, l', _, _) => updateBFCalls (.node d l' r bf) (if shrank then 1 else 0)
    else
      recRemoveNodeCalls cmpFn r data didRemove numNodes ++
        match recRemoveNode cmpFn r data didRemove numNodes with
        | none => []
        | some (shrank, r', _, _) => updateBFCalls (.node d l r' bf) (if shrank then -1 else 0)

/-- The nodes `fixLeftImbalance(t)` (`onLeft = true`) resp.
`fixRightImbalance(t)` dereferences exist: `t` and its left (right) child,
and, when that child is right-heavy (left-heavy) so that the double rotation
is taken, the child's right (left) child. -/
def FixArgOK {α : Type} : Bool → nodeT α → Prop
  | true, .node _ (.node _ _ cr cbf) _ _ => cbf = RightHeavy → cr ≠ .NULL
  | false, .node _ _ (.node _ cl _ cbf) _ => cbf = LeftHeavy → cl ≠ .NULL
  | _, _ => False

/-! ### Word tracing

A `string` is the list of its characters.  The graphics call `HighlightCube`
has no effect on the values computed and is left out. -/

/-- `OffBoard(board, row, col)`. -/
def OffBoard (board : Grid Char) (row col : Int) : Bool :=
  decide (row < 0 ∨ row ≥ board.numRows ∨ col < 0 ∨ col ≥ board.numCols)

/-- `FindPossiblePath(newRow, newCol, row, col, i)`: the values of the
references `newRow`, `newCol` afterwards (`none` while they are still
uninitialised); they are assigned for `i` in `0..7` and left alone otherwise. -/
def FindPossiblePath (newRowCol : Option (Int × Int)) (row col i : Int) : Option (Int × Int) :=
  if i = 0 then some (row - 1, col)
  else if i = 1 then some (row - 1, col + 1)
  else if i = 2 then some (row, col + 1)
  else if i = 3 then some (row + 1, col + 1)
  else if i = 4 then some (row + 1, col)
  else if i = 5 then some (row + 1, col - 1)
  else if i = 6 then some (row, col - 1)
  else if i = 7 then some (row - 1, col - 1)
  else newRowCol

/-- A call `g.setAt(row, col, value)` on a grid `g` received by value, made
while the state is `state`: the local grid afterwards. -/
def Grid.writeIn {α σ : Type} (g : Grid α) (row col : Int) (value : α) (state : σ) :
    Outcome σ (Grid α) :=
  match g.setAt row col value with
  | .returned _ g' => .returned g' state
  | .raised msg _ => .raised msg state
  | .undefined => .undefined

/-- The body of the loop `for (int i = 0; i < 8; i++)` of
`FindUserGuessOnBoard`; the local variables are `newRow`, `newCol`, and the
recursive call `FindUserGuessOnBoard(boggleBoard, newRow, newCol, partialWord,
userGuess, usedDice)` is received as the function `recurse` of `newRow` and
`newCol`.  The loop ends with `return true` when the call returns `true`. -/
def FindUserGuessOnBoard.direction (recurse : Int → Int → Outcome Unit (Option Bool))
    (row col : Int) (i : Int) (newRowCol : Option (Int × Int)) (_ : Unit) :
    Outcome Unit (Except (Option Bool) (Option (Int × Int))) :=
  match FindPossiblePath newRowCol row col i with
  | none => .undefined
  | some (newRow, newCol) =>
    (recurse newRow newCol).bind (fun found state =>
      match found with
      | none => .returned (.error none) state
      | some true => .returned (.error (some true)) state
      | some false => .returned (.ok (some (newRow, newCol))) state)

/-- `FindUserGuessOnBoard(boggleBoard, row, col, partialWord, userGuess, usedDice)`
with the depth of the recursion cut off at `fuel`: the returned `bool`, or
`none` when the cut-off was reached.  Both grids are received by value. -/
def FindUserGuessOnBoard (boggleBoard : Grid Char) :
    Nat → Int → Int → List Char → List Char → Grid Bool → Outcome Unit (Option Bool)
  | 0, _, _, _, _, _ => .returned none ()
  | fuel + 1, row, col, partialWord, userGuess, usedDice =>
    if OffBoard boggleBoard row col then .returned (some false) ()
    else (usedDice.readIn row col ()).bind (fun used state =>
      if used = true then .returned (some false) state
      else (boggleBoard.readIn row col state).bind (fun letter state =>
        let partialWord := partialWord ++ [letter]
        if userGuess.take partialWord.length ≠ partialWord then .returned (some false) state
        else (usedDice.writeIn row col true state).bind (fun usedDice state =>
          if partialWord = userGuess then .returned (some true) state
          else
            (forEachReturn
                (FindUserGuessOnBoard.direction
                  (fun newRow newCol => FindUserGuessOnBoard boggleBoard fuel newRow newCol
                    partialWord userGuess usedDice) row col)
                (countUp 0 8) none state).bind (fun flow state =>
              match flow with
              | .error value => .returned value state
              | .ok _ =>
                (usedDice.writeIn row col false state).bind (fun _ state =>
                  .returned (some false) state)))))

/-- Two locations are horizontally, vertically or diagonally adjacent. -/
def adjacentCells (p q : Int × Int) : Prop :=
  p ≠ q ∧ (p.1 - q.1 ≤ 1 ∧ q.1 - p.1 ≤ 1) ∧ (p.2 - q.2 ≤ 1 ∧ q.2 - p.2 ≤ 1)

/-- The sequence `cells` traces `word` on `board` from `start` using only
cells that `usedDice` does not mark: it starts at `start`, its cells are
pairwise distinct, in range and unmarked, consecutive cells are adjacent, and
the letters on them spell `word`. -/
def IsTrace (board : Grid Char) (usedDice : Grid Bool) (start : Int × Int) (word : List Char)
    (cells : List (Int × Int)) : Prop :=
  cells.head? = some start ∧ cells.Nodup ∧
  (∀ c ∈ cells, (0 ≤ c.1 ∧ c.1 < board.numRows) ∧ (0 ≤ c.2 ∧ c.2 < board.numCols) ∧
    usedDice.cell c.1 c.2 = some false) ∧
  cells.Chain' adjacentCells ∧
  cells.map (fun c => board.cell c.1 c.2) = word.map some

/-- A 2 x 3 board: `C A T` over `S O B`. -/
def exampleBoard : Grid Char :=
  { elements := ['C', 'A', 'T', 'S', 'O', 'B'], nRows := 2, nCols := 3, timestamp := 1 }

/-- The `usedDice` grid of `exampleBoard` after `CreateMarker`. -/
def exampleMarker : Grid Bool :=
  { elements := [false, false, false, false, false, false], nRows := 2, nCols := 3,
    timestamp := 1 }

/-- The pointer `p` points to a node of the tree rooted at `t`: it is not null
and it is reached from `t` through `left` and `right` links.  (A pointer is
represented by the node it points to.) -/
def IsNodeOf {α : Type} (p : nodeT α) : nodeT α → Prop
  | .NULL => False
  | .node d l r bf => p = .node d l r bf ∨ IsNodeOf p l ∨ IsNodeOf p r

/-- Decision procedure for `IsNodeOf`. -/
instance IsNodeOf.decide {α : Type} [DecidableEq α] (p : nodeT α) :
    (t : nodeT α) → Decidable (IsNodeOf p t)
  | .NULL => isFalse (fun h => h)
  | .node d l r bf =>
    have := IsNodeOf.decide p l
    have := IsNodeOf.decide p r
    inferInstanceAs (Decidable (p = .node d l r bf ∨ IsNodeOf p l ∨ IsNodeOf p r))

/-- The iterator is attached to the tree `bst`: the pointer of every marker on
its pending stack points to a node of `bst` as the tree is now.  A marker whose
node has been freed by `remove()`, or whose recorded node no longer agrees with
the tree, is not attached. -/
def Iterator.Attached {α : Type} (it : Iterator α) (bst : BST α) : Prop :=
  ∀ m ∈ it.stack, IsNodeOf m.np bst.root

/-- Decision procedure for `Iterator.Attached`. -/
instance Iterator.Attached.decide {α : Type} [DecidableEq α] (it : Iterator α) (bst : BST α) :
    Decidable (it.Attached bst) :=
  inferInstanceAs (Decidable (∀ m ∈ it.stack, IsNodeOf m.np bst.root))

/-- The cell `(row, col)` holds a non-zero value. -/
def cellLive (g : Grid Int) (row col : Int) : Bool :=
  match g.cell row col with
  | some value => decide (value ≠ 0)
  | none => false

/-- The neighbour reference at the offset `d` from `(row, col)` is mapped back
onto the cell `(row, col)` itself. -/
def mapsToSelf (R C : Int) (mode : Char) (row col : Int) (d : Int × Int) : Bool :=
  decide (mappedCell R C mode (row + d.1) (col + d.2) = some (row, col))

/-- The number of the eight offsets that are mapped back onto `(row, col)` itself. -/
def selfOffsets (R C : Int) (mode : Char) (row col : Int) : Nat :=
  neighbourOffsets.countP (mapsToSelf R C mode row col)

/-- The number of the eight offsets whose mapped cell is a non-zero cell other
than `(row, col)`. -/
def liveOthers (g : Grid Int) (mode : Char) (row col : Int) : Nat :=
  neighbourOffsets.countP (fun d =>
    liveAt g mode (row + d.1) (col + d.2) && !mapsToSelf g.numRows g.numCols mode row col d)

/-- A 3 x 3 colony whose only live cell is the corner `(0, 0)`. -/
def exampleCorner : Grid Int :=
  { elements := [1, 0, 0,
                 0, 0, 0,
                 0, 0, 0], nRows := 3, nCols := 3, timestamp := 1 }

/-- The 3 x 3 colony without any live cell. -/
def exampleDesert : Grid Int :=
  { elements := [0, 0, 0,
                 0, 0, 0,
                 0, 0, 0], nRows := 3, nCols := 3, timestamp := 1 }

/-- A colony of a single live cell in a 1 x 1 grid. -/
def exampleSingle : Grid Int :=
  { elements := [1], nRows := 1, nCols := 1, timestamp := 1 }

/-! ## Theorems -/

section Rebalancing

variable {α : Type}

theorem fixLeftImbalance_double_L (d cd gd : α) (cl gl gr r : nodeT α) (bf : Int) :
    fixLeftImbalance (.node d (.node cd cl (.node gd gl gr (-1)) 1) r bf)
      = some (.node gd (.node cd cl gl 0) (.node d gr r 1) 0) := rfl

theorem fixLeftImbalance_double_E (d cd gd : α) (cl gl gr r : nodeT α) (bf : Int) :
    fixLeftImbalance (.node d (.node cd cl (.node gd gl gr 0) 1) r bf)
      = some (.node gd (.node cd cl gl 0) (.node d gr r 0) 0) := rfl

theorem fixLeftImbalance_double_R (d cd gd : α) (cl gl gr r : nodeT α) (bf : Int) :
    fixLeftImbalance (.node d (.node cd cl (.node gd gl gr 1) 1) r bf)
      = some (.node gd (.node cd cl gl (-1)) (.node d gr r 0) 0) := rfl

theorem fixLeftImbalance_single_E (d cd : α) (cl cr r : nodeT α) (bf : Int) :
    fixLeftImbalance (.node d (.node cd cl cr 0) r bf)
      = some (.node cd cl (.node d cr r (-1)) 1) := rfl

theorem fixLeftImbalance_single_L (d cd : α) (cl cr r : nodeT α) (bf : Int) :
    fixLeftImbalance (.node d (.node cd cl cr (-1)) r bf)
      = some (.node cd cl (.node d cr r 0) 0) := rfl

theorem fixRightImbalance_double_L (d cd gd : α) (l gl gr cr : nodeT α) (bf : Int) :
    fixRightImbalance (.node d l (.node cd (.node gd gl gr (-1)) cr (-1)) bf)
      = some (.node gd (.node d l gl 0) (.node cd gr cr 1) 0) := rfl

theorem fixRightImbalance_double_E (d cd gd : α) (l gl gr cr : nodeT α) (bf : Int) :
    fixRightImbalance (.node d l (.node cd (.node gd gl gr 0) cr (-1)) bf)
      = some (.node gd (.node d l gl 0) (.node cd gr cr 0) 0) := rfl

theorem fixRightImbalance_double_R (d cd gd : α) (l gl gr cr : nodeT α) (bf : Int) :
    fixRightImbalance (.node d l (.node cd (.node gd gl gr 1) cr (-1)) bf)
      = some (.node gd (.node d l gl (-1)) (.node cd gr cr 0) 0) := rfl

theorem fixRightImbalance_single_E (d cd : α) (l cl cr : nodeT α) (bf : Int) :
    fixRightImbalance (.node d l (.node cd cl cr 0) bf)
      = some (.node cd (.node d l cl 1) cr (-1)) := rfl

theorem fixRightImbalance_single_R (d cd : α) (l cl cr : nodeT α) (bf : Int) :
    fixRightImbalance (.node d l (.node cd cl cr 1) bf)
      = some (.node cd (.node d l cl 0) cr 0) := rfl

theorem updateBF_left (d : α) (l r : nodeT α) (bf delta : Int) (h : bf + delta = -2) :
    updateBF (.node d l r bf) delta = fixLeftImbalance (.node d l r (-2)) := by
  simp [updateBF, getBF, setBF, h, LeftHeavy]

theorem updateBF_right (d : α) (l r : nodeT α) (bf delta : Int) (h : bf + delta = 2) :
    updateBF (.node d l r bf) delta = fixRightImbalance (.node d l r 2) := by
  simp [updateBF, getBF, setBF, h, LeftHeavy, RightHeavy]

theorem updateBF_inrange (d : α) (l r : nodeT α) (bf delta : Int)
    (h1 : -1 ≤ bf + delta) (h2 : bf + delta ≤ 1) :
    updateBF (.node d l r bf) delta = some (.node d l r (bf + delta)) := by
  have h3 : ¬ (bf + delta < -1) := by omega
  have h4 : ¬ (1 < bf + delta) := by omega
  simp [updateBF, getBF, setBF, LeftHeavy, RightHeavy, h3, h4]

theorem updateBF_spec (d : α) (l r : nodeT α) (bf delta : Int)
    (hl : Balanced l) (hr : Balanced r)
    (hbf : bf + delta = (height r : Int) - (height l : Int))
    (hlo : -2 ≤ bf + delta) (hhi : bf + delta ≤ 2) :
    ∃ t' bf', updateBF (.node d l r bf) delta = some t' ∧ getBF t' = some bf' ∧ Balanced t' ∧
      recBSTAll t' = recBSTAll l ++ d :: recBSTAll r ∧
      countNodes t' = countNodes l + countNodes r + 1 ∧
      ((height t' = max (height l) (height r) + 1 ∧ (bf' = 0 ↔ height r = height l)) ∨
       (height t' = max (height l) (height r) ∧ bf' = 0 ∧
          (height r = height l + 2 ∨ height l = height r + 2))) := by
  by_cases h1 : bf + delta < -1
  · have hs : bf + delta = -2 := by omega
    rw [updateBF_left d l r bf delta hs]
    cases l with
    | NULL => simp only [height] at hbf; omega
    | node cd cl cr cbf =>
      obtain ⟨hcl, hcr, hcbf, hc1, hc2⟩ := hl
      simp only [height] at hbf hcbf
      have hc : cbf = -1 ∨ cbf = 0 ∨ cbf = 1 := by omega
      rcases hc with rfl | rfl | rfl
      · refine ⟨_, 0, fixLeftImbalance_single_L d cd cl cr r _, rfl, ?_, ?_, ?_, ?_⟩
        · simp only [Balanced, height]
          refine ⟨hcl, ⟨hcr, hr, ?_, ?_, ?_⟩, ?_, ?_, ?_⟩ <;> omega
        · simp [recBSTAll]
        · simp only [countNodes]; omega
        · right; exact ⟨by simp only [height]; omega, rfl, by simp only [height]; omega⟩
      · refine ⟨_, 1, fixLeftImbalance_single_E d cd cl cr r _, rfl, ?_, ?_, ?_, ?_⟩
        · simp only [Balanced, height]
          refine ⟨hcl, ⟨hcr, hr, ?_, ?_, ?_⟩, ?_, ?_, ?_⟩ <;> omega
        · simp [recBSTAll]
        · simp only [countNodes]; omega
        · left; exact ⟨by simp only [height]; omega, by simp only [height]; omega⟩
      · cases cr with
        | NULL => simp only [height] at hcbf; omega
        | node gd gl gr gbf =>
          obtain ⟨hgl, hgr, hgbf, hg1, hg2⟩ := hcr
          simp only [height] at hbf hcbf hgbf
          have hg : gbf = -1 ∨ gbf = 0 ∨ gbf = 1 := by omega
          rcases hg with rfl | rfl | rfl
          · refine ⟨_, 0, fixLeftImbalance_double_L d cd gd cl gl gr r _, rfl, ?_, ?_, ?_, ?_⟩
            · simp only [Balanced, height]
              refine ⟨⟨hcl, hgl, ?_, ?_, ?_⟩, ⟨hgr, hr, ?_, ?_, ?_⟩, ?_, ?_, ?_⟩ <;> omega
            · simp [recBSTAll]
            · simp only [countNodes]; omega
            · right; exact ⟨by simp only [height]; omega, rfl, by simp only [height]; omega⟩
          · refine ⟨_, 0, fixLeftImbalance_double_E d cd gd cl gl gr r _, rfl, ?_, ?_, ?_, ?_⟩
            · simp only [Balanced, height]
              refine ⟨⟨hcl, hgl, ?_, ?_, ?_⟩, ⟨hgr, hr, ?_, ?_, ?_⟩, ?_, ?_, ?_⟩ <;> omega
            · simp [recBSTAll]
            · simp only [countNodes]; omega
            · right; exact ⟨by simp only [height]; omega, rfl, by simp only [height]; omega⟩
          · refine ⟨_, 0, fixLeftImbalance_double_R d cd gd cl gl gr r _, rfl, ?_, ?_, ?_, ?_⟩
            · simp only [Balanced, height]
              refine ⟨⟨hcl, hgl, ?_, ?_, ?_⟩, ⟨hgr, hr, ?_, ?_, ?_⟩, ?_, ?_, ?_⟩ <;> omega
            · simp [recBSTAll]
            · simp only [countNodes]; omega
            · right; exact ⟨by simp only [height]; omega, rfl, by simp only [height]; omega⟩
  · by_cases h2 : 1 < bf + delta
    · have hs : bf + delta = 2 := by omega
      rw [updateBF_right d l r bf delta hs]
      cases r with
      | NULL => simp only [height] at hbf; omega
      | node cd cl cr cbf =>
        obtain ⟨hcl, hcr, hcbf, hc1, hc2⟩ := hr
        simp only [height] at hbf hcbf
        have hc : cbf = -1 ∨ cbf = 0 ∨ cbf = 1 := by omega
        rcases hc with rfl | rfl | rfl
        · cases cl with
          | NULL => simp only [height] at hcbf; omega
          | node gd gl gr gbf =>
            obtain ⟨hgl, hgr, hgbf, hg1, hg2⟩ := hcl
            simp only [height] at hbf hcbf hgbf
            have hg : gbf = -1 ∨ gbf = 0 ∨ gbf = 1 := by omega
            rcases hg with rfl | rfl | rfl
            · refine ⟨_, 0, fixRightImbalance_double_L d cd gd l gl gr cr _, rfl, ?_, ?_, ?_, ?_⟩
              · simp only [Balanced, height]
                refine ⟨⟨hl, hgl, ?_, ?_, ?_⟩, ⟨hgr, hcr, ?_, ?_, ?_⟩, ?_, ?_, ?_⟩ <;> omega
              · simp [recBSTAll]
              · simp only [countNodes]; omega
              · right; exact ⟨by simp only [height]; omega, rfl, by simp only [height]; omega⟩
            · refine ⟨_, 0, fixRightImbalance_double_E d cd gd l gl gr cr _, rfl, ?_, ?_, ?_, ?_⟩
              · simp only [Balanced, height]
                refine ⟨⟨hl, hgl, ?_, ?_, ?_⟩, ⟨hgr, hcr, ?_, ?_, ?_⟩, ?_, ?_, ?_⟩ <;> omega
              · simp [recBSTAll]
              · simp only [countNodes]; omega
              · right; exact ⟨by simp only [height]; omega, rfl, by simp only [height]; omega⟩
            · refine ⟨_, 0, fixRightImbalance_double_R d cd gd l gl gr cr _, rfl, ?_, ?_, ?_, ?_⟩
              · simp only [Balanced, height]
                refine ⟨⟨hl, hgl, ?_, ?_, ?_⟩, ⟨hgr, hcr, ?_, ?_, ?_⟩, ?_, ?_, ?_⟩ <;> omega
              · simp [recBSTAll]
              · simp only [countNodes]; omega
              · right; exact ⟨by simp only [height]; omega, rfl, by simp only [height]; omega⟩
        · refine ⟨_, (-1), fixRightImbalance_single_E d cd l cl cr _, rfl, ?_, ?_, ?_, ?_⟩
          · simp only [Balanced, height]
            refine ⟨⟨hl, hcl, ?_, ?_, ?_⟩, hcr, ?_, ?_, ?_⟩ <;> omega
          · simp [recBSTAll]
          · simp only [countNodes]; omega
          · left; exact ⟨by simp only [height]; omega, by simp only [height]; omega⟩
        · refine ⟨_, 0, fixRightImbalance_single_R d cd l cl cr _, rfl, ?_, ?_, ?_, ?_⟩
          · simp only [Balanced, height]
            refine ⟨⟨hl, hcl, ?_, ?_, ?_⟩, hcr, ?_, ?_, ?_⟩ <;> omega
          · simp [recBSTAll]
          · simp only [countNodes]; omega
          · right; exact ⟨by simp only [height]; omega, rfl, by simp only [height]; omega⟩
    · rw [updateBF_inrange d l r bf delta (by omega) (by omega)]
      refine ⟨_, bf + delta, rfl, rfl, ⟨hl, hr, hbf, by omega, by omega⟩, rfl, rfl, ?_⟩
      left; exact ⟨by simp only [height], by omega⟩

end Rebalancing

section Comparator

variable {α : Type} {cmpFn : α → α → Int}

theorem ConsistentCmp.refl (hc : ConsistentCmp cmpFn) (a : α) : cmpFn a a = 0 := by
  have := hc.antisymm a a
  omega

theorem ConsistentCmp.eq_symm (hc : ConsistentCmp cmpFn) {a b : α} (h : cmpFn a b = 0) :
    cmpFn b a = 0 := by
  have := hc.antisymm a b
  have := hc.antisymm b a
  omega

theorem ConsistentCmp.lt_trans (hc : ConsistentCmp cmpFn) {a b c : α}
    (h1 : cmpFn a b < 0) (h2 : cmpFn b c < 0) : cmpFn a c < 0 := by
  have := hc.le_trans a b c (by omega) (by omega)
  have := hc.antisymm a c
  have := hc.antisymm c a
  have := hc.antisymm b c
  have := fun h => hc.le_trans c a b h (by omega)
  omega

theorem ConsistentCmp.eq_lt (hc : ConsistentCmp cmpFn) {a b c : α}
    (h1 : cmpFn a b = 0) (h2 : cmpFn b c < 0) : cmpFn a c < 0 := by
  have := hc.le_trans a b c (by omega) (by omega)
  have := hc.antisymm a c
  have := hc.antisymm c a
  have := hc.antisymm b c
  have := fun h => hc.le_trans c a b h (by omega)
  omega

theorem ConsistentCmp.lt_eq (hc : ConsistentCmp cmpFn) {a b c : α}
    (h1 : cmpFn a b < 0) (h2 : cmpFn b c = 0) : cmpFn a c < 0 := by
  have := hc.le_trans a b c (by omega) (by omega)
  have := hc.antisymm a c
  have := hc.antisymm c a
  have := hc.antisymm a b
  have := fun h => hc.le_trans b c a (by omega) h
  omega

theorem ConsistentCmp.gt_of_lt (hc : ConsistentCmp cmpFn) {a b : α} (h : cmpFn a b < 0) :
    0 < cmpFn b a := (hc.antisymm a b).1 h

theorem ConsistentCmp.lt_of_gt (hc : ConsistentCmp cmpFn) {a b : α} (h : 0 < cmpFn a b) :
    cmpFn b a < 0 := (hc.antisymm b a).2 h

theorem Ordered.node_iff (cmpFn : α → α → Int) (d : α) (l r : nodeT α) (bf : Int)
    (hc : ConsistentCmp cmpFn) :
    Ordered cmpFn (.node d l r bf) ↔
      Ordered cmpFn l ∧ Ordered cmpFn r ∧ (∀ a ∈ recBSTAll l, cmpFn a d < 0) ∧
        (∀ b ∈ recBSTAll r, cmpFn d b < 0) := by
  simp only [Ordered, Ascending, recBSTAll, List.pairwise_append, List.pairwise_cons,
    List.mem_cons]
  constructor
  · rintro ⟨h1, ⟨h2, h3⟩, h4⟩
    exact ⟨h1, h3, fun a ha => h4 a ha d (Or.inl rfl), h2⟩
  · rintro ⟨h1, h2, h3, h4⟩
    refine ⟨h1, ⟨h4, h2⟩, ?_⟩
    rintro a ha b (rfl | hb)
    · exact h3 a ha
    · exact hc.lt_trans (h3 a ha) (h4 b hb)

end Comparator

section Add

variable {α : Type} {cmpFn : α → α → Int}

theorem recAddNode_left (d : α) (l r : nodeT α) (bf : Int) (x : α) (c : Bool) (n : Int)
    (h0 : cmpFn x d ≠ 0) (hlt : cmpFn x d < 0)
    (grew : Bool) (l' : nodeT α) (c' : Bool) (n' : Int)
    (hrec : recAddNode cmpFn l x c n = some (grew, l', c', n'))
    (t' : nodeT α) (bf' : Int)
    (hupd : updateBF (.node d l' r bf) (if grew then -1 else 0) = some t')
    (hbf : getBF t' = some bf') :
    recAddNode cmpFn (.node d l r bf) x c n
      = some (grew && decide (bf' ≠ 0), t', c', n') := by
  cases grew <;> simp_all [recAddNode, Even]

theorem recAddNode_right (d : α) (l r : nodeT α) (bf : Int) (x : α) (c : Bool) (n : Int)
    (h0 : cmpFn x d ≠ 0) (hlt : ¬ cmpFn x d < 0)
    (grew : Bool) (r' : nodeT α) (c' : Bool) (n' : Int)
    (hrec : recAddNode cmpFn r x c n = some (grew, r', c', n'))
    (t' : nodeT α) (bf' : Int)
    (hupd : updateBF (.node d l r' bf) (if grew then 1 else 0) = some t')
    (hbf : getBF t' = some bf') :
    recAddNode cmpFn (.node d l r bf) x c n
      = some (grew && decide (bf' ≠ 0), t', c', n') := by
  cases grew <;> simp_all [recAddNode, Even]

theorem recAddNode_spec (hc : ConsistentCmp cmpFn) (x : α) :
    ∀ (t : nodeT α) (c : Bool) (n : Int), Ordered cmpFn t → Balanced t →
      ∃ grew t' c' n' l1 mid l2,
        recAddNode cmpFn t x c n = some (grew, t', c', n') ∧ Balanced t' ∧
        height t' = height t + (if grew then 1 else 0) ∧
        recBSTAll t = l1 ++ mid ++ l2 ∧ recBSTAll t' = l1 ++ x :: l2 ∧
        (∀ a ∈ l1, cmpFn a x < 0) ∧ (∀ b ∈ l2, cmpFn x b < 0) ∧
        countNodes t' = countNodes t + (if c' then 1 else 0) ∧
        n' = n + (if c' then 1 else 0) ∧
        ((mid = [] ∧ c' = true) ∨ (∃ e, mid = [e] ∧ cmpFn x e = 0 ∧ c' = false ∧ grew = false))
  | .NULL, c, n, _, _ =>
    ⟨true, .node x .NULL .NULL Even, true, n + 1, [], [], [], rfl,
      ⟨trivial, trivial, by simp [height, Even], by simp [Even], by simp [Even]⟩,
      by simp [height], rfl, rfl, by simp, by simp, by simp [countNodes], by simp,
      Or.inl ⟨rfl, rfl⟩⟩
  | .node d l r bf, c, n, hord, hbal => by
    obtain ⟨hol, hor, hld, hdr⟩ := (Ordered.node_iff cmpFn d l r bf hc).1 hord
    obtain ⟨hbl, hbr, hbf, hb1, hb2⟩ := hbal
    by_cases h0 : cmpFn x d = 0
    · refine ⟨false, .node x l r bf, false, n, recBSTAll l, [d], recBSTAll r, ?_,
        ⟨hbl, hbr, hbf, hb1, hb2⟩, by simp [height], by simp [recBSTAll], rfl, ?_, ?_,
        by simp [countNodes], by simp, Or.inr ⟨d, rfl, h0, rfl, rfl⟩⟩
      · simp [recAddNode, h0]
      · exact fun a ha => hc.lt_eq (hld a ha) (hc.eq_symm h0)
      · exact fun b hb => hc.eq_lt h0 (hdr b hb)
    · by_cases hlt : cmpFn x d < 0
      · obtain ⟨grew, l', c', n', l1, mid, l2, hrec, hbl', hh, hin, hin', h1, h2, hcnt, hn, hmid⟩ :=
          recAddNode_spec hc x l c n hol hbl
        obtain ⟨t', bf', hupd, hgb, hbt, hint, hcntt, hht⟩ :=
          updateBF_spec d l' r bf (if grew then -1 else 0) hbl' hbr
            (by cases grew <;> simp at hh ⊢ <;> omega)
            (by cases grew <;> simp <;> omega) (by cases grew <;> simp <;> omega)
        refine ⟨grew && decide (bf' ≠ 0), t', c', n', l1, mid, l2 ++ d :: recBSTAll r,
          recAddNode_left d l r bf x c n h0 hlt grew l' c' n' hrec t' bf' hupd hgb, hbt,
          ?_, ?_, ?_, h1, ?_, ?_, hn, ?_⟩
        · simp only [height]
          cases grew <;> by_cases hz : bf' = 0 <;> simp [hz] at hh ⊢ <;> omega
        · simp [recBSTAll, hin]
        · simp [hint, hin']
        · intro b hb
          rcases List.mem_append.1 hb with hb | hb
          · exact h2 b hb
          · rcases List.mem_cons.1 hb with rfl | hb
            · exact hlt
            · exact hc.lt_trans hlt (hdr b hb)
        · simp only [countNodes, hcntt, hcnt]; omega
        · rcases hmid with hm | ⟨e, he, hxe, hc', hg⟩
          · exact Or.inl hm
          · exact Or.inr ⟨e, he, hxe, hc', by simp [hg]⟩
      · have hgt : 0 < cmpFn x d := by omega
        obtain ⟨grew, r', c', n', l1, mid, l2, hrec, hbr', hh, hin, hin', h1, h2, hcnt, hn, hmid⟩ :=
          recAddNode_spec hc x r c n hor hbr
        obtain ⟨t', bf', hupd, hgb, hbt, hint, hcntt, hht⟩ :=
          updateBF_spec d l r' bf (if grew then 1 else 0) hbl hbr'
            (by cases grew <;> simp at hh ⊢ <;> omega)
            (by cases grew <;> simp <;> omega) (by cases grew <;> simp <;> omega)
        refine ⟨grew && decide (bf' ≠ 0), t', c', n', recBSTAll l ++ d :: l1, mid, l2,
          recAddNode_right d l r bf x c n h0 hlt grew r' c' n' hrec t' bf' hupd hgb, hbt,
          ?_, ?_, ?_, ?_, h2, ?_, hn, ?_⟩
        · simp only [height]
          cases grew <;> by_cases hz : bf' = 0 <;> simp [hz] at hh ⊢ <;> omega
        · simp [recBSTAll, hin]
        · simp [hint, hin']
        · intro a ha
          rcases List.mem_append.1 ha with ha | ha
          · exact hc.lt_trans (hld a ha) (hc.lt_of_gt hgt)
          · rcases List.mem_cons.1 ha with rfl | ha
            · exact hc.lt_of_gt hgt
            · exact h1 a ha
        · simp only [countNodes, hcntt, hcnt]; omega
        · rcases hmid with hm | ⟨e, he, hxe, hc', hg⟩
          · exact Or.inl hm
          · exact Or.inr ⟨e, he, hxe, hc', by simp [hg]⟩

end Add

section Remove

variable {α : Type} {cmpFn : α → α → Int}

theorem successorData_spec : ∀ (t : nodeT α), t ≠ .NULL →
    ∃ init e, successorData t = some e ∧ recBSTAll t = init ++ [e]
  | .NULL, h => absurd rfl h
  | .node d l .NULL _, _ => ⟨recBSTAll l, d, rfl, by simp [recBSTAll]⟩
  | .node d l (.node rd rl rr rbf) _, _ => by
    obtain ⟨init, e, h1, h2⟩ := successorData_spec (.node rd rl rr rbf) (by simp)
    refine ⟨recBSTAll l ++ d :: init, e, ?_, ?_⟩
    · simpa [successorData] using h1
    · simp only [recBSTAll] at h2 ⊢
      simp [h2]

theorem ascending_last_unique (hc : ConsistentCmp cmpFn) (l1 l2 init : List α) (e s : α)
    (hasc : Ascending cmpFn (l1 ++ e :: l2)) (heq : l1 ++ e :: l2 = init ++ [s])
    (hse : cmpFn s e = 0) : l2 = [] ∧ l1 = init ∧ e = s := by
  rcases List.eq_nil_or_concat l2 with rfl | ⟨l2', z, rfl⟩
  · have h := List.append_inj' (show l1 ++ [e] = init ++ [s] from heq) rfl
    exact ⟨rfl, h.1, by simpa using h.2⟩
  · exfalso
    have h : (l1 ++ e :: l2') ++ [z] = init ++ [s] := by simpa using heq
    have hz : z = s := by simpa using (List.append_inj' h rfl).2
    subst hz
    have hez : cmpFn e z < 0 := by
      have := (List.pairwise_append.1 hasc).2.1
      exact (List.pairwise_cons.1 this).1 z (by simp)
    have := hc.eq_symm hse
    omega

theorem removeTargetNode_noLeft (recLeft : α → Int → Option (Bool × nodeT α × Bool × Int))
    (d : α) (r : nodeT α) (bf n : Int) :
    removeTargetNode recLeft (.node d .NULL r bf) n = some (true, r, n - 1) := by
  cases r <;> rfl

theorem removeTargetNode_noRight (recLeft : α → Int → Option (Bool × nodeT α × Bool × Int))
    (d ld : α) (ll lr : nodeT α) (lbf bf n : Int) :
    removeTargetNode recLeft (.node d (.node ld ll lr lbf) .NULL bf) n
      = some (true, .node ld ll lr lbf, n - 1) := rfl

theorem removeTargetNode_two_shrank (recLeft : α → Int → Option (Bool × nodeT α × Bool × Int))
    (d ld rd : α) (ll lr rl rr : nodeT α) (lbf rbf bf n : Int)
    (s : α) (hs : successorData (.node ld ll lr lbf) = some s)
    (l' : nodeT α) (c' : Bool) (n' : Int) (hrec : recLeft s n = some (true, l', c', n'))
    (t' : nodeT α) (bf' : Int)
    (hupd : updateBF (.node s l' (.node rd rl rr rbf) bf) 1 = some t')
    (hbf : getBF t' = some bf') :
    removeTargetNode recLeft (.node d (.node ld ll lr lbf) (.node rd rl rr rbf) bf) n
      = some (decide (bf' = 0), t', n') := by
  simp [removeTargetNode, getLeft, getRight, hs, setData, hrec, setLeft, hupd, hbf, Even]

theorem removeTargetNode_two_same (recLeft : α → Int → Option (Bool × nodeT α × Bool × Int))
    (d ld rd : α) (ll lr rl rr : nodeT α) (lbf rbf bf n : Int)
    (s : α) (hs : successorData (.node ld ll lr lbf) = some s)
    (l' : nodeT α) (c' : Bool) (n' : Int) (hrec : recLeft s n = some (false, l', c', n')) :
    removeTargetNode recLeft (.node d (.node ld ll lr lbf) (.node rd rl rr rbf) bf) n
      = some (false, .node s l' (.node rd rl rr rbf) bf, n') := by
  simp [removeTargetNode, getLeft, getRight, hs, setData, hrec, setLeft]

theorem recRemoveNode_target (d : α) (l r : nodeT α) (bf : Int) (k : α) (c : Bool) (n : Int)
    (h0 : cmpFn k d = 0) (shrank : Bool) (t' : nodeT α) (n' : Int)
    (h : removeTargetNode (fun key m => recRemoveNode cmpFn l key false m) (.node d l r bf) n
      = some (shrank, t', n')) :
    recRemoveNode cmpFn (.node d l r bf) k c n = some (shrank, t', true, n') := by
  simp [recRemoveNode, h0, h]

theorem recRemoveNode_left (d : α) (l r : nodeT α) (bf : Int) (k : α) (c : Bool) (n : Int)
    (h0 : cmpFn k d ≠ 0) (hlt : cmpFn k d < 0)
    (shrank : Bool) (l' : nodeT α) (c' : Bool) (n' : Int)
    (hrec : recRemoveNode cmpFn l k c n = some (shrank, l', c', n'))
    (t' : nodeT α) (bf' : Int)
    (hupd : updateBF (.node d l' r bf) (if shrank then 1 else 0) = some t')
    (hbf : getBF t' = some bf') :
    recRemoveNode cmpFn (.node d l r bf) k c n
      = some (shrank && decide (bf' = 0), t', c', n') := by
  cases shrank <;> simp_all [recRemoveNode, Even]

theorem recRemoveNode_right (d : α) (l r : nodeT α) (bf : Int) (k : α) (c : Bool) (n : Int)
    (h0 : cmpFn k d ≠ 0) (hlt : ¬ cmpFn k d < 0)
    (shrank : Bool) (r' : nodeT α) (c' : Bool) (n' : Int)
    (hrec : recRemoveNode cmpFn r k c n = some (shrank, r', c', n'))
    (t' : nodeT α) (bf' : Int)
    (hupd : updateBF (.node d l r' bf) (if shrank then -1 else 0) = some t')
    (hbf : getBF t' = some bf') :
    recRemoveNode cmpFn (.node d l r bf) k c n
      = some (shrank && decide (bf' = 0), t', c', n') := by
  cases shrank <;> simp_all [recRemoveNode, Even]

theorem recRemoveNode_spec (hc : ConsistentCmp cmpFn) :
    ∀ (t : nodeT α) (k : α) (c : Bool) (n : Int), Ordered cmpFn t → Balanced t →
      ∃ shrank t' c' n',
        recRemoveNode cmpFn t k c n = some (shrank, t', c', n') ∧ Balanced t' ∧
        height t = height t' + (if shrank then 1 else 0) ∧
        (((∀ e ∈ recBSTAll t, cmpFn k e ≠ 0) ∧ t' = t ∧ c' = c ∧ n' = n ∧ shrank = false) ∨
         (∃ l1 e l2, recBSTAll t = l1 ++ e :: l2 ∧ cmpFn k e = 0 ∧ recBSTAll t' = l1 ++ l2 ∧
            c' = true ∧ n' = n - 1 ∧ countNodes t' + 1 = countNodes t))
  | .NULL, k, c, n, _, _ =>
    ⟨false, .NULL, c, n, rfl, trivial, by simp,
      Or.inl ⟨by simp [recBSTAll], rfl, rfl, rfl, rfl⟩⟩
  | .node d l r bf, k, c, n, hord, hbal => by
    obtain ⟨hol, hor, hld, hdr⟩ := (Ordered.node_iff cmpFn d l r bf hc).1 hord
    obtain ⟨hbl, hbr, hbf, hb1, hb2⟩ := hbal
    have IHl := fun k c n => recRemoveNode_spec hc l k c n hol hbl
    have IHr := fun k c n => recRemoveNode_spec hc r k c n hor hbr
    by_cases h0 : cmpFn k d = 0
    · cases l with
      | NULL =>
        exact ⟨true, r, true, n - 1,
          recRemoveNode_target d .NULL r bf k c n h0 true r (n - 1)
            (removeTargetNode_noLeft _ d r bf n),
          hbr, by simp [height],
          Or.inr ⟨[], d, recBSTAll r, by simp [recBSTAll], h0, by simp, rfl, rfl,
            by simp [countNodes]⟩⟩
      | node ld ll lr lbf =>
        cases r with
        | NULL =>
          exact ⟨true, .node ld ll lr lbf, true, n - 1,
            recRemoveNode_target d _ .NULL bf k c n h0 true _ (n - 1)
              (removeTargetNode_noRight _ d ld ll lr lbf bf n),
            hbl, by simp [height],
            Or.inr ⟨recBSTAll (.node ld ll lr lbf), d, [], by simp [recBSTAll], h0, by simp,
              rfl, rfl, by simp [countNodes]⟩⟩
        | node rd rl rr rbf =>
          obtain ⟨init, s, hs, hinit⟩ := successorData_spec (.node ld ll lr lbf) (by simp)
          obtain ⟨shrank, l', c', n', hrec, hbl', hh, hcase⟩ := IHl s false n
          have hpres : recBSTAll l' = init ∧ n' = n - 1 ∧
              countNodes l' + 1 = countNodes (.node ld ll lr lbf) := by
            rcases hcase with ⟨habs, _⟩ | ⟨l1, e, l2, h1, h2, h3, h4, h5, h6⟩
            · exact absurd (hc.refl s) (habs s (by simp [hinit]))
            · obtain ⟨rfl, rfl, rfl⟩ := ascending_last_unique hc l1 l2 init e s
                (by rw [← h1]; exact hol) (by rw [← h1]; exact hinit) h2
              exact ⟨by simpa using h3, h5, h6⟩
          obtain ⟨hl'in, hn', hl'cnt⟩ := hpres
          have hlist : recBSTAll l' ++ s :: recBSTAll (.node rd rl rr rbf)
              = recBSTAll (.node ld ll lr lbf) ++ recBSTAll (.node rd rl rr rbf) := by
            rw [hl'in, hinit]; simp
          cases shrank with
          | false =>
            refine ⟨false, .node s l' (.node rd rl rr rbf) bf, true, n',
              recRemoveNode_target d _ _ bf k c n h0 false _ n'
                (removeTargetNode_two_same _ d ld rd ll lr rl rr lbf rbf bf n s hs l' c' n' hrec),
              ⟨hbl', hbr, ?_, hb1, hb2⟩, ?_,
              Or.inr ⟨recBSTAll (.node ld ll lr lbf), d, recBSTAll (.node rd rl rr rbf), rfl, h0,
                hlist, rfl, hn', ?_⟩⟩
            · simp at hh; omega
            · simp only [height] at hh ⊢; simp at hh ⊢; omega
            · simp only [countNodes] at hl'cnt ⊢; omega
          | true =>
            obtain ⟨t', bf', hupd, hgb, hbt, hint, hcntt, hht⟩ :=
              updateBF_spec s l' (.node rd rl rr rbf) bf 1 hbl' hbr
                (by simp at hh; omega) (by omega) (by omega)
            refine ⟨decide (bf' = 0), t', true, n',
              recRemoveNode_target d _ _ bf k c n h0 _ t' n'
                (removeTargetNode_two_shrank _ d ld rd ll lr rl rr lbf rbf bf n s hs l' c' n' hrec
                  t' bf' hupd hgb),
              hbt, ?_,
              Or.inr ⟨recBSTAll (.node ld ll lr lbf), d, recBSTAll (.node rd rl rr rbf), rfl, h0,
                by rw [hint, hlist], rfl, hn', ?_⟩⟩
            · have hh' : height (nodeT.node ld ll lr lbf) = height l' + 1 := by simpa using hh
              simp only [height] at hbf hh' hht ⊢
              by_cases hz : bf' = 0 <;> simp [hz] at hht ⊢ <;> omega
            · simp only [countNodes] at hl'cnt hcntt ⊢; omega
    · by_cases hlt : cmpFn k d < 0
      · obtain ⟨shrank, l', c', n', hrec, hbl', hh, hcase⟩ := IHl k c n
        obtain ⟨t', bf', hupd, hgb, hbt, hint, hcntt, hht⟩ :=
          updateBF_spec d l' r bf (if shrank then 1 else 0) hbl' hbr
            (by cases shrank <;> simp at hh ⊢ <;> omega)
            (by cases shrank <;> simp <;> omega) (by cases shrank <;> simp <;> omega)
        refine ⟨shrank && decide (bf' = 0), t', c', n',
          recRemoveNode_left d l r bf k c n h0 hlt shrank l' c' n' hrec t' bf' hupd hgb, hbt,
          ?_, ?_⟩
        · simp only [height]
          cases shrank <;> by_cases hz : bf' = 0 <;> simp [hz] at hh hht ⊢ <;> omega
        · rcases hcase with ⟨habs, rfl, rfl, rfl, rfl⟩ | ⟨l1, e, l2, h1, h2, h3, h4, h5, h6⟩
          · left
            refine ⟨?_, ?_, rfl, rfl, by simp⟩
            · intro e he
              simp only [recBSTAll, List.mem_append, List.mem_cons] at he
              rcases he with he | rfl | he
              · exact habs e he
              · exact h0
              · have := hc.lt_trans hlt (hdr e he)
                omega
            · have := updateBF_inrange d l' r bf 0 (by omega) (by omega)
              simp only [Bool.false_eq_true, if_false, this] at hupd
              simpa using hupd.symm
          · right
            refine ⟨l1, e, l2 ++ d :: recBSTAll r, by simp [recBSTAll, h1], h2,
              by simp [hint, h3], h4, h5, ?_⟩
            simp only [countNodes, hcntt]; omega
      · have hgt : 0 < cmpFn k d := by omega
        obtain ⟨shrank, r', c', n', hrec, hbr', hh, hcase⟩ := IHr k c n
        obtain ⟨t', bf', hupd, hgb, hbt, hint, hcntt, hht⟩ :=
          updateBF_spec d l r' bf (if shrank then -1 else 0) hbl hbr'
            (by cases shrank <;> simp at hh ⊢ <;> omega)
            (by cases shrank <;> simp <;> omega) (by cases shrank <;> simp <;> omega)
        refine ⟨shrank && decide (bf' = 0), t', c', n',
          recRemoveNode_right d l r bf k c n h0 hlt shrank r' c' n' hrec t' bf' hupd hgb, hbt,
          ?_, ?_⟩
        · simp only [height]
          cases shrank <;> by_cases hz : bf' = 0 <;> simp [hz] at hh hht ⊢ <;> omega
        · rcases hcase with ⟨habs, rfl, rfl, rfl, rfl⟩ | ⟨l1, e, l2, h1, h2, h3, h4, h5, h6⟩
          · left
            refine ⟨?_, ?_, rfl, rfl, by simp⟩
            · intro e he
              simp only [recBSTAll, List.mem_append, List.mem_cons] at he
              rcases he with he | rfl | he
              · have := hc.lt_trans (hld e he) (hc.lt_of_gt hgt)
                have := hc.antisymm e k
                omega
              · exact h0
              · exact habs e he
            · have := updateBF_inrange d l r' bf 0 (by omega) (by omega)
              simp only [Bool.false_eq_true, if_false, this] at hupd
              simpa using hupd.symm
          · right
            refine ⟨recBSTAll l ++ d :: l1, e, l2, by simp [recBSTAll, h1], h2,
              by simp [hint, h3], h4, h5, ?_⟩
            simp only [countNodes, hcntt]; omega

end Remove

section Tree

variable {α : Type}

theorem ascending_insert {cmpFn : α → α → Int} (l1 mid l2 : List α) (x : α)
    (h : Ascending cmpFn (l1 ++ mid ++ l2))
    (h1 : ∀ a ∈ l1, cmpFn a x < 0) (h2 : ∀ b ∈ l2, cmpFn x b < 0) :
    Ascending cmpFn (l1 ++ x :: l2) := by
  simp only [Ascending, List.pairwise_append, List.pairwise_cons, List.mem_cons,
    List.mem_append] at h ⊢
  obtain ⟨⟨ha, _, _⟩, hb, hab⟩ := h
  refine ⟨ha, ⟨h2, hb⟩, ?_⟩
  rintro a ha' b (rfl | hb')
  · exact h1 a ha'
  · exact hab a (Or.inl ha') b hb'

theorem ascending_erase {cmpFn : α → α → Int} (l1 l2 : List α) (e : α)
    (h : Ascending cmpFn (l1 ++ e :: l2)) : Ascending cmpFn (l1 ++ l2) :=
  List.Pairwise.sublist (List.Sublist.append_left (List.sublist_cons_self e l2) l1) h

theorem BST.add_spec (b : BST α) (hv : b.Valid) (x : α) :
    ∃ r b' l1 mid l2, b.add x = some (r, b') ∧ b'.Valid ∧ b'.cmpFn = b.cmpFn ∧
      b.mapAll = l1 ++ mid ++ l2 ∧ b'.mapAll = l1 ++ x :: l2 ∧
      (∀ a ∈ l1, b.cmpFn a x < 0) ∧ (∀ c ∈ l2, b.cmpFn x c < 0) ∧
      b'.numNodes = b.numNodes + (if r then 1 else 0) ∧
      b'.timestamp = b.timestamp + (if r then 1 else 0) ∧
      countNodes b'.root = countNodes b.root + (if r then 1 else 0) ∧
      ((mid = [] ∧ r = true) ∨ (∃ e, mid = [e] ∧ b.cmpFn x e = 0 ∧ r = false)) := by
  obtain ⟨grew, t', c', n', l1, mid, l2, hrec, hbal, _, hin, hin', h1, h2, hcnt, hn, hmid⟩ :=
    recAddNode_spec hv.cmp x b.root false b.numNodes hv.ordered hv.balanced
  refine ⟨c', BST.mk t' n' (if c' then b.timestamp + 1 else b.timestamp) b.cmpFn,
    l1, mid, l2, ?_, ?_, rfl, hin, hin', h1, h2, hn, ?_, hcnt, ?_⟩
  · simp [BST.add, hrec]
  · refine ⟨hv.cmp, ?_, hbal, ?_⟩
    · show Ascending b.cmpFn (recBSTAll t')
      rw [hin']
      exact ascending_insert l1 mid l2 x (hin ▸ hv.ordered) h1 h2
    · show n' = (countNodes t' : Int)
      rw [hn, hcnt, hv.count]
      cases c' <;> simp
  · cases c' <;> simp
  · rcases hmid with ⟨hm, hc'⟩ | ⟨e, he, hxe, hc', _⟩
    · exact Or.inl ⟨hm, hc'⟩
    · exact Or.inr ⟨e, he, hxe, hc'⟩

theorem BST.remove_spec (b : BST α) (hv : b.Valid) (k : α) :
    ((∀ e ∈ b.mapAll, b.cmpFn k e ≠ 0) ∧ b.remove k = some (false, b)) ∨
    (∃ b' l1 e l2, b.remove k = some (true, b') ∧ b'.Valid ∧ b'.cmpFn = b.cmpFn ∧
      b.mapAll = l1 ++ e :: l2 ∧ b.cmpFn k e = 0 ∧ b'.mapAll = l1 ++ l2 ∧
      b'.numNodes = b.numNodes - 1 ∧ b'.timestamp = b.timestamp ∧
      countNodes b'.root + 1 = countNodes b.root) := by
  obtain ⟨shrank, t', c', n', hrec, hbal, _, hcase⟩ :=
    recRemoveNode_spec hv.cmp b.root k false b.numNodes hv.ordered hv.balanced
  rcases hcase with ⟨habs, rfl, rfl, rfl, _⟩ | ⟨l1, e, l2, h1, h2, h3, rfl, rfl, h6⟩
  · left
    exact ⟨habs, by simp [BST.remove, hrec]⟩
  · right
    refine ⟨BST.mk t' (b.numNodes - 1) b.timestamp b.cmpFn, l1, e, l2, ?_, ?_, rfl, h1, h2,
      h3, rfl, rfl, h6⟩
    · simp [BST.remove, hrec]
    · refine ⟨hv.cmp, ?_, hbal, ?_⟩
      · show Ascending b.cmpFn (recBSTAll t')
        rw [h3]
        exact ascending_erase l1 l2 e (h1 ▸ hv.ordered)
      · show b.numNodes - 1 = (countNodes t' : Int)
        rw [hv.count, ← h6]
        simp

theorem BST.new_valid (cmpFn : α → α → Int) (hc : ConsistentCmp cmpFn) :
    (BST.new cmpFn).Valid :=
  ⟨hc, List.Pairwise.nil, trivial, rfl⟩

theorem BST.step_valid (b : BST α) (hv : b.Valid) (c : Call α) :
    ∃ b', b.step c = some b' ∧ b'.Valid ∧ b'.cmpFn = b.cmpFn := by
  cases c with
  | add x =>
    obtain ⟨r, b', _, _, _, h, hv', hcmp, _⟩ := BST.add_spec b hv x
    exact ⟨b', by simp [BST.step, h], hv', hcmp⟩
  | remove k =>
    rcases BST.remove_spec b hv k with ⟨_, h⟩ | ⟨b', _, _, _, h, hv', hcmp, _⟩
    · exact ⟨b, by simp [BST.step, h], hv, rfl⟩
    · exact ⟨b', by simp [BST.step, h], hv', hcmp⟩

theorem BST.run_valid : ∀ (calls : List (Call α)) (b : BST α), b.Valid →
    ∃ b', b.run calls = some b' ∧ b'.Valid ∧ b'.cmpFn = b.cmpFn
  | [], b, hv => ⟨b, rfl, hv, rfl⟩
  | c :: cs, b, hv => by
    obtain ⟨b1, h1, hv1, hc1⟩ := BST.step_valid b hv c
    obtain ⟨b2, h2, hv2, hc2⟩ := BST.run_valid cs b1 hv1
    exact ⟨b2, by simp [BST.run, h1, h2], hv2, hc2.trans hc1⟩

theorem OperatorCmp_consistent : ConsistentCmp OperatorCmp := by
  constructor
  · intro a b
    unfold OperatorCmp
    split_ifs <;> omega
  · intro a b c
    unfold OperatorCmp
    split_ifs <;> omega

theorem CompareKey_consistent : ConsistentCmp CompareKey :=
  ⟨fun a b => OperatorCmp_consistent.antisymm a.1 b.1,
   fun a b c => OperatorCmp_consistent.le_trans a.1 b.1 c.1⟩

end Tree

section Find

variable {α : Type} {cmpFn : α → α → Int}

theorem BST.find_eq (b : BST α) (k : α) :
    b.find k = getData (recFindNode b.cmpFn b.root k) := by
  unfold BST.find
  cases recFindNode b.cmpFn b.root k <;> rfl

theorem recFindNode_spec (hc : ConsistentCmp cmpFn) (k : α) :
    ∀ (t : nodeT α), Ordered cmpFn t →
      (∀ e ∈ recBSTAll t, cmpFn k e = 0 → getData (recFindNode cmpFn t k) = some e) ∧
      ((∀ e ∈ recBSTAll t, cmpFn k e ≠ 0) → getData (recFindNode cmpFn t k) = none)
  | .NULL, _ => ⟨by simp [recBSTAll], fun _ => rfl⟩
  | .node d l r bf, hord => by
    obtain ⟨hol, hor, hld, hdr⟩ := (Ordered.node_iff cmpFn d l r bf hc).1 hord
    obtain ⟨il1, il2⟩ := recFindNode_spec hc k l hol
    obtain ⟨ir1, ir2⟩ := recFindNode_spec hc k r hor
    by_cases h0 : cmpFn k d = 0
    · have hf : recFindNode cmpFn (.node d l r bf) k = .node d l r bf := by
        simp [recFindNode, h0]
      rw [hf]
      constructor
      · intro e he hke
        simp only [recBSTAll, List.mem_append, List.mem_cons] at he
        rcases he with he | rfl | he
        · have := hc.lt_eq (hld e he) (hc.eq_symm h0)
          have := hc.antisymm e k
          omega
        · rfl
        · have := hc.eq_lt h0 (hdr e he)
          omega
      · intro habs
        exact absurd h0 (habs d (by simp [recBSTAll]))
    · by_cases hlt : cmpFn k d < 0
      · have hf : recFindNode cmpFn (.node d l r bf) k = recFindNode cmpFn l k := by
          simp [recFindNode, h0, hlt]
        rw [hf]
        constructor
        · intro e he hke
          simp only [recBSTAll, List.mem_append, List.mem_cons] at he
          rcases he with he | rfl | he
          · exact il1 e he hke
          · exact absurd hke h0
          · have := hc.lt_trans hlt (hdr e he)
            omega
        · intro habs
          exact il2 (fun e he => habs e (by simp [recBSTAll, he]))
      · have hgt : 0 < cmpFn k d := by omega
        have hf : recFindNode cmpFn (.node d l r bf) k = recFindNode cmpFn r k := by
          simp [recFindNode, h0, hlt]
        rw [hf]
        constructor
        · intro e he hke
          simp only [recBSTAll, List.mem_append, List.mem_cons] at he
          rcases he with he | rfl | he
          · have := hc.lt_trans (hld e he) (hc.lt_of_gt hgt)
            have := hc.antisymm e k
            omega
          · exact absurd hke h0
          · exact ir1 e he hke
        · intro habs
          exact ir2 (fun e he => habs e (by simp [recBSTAll, he]))

end Find

/-! ## The claims -/

section Claims

variable {α : Type}

/-- C1. AVL invariant: after every finite sequence of `add`/`remove` calls
applied to an initially empty tree whose comparator is a consistent total
order, the calls all return and in the resulting tree every node's stored
balance factor lies in `{-1, 0, +1}` and equals the height of its right
subtree minus the height of its left subtree (`Balanced`, with `height` the
independent recursive traversal). -/
theorem avl_invariant_reachable (cmpFn : α → α → Int) (hc : ConsistentCmp cmpFn)
    (calls : List (Call α)) :
    ∃ b, (BST.new cmpFn).run calls = some b ∧ Balanced b.root := by
  obtain ⟨b, h, hv, _⟩ := BST.run_valid calls (BST.new cmpFn) (BST.new_valid cmpFn hc)
  exact ⟨b, h, hv.balanced⟩

theorem avl_invariant_reachable_witness :
    ConsistentCmp OperatorCmp ∧
    ∃ b, (BST.new OperatorCmp).run
        [.add 5, .add 3, .add 8, .add 1, .add 4, .add 7, .add 9, .add 2, .add 6, .remove 3]
          = some b ∧ Balanced b.root :=
  ⟨OperatorCmp_consistent, avl_invariant_reachable OperatorCmp OperatorCmp_consistent _⟩

/-- C2. Search-tree order invariant: after every finite sequence of
`add`/`remove` calls applied to an initially empty tree (consistent
comparator), the in-order traversal `mapAll` visits is strictly ascending
under the comparator; in particular no two stored elements compare equal. -/
theorem inorder_ascending_reachable (cmpFn : α → α → Int) (hc : ConsistentCmp cmpFn)
    (calls : List (Call α)) :
    ∃ b, (BST.new cmpFn).run calls = some b ∧ Ascending cmpFn b.mapAll ∧
      b.mapAll.Pairwise (fun a c => cmpFn a c ≠ 0 ∧ cmpFn c a ≠ 0) := by
  obtain ⟨b, h, hv, hcmp⟩ := BST.run_valid calls (BST.new cmpFn) (BST.new_valid cmpFn hc)
  have hcmp' : b.cmpFn = cmpFn := hcmp
  have ho : Ascending cmpFn b.mapAll := hcmp' ▸ hv.ordered
  refine ⟨b, h, ho, List.Pairwise.imp ?_ ho⟩
  intro a c hac
  have := hc.antisymm a c
  omega

theorem inorder_ascending_reachable_witness :
    ConsistentCmp OperatorCmp ∧
    ∃ b, (BST.new OperatorCmp).run
        [.add 5, .add 3, .add 8, .add 3, .remove 5, .add 4, .remove 10]
          = some b ∧ Ascending OperatorCmp b.mapAll ∧
      b.mapAll.Pairwise (fun a c => OperatorCmp a c ≠ 0 ∧ OperatorCmp c a ≠ 0) :=
  ⟨OperatorCmp_consistent, inorder_ascending_reachable OperatorCmp OperatorCmp_consistent _⟩

theorem exampleTree_valid : exampleTree.Valid :=
  ⟨OperatorCmp_consistent, by decide, by decide, by decide⟩

theorem exampleRecords_valid : exampleRecords.Valid :=
  ⟨CompareKey_consistent, by decide, by decide, by decide⟩

/-- C3. `add` of a new key: on a valid tree in which no stored element
compares equal to `x`, `add(x)` returns `true`, `size()` grows by exactly one,
and the in-order sequence afterwards is the old one with `x` inserted between
the elements below it and the elements above it, so that it is still strictly
ascending and every old element is kept. -/
theorem add_new_key (b : BST α) (hv : b.Valid) (x : α)
    (hnew : ∀ e ∈ b.mapAll, b.cmpFn x e ≠ 0) :
    ∃ b' l1 l2, b.add x = some (true, b') ∧ b'.size = b.size + 1 ∧
      b.mapAll = l1 ++ l2 ∧ b'.mapAll = l1 ++ x :: l2 ∧
      (∀ a ∈ l1, b.cmpFn a x < 0) ∧ (∀ c ∈ l2, b.cmpFn x c < 0) ∧
      Ascending b.cmpFn b'.mapAll := by
  obtain ⟨r, b', l1, mid, l2, h, hv', hcmp, hin, hin', h1, h2, hn, _, _, hmid⟩ :=
    BST.add_spec b hv x
  rcases hmid with ⟨rfl, rfl⟩ | ⟨e, rfl, hxe, _⟩
  · exact ⟨b', l1, l2, h, by simpa [BST.size] using hn, by simpa using hin, hin', h1, h2,
      hcmp ▸ hv'.ordered⟩
  · exact absurd hxe (hnew e (by simp [hin]))

theorem add_new_key_witness :
    exampleTree.Valid ∧ (∀ e ∈ exampleTree.mapAll, exampleTree.cmpFn 4 e ≠ 0) ∧
    ∃ b' l1 l2, exampleTree.add 4 = some (true, b') ∧ b'.size = exampleTree.size + 1 ∧
      exampleTree.mapAll = l1 ++ l2 ∧ b'.mapAll = l1 ++ 4 :: l2 ∧
      (∀ a ∈ l1, exampleTree.cmpFn a 4 < 0) ∧ (∀ c ∈ l2, exampleTree.cmpFn 4 c < 0) ∧
      Ascending exampleTree.cmpFn b'.mapAll :=
  ⟨exampleTree_valid, by decide, add_new_key exampleTree exampleTree_valid 4 (by decide)⟩

/-- C4. Overwrite semantics: on a valid tree that stores an element comparing
equal to `x`, `add(x)` returns `false`, leaves `size()` unchanged, and
afterwards `find(x)` returns the newly supplied `x`. -/
theorem add_overwrite (b : BST α) (hv : b.Valid) (x : α)
    (hex : ∃ e ∈ b.mapAll, b.cmpFn x e = 0) :
    ∃ b', b.add x = some (false, b') ∧ b'.size = b.size ∧ b'.find x = some x := by
  obtain ⟨r, b', l1, mid, l2, h, hv', hcmp, hin, hin', h1, h2, hn, _, _, hmid⟩ :=
    BST.add_spec b hv x
  rcases hmid with ⟨rfl, rfl⟩ | ⟨e, rfl, hxe, rfl⟩
  · exfalso
    obtain ⟨e, he, hxe⟩ := hex
    rw [hin] at he
    simp only [List.append_nil, List.mem_append] at he
    rcases he with he | he
    · have := h1 e he
      have := hv.cmp.antisymm e x
      omega
    · have := h2 e he
      omega
  · refine ⟨b', h, by simpa [BST.size] using hn, ?_⟩
    rw [BST.find_eq]
    refine (recFindNode_spec hv'.cmp x b'.root hv'.ordered).1 x ?_ (hv'.cmp.refl x)
    show x ∈ b'.mapAll
    simp [hin']

theorem add_overwrite_witness :
    exampleRecords.Valid ∧ (∃ e ∈ exampleRecords.mapAll, exampleRecords.cmpFn (3, 99) e = 0) ∧
    ∃ b', exampleRecords.add (3, 99) = some (false, b') ∧ b'.size = exampleRecords.size ∧
      b'.find (3, 99) = some (3, 99) :=
  ⟨exampleRecords_valid, by decide,
    add_overwrite exampleRecords exampleRecords_valid (3, 99) (by decide)⟩

/-- C5. `find` correctness: on a tree whose in-order sequence is strictly
ascending under a consistent comparator, `find(k)` returns the stored element
`e` with `cmp(k, e) = 0` when the in-order sequence contains one, and returns
absent when it contains none; on the empty tree it returns absent. -/
theorem find_correct (b : BST α) (hc : ConsistentCmp b.cmpFn) (ho : Ordered b.cmpFn b.root)
    (k : α) :
    (∀ e ∈ b.mapAll, b.cmpFn k e = 0 → b.find k = some e) ∧
    ((∀ e ∈ b.mapAll, b.cmpFn k e ≠ 0) → b.find k = none) ∧
    (BST.new b.cmpFn).find k = none := by
  rw [BST.find_eq]
  exact ⟨(recFindNode_spec hc k b.root ho).1, (recFindNode_spec hc k b.root ho).2, rfl⟩

theorem find_correct_witness :
    ConsistentCmp exampleRecords.cmpFn ∧ Ordered exampleRecords.cmpFn exampleRecords.root ∧
    exampleRecords.find (1, 0) = some (1, 10) ∧ exampleRecords.find (7, 0) = none :=
  ⟨CompareKey_consistent, by decide,
    (find_correct exampleRecords CompareKey_consistent (by decide) (1, 0)).1 (1, 10)
      (by decide) (by decide),
    (find_correct exampleRecords CompareKey_consistent (by decide) (7, 0)).2.1 (by decide)⟩

/-- C6. `remove` of a present key: on a valid tree that stores an element `e`
comparing equal to `k`, `remove(k)` returns `true`, `size()` drops by exactly
one, and the in-order sequence afterwards is the old one with exactly `e`
deleted; afterwards `find(k)` is absent and every remaining element is still
found. -/
theorem remove_present (b : BST α) (hv : b.Valid) (k : α)
    (hex : ∃ e ∈ b.mapAll, b.cmpFn k e = 0) :
    ∃ b' l1 e l2, b.remove k = some (true, b') ∧ b'.size = b.size - 1 ∧
      b.mapAll = l1 ++ e :: l2 ∧ b.cmpFn k e = 0 ∧ b'.mapAll = l1 ++ l2 ∧
      b'.find k = none ∧ (∀ a ∈ l1 ++ l2, b'.find a = some a) := by
  rcases BST.remove_spec b hv k with ⟨habs, _⟩ | ⟨b', l1, e, l2, h, hv', hcmp, hin, hke, hin', hn, _, _⟩
  · obtain ⟨e, he, hxe⟩ := hex
    exact absurd hxe (habs e he)
  · have hfind := fun a => recFindNode_spec hv'.cmp a b'.root hv'.ordered
    have hasc : Ascending b.cmpFn (l1 ++ e :: l2) := hin ▸ hv.ordered
    simp only [Ascending, List.pairwise_append, List.pairwise_cons, List.mem_cons] at hasc
    obtain ⟨_, ⟨hel2, _⟩, hl1⟩ := hasc
    refine ⟨b', l1, e, l2, h, by simpa [BST.size] using hn, hin, hke, hin', ?_, ?_⟩
    · rw [BST.find_eq]
      apply (hfind k).2
      intro a ha
      rw [hcmp]
      have ha' : a ∈ l1 ++ l2 := hin' ▸ ha
      rcases List.mem_append.1 ha' with ha1 | ha2
      · have := hv.cmp.lt_eq (hl1 a ha1 e (Or.inl rfl)) (hv.cmp.eq_symm hke)
        have := hv.cmp.antisymm a k
        omega
      · have := hv.cmp.eq_lt hke (hel2 a ha2)
        omega
    · intro a ha
      rw [BST.find_eq]
      exact (hfind a).1 a (show a ∈ b'.mapAll from hin' ▸ ha) (hv'.cmp.refl a)

theorem remove_present_witness :
    exampleRecords.Valid ∧ (∃ e ∈ exampleRecords.mapAll, exampleRecords.cmpFn (2, 0) e = 0) ∧
    ∃ b' l1 e l2, exampleRecords.remove (2, 0) = some (true, b') ∧
      b'.size = exampleRecords.size - 1 ∧
      exampleRecords.mapAll = l1 ++ e :: l2 ∧ exampleRecords.cmpFn (2, 0) e = 0 ∧
      b'.mapAll = l1 ++ l2 ∧
      b'.find (2, 0) = none ∧ (∀ a ∈ l1 ++ l2, b'.find a = some a) :=
  ⟨exampleRecords_valid, by decide,
    remove_present exampleRecords exampleRecords_valid (2, 0) (by decide)⟩

/-- C7. `remove` of an absent key changes nothing: on a valid tree (the empty
tree included) in which no stored element compares equal to `k`, `remove(k)`
returns `false` and the tree afterwards is the tree before: same nodes, shape
and balance factors, same `numNodes`, same `timestamp`. -/
theorem remove_absent (b : BST α) (hv : b.Valid) (k : α)
    (habs : ∀ e ∈ b.mapAll, b.cmpFn k e ≠ 0) :
    b.remove k = some (false, b) := by
  rcases BST.remove_spec b hv k with ⟨_, h⟩ | ⟨b', l1, e, l2, _, _, _, hin, hke, _⟩
  · exact h
  · exact absurd hke (habs e (by simp [hin]))

theorem remove_absent_witness :
    exampleTree.Valid ∧ (∀ e ∈ exampleTree.mapAll, exampleTree.cmpFn 4 e ≠ 0) ∧
    exampleTree.remove 4 = some (false, exampleTree) ∧
    (BST.new OperatorCmp).remove 4 = some (false, BST.new OperatorCmp) :=
  ⟨exampleTree_valid, by decide, remove_absent exampleTree exampleTree_valid 4 (by decide),
    remove_absent (BST.new OperatorCmp) (BST.new_valid _ OperatorCmp_consistent) 4 (by decide)⟩

/-- C8 (defect in `remove`). The member function `remove` never writes
`timestamp`: on the one-element tree obtained by `add(1)` (epoch 1),
`remove(1)` returns `true`, deletes the node (`numNodes` 0, root `NULL`), and
the epoch is still 1, although `add` and `clear` both advance it. -/
theorem remove_leaves_timestamp :
    ((BST.new OperatorCmp).add 1).bind (fun p =>
      (p.2.remove 1).map (fun q =>
        (p.2.timestamp, q.1, q.2.isEmpty, q.2.numNodes, q.2.timestamp, p.2.clear.timestamp)))
      = some (1, true, true, 0, 1, 2) := by
  decide

/-- C9. Epoch on `add`: whenever `add(x)` returns, the epoch afterwards is the
epoch before plus one if it returned `true` and the epoch before if it
returned `false`; on a valid tree `add(x)` does return, it returns `true`
exactly when it creates a node (the node count grows by one, no stored element
compared equal to `x`) and `false` exactly when it overwrites a stored element
comparing equal to `x` (node count unchanged). -/
theorem add_epoch (b : BST α) (x : α) :
    (∀ r b', b.add x = some (r, b') → b'.timestamp = b.timestamp + (if r then 1 else 0)) ∧
    (b.Valid → ∃ r b', b.add x = some (r, b') ∧
      b'.timestamp = b.timestamp + (if r then 1 else 0) ∧
      countNodes b'.root = countNodes b.root + (if r then 1 else 0) ∧
      (r = false ↔ ∃ e ∈ b.mapAll, b.cmpFn x e = 0)) := by
  constructor
  · intro r b' h
    unfold BST.add at h
    cases hrec : recAddNode b.cmpFn b.root x false b.numNodes with
    | none => simp [hrec] at h
    | some p =>
      obtain ⟨g, t, c, n⟩ := p
      simp only [hrec, Option.bind_eq_bind, Option.some_bind, Option.pure_def, Option.some.injEq,
        Prod.mk.injEq] at h
      obtain ⟨rfl, rfl⟩ := h
      cases c <;> simp
  · intro hv
    obtain ⟨r, b', l1, mid, l2, h, _, _, hin, _, h1, h2, _, hts, hcnt, hmid⟩ :=
      BST.add_spec b hv x
    refine ⟨r, b', h, hts, hcnt, ?_⟩
    rcases hmid with ⟨rfl, rfl⟩ | ⟨e, rfl, hxe, rfl⟩
    · simp only [Bool.true_eq_false, false_iff, not_exists, not_and]
      intro e he
      rw [hin] at he
      simp only [List.append_nil, List.mem_append] at he
      rcases he with he | he
      · have := h1 e he
        have := hv.cmp.antisymm e x
        omega
      · have := h2 e he
        omega
    · simp only [true_iff]
      exact ⟨e, by simp [hin], hxe⟩

theorem add_epoch_witness :
    exampleTree.Valid ∧
    (exampleTree.add 4).map (fun p => (p.1, p.2.timestamp)) = some (true, 4) ∧
    (exampleTree.add 8).map (fun p => (p.1, p.2.timestamp)) = some (false, 3) ∧
    ∃ r b', exampleTree.add 4 = some (r, b') ∧
      b'.timestamp = exampleTree.timestamp + (if r then 1 else 0) ∧
      countNodes b'.root = countNodes exampleTree.root + (if r then 1 else 0) ∧
      (r = false ↔ ∃ e ∈ exampleTree.mapAll, exampleTree.cmpFn 4 e = 0) :=
  ⟨exampleTree_valid, by decide, by decide, (add_epoch exampleTree 4).2 exampleTree_valid⟩

end Claims

section IteratorProofs

variable {α : Type}

theorem recBSTAll_length : ∀ (t : nodeT α), (recBSTAll t).length = countNodes t
  | .NULL => rfl
  | .node d l r _ => by
    simp only [recBSTAll, countNodes, List.length_append, List.length_cons,
      recBSTAll_length l, recBSTAll_length r]
    omega

theorem findLeftmostChildLoop_spec : ∀ (d : α) (l r : nodeT α) (bf : Int)
    (st : Stack (iteratorMarkerT α)), (∀ m ∈ st, m.np ≠ .NULL) →
    ∃ s', findLeftmostChildLoop (.node d l r bf)
        (Stack.push st { np := .node d l r bf, processed := false }) = .ok s' ∧
      pendingElems s' = recBSTAll (.node d l r bf) ++ pendingElems st ∧ StackOK s' ∧ s' ≠ []
  | d, .NULL, r, bf, st, hst => by
    refine ⟨{ np := .node d .NULL r bf, processed := false } :: st, rfl, ?_, ?_, by simp⟩
    · simp [pendingElems, recBSTAll]
    · refine ⟨rfl, ?_⟩
      intro m hm
      rcases List.mem_cons.1 hm with rfl | hm
      · simp
      · exact hst m hm
  | d, .node ld ll lr lbf, r, bf, st, hst => by
    obtain ⟨s', h1, h2, h3, h4⟩ := findLeftmostChildLoop_spec ld ll lr lbf
      ({ np := .node d (.node ld ll lr lbf) r bf, processed := false } :: st) (by
        intro m hm
        rcases List.mem_cons.1 hm with rfl | hm
        · simp
        · exact hst m hm)
    refine ⟨s', ?_, ?_, h3, h4⟩
    · rw [← h1]; rfl
    · rw [h2]
      simp [pendingElems, recBSTAll]

theorem findLeftmostChild_spec (d : α) (l r : nodeT α) (bf : Int)
    (st : Stack (iteratorMarkerT α)) (hst : ∀ m ∈ st, m.np ≠ .NULL) :
    ∃ s', findLeftmostChild (Stack.push st { np := .node d l r bf, processed := false })
        = .ok s' ∧
      pendingElems s' = recBSTAll (.node d l r bf) ++ pendingElems st ∧ StackOK s' ∧ s' ≠ [] := by
  obtain ⟨s', h1, h2, h3, h4⟩ := findLeftmostChildLoop_spec d l r bf st hst
  exact ⟨s', by rw [← h1]; rfl, h2, h3, h4⟩

theorem popProcessed_spec : ∀ (st : Stack (iteratorMarkerT α)), (∀ m ∈ st, m.np ≠ .NULL) →
    pendingElems (popProcessed st) = pendingElems st ∧ StackOK (popProcessed st)
  | [], _ => ⟨rfl, trivial⟩
  | m :: s, hst => by
    by_cases hp : m.processed = true
    · obtain ⟨h1, h2⟩ := popProcessed_spec s (fun m' hm' => hst m' (List.mem_cons_of_mem _ hm'))
      simp only [popProcessed, hp, if_true]
      exact ⟨by simp [pendingElems, hp, h1], h2⟩
    · simp only [popProcessed, hp]
      exact ⟨rfl, by simpa using hp, hst⟩

theorem StackOK.tail_nonnull {m : iteratorMarkerT α} {s : Stack (iteratorMarkerT α)}
    (h : StackOK (m :: s)) : ∀ m' ∈ s, m'.np ≠ .NULL :=
  fun m' hm' => h.2 m' (List.mem_cons_of_mem _ hm')

theorem advanceToNextNode_spec (m : iteratorMarkerT α) (s : Stack (iteratorMarkerT α))
    (hok : StackOK (m :: s)) :
    ∃ d l r bf s', m.np = .node d l r bf ∧ advanceToNextNode (m :: s) = .ok s' ∧
      pendingElems (m :: s) = d :: pendingElems s' ∧ StackOK s' := by
  obtain ⟨np, processed⟩ := m
  have hp : processed = false := hok.1
  subst hp
  have hnn : np ≠ .NULL := hok.2 _ (List.mem_cons_self _ _)
  cases np with
  | NULL => exact absurd rfl hnn
  | node d l r bf =>
    cases r with
    | NULL =>
      obtain ⟨h1, h2⟩ := popProcessed_spec s hok.tail_nonnull
      exact ⟨d, l, .NULL, bf, popProcessed s, rfl, rfl, by simp [pendingElems, recBSTAll, h1], h2⟩
    | node rd rl rr rbf =>
      obtain ⟨s', h1, h2, h3, _⟩ := findLeftmostChild_spec rd rl rr rbf
        ({ np := .node d l (.node rd rl rr rbf) bf, processed := true } :: s) (by
          intro m' hm'
          rcases List.mem_cons.1 hm' with rfl | hm'
          · simp
          · exact hok.tail_nonnull m' hm')
      refine ⟨d, l, .node rd rl rr rbf, bf, s', rfl, ?_, ?_, h3⟩
      · rw [← h1]; rfl
      · rw [h2]; simp [pendingElems]

theorem hasNext_active (it : Iterator α) (bst : BST α) (h : it.Active bst) :
    it.hasNext bst = .ok (!it.stack.isEmpty) := by
  simp [Iterator.hasNext, h.bound, h.epoch]
  rfl

theorem pendingElems_eq_nil_iff (st : Stack (iteratorMarkerT α)) (hok : StackOK st) :
    pendingElems st = [] ↔ st = [] := by
  cases st with
  | nil => simp [pendingElems]
  | cons m s =>
    obtain ⟨d, l, r, bf, s', hnp, _, hpe, _⟩ := advanceToNextNode_spec m s hok
    simp [hpe]

theorem next_active (it : Iterator α) (bst : BST α) (h : it.Active bst) (hne : it.stack ≠ []) :
    ∃ x it', it.next bst = .ok (x, it') ∧ it'.Active bst ∧
      pendingElems it.stack = x :: pendingElems it'.stack := by
  obtain ⟨bstp, stack, ts⟩ := it
  cases stack with
  | nil => exact absurd rfl hne
  | cons m s =>
    obtain ⟨d, l, r, bf, s', hnp, hadv, hpe, hok'⟩ := advanceToNextNode_spec m s h.stackOK
    have hb : bstp = true := h.bound
    have ht : ts = bst.timestamp := h.epoch
    subst hb ht
    obtain ⟨np, pr⟩ := m
    simp only at hnp
    subst hnp
    refine ⟨d, Iterator.mk true s' bst.timestamp, ?_, ⟨rfl, rfl, hok'⟩, hpe⟩
    simp [Iterator.next, Iterator.hasNext, Stack.isEmpty, Stack.peek, getData, deref, hadv]

theorem iterate_active (bst : BST α) : ∀ (fuel : Nat) (it : Iterator α), it.Active bst →
    ∃ it', iterate bst fuel it = .ok ((pendingElems it.stack).take fuel, it') ∧ it'.Active bst ∧
      pendingElems it'.stack = (pendingElems it.stack).drop fuel
  | 0, it, h => ⟨it, by simp [iterate]; rfl, h, rfl⟩
  | fuel + 1, it, h => by
    by_cases hne : it.stack = []
    · have hp : pendingElems it.stack = [] := by rw [hne]; rfl
      refine ⟨it, ?_, h, by simp [hp]⟩
      simp [iterate, hasNext_active it bst h, hne, Stack.isEmpty, hp]
      rfl
    · obtain ⟨x, it1, hnext, hact, hpe⟩ := next_active it bst h hne
      obtain ⟨it2, hit, hact2, hpe2⟩ := iterate_active bst fuel it1 hact
      refine ⟨it2, ?_, hact2, by simp [hpe, hpe2]⟩
      have hemp : Stack.isEmpty it.stack = false := by
        cases hs : it.stack with
        | nil => exact absurd hs hne
        | cons _ _ => rfl
      simp [iterate, hasNext_active it bst h, hemp, hnext, hit, hpe, bind, Except.bind,
        Functor.map, Except.map]
      rfl

theorem BST.iterator_spec (b : BST α) :
    ∃ it0, b.iterator = .ok it0 ∧ it0.Active b ∧ pendingElems it0.stack = b.mapAll := by
  obtain ⟨root, n, ts, cmp⟩ := b
  cases root with
  | NULL => exact ⟨Iterator.mk true [] ts, rfl, ⟨rfl, rfl, trivial⟩, rfl⟩
  | node d l r bf =>
    obtain ⟨s', h1, h2, h3, _⟩ := findLeftmostChild_spec d l r bf [] (by simp)
    refine ⟨Iterator.mk true s' ts, ?_, ⟨rfl, rfl, h3⟩, by simpa [pendingElems] using h2⟩
    simp only [BST.iterator]
    rw [h1]
    rfl

/-- C10. Iterator equals in-order traversal: on a valid tree that is not
mutated during iteration, `iterator()` returns an iterator from which the loop
`while (hasNext()) next()` obtains, after any number `fuel` of `next()` calls,
exactly the first `fuel` elements of the in-order sequence `mapAll` visits,
with `hasNext()` then true exactly while elements remain; so with at least
`size()` calls allowed it yields exactly the whole in-order sequence, which is
strictly ascending and has exactly `size()` elements, after which `hasNext()`
is false; on the empty tree `hasNext()` is false immediately. -/
theorem iterator_inorder (b : BST α) (hv : b.Valid) :
    ∃ it0, b.iterator = .ok it0 ∧
      (∀ fuel : Nat, ∃ it, iterate b fuel it0 = .ok (b.mapAll.take fuel, it) ∧
        it.hasNext b = .ok (decide (fuel < b.mapAll.length))) ∧
      (∀ fuel : Nat, b.size ≤ (fuel : Int) → ∃ it, iterate b fuel it0 = .ok (b.mapAll, it) ∧
        it.hasNext b = .ok false) ∧
      Ascending b.cmpFn b.mapAll ∧ (b.mapAll.length : Int) = b.size ∧
      (b.isEmpty = true → it0.hasNext b = .ok false) := by
  obtain ⟨it0, h0, hact0, hp0⟩ := BST.iterator_spec b
  have hlen : (b.mapAll.length : Int) = b.size := by
    rw [BST.size, hv.count, BST.mapAll, recBSTAll_length]
  have key : ∀ fuel : Nat, ∃ it, iterate b fuel it0 = .ok (b.mapAll.take fuel, it) ∧
      it.hasNext b = .ok (decide (fuel < b.mapAll.length)) := by
    intro fuel
    obtain ⟨it, h1, hact, hp⟩ := iterate_active b fuel it0 hact0
    refine ⟨it, by rw [h1, hp0], ?_⟩
    rw [hasNext_active it b hact]
    congr 1
    have hiff := pendingElems_eq_nil_iff it.stack hact.stackOK
    rw [hp, hp0, List.drop_eq_nil_iff] at hiff
    cases hs : it.stack with
    | nil =>
      have := hiff.2 hs
      simp [Stack.isEmpty]
      omega
    | cons m s =>
      have : ¬ (b.mapAll.length ≤ fuel) := fun hle => by
        have := hiff.1 hle
        simp [hs] at this
      simp [Stack.isEmpty]
      omega
  refine ⟨it0, h0, key, ?_, hv.ordered, hlen, ?_⟩
  · intro fuel hfuel
    obtain ⟨it, h1, h2⟩ := key fuel
    have hle : b.mapAll.length ≤ fuel := by omega
    refine ⟨it, by rw [h1, List.take_of_length_le hle], ?_⟩
    rw [h2]
    simp [hle]
  · intro hemp
    obtain ⟨it, h1, h2⟩ := key 0
    have h1' : (Except.ok ([], it0) : Except String (List α × Iterator α))
        = Except.ok (b.mapAll.take 0, it) := h1
    injection h1' with h1'
    rw [(Prod.mk.inj h1').2, h2]
    have hnil : b.mapAll = [] := by
      unfold BST.isEmpty at hemp
      unfold BST.mapAll
      cases hroot : b.root with
      | NULL => rfl
      | node d l r bf => simp [hroot] at hemp
    simp [hnil]

theorem iterator_inorder_witness :
    exampleTree.Valid ∧
    ∃ it0, exampleTree.iterator = .ok it0 ∧
      (∀ fuel : Nat, ∃ it, iterate exampleTree fuel it0 = .ok (exampleTree.mapAll.take fuel, it) ∧
        it.hasNext exampleTree = .ok (decide (fuel < exampleTree.mapAll.length))) ∧
      (∀ fuel : Nat, exampleTree.size ≤ (fuel : Int) →
        ∃ it, iterate exampleTree fuel it0 = .ok (exampleTree.mapAll, it) ∧
        it.hasNext exampleTree = .ok false) ∧
      Ascending exampleTree.cmpFn exampleTree.mapAll ∧
      (exampleTree.mapAll.length : Int) = exampleTree.size ∧
      (exampleTree.isEmpty = true → it0.hasNext exampleTree = .ok false) :=
  ⟨exampleTree_valid, iterator_inorder exampleTree exampleTree_valid⟩

end IteratorProofs

section IteratorErrors

variable {α : Type}

theorem BST.add_timestamp (b : BST α) (x : α) (r : Bool) (b' : BST α)
    (h : b.add x = some (r, b')) : b'.timestamp = b.timestamp + (if r then 1 else 0) := by
  unfold BST.add at h
  cases hrec : recAddNode b.cmpFn b.root x false b.numNodes with
  | none => simp [hrec] at h
  | some p =>
    obtain ⟨g, t, c, n⟩ := p
    simp only [hrec, Option.bind_eq_bind, Option.some_bind, Option.pure_def, Option.some.injEq,
      Prod.mk.injEq] at h
    obtain ⟨rfl, rfl⟩ := h
    cases c <;> simp

theorem iterate_keeps_binding (b : BST α) (it0 it : Iterator α) (fuel : Nat) (xs : List α)
    (hit : b.iterator = .ok it0) (hiter : iterate b fuel it0 = .ok (xs, it)) : it.Active b := by
  obtain ⟨it0', h0, hact0, _⟩ := BST.iterator_spec b
  have e0 : it0' = it0 := Except.ok.inj (h0.symm.trans hit)
  subst e0
  obtain ⟨it', h1, hact, _⟩ := iterate_active b fuel it0' hact0
  have e1 := Except.ok.inj (h1.symm.trans hiter)
  rw [← (Prod.mk.inj e1).2]
  exact hact

/-- C11 (amended). Modification detection: for every tree, every iterator
created from it (and advanced by any number of `hasNext`/`next` rounds) and
every element `x`, after an `add(x)` that creates a node (returns `true`),
`hasNext()` fails with the error "BST structure has been modified" and so does
`next()`; neither returns a value. -/
theorem add_new_node_invalidates_iterator (b : BST α) (it0 it : Iterator α) (fuel : Nat)
    (xs : List α) (x : α) (b' : BST α)
    (hit : b.iterator = .ok it0) (hiter : iterate b fuel it0 = .ok (xs, it))
    (hadd : b.add x = some (true, b')) :
    it.hasNext b' = .error "BST structure has been modified" ∧
    it.next b' = .error "BST structure has been modified" := by
  have hact := iterate_keeps_binding b it0 it fuel xs hit hiter
  have hts : b'.timestamp = b.timestamp + 1 := by
    simpa using BST.add_timestamp b x true b' hadd
  have hne : it.timestamp ≠ b'.timestamp := by
    rw [hact.epoch, hts]
    omega
  have h1 : it.hasNext b' = .error "BST structure has been modified" := by
    simp [Iterator.hasNext, hact.bound, hne]
    rfl
  refine ⟨h1, ?_⟩
  simp [Iterator.next, hact.bound, h1]
  rfl

theorem add_new_node_invalidates_iterator_witness :
    exampleTree.iterator = .ok exampleIterator ∧
    iterate exampleTree 1 exampleIterator = .ok ([3], exampleIteratorAfterNext) ∧
    exampleTree.add 4 = some (true, exampleTreeWith4) ∧
    exampleIteratorAfterNext.hasNext exampleTreeWith4
      = .error "BST structure has been modified" ∧
    exampleIteratorAfterNext.next exampleTreeWith4
      = .error "BST structure has been modified" :=
  ⟨rfl, rfl, rfl,
    add_new_node_invalidates_iterator exampleTree exampleIterator exampleIteratorAfterNext 1 [3] 4
      exampleTreeWith4 rfl rfl rfl⟩

/-- C11 (as stated, refuted). On `exampleTree` (holding 3, 5, 8) an iterator
is created and then `add(5)` is called: it overwrites the stored 5, returns
`false` and leaves the epoch at 3, after which `hasNext()` returns `true` and
`next()` returns 3 without any error. -/
theorem add_overwrite_keeps_iterator_usable :
    exampleTree.iterator = .ok exampleIterator ∧
    (exampleTree.add 5).map (fun p => (p.1, p.2.timestamp,
        (exampleIterator.hasNext p.2).toOption,
        (exampleIterator.next p.2).toOption.map Prod.fst))
      = some (false, 3, some true, some 3) :=
  ⟨rfl, by decide⟩

end IteratorErrors

section IteratorContract

variable {α : Type}

theorem exampleIterator_stackOK : StackOK exampleIterator.stack :=
  ⟨rfl, by decide⟩

end IteratorContract

section Size

variable {α : Type}

theorem BST.clear_valid (b : BST α) (hc : ConsistentCmp b.cmpFn) : b.clear.Valid :=
  ⟨hc, List.Pairwise.nil, trivial, rfl⟩

theorem BST.mutate_valid (b : BST α) (hv : b.Valid) (m : Mutator α) :
    ∃ b', b.mutate m = some b' ∧ b'.Valid ∧ b'.cmpFn = b.cmpFn := by
  cases m with
  | add x =>
    obtain ⟨r, b', _, _, _, h, hv', hcmp, _⟩ := BST.add_spec b hv x
    exact ⟨b', by simp [BST.mutate, h], hv', hcmp⟩
  | remove k =>
    rcases BST.remove_spec b hv k with ⟨_, h⟩ | ⟨b', _, _, _, h, hv', hcmp, _⟩
    · exact ⟨b, by simp [BST.mutate, h], hv, rfl⟩
    · exact ⟨b', by simp [BST.mutate, h], hv', hcmp⟩
  | clear => exact ⟨b.clear, rfl, BST.clear_valid b hv.cmp, rfl⟩

theorem BST.mutateAll_valid : ∀ (ms : List (Mutator α)) (b : BST α), b.Valid →
    ∃ b', b.mutateAll ms = some b' ∧ b'.Valid ∧ b'.cmpFn = b.cmpFn
  | [], b, hv => ⟨b, rfl, hv, rfl⟩
  | m :: ms, b, hv => by
    obtain ⟨b1, h1, hv1, hc1⟩ := BST.mutate_valid b hv m
    obtain ⟨b2, h2, hv2, hc2⟩ := BST.mutateAll_valid ms b1 hv1
    exact ⟨b2, by simp [BST.mutateAll, h1, h2], hv2, hc2.trans hc1⟩

/-- C16. Size invariant: after every finite sequence of `add`/`remove`/`clear`
calls applied to an initially empty tree (consistent comparator), `size()`
equals the number of nodes of the tree; a further `add` changes `size()` and
the node count by +1 when it returns `true` and by 0 when it returns `false`;
a further `remove` changes them by -1 when it returns `true` (whichever
`removeTargetNode` path is taken) and by 0 when it returns `false`; and after
`clear` the size and the node count are 0. -/
theorem size_counts_nodes (cmpFn : α → α → Int) (hc : ConsistentCmp cmpFn)
    (ms : List (Mutator α)) :
    ∃ b, (BST.new cmpFn).mutateAll ms = some b ∧ b.size = (countNodes b.root : Int) ∧
      (∀ x, ∃ r b', b.add x = some (r, b') ∧ b'.size = b.size + (if r then 1 else 0) ∧
        countNodes b'.root = countNodes b.root + (if r then 1 else 0)) ∧
      (∀ k, ∃ r b', b.remove k = some (r, b') ∧ b'.size = b.size - (if r then 1 else 0) ∧
        countNodes b'.root + (if r then 1 else 0) = countNodes b.root) ∧
      b.clear.size = 0 ∧ countNodes b.clear.root = 0 := by
  obtain ⟨b, h, hv, _⟩ := BST.mutateAll_valid ms (BST.new cmpFn) (BST.new_valid cmpFn hc)
  refine ⟨b, h, hv.count, ?_, ?_, rfl, rfl⟩
  · intro x
    obtain ⟨r, b', _, _, _, hadd, _, _, _, _, _, _, hn, _, hcnt, _⟩ := BST.add_spec b hv x
    exact ⟨r, b', hadd, hn, hcnt⟩
  · intro k
    rcases BST.remove_spec b hv k with ⟨_, hrem⟩ | ⟨b', _, _, _, hrem, _, _, _, _, _, hn, _, hcnt⟩
    · exact ⟨false, b, hrem, by simp, by simp⟩
    · exact ⟨true, b', hrem, by simpa [BST.size] using hn, by simpa using hcnt⟩

theorem size_counts_nodes_witness :
    ConsistentCmp OperatorCmp ∧
    (exampleTree.remove 5).map (fun p => (p.1, p.2.size, countNodes p.2.root))
      = some (true, 2, 2) ∧
    ∃ b, (BST.new OperatorCmp).mutateAll
        [.add 5, .add 3, .clear, .add 8, .add 7, .add 9, .add 8, .remove 8, .remove 1]
          = some b ∧ b.size = (countNodes b.root : Int) ∧
      (∀ x, ∃ r b', b.add x = some (r, b') ∧ b'.size = b.size + (if r then 1 else 0) ∧
        countNodes b'.root = countNodes b.root + (if r then 1 else 0)) ∧
      (∀ k, ∃ r b', b.remove k = some (r, b') ∧ b'.size = b.size - (if r then 1 else 0) ∧
        countNodes b'.root + (if r then 1 else 0) = countNodes b.root) ∧
      b.clear.size = 0 ∧ countNodes b.clear.root = 0 :=
  ⟨OperatorCmp_consistent, by decide,
    size_counts_nodes OperatorCmp OperatorCmp_consistent _⟩

/-- C17. `isEmpty` agrees with `size`: in every tree reachable from the empty
tree by `add`/`remove`/`clear` calls (consistent comparator), `isEmpty()`
(the test `root == NULL`) is true if and only if `size()` is 0. -/
theorem isEmpty_iff_size_zero (cmpFn : α → α → Int) (hc : ConsistentCmp cmpFn)
    (ms : List (Mutator α)) :
    ∃ b, (BST.new cmpFn).mutateAll ms = some b ∧ (b.isEmpty = true ↔ b.size = 0) := by
  obtain ⟨b, h, hv, _⟩ := BST.mutateAll_valid ms (BST.new cmpFn) (BST.new_valid cmpFn hc)
  refine ⟨b, h, ?_⟩
  have hcount := hv.count
  unfold BST.isEmpty BST.size
  cases hroot : b.root with
  | NULL => simp [hroot, countNodes] at hcount ⊢; exact hcount
  | node d l r bf =>
    simp only [hroot, countNodes] at hcount ⊢
    constructor
    · intro h; cases h
    · intro h; omega

theorem isEmpty_iff_size_zero_witness :
    ConsistentCmp OperatorCmp ∧
    ∃ b, (BST.new OperatorCmp).mutateAll [.add 5, .add 3, .remove 5, .remove 3, .add 1, .clear]
        = some b ∧ (b.isEmpty = true ↔ b.size = 0) :=
  ⟨OperatorCmp_consistent, isEmpty_iff_size_zero OperatorCmp OperatorCmp_consistent _⟩

end Size

section DeepCopy

variable {α : Type}

theorem recBSTAllData_eq_foldlM {σ : Type} (fn : α → σ → Option σ) :
    ∀ (t : nodeT α) (data : σ),
      recBSTAllData fn t data = (recBSTAll t).foldlM (fun s x => fn x s) data
  | .NULL, data => rfl
  | .node d l r _, data => by
    simp only [recBSTAllData, recBSTAll, List.foldlM_append, List.foldlM_cons,
      recBSTAllData_eq_foldlM fn l, recBSTAllData_eq_foldlM fn r]

theorem AddToTree_greatest (b : BST α) (hc : ConsistentCmp b.cmpFn)
    (ho : Ordered b.cmpFn b.root) (hb : Balanced b.root) (x : α)
    (hx : ∀ e ∈ b.mapAll, b.cmpFn e x < 0) :
    ∃ b', AddToTree x b = some b' ∧ b'.cmpFn = b.cmpFn ∧ Ordered b'.cmpFn b'.root ∧
      Balanced b'.root ∧ b'.mapAll = b.mapAll ++ [x] := by
  obtain ⟨grew, t', c', n', l1, mid, l2, hrec, hbal, _, hin, hin', h1, h2, _, _, hmid⟩ :=
    recAddNode_spec hc x b.root false b.numNodes ho hb
  have hin0 : b.mapAll = l1 ++ mid ++ l2 := hin
  have hl2 : l2 = [] := by
    cases l2 with
    | nil => rfl
    | cons e l2' =>
      have := h2 e (by simp)
      have := hx e (by simp [hin0])
      have := hc.antisymm e x
      omega
  have hm : mid = [] := by
    rcases hmid with ⟨hm, _⟩ | ⟨e, he, hxe, _⟩
    · exact hm
    · have := hx e (by simp [hin0, he])
      have := hc.antisymm e x
      omega
  subst hl2 hm
  refine ⟨BST.mk t' n' (if c' then b.timestamp + 1 else b.timestamp) b.cmpFn, ?_, rfl, ?_, hbal,
    ?_⟩
  · simp [AddToTree, BST.add, hrec]
  · show Ascending b.cmpFn (recBSTAll t')
    rw [hin']
    exact ascending_insert l1 [] [] x (hin ▸ ho) h1 h2
  · show recBSTAll t' = b.mapAll ++ [x]
    rw [hin', hin0]
    simp

theorem addAll_ascending : ∀ (xs : List α) (b : BST α), ConsistentCmp b.cmpFn →
    Ordered b.cmpFn b.root → Balanced b.root → Ascending b.cmpFn xs →
    (∀ e ∈ b.mapAll, ∀ x ∈ xs, b.cmpFn e x < 0) →
    ∃ b', xs.foldlM (fun s x => AddToTree x s) b = some b' ∧ b'.cmpFn = b.cmpFn ∧
      Ordered b'.cmpFn b'.root ∧ Balanced b'.root ∧ b'.mapAll = b.mapAll ++ xs
  | [], b, _, ho, hb, _, _ => ⟨b, rfl, rfl, ho, hb, by simp⟩
  | x :: xs, b, hc, ho, hb, hasc, hlt => by
    obtain ⟨b1, h1, hc1, ho1, hb1, hin1⟩ :=
      AddToTree_greatest b hc ho hb x (fun e he => hlt e he x (by simp))
    have hasc' := List.pairwise_cons.1 hasc
    obtain ⟨b2, h2, hc2, ho2, hb2, hin2⟩ := addAll_ascending xs b1 (hc1 ▸ hc) ho1 hb1
      (hc1 ▸ hasc'.2) (by
        intro e he y hy
        rw [hc1]
        rw [hin1] at he
        rcases List.mem_append.1 he with he | he
        · exact hlt e he y (List.mem_cons_of_mem _ hy)
        · rw [List.mem_singleton.1 he]
          exact hasc'.1 y hy)
    refine ⟨b2, ?_, hc2.trans hc1, ho2, hb2, by rw [hin2, hin1]; simp⟩
    simp [List.foldlM_cons, h1, h2]

theorem BST.copyOtherEntries_spec (self rhs : BST α) (hv : rhs.Valid)
    (hroot : self.root = .NULL) :
    ∃ c, self.copyOtherEntries rhs = some c ∧ c.cmpFn = rhs.cmpFn ∧ c.size = rhs.size ∧
      c.mapAll = rhs.mapAll ∧ Balanced c.root ∧ Ordered c.cmpFn c.root := by
  obtain ⟨b', h, hc', ho', hb', hin'⟩ := addAll_ascending (recBSTAll rhs.root)
    (BST.mk self.root self.numNodes self.timestamp rhs.cmpFn) hv.cmp
    (by rw [hroot]; exact List.Pairwise.nil) (by rw [hroot]; trivial) hv.ordered
    (by simp [BST.mapAll, hroot, recBSTAll])
  refine ⟨BST.mk b'.root rhs.numNodes b'.timestamp b'.cmpFn, ?_, hc', rfl, ?_, hb', ho'⟩
  · simp only [BST.copyOtherEntries, recBSTAllData_eq_foldlM, h]
    rfl
  · show recBSTAll b'.root = recBSTAll rhs.root
    have : b'.mapAll = recBSTAll rhs.root := by
      rw [hin']
      simp [BST.mapAll, hroot, recBSTAll]
    exact this

/-- C15. Deep copy contents: for every valid tree `S`, the tree produced by
copy construction from `S` (whatever the uninitialised members held) and the
tree produced by assigning `S` to any other tree both exist and have the same
comparator, the same `size()` and the same in-order sequence as `S`, with
correct balance factors; assigning `S` to itself leaves it as it is. -/
theorem deep_copy_contents (S : BST α) (hv : S.Valid) (raw target : BST α) :
    (∃ c, BST.copyConstruct raw S = some c ∧ c.cmpFn = S.cmpFn ∧ c.size = S.size ∧
      c.mapAll = S.mapAll ∧ Balanced c.root) ∧
    (∃ c, target.assign S false = some c ∧ c.cmpFn = S.cmpFn ∧ c.size = S.size ∧
      c.mapAll = S.mapAll ∧ Balanced c.root) ∧
    S.assign S true = some S := by
  refine ⟨?_, ?_, rfl⟩
  · obtain ⟨c, h, h1, h2, h3, h4, _⟩ :=
      BST.copyOtherEntries_spec (BST.mk .NULL raw.numNodes raw.timestamp raw.cmpFn) S hv rfl
    exact ⟨c, h, h1, h2, h3, h4⟩
  · obtain ⟨c, h, h1, h2, h3, h4, _⟩ := BST.copyOtherEntries_spec target.clear S hv rfl
    exact ⟨c, h, h1, h2, h3, h4⟩

theorem deep_copy_contents_witness :
    exampleTreeWith4.Valid ∧
    (BST.copyConstruct exampleTree.clear exampleTreeWith4).map
        (fun c => (c.size, c.mapAll, c.root))
      = some (4, [3, 4, 5, 8],
          .node 4 (.node 3 .NULL .NULL 0) (.node 5 .NULL (.node 8 .NULL .NULL 0) 1) 1) ∧
    (∃ c, BST.copyConstruct exampleTree exampleTreeWith4 = some c ∧
      c.cmpFn = exampleTreeWith4.cmpFn ∧ c.size = exampleTreeWith4.size ∧
      c.mapAll = exampleTreeWith4.mapAll ∧ Balanced c.root) ∧
    (∃ c, exampleTree.assign exampleTreeWith4 false = some c ∧
      c.cmpFn = exampleTreeWith4.cmpFn ∧ c.size = exampleTreeWith4.size ∧
      c.mapAll = exampleTreeWith4.mapAll ∧ Balanced c.root) ∧
    exampleTreeWith4.assign exampleTreeWith4 true = some exampleTreeWith4 :=
  ⟨⟨OperatorCmp_consistent, by decide, by decide, by decide⟩, by decide,
    deep_copy_contents exampleTreeWith4 ⟨OperatorCmp_consistent, by decide, by decide, by decide⟩
      exampleTree exampleTree⟩

end DeepCopy

section RoundTrip

variable {α : Type}

theorem BST.iterate_all (b : BST α) (fuel : Nat) (hfuel : b.mapAll.length ≤ fuel) :
    ∃ it0 it, b.iterator = .ok it0 ∧ iterate b fuel it0 = .ok (b.mapAll, it) ∧
      it.hasNext b = .ok false := by
  obtain ⟨it0, h0, hact0, hp0⟩ := BST.iterator_spec b
  obtain ⟨it, h1, hact, hp⟩ := iterate_active b fuel it0 hact0
  refine ⟨it0, it, h0, ?_, ?_⟩
  · rw [h1, hp0, List.take_of_length_le hfuel]
  · rw [hasNext_active it b hact]
    have hnil : it.stack = [] := by
      apply (pendingElems_eq_nil_iff it.stack hact.stackOK).1
      rw [hp, hp0, List.drop_eq_nil_iff]
      exact hfuel
    rw [hnil]
    rfl

theorem BST.iterate_all_valid (b : BST α) (hv : b.Valid) (fuel : Nat)
    (hfuel : b.size ≤ (fuel : Int)) :
    ∃ it0 it, b.iterator = .ok it0 ∧ iterate b fuel it0 = .ok (b.mapAll, it) ∧
      it.hasNext b = .ok false := by
  apply BST.iterate_all
  have := hv.count
  have hlen : b.mapAll.length = countNodes b.root := recBSTAll_length b.root
  unfold BST.size at hfuel
  omega

theorem mem_keptLast_cons (cmpFn : α → α → Int) (x : α) (xs : List α) (e : α) :
    e ∈ keptLast cmpFn (x :: xs) ↔
      (e = x ∧ ∀ y ∈ xs, cmpFn y x ≠ 0) ∨ e ∈ keptLast cmpFn xs := by
  by_cases h : ∀ y ∈ xs, cmpFn y x ≠ 0
  · have : (xs.all fun y => decide (cmpFn y x ≠ 0)) = true := by
      simpa [List.all_eq_true] using h
    rw [keptLast, if_pos this]
    simp only [List.mem_cons]
    exact ⟨fun h1 => h1.imp (fun h2 => ⟨h2, h⟩) id, fun h1 => h1.imp (fun h2 => h2.1) id⟩
  · have : ¬ (xs.all fun y => decide (cmpFn y x ≠ 0)) = true := by
      simpa [List.all_eq_true] using h
    rw [keptLast, if_neg this]
    exact ⟨fun h1 => Or.inr h1, fun h1 => h1.elim (fun h2 => absurd h2.2 h) id⟩

theorem BST.add_mem (b : BST α) (hv : b.Valid) (x : α) :
    ∃ r b', b.add x = some (r, b') ∧ b'.Valid ∧ b'.cmpFn = b.cmpFn ∧
      ∀ e, e ∈ b'.mapAll ↔ (e = x ∨ (e ∈ b.mapAll ∧ b.cmpFn x e ≠ 0)) := by
  obtain ⟨r, b', l1, mid, l2, h, hv', hcmp, hin, hin', h1, h2, _, _, _, hmid⟩ :=
    BST.add_spec b hv x
  refine ⟨r, b', h, hv', hcmp, ?_⟩
  intro e
  rw [hin', hin]
  simp only [List.mem_append, List.mem_cons]
  constructor
  · rintro (he | rfl | he)
    · right
      refine ⟨Or.inl (Or.inl he), ?_⟩
      have := h1 e he
      have := hv.cmp.antisymm e x
      omega
    · exact Or.inl rfl
    · right
      refine ⟨Or.inr he, ?_⟩
      have := h2 e he
      omega
  · rintro (rfl | ⟨(he | he) | he, hne⟩)
    · exact Or.inr (Or.inl rfl)
    · exact Or.inl he
    · rcases hmid with ⟨rfl, _⟩ | ⟨e', rfl, hxe, _⟩
      · simp at he
      · rw [List.mem_singleton.1 he] at hne
        exact absurd hxe hne
    · exact Or.inr (Or.inr he)

theorem BST.run_adds : ∀ (xs : List α) (b : BST α), b.Valid →
    ∃ b', b.run (xs.map Call.add) = some b' ∧ b'.Valid ∧ b'.cmpFn = b.cmpFn ∧
      ∀ e, e ∈ b'.mapAll ↔
        (e ∈ keptLast b.cmpFn xs ∨ (e ∈ b.mapAll ∧ ∀ y ∈ xs, b.cmpFn y e ≠ 0))
  | [], b, hv => ⟨b, rfl, hv, rfl, by simp [keptLast]⟩
  | x :: xs, b, hv => by
    obtain ⟨r, b1, h1, hv1, hc1, hm1⟩ := BST.add_mem b hv x
    obtain ⟨b2, h2, hv2, hc2, hm2⟩ := BST.run_adds xs b1 hv1
    refine ⟨b2, ?_, hv2, hc2.trans hc1, ?_⟩
    · simp [BST.run, BST.step, h1, h2]
    · intro e
      rw [hm2 e, hm1 e, hc1, mem_keptLast_cons]
      simp only [List.mem_cons, forall_eq_or_imp]
      constructor
      · rintro (he | ⟨rfl | ⟨he, hne⟩, hall⟩)
        · exact Or.inl (Or.inr he)
        · exact Or.inl (Or.inl ⟨rfl, hall⟩)
        · exact Or.inr ⟨he, hne, hall⟩
      · rintro ((⟨rfl, hall⟩ | he) | ⟨he, hne, hall⟩)
        · exact Or.inr ⟨Or.inl rfl, hall⟩
        · exact Or.inl he
        · exact Or.inr ⟨Or.inr ⟨he, hne⟩, hall⟩

theorem keptLast_sub (cmpFn : α → α → Int) : ∀ (xs : List α) (e : α),
    e ∈ keptLast cmpFn xs → e ∈ xs
  | [], e, h => by simp [keptLast] at h
  | x :: xs, e, h => by
    rcases (mem_keptLast_cons cmpFn x xs e).1 h with ⟨rfl, _⟩ | h'
    · simp
    · exact List.mem_cons_of_mem _ (keptLast_sub cmpFn xs e h')

theorem keptLast_covers (cmpFn : α → α → Int) (hc : ConsistentCmp cmpFn) :
    ∀ (xs : List α) (x : α), x ∈ xs → ∃ e ∈ keptLast cmpFn xs, cmpFn x e = 0
  | [], x, h => by simp at h
  | y :: ys, x, h => by
    by_cases hall : ∀ z ∈ ys, cmpFn z x ≠ 0
    · rcases List.mem_cons.1 h with rfl | h'
      · exact ⟨x, (mem_keptLast_cons cmpFn x ys x).2 (Or.inl ⟨rfl, hall⟩), hc.refl x⟩
      · obtain ⟨e, he, hxe⟩ := keptLast_covers cmpFn hc ys x h'
        exact ⟨e, (mem_keptLast_cons cmpFn y ys e).2 (Or.inr he), hxe⟩
    · simp only [not_forall, not_not, exists_prop] at hall
      obtain ⟨z, hz, hzx⟩ := hall
      obtain ⟨e, he, hze⟩ := keptLast_covers cmpFn hc ys z hz
      refine ⟨e, (mem_keptLast_cons cmpFn y ys e).2 (Or.inr he), ?_⟩
      have h1 := hc.eq_symm hzx
      have := hc.le_trans x z e (by omega) (by omega)
      have := hc.le_trans e z x (by have := hc.eq_symm hze; omega) (by omega)
      have := hc.antisymm e x
      have := hc.antisymm x e
      omega

/-- C13. Sorting round trip: adding the elements of any finite list `L`, in
order, to an empty tree (consistent comparator) succeeds, and iterating the
result (fresh iterator, loop run until `hasNext()` is false) yields a strictly
ascending list whose elements are exactly the distinct elements of `L`: the
elements of `L` not overwritten by a later equal one (`keptLast`), all taken
from `L`, one for each element of `L` up to comparator equality.  Removing a
key `k` that compares equal to an element `e` of that list returns `true`, and
iterating again yields the same list with exactly `e` deleted. -/
theorem sorting_round_trip (cmpFn : α → α → Int) (hc : ConsistentCmp cmpFn) (L : List α) :
    ∃ b S, (BST.new cmpFn).run (L.map Call.add) = some b ∧
      (∀ fuel : Nat, b.size ≤ (fuel : Int) → ∃ it0 it, b.iterator = .ok it0 ∧
        iterate b fuel it0 = .ok (S, it) ∧ it.hasNext b = .ok false) ∧
      Ascending cmpFn S ∧ (∀ e, e ∈ S ↔ e ∈ keptLast cmpFn L) ∧
      (∀ e ∈ S, e ∈ L) ∧ (∀ x ∈ L, ∃ e ∈ S, cmpFn x e = 0) ∧
      (∀ k, (∃ e ∈ S, cmpFn k e = 0) →
        ∃ b' l1 e l2, b.remove k = some (true, b') ∧ S = l1 ++ e :: l2 ∧ cmpFn k e = 0 ∧
          (∀ fuel : Nat, b'.size ≤ (fuel : Int) → ∃ it0 it, b'.iterator = .ok it0 ∧
            iterate b' fuel it0 = .ok (l1 ++ l2, it) ∧ it.hasNext b' = .ok false)) := by
  obtain ⟨b, hrun, hv, hcmp, hmem⟩ := BST.run_adds L (BST.new cmpFn) (BST.new_valid cmpFn hc)
  have hcmp' : b.cmpFn = cmpFn := hcmp
  have hmem' : ∀ e, e ∈ b.mapAll ↔ e ∈ keptLast cmpFn L := by
    intro e
    rw [hmem e]
    simp [BST.new, BST.mapAll, recBSTAll]
  refine ⟨b, b.mapAll, hrun, fun fuel hf => BST.iterate_all_valid b hv fuel hf,
    hcmp' ▸ hv.ordered, hmem', ?_, ?_, ?_⟩
  · intro e he
    exact keptLast_sub cmpFn L e ((hmem' e).1 he)
  · intro x hx
    obtain ⟨e, he, hxe⟩ := keptLast_covers cmpFn hc L x hx
    exact ⟨e, (hmem' e).2 he, hxe⟩
  · rintro k ⟨e, he, hke⟩
    rcases BST.remove_spec b hv k with ⟨habs, _⟩ | ⟨b', l1, e', l2, hrem, hv', _, hin, hke', hin', _⟩
    · exact absurd hke (hcmp' ▸ habs e he)
    · refine ⟨b', l1, e', l2, hrem, hin, hcmp' ▸ hke', ?_⟩
      intro fuel hf
      rw [← hin']
      exact BST.iterate_all_valid b' hv' fuel hf

theorem sorting_round_trip_witness :
    ConsistentCmp OperatorCmp ∧
    ((BST.new OperatorCmp).run ([5, 3, 8, 1, 4, 7, 9, 2, 6].map Call.add)).bind
        (fun b => b.iterateFresh 9) = some [1, 2, 3, 4, 5, 6, 7, 8, 9] ∧
    ((BST.new OperatorCmp).run ([5, 3, 8, 1, 4, 7, 9, 2, 6].map Call.add)).bind
        (fun b => (b.remove 3).bind (fun p => (p.2.iterateFresh 9).map (fun S => (p.1, S))))
      = some (true, [1, 2, 4, 5, 6, 7, 8, 9]) ∧
    ∃ b S, (BST.new OperatorCmp).run ([5, 3, 8, 1, 4, 7, 9, 2, 6].map Call.add) = some b ∧
      (∀ fuel : Nat, b.size ≤ (fuel : Int) → ∃ it0 it, b.iterator = .ok it0 ∧
        iterate b fuel it0 = .ok (S, it) ∧ it.hasNext b = .ok false) ∧
      Ascending OperatorCmp S ∧
      (∀ e, e ∈ S ↔ e ∈ keptLast OperatorCmp [5, 3, 8, 1, 4, 7, 9, 2, 6]) ∧
      (∀ e ∈ S, e ∈ [5, 3, 8, 1, 4, 7, 9, 2, 6]) ∧
      (∀ x ∈ [5, 3, 8, 1, 4, 7, 9, 2, 6], ∃ e ∈ S, OperatorCmp x e = 0) ∧
      (∀ k, (∃ e ∈ S, OperatorCmp k e = 0) →
        ∃ b' l1 e l2, b.remove k = some (true, b') ∧ S = l1 ++ e :: l2 ∧ OperatorCmp k e = 0 ∧
          (∀ fuel : Nat, b'.size ≤ (fuel : Int) → ∃ it0 it, b'.iterator = .ok it0 ∧
            iterate b' fuel it0 = .ok (l1 ++ l2, it) ∧ it.hasNext b' = .ok false)) :=
  ⟨OperatorCmp_consistent, by decide, by decide,
    sorting_round_trip OperatorCmp OperatorCmp_consistent [5, 3, 8, 1, 4, 7, 9, 2, 6]⟩

end RoundTrip

section HeightBound

variable {α : Type}

theorem minNodesAux_snd (h : Nat) : (minNodesAux h).2 = minNodes (h + 1) := rfl

theorem minNodes_add_two (h : Nat) : minNodes (h + 2) = minNodes (h + 1) + minNodes h + 1 := by
  show (minNodesAux (h + 1)).2 = (minNodesAux h).2 + (minNodesAux h).1 + 1
  simp only [minNodesAux]
  omega

theorem minNodes_le_succ : ∀ h : Nat, minNodes h ≤ minNodes (h + 1)
  | 0 => by decide
  | h + 1 => by
    rw [minNodes_add_two]
    omega

theorem minNodes_mono {a b : Nat} (hab : a ≤ b) : minNodes a ≤ minNodes b := by
  induction hab with
  | refl => exact Nat.le_refl _
  | step _ ih => exact Nat.le_trans ih (minNodes_le_succ _)

theorem minNodes_le_countNodes : ∀ (t : nodeT α), Balanced t →
    minNodes (height t) ≤ countNodes t
  | .NULL, _ => Nat.le_refl 0
  | .node _ l r bf, hb => by
    obtain ⟨hbl, hbr, hbf, h1, h2⟩ := hb
    have il := minNodes_le_countNodes l hbl
    have ir := minNodes_le_countNodes r hbr
    simp only [height, countNodes]
    rcases Nat.le_total (height l) (height r) with hle | hle
    · rw [Nat.max_eq_right hle]
      rcases Nat.eq_zero_or_pos (height r) with hz | hpos
      · have hl0 : height l = 0 := by omega
        rw [hz]
        have : minNodes (0 + 1) = 1 := rfl
        omega
      · obtain ⟨k, hk⟩ : ∃ k, height r = k + 1 := ⟨height r - 1, by omega⟩
        have hkl : k ≤ height l := by omega
        have := minNodes_mono hkl
        rw [hk] at ir ⊢
        rw [minNodes_add_two]
        omega
    · rw [Nat.max_eq_left hle]
      rcases Nat.eq_zero_or_pos (height l) with hz | hpos
      · have hr0 : height r = 0 := by omega
        rw [hz]
        have : minNodes (0 + 1) = 1 := rfl
        omega
      · obtain ⟨k, hk⟩ : ∃ k, height l = k + 1 := ⟨height l - 1, by omega⟩
        have hkr : k ≤ height r := by omega
        have := minNodes_mono hkr
        rw [hk] at il ⊢
        rw [minNodes_add_two]
        omega

theorem minNodes_pow_bound : ∀ h < 93, 33554432 ^ (h - 1) < (minNodes h + 2) ^ 36 := by
  decide

theorem minNodes_92 : 2 ^ 64 ≤ minNodes 92 := by decide

theorem height_pow_bound (t : nodeT α) (hb : Balanced t) (hn : countNodes t < 2 ^ 64) :
    33554432 ^ (height t - 1) < (countNodes t + 2) ^ 36 := by
  have hmin := minNodes_le_countNodes t hb
  have hlt : height t < 93 := by
    by_contra hge
    have := minNodes_mono (show 92 ≤ height t by omega)
    have := minNodes_92
    omega
  exact Nat.lt_of_lt_of_le (minNodes_pow_bound (height t) hlt)
    (Nat.pow_le_pow_left (by omega) 36)

theorem le_ceil_of_pow_lt (h n : Nat) (hpow : 33554432 ^ (h - 1) < (n + 2) ^ 36) :
    (h : Int) ≤ ⌈(1.44 : ℝ) * Real.logb 2 ((n : ℝ) + 2)⌉ := by
  have hcast : ((33554432 : ℝ) ^ (h - 1)) < ((n : ℝ) + 2) ^ 36 := by exact_mod_cast hpow
  have hpos : (0 : ℝ) < (33554432 : ℝ) ^ (h - 1) := by positivity
  have hlog := Real.logb_lt_logb (b := 2) (by norm_num) hpos hcast
  have h25 : Real.logb 2 (33554432 : ℝ) = 25 := by
    have : (33554432 : ℝ) = 2 ^ (25 : ℕ) := by norm_num
    rw [this, Real.logb_pow, Real.logb_self_eq_one (by norm_num)]
    norm_num
  rw [Real.logb_pow, Real.logb_pow, h25] at hlog
  have hlt : ((h : Int) - 1 : Int) < ⌈(1.44 : ℝ) * Real.logb 2 ((n : ℝ) + 2)⌉ := by
    rw [Int.lt_ceil]
    push_cast at hlog ⊢
    rcases Nat.eq_zero_or_pos h with rfl | hpos
    · norm_num at hlog ⊢
      linarith
    · have hsub : ((h - 1 : Nat) : ℝ) = (h : ℝ) - 1 := by
        rw [Nat.cast_sub hpos]
        simp
      rw [hsub] at hlog
      linarith
  omega

/-- C14. Height bound: every tree obtained from the empty tree by a sequence
of `add`/`remove` calls (consistent comparator) and holding `n` elements,
where `n` fits a machine integer (`n < 2^64`; the member `numNodes` is an
`int`), has height at most `⌈1.44 · log₂(n + 2)⌉`. -/
theorem height_bound (cmpFn : α → α → Int) (hc : ConsistentCmp cmpFn) (calls : List (Call α)) :
    ∃ (b : BST α) (n : Nat), (BST.new cmpFn).run calls = some b ∧ b.size = (n : Int) ∧
      countNodes b.root = n ∧
      (n < 2 ^ 64 →
        (height b.root : Int) ≤ ⌈(1.44 : ℝ) * Real.logb 2 ((n : ℝ) + 2)⌉) := by
  obtain ⟨b, h, hv, _⟩ := BST.run_valid calls (BST.new cmpFn) (BST.new_valid cmpFn hc)
  exact ⟨b, countNodes b.root, h, hv.count, rfl, fun hn =>
    le_ceil_of_pow_lt (height b.root) (countNodes b.root) (height_pow_bound b.root hv.balanced hn)⟩

theorem height_bound_witness :
    ConsistentCmp OperatorCmp ∧
    ∃ (b : BST Int) (n : Nat), (BST.new OperatorCmp).run
        [.add 5, .add 3, .add 8, .add 1, .add 4, .add 7, .add 9, .add 2, .add 6, .remove 3]
          = some b ∧ b.size = (n : Int) ∧ countNodes b.root = n ∧
      (n < 2 ^ 64 →
        (height b.root : Int) ≤ ⌈(1.44 : ℝ) * Real.logb 2 ((n : ℝ) + 2)⌉) :=
  ⟨OperatorCmp_consistent, height_bound OperatorCmp OperatorCmp_consistent _⟩

end HeightBound

section Arrays

variable {α : Type}

theorem arrayGet_natCast (a : List α) (n : Nat) : arrayGet a (n : Int) = a[n]? := by
  simp [arrayGet]

theorem arraySet_natCast (a : List α) (n : Nat) (x : α) (h : n < a.length) :
    arraySet a (n : Int) x = some (a.set n x) := by
  simp [arraySet, h]

theorem copyElements_spec (src : List α) : ∀ (k : Nat) (dst : List α) (i : Nat),
    i + k ≤ src.length → i + k ≤ dst.length →
    ∃ r, copyElements src dst (i : Int) k = some r ∧ r.length = dst.length ∧
      ∀ j, r[j]? = if i ≤ j ∧ j < i + k then src[j]? else dst[j]?
  | 0, dst, i, _, _ => ⟨dst, rfl, rfl, fun j => by
      rw [if_neg]
      omega⟩
  | k + 1, dst, i, h1, h2 => by
    have hi : i < src.length := by omega
    obtain ⟨r, hr, hlen, hget⟩ := copyElements_spec src k (dst.set i src[i]) (i + 1)
      (by omega) (by simp; omega)
    refine ⟨r, ?_, by simpa using hlen, ?_⟩
    · have hcast : ((i : Int) + 1) = ((i + 1 : Nat) : Int) := by push_cast; rfl
      simp only [copyElements, arrayGet_natCast, List.getElem?_eq_getElem hi, Option.bind_eq_bind,
        Option.some_bind, arraySet_natCast dst i src[i] (by omega), hcast]
      exact hr
    · intro j
      rw [hget j, List.getElem?_set]
      by_cases hj : i = j
      · subst hj
        have c1 : ¬ (i + 1 ≤ i ∧ i < i + 1 + k) := by omega
        have c2 : i ≤ i ∧ i < i + (k + 1) := by omega
        have c3 : i < dst.length := by omega
        simp [c1, c2, c3, List.getElem?_eq_getElem hi]
      · by_cases hc : i + 1 ≤ j ∧ j < i + 1 + k
        · have c2 : i ≤ j ∧ j < i + (k + 1) := by omega
          simp [hc, c2]
        · have c2 : ¬ (i ≤ j ∧ j < i + (k + 1)) := by omega
          simp [hc, c2, hj]

theorem shiftUp_spec (i : Nat) : ∀ (k : Nat) (a : List α), i + k < a.length →
    ∃ r, shiftUp (i : Int) a k = some r ∧ r.length = a.length ∧
      ∀ j, r[j]? = if i < j ∧ j ≤ i + k then a[j - 1]? else a[j]?
  | 0, a, _ => ⟨a, rfl, rfl, fun j => by
      rw [if_neg]
      omega⟩
  | k + 1, a, h => by
    have hik : i + k < a.length := by omega
    obtain ⟨r, hr, hlen, hget⟩ := shiftUp_spec i k (a.set (i + k + 1) a[i + k]) (by simp; omega)
    refine ⟨r, ?_, by simpa using hlen, ?_⟩
    · have hc1 : (((i + k + 1 : Nat) : Int) - 1) = ((i + k : Nat) : Int) := by
        push_cast; omega
      have hc2 : ((i : Int) + ((k + 1 : Nat) : Int)) = ((i + k + 1 : Nat) : Int) := by
        push_cast; omega
      simp only [shiftUp, hc2, hc1, arrayGet_natCast, List.getElem?_eq_getElem hik,
        Option.bind_eq_bind, Option.some_bind, arraySet_natCast a (i + k + 1) a[i + k] h]
      exact hr
    · intro j
      rw [hget j]
      by_cases hc : i < j ∧ j ≤ i + k
      · have c2 : i < j ∧ j ≤ i + (k + 1) := by omega
        have c3 : i + k + 1 ≠ j - 1 := by omega
        simp [hc, c2, List.getElem?_set_ne c3]
      · by_cases hj : j = i + k + 1
        · subst hj
          have c2 : i < i + k + 1 ∧ i + k + 1 ≤ i + (k + 1) := by omega
          have h' : i + k + 1 < a.length := h
          simp [hc, c2, List.getElem?_set, h', List.getElem?_eq_getElem hik]
        · have c2 : ¬ (i < j ∧ j ≤ i + (k + 1)) := by omega
          have c3 : i + k + 1 ≠ j := by omega
          simp [hc, c2, List.getElem?_set_ne c3]

theorem shiftDown_spec : ∀ (k : Nat) (a : List α) (i : Nat), i + k < a.length →
    ∃ r, shiftDown a (i : Int) k = some r ∧ r.length = a.length ∧
      ∀ j, r[j]? = if i ≤ j ∧ j < i + k then a[j + 1]? else a[j]?
  | 0, a, i, _ => ⟨a, rfl, rfl, fun j => by
      rw [if_neg]
      omega⟩
  | k + 1, a, i, h => by
    have hi1 : i + 1 < a.length := by omega
    obtain ⟨r, hr, hlen, hget⟩ := shiftDown_spec k (a.set i a[i + 1]) (i + 1) (by simp; omega)
    refine ⟨r, ?_, by simpa using hlen, ?_⟩
    · have hcast : ((i : Int) + 1) = ((i + 1 : Nat) : Int) := by push_cast; rfl
      simp only [shiftDown, hcast, arrayGet_natCast, List.getElem?_eq_getElem hi1,
        Option.bind_eq_bind, Option.some_bind, arraySet_natCast a i a[i + 1] (by omega)]
      exact hr
    · intro j
      rw [hget j]
      by_cases hj : j = i
      · subst hj
        have c1 : ¬ (j + 1 ≤ j ∧ j < j + 1 + k) := by omega
        have c2 : j ≤ j ∧ j < j + (k + 1) := by omega
        have c3 : j < a.length := by omega
        simp [c1, c2, List.getElem?_set, c3, List.getElem?_eq_getElem hi1]
      · by_cases hc : i + 1 ≤ j ∧ j < i + 1 + k
        · have c2 : i ≤ j ∧ j < i + (k + 1) := by omega
          have c3 : i ≠ j + 1 := by omega
          simp [hc, c2, List.getElem?_set_ne c3]
        · have c2 : ¬ (i ≤ j ∧ j < i + (k + 1)) := by omega
          have c3 : i ≠ j := by omega
          simp [hc, c2, List.getElem?_set_ne c3]

end Arrays

section VectorProofs

variable {α : Type}

theorem insert_take_eq (a r : List α) (i n : Nat) (x : α) (hin : i ≤ n)
    (hn : n < a.length) (hlen : r.length = a.length)
    (hget : ∀ j, r[j]? = if i < j ∧ j ≤ n then a[j - 1]? else a[j]?) :
    (r.set i x).take (n + 1) = (a.take n).take i ++ x :: (a.take n).drop i := by
  apply List.ext_getElem?
  intro j
  have hl : ((a.take n).take i).length = i := by simp; omega
  rw [List.getElem?_take, List.getElem?_set, hget j, List.getElem?_append, hl]
  by_cases h1 : j < i
  · have c1 : j < n + 1 := by omega
    have c2 : i ≠ j := by omega
    have c3 : ¬ (i < j ∧ j ≤ n) := by omega
    have c4 : j < n := by omega
    simp [h1, c1, c2, c3, c4, List.getElem?_take]
  · by_cases h2 : j = i
    · subst h2
      have c1 : j < n + 1 := by omega
      have c2 : j < r.length := by omega
      simp [c1, c2]
    · have c2 : i ≠ j := fun h => h2 h.symm
      obtain ⟨d, hd⟩ : ∃ d, j - i = d + 1 := ⟨j - i - 1, by omega⟩
      have e1 : i + d = j - 1 := by omega
      rw [if_neg h1, hd, List.getElem?_cons_succ, List.getElem?_drop, e1, List.getElem?_take,
        if_neg c2]
      by_cases h3 : j ≤ n
      · have c1 : j < n + 1 := by omega
        have c3 : i < j ∧ j ≤ n := by omega
        have c4 : j - 1 < n := by omega
        simp [c1, c3, c4]
      · have c1 : ¬ j < n + 1 := by omega
        have c4 : ¬ j - 1 < n := by omega
        simp [c1, c4]

theorem remove_take_eq (a r : List α) (i n : Nat) (hi : i < n)
    (hn : n ≤ a.length) (hlen : r.length = a.length)
    (hget : ∀ j, r[j]? = if i ≤ j ∧ j < n - 1 then a[j + 1]? else a[j]?) :
    r.take (n - 1) = (a.take n).take i ++ (a.take n).drop (i + 1) := by
  apply List.ext_getElem?
  intro j
  have hl : ((a.take n).take i).length = i := by simp; omega
  rw [List.getElem?_take, hget j, List.getElem?_append, hl]
  by_cases h1 : j < i
  · have c1 : j < n - 1 := by omega
    have c3 : ¬ (i ≤ j ∧ j < n - 1) := by omega
    have c4 : j < n := by omega
    simp [h1, c1, c3, c4, List.getElem?_take]
  · have e1 : i + 1 + (j - i) = j + 1 := by omega
    rw [if_neg h1, List.getElem?_drop, e1, List.getElem?_take]
    by_cases h3 : j < n - 1
    · have c3 : i ≤ j ∧ j < n - 1 := by omega
      have c4 : j + 1 < n := by omega
      simp [h3, c3, c4]
    · have c4 : ¬ j + 1 < n := by omega
      simp [h3, c4]

theorem Vector.enlargeCapacity_spec [Inhabited α] (v : Vector α) (hwf : v.WF) :
    ∃ v', v.enlargeCapacity = some v' ∧ v'.WF ∧ v'.numUsed = v.numUsed ∧
      v'.contents = v.contents ∧ v'.timestamp = v.timestamp ∧
      v'.numAllocated = (if v.numAllocated = 0 then 10 else v.numAllocated * 2) := by
  obtain ⟨elements, numAllocated, numUsed, timestamp⟩ := v
  obtain ⟨h0, hle, hlen⟩ := hwf
  simp only at h0 hle hlen
  obtain ⟨n, rfl⟩ := Int.eq_ofNat_of_zero_le h0
  have hN : (n : Int) ≤ (if numAllocated = 0 then 10 else numAllocated * 2) := by
    split_ifs <;> omega
  obtain ⟨r, hr, hrlen, hget⟩ := copyElements_spec elements n
    (List.replicate (if numAllocated = 0 then (10 : Int) else numAllocated * 2).toNat
      (default : α)) 0 (by omega) (by simp; omega)
  refine ⟨Vector.mk r (if numAllocated = 0 then 10 else numAllocated * 2) n timestamp, ?_,
    ⟨h0, hN, by simpa using hrlen⟩, rfl, ?_, rfl, rfl⟩
  · simp only [Vector.enlargeCapacity, Int.toNat_ofNat]
    have hr' := hr
    simp only [Nat.cast_zero] at hr'
    rw [hr']
    rfl
  · simp only [Vector.contents, Int.toNat_ofNat]
    apply List.ext_getElem?
    intro j
    rw [List.getElem?_take, List.getElem?_take, hget j]
    by_cases hj : j < n
    · have c : 0 ≤ j ∧ j < 0 + n := by omega
      simp [hj, c]
    · simp [hj]

theorem Vector.insertAt_prepare [Inhabited α] (v : Vector α) (hwf : v.WF) :
    ∃ v1, (if v.numAllocated = v.numUsed then v.enlargeCapacity else some v) = some v1 ∧
      v1.WF ∧ v1.numUsed = v.numUsed ∧ v1.contents = v.contents ∧
      v1.timestamp = v.timestamp ∧ v1.numUsed < v1.numAllocated := by
  by_cases hfull : v.numAllocated = v.numUsed
  · obtain ⟨v', h, hwf', hu, hc, ht, ha⟩ := Vector.enlargeCapacity_spec v hwf
    refine ⟨v', by simp [hfull, h], hwf', hu, hc, ht, ?_⟩
    rw [hu, ha]
    have := hwf.used_nonneg
    split_ifs <;> omega
  · refine ⟨v, by simp [hfull], hwf, rfl, rfl, rfl, ?_⟩
    have := hwf.used_le
    omega

theorem Vector.contents_length (v : Vector α) (hwf : v.WF) :
    (v.contents.length : Int) = v.size := by
  obtain ⟨h0, hle, hlen⟩ := hwf
  simp only [Vector.contents, Vector.size, List.length_take, hlen]
  omega

/-- C18. `Vector::insertAt`: on a well-formed vector with contents
`e0 .. e(n-1)`, for `0 <= index <= n` the call `insertAt(index, x)` returns
and leaves the contents `e0 .. e(index-1), x, e(index) .. e(n-1)` and size
`n + 1`; for `index < 0` or `index > n` it raises an error with size and
contents unchanged; `add(x)` is `insertAt(size(), x)`. -/
theorem vector_insertAt [Inhabited α] (v : Vector α) (hwf : v.WF) (index : Int) (x : α) :
    (0 ≤ index ∧ index ≤ v.size →
      ∃ v', v.insertAt index x = .returned () v' ∧ v'.WF ∧
        v'.contents = v.contents.take index.toNat ++ x :: v.contents.drop index.toNat ∧
        v'.size = v.size + 1) ∧
    (index < 0 ∨ v.size < index →
      ∃ msg v', v.insertAt index x = .raised msg v' ∧ v'.size = v.size ∧
        v'.contents = v.contents) ∧
    v.add x = v.insertAt v.size x ∧ (v.contents.length : Int) = v.size := by
  obtain ⟨v1, hprep, hwf1, hu1, hc1, _, hroom⟩ := Vector.insertAt_prepare v hwf
  refine ⟨?_, ?_, rfl, Vector.contents_length v hwf⟩
  · rintro ⟨hi0, hin⟩
    obtain ⟨i, rfl⟩ := Int.eq_ofNat_of_zero_le hi0
    obtain ⟨n, hn⟩ := Int.eq_ofNat_of_zero_le hwf1.used_nonneg
    have hsize : v.size = (n : Int) := by rw [Vector.size, ← hu1, hn]
    have hin' : i ≤ n := by omega
    have hlen1 := hwf1.allocated
    have hnlen : n < v1.elements.length := by omega
    have hk : (v1.numUsed - (i : Int)).toNat = n - i := by omega
    obtain ⟨r, hr, hrlen, hget⟩ := shiftUp_spec i (n - i) v1.elements (by omega)
    have hget' : ∀ j, r[j]? = if i < j ∧ j ≤ n then v1.elements[j - 1]? else v1.elements[j]? := by
      intro j
      rw [hget j]
      have : i + (n - i) = n := by omega
      rw [this]
    have hcheck : (if (i : Int) ≠ v1.numUsed then v1.checkRange i "insertAt" else none)
        = none := by
      by_cases hne : (i : Int) = v1.numUsed
      · simp [hne]
      · have : ¬ ((i : Int) < 0 ∨ (i : Int) ≥ v1.size) := by
          simp only [Vector.size]
          omega
        simp [hne, Vector.checkRange, this]
    refine ⟨Vector.mk (r.set i x) v1.numAllocated (v1.numUsed + 1) (v1.timestamp + 1), ?_, ?_, ?_,
      ?_⟩
    · simp only [Vector.insertAt, hprep, hcheck, hk, hr, Option.some_bind,
        arraySet_natCast r i x (by omega)]
    · exact ⟨by simp only; omega, by simp only; omega, by simpa [hrlen] using hlen1⟩
    · have := insert_take_eq v1.elements r i n x hin' hnlen hrlen hget'
      rw [← hc1]
      have e : ((n : Int) + 1).toNat = n + 1 := by omega
      simp only [Vector.contents, Int.toNat_ofNat, hn, e]
      exact this
    · simp only [Vector.size]
      omega
  · intro hbad
    have hne : index ≠ v1.numUsed := by
      have := hwf1.used_nonneg
      simp only [Vector.size] at hbad
      omega
    have hrange : index < 0 ∨ index ≥ v1.size := by
      simp only [Vector.size] at hbad ⊢
      omega
    refine ⟨"Attempt to " ++ "insertAt" ++ " index " ++ IntegerToString index ++
      " in a vector of size " ++ IntegerToString v1.size ++ ".", v1, ?_,
      by simp only [Vector.size, hu1], hc1⟩
    simp only [Vector.insertAt, hprep, hne, ne_eq, not_false_eq_true, if_true, Vector.checkRange,
      hrange]

theorem exampleVector_wf : exampleVector.WF := ⟨by decide, by decide, by decide⟩

theorem exampleFullVector_wf : exampleFullVector.WF := ⟨by decide, by decide, by decide⟩

theorem vector_insertAt_witness :
    exampleVector.WF ∧ exampleFullVector.WF ∧
    (∃ v', exampleVector.insertAt 1 99 = .returned () v' ∧ v'.WF ∧
        v'.contents = exampleVector.contents.take (1 : Int).toNat ++
          99 :: exampleVector.contents.drop (1 : Int).toNat ∧
        v'.size = exampleVector.size + 1) ∧
    (∃ v', exampleFullVector.insertAt 2 99 = .returned () v' ∧ v'.WF ∧
        v'.contents = exampleFullVector.contents.take (2 : Int).toNat ++
          99 :: exampleFullVector.contents.drop (2 : Int).toNat ∧
        v'.size = exampleFullVector.size + 1) ∧
    (∃ msg v', exampleVector.insertAt 4 99 = .raised msg v' ∧ v'.size = exampleVector.size ∧
        v'.contents = exampleVector.contents) ∧
    (∃ msg v', exampleVector.insertAt (-1) 99 = .raised msg v' ∧ v'.size = exampleVector.size ∧
        v'.contents = exampleVector.contents) :=
  ⟨exampleVector_wf, exampleFullVector_wf,
    (vector_insertAt exampleVector exampleVector_wf 1 99).1 (by decide),
    (vector_insertAt exampleFullVector exampleFullVector_wf 2 99).1 (by decide),
    (vector_insertAt exampleVector exampleVector_wf 4 99).2.1 (by decide),
    (vector_insertAt exampleVector exampleVector_wf (-1) 99).2.1 (by decide)⟩

/-- C19. `Vector::removeAt`: on a well-formed vector with contents
`e0 .. e(n-1)`, for `0 <= index <= n-1` the call `removeAt(index)` returns and
leaves the contents `e0 .. e(index-1), e(index+1) .. e(n-1)` and size `n - 1`;
for every index outside `[0, n-1]` (so for every index when the vector is
empty) it raises an error and the vector is unchanged. -/
theorem vector_removeAt (v : Vector α) (hwf : v.WF) (index : Int) :
    (0 ≤ index ∧ index ≤ v.size - 1 →
      ∃ v', v.removeAt index = .returned () v' ∧ v'.WF ∧
        v'.contents = v.contents.take index.toNat ++ v.contents.drop (index.toNat + 1) ∧
        v'.size = v.size - 1) ∧
    (index < 0 ∨ v.size - 1 < index → ∃ msg, v.removeAt index = .raised msg v) ∧
    (v.contents.length : Int) = v.size := by
  refine ⟨?_, ?_, Vector.contents_length v hwf⟩
  · rintro ⟨hi0, hin⟩
    obtain ⟨i, rfl⟩ := Int.eq_ofNat_of_zero_le hi0
    obtain ⟨n, hn⟩ := Int.eq_ofNat_of_zero_le hwf.used_nonneg
    simp only [Vector.size] at hin
    have hin' : i < n := by omega
    have hlen := hwf.allocated
    have hle := hwf.used_le
    have hnlen : n ≤ v.elements.length := by omega
    have hk : (v.numUsed - 1 - (i : Int)).toNat = n - 1 - i := by omega
    obtain ⟨r, hr, hrlen, hget⟩ := shiftDown_spec (n - 1 - i) v.elements i (by omega)
    have hget' : ∀ j, r[j]? = if i ≤ j ∧ j < n - 1 then v.elements[j + 1]? else v.elements[j]? := by
      intro j
      rw [hget j]
      have : i + (n - 1 - i) = n - 1 := by omega
      rw [this]
    have hcheck : v.checkRange i "removeAt" = none := by
      have : ¬ ((i : Int) < 0 ∨ (i : Int) ≥ v.size) := by
        simp only [Vector.size]
        omega
      simp [Vector.checkRange, this]
    refine ⟨Vector.mk r v.numAllocated (v.numUsed - 1) (v.timestamp + 1), ?_, ?_, ?_, rfl⟩
    · simp only [Vector.removeAt, hcheck, hk, hr]
    · exact ⟨by simp only; omega, by simp only; omega, by simpa [hrlen] using hlen⟩
    · have := remove_take_eq v.elements r i n hin' hnlen hrlen hget'
      have e : ((n : Int) - 1).toNat = n - 1 := by omega
      simp only [Vector.contents, Int.toNat_ofNat, hn, e]
      exact this
  · intro hbad
    have hrange : index < 0 ∨ index ≥ v.size := by omega
    exact ⟨"Attempt to " ++ "removeAt" ++ " index " ++ IntegerToString index ++
      " in a vector of size " ++ IntegerToString v.size ++ ".",
      by simp only [Vector.removeAt, Vector.checkRange, hrange, if_true]⟩

theorem vector_removeAt_witness :
    exampleVector.WF ∧
    (∃ v', exampleVector.removeAt 0 = .returned () v' ∧ v'.WF ∧
        v'.contents = exampleVector.contents.take (0 : Int).toNat ++
          exampleVector.contents.drop ((0 : Int).toNat + 1) ∧
        v'.size = exampleVector.size - 1) ∧
    (∃ msg, exampleVector.removeAt 3 = .raised msg exampleVector) ∧
    (∃ msg, (Vector.mk ([] : List Int) 0 0 0).removeAt 0
      = .raised msg (Vector.mk ([] : List Int) 0 0 0)) :=
  ⟨exampleVector_wf,
    (vector_removeAt exampleVector exampleVector_wf 0).1 (by decide),
    (vector_removeAt exampleVector exampleVector_wf 3).2.1 (by decide),
    (vector_removeAt (Vector.mk ([] : List Int) 0 0 0) ⟨by decide, by decide, by decide⟩ 0).2.1
      (by decide)⟩

end VectorProofs

section GridProofs

variable {α : Type}

theorem Grid.elementRef_error_iff (g : Grid α) (row col : Int) :
    (∃ msg, g.elementRef row col = .error msg) ↔
      (row < 0 ∨ g.numRows - 1 < row ∨ col < 0 ∨ g.numCols - 1 < col) := by
  unfold Grid.elementRef Grid.checkRange
  by_cases h : row < 0 ∨ row ≥ g.numRows ∨ col < 0 ∨ col ≥ g.numCols
  · rw [if_pos h]
    exact ⟨fun _ => by omega, fun _ => ⟨_, rfl⟩⟩
  · rw [if_neg h]
    constructor
    · rintro ⟨msg, hm⟩
      cases hm
    · intro h'
      exact absurd (by omega) h

theorem Grid.elementRef_ok (g : Grid α) (row col : Int)
    (h : ¬ (row < 0 ∨ g.numRows - 1 < row ∨ col < 0 ∨ g.numCols - 1 < col)) :
    g.elementRef row col = .ok (row * g.nCols + col) := by
  unfold Grid.elementRef Grid.checkRange
  have h' : ¬ (row < 0 ∨ row ≥ g.numRows ∨ col < 0 ∨ col ≥ g.numCols) := by omega
  rw [if_neg h']

theorem Grid.index_in_block (g : Grid α) (hwf : g.WF) (row col : Int)
    (h : ¬ (row < 0 ∨ g.numRows - 1 < row ∨ col < 0 ∨ g.numCols - 1 < col)) :
    0 ≤ row * g.nCols + col ∧ (row * g.nCols + col).toNat < g.elements.length := by
  simp only [Grid.numRows, Grid.numCols, not_or, not_lt] at h
  obtain ⟨h1, h2, h3, h4⟩ := h
  have hc := hwf.cols_nonneg
  have hmul : 0 ≤ row * g.nCols := Int.mul_nonneg h1 hc
  have hle : row * g.nCols ≤ (g.nRows - 1) * g.nCols :=
    Int.mul_le_mul_of_nonneg_right h2 hc
  have hexp : (g.nRows - 1) * g.nCols = g.nRows * g.nCols - g.nCols := by ring
  refine ⟨by omega, ?_⟩
  rw [hwf.allocated]
  omega

/-- C20. Grid bounds checking: for every grid with `numRows() = R` and
`numCols() = C` and all integers `row`, `col`, each of `getAt(row, col)` and
`setAt(row, col, v)` raises an error if and only if `row` is outside
`[0, R-1]` or `col` is outside `[0, C-1]`; when one raises, the grid is
unchanged; on a well-formed grid an in-range call returns (`getAt` leaving
the grid as it is, `setAt` keeping the dimensions). -/
theorem grid_bounds_checking (g : Grid α) (row col : Int) (value : α) :
    ((∃ msg g', g.getAt row col = .raised msg g') ↔
      (row < 0 ∨ g.numRows - 1 < row ∨ col < 0 ∨ g.numCols - 1 < col)) ∧
    ((∃ msg g', g.setAt row col value = .raised msg g') ↔
      (row < 0 ∨ g.numRows - 1 < row ∨ col < 0 ∨ g.numCols - 1 < col)) ∧
    (∀ msg g', g.getAt row col = .raised msg g' → g' = g) ∧
    (∀ msg g', g.setAt row col value = .raised msg g' → g' = g) ∧
    (g.WF → ¬ (row < 0 ∨ g.numRows - 1 < row ∨ col < 0 ∨ g.numCols - 1 < col) →
      (∃ x, g.getAt row col = .returned x g) ∧
      (∃ g', g.setAt row col value = .returned () g' ∧ g'.numRows = g.numRows ∧
        g'.numCols = g.numCols)) := by
  by_cases h : row < 0 ∨ g.numRows - 1 < row ∨ col < 0 ∨ g.numCols - 1 < col
  · obtain ⟨msg, hm⟩ := (Grid.elementRef_error_iff g row col).2 h
    have hget : g.getAt row col = .raised msg g := by simp only [Grid.getAt, hm]
    have hset : g.setAt row col value = .raised msg g := by simp only [Grid.setAt, hm]
    refine ⟨⟨fun _ => h, fun _ => ⟨msg, g, hget⟩⟩, ⟨fun _ => h, fun _ => ⟨msg, g, hset⟩⟩, ?_, ?_,
      fun _ hn => absurd h hn⟩
    · intro m g' hg
      rw [hget] at hg
      injection hg with _ hg
      exact hg.symm
    · intro m g' hg
      rw [hset] at hg
      injection hg with _ hg
      exact hg.symm
  · have hok := Grid.elementRef_ok g row col h
    have hget_not : ∀ msg g', g.getAt row col ≠ .raised msg g' := by
      intro msg g' hg
      simp only [Grid.getAt, hok] at hg
      cases hx : arrayGet g.elements (row * g.nCols + col) with
      | none => simp [hx] at hg
      | some x => simp [hx] at hg
    have hset_not : ∀ msg g', g.setAt row col value ≠ .raised msg g' := by
      intro msg g' hg
      simp only [Grid.setAt, hok] at hg
      cases hx : arraySet g.elements (row * g.nCols + col) value with
      | none => simp [hx] at hg
      | some x => simp [hx] at hg
    refine ⟨⟨fun ⟨m, g', hg⟩ => absurd hg (hget_not m g'), fun h' => absurd h' h⟩,
      ⟨fun ⟨m, g', hg⟩ => absurd hg (hset_not m g'), fun h' => absurd h' h⟩,
      fun m g' hg => absurd hg (hget_not m g'), fun m g' hg => absurd hg (hset_not m g'), ?_⟩
    intro hwf _
    obtain ⟨h0, hlt⟩ := Grid.index_in_block g hwf row col h
    constructor
    · obtain ⟨x, hx⟩ : ∃ x, g.elements[(row * g.nCols + col).toNat]? = some x :=
        ⟨_, List.getElem?_eq_getElem hlt⟩
      exact ⟨x, by simp only [Grid.getAt, hok, arrayGet, h0, if_true, hx]⟩
    · refine ⟨{ g with elements := g.elements.set (row * g.nCols + col).toNat value }, ?_, rfl,
        rfl⟩
      have : 0 ≤ row * g.nCols + col ∧ (row * g.nCols + col).toNat < g.elements.length :=
        ⟨h0, hlt⟩
      simp only [Grid.setAt, hok, arraySet, if_pos this]

theorem exampleGrid_wf : exampleGrid.WF := ⟨by decide, by decide, by decide⟩

theorem grid_bounds_checking_witness :
    exampleGrid.WF ∧
    (∃ msg g', exampleGrid.getAt 2 0 = .raised msg g') ∧
    (∃ msg g', exampleGrid.setAt 1 (-1) 7 = .raised msg g') ∧
    (∃ x, exampleGrid.getAt 1 2 = .returned x exampleGrid) ∧
    (∃ g', exampleGrid.setAt 1 2 7 = .returned () g' ∧ g'.numRows = exampleGrid.numRows ∧
      g'.numCols = exampleGrid.numCols) :=
  ⟨exampleGrid_wf,
    (grid_bounds_checking exampleGrid 2 0 0).1.2 (by decide),
    (grid_bounds_checking exampleGrid 1 (-1) 7).2.1.2 (by decide),
    ((grid_bounds_checking exampleGrid 1 2 7).2.2.2.2 exampleGrid_wf (by decide)).1,
    ((grid_bounds_checking exampleGrid 1 2 7).2.2.2.2 exampleGrid_wf (by decide)).2⟩

end GridProofs

section GridUpdate

variable {α : Type}

theorem rowMajor_injective (C r c r' c' : Int) (hc : 0 ≤ c ∧ c < C) (hc' : 0 ≤ c' ∧ c' < C)
    (h : r * C + c = r' * C + c') : r = r' ∧ c = c' := by
  have h1 : (r * C + c) % C = c := by
    rw [Int.add_comm, Int.add_mul_emod_self]
    exact Int.emod_eq_of_lt hc.1 hc.2
  have h2 : (r' * C + c') % C = c' := by
    rw [Int.add_comm, Int.add_mul_emod_self]
    exact Int.emod_eq_of_lt hc'.1 hc'.2
  have hcc : c = c' := by rw [← h1, ← h2, h]
  subst hcc
  have hC : C ≠ 0 := by omega
  exact ⟨Int.eq_of_mul_eq_mul_right hC (by omega), rfl⟩

theorem Grid.getAt_inrange (g : Grid α) (hwf : g.WF) (row col : Int)
    (hr : 0 ≤ row ∧ row < g.numRows) (hc : 0 ≤ col ∧ col < g.numCols) :
    ∃ x, g.elements[(row * g.nCols + col).toNat]? = some x ∧ g.getAt row col = .returned x g := by
  have h : ¬ (row < 0 ∨ g.numRows - 1 < row ∨ col < 0 ∨ g.numCols - 1 < col) := by omega
  obtain ⟨h0, hlt⟩ := Grid.index_in_block g hwf row col h
  refine ⟨_, List.getElem?_eq_getElem hlt, ?_⟩
  simp only [Grid.getAt, Grid.elementRef_ok g row col h, arrayGet, h0, if_true,
    List.getElem?_eq_getElem hlt]

/-- C21. Grid cell update law: on a well-formed `R x C` grid and an in-range
location `(r, c)`, `setAt(r, c, v)` returns; afterwards `getAt(r, c)` returns
`v`, `getAt(r', c')` returns the value it returned before for every other
in-range location, and `numRows()`/`numCols()` are unchanged; the row-major
index `r*C + c` is injective on in-range locations. -/
theorem grid_cell_update (g : Grid α) (hwf : g.WF) (r c : Int) (v : α)
    (hr : 0 ≤ r ∧ r < g.numRows) (hc : 0 ≤ c ∧ c < g.numCols) :
    ∃ g', g.setAt r c v = .returned () g' ∧ g'.getAt r c = .returned v g' ∧
      g'.numRows = g.numRows ∧ g'.numCols = g.numCols ∧
      (∀ r' c', 0 ≤ r' ∧ r' < g.numRows → 0 ≤ c' ∧ c' < g.numCols → (r', c') ≠ (r, c) →
        ∃ x, g.getAt r' c' = .returned x g ∧ g'.getAt r' c' = .returned x g') ∧
      (∀ r' c', 0 ≤ r' ∧ r' < g.numRows → 0 ≤ c' ∧ c' < g.numCols →
        r' * g.numCols + c' = r * g.numCols + c → r' = r ∧ c' = c) := by
  have h : ¬ (r < 0 ∨ g.numRows - 1 < r ∨ c < 0 ∨ g.numCols - 1 < c) := by omega
  obtain ⟨h0, hlt⟩ := Grid.index_in_block g hwf r c h
  have hwf' : (Grid.mk (g.elements.set (r * g.nCols + c).toNat v) g.nRows g.nCols
      g.timestamp).WF := ⟨hwf.rows_nonneg, hwf.cols_nonneg, by simpa using hwf.allocated⟩
  have hinj : ∀ r' c', 0 ≤ r' ∧ r' < g.numRows → 0 ≤ c' ∧ c' < g.numCols →
      r' * g.numCols + c' = r * g.numCols + c → r' = r ∧ c' = c :=
    fun r' c' _ hc' he => rowMajor_injective g.numCols r' c' r c hc' hc he
  refine ⟨Grid.mk (g.elements.set (r * g.nCols + c).toNat v) g.nRows g.nCols g.timestamp,
    ?_, ?_, rfl, rfl, ?_, hinj⟩
  · simp only [Grid.setAt, Grid.elementRef_ok g r c h, arraySet, if_pos (And.intro h0 hlt)]
  · obtain ⟨x, hx, hget⟩ := Grid.getAt_inrange _ hwf' r c hr hc
    have hx' : x = v := by
      simp only [List.getElem?_set, if_pos hlt, if_true] at hx
      exact (Option.some.inj hx).symm
    rw [hget, hx']
  · intro r' c' hr' hc' hne
    obtain ⟨x, hx, hget⟩ := Grid.getAt_inrange g hwf r' c' hr' hc'
    obtain ⟨y, hy, hget'⟩ := Grid.getAt_inrange _ hwf' r' c' hr' hc'
    have hidx : (r * g.nCols + c).toNat ≠ (r' * g.nCols + c').toNat := by
      intro he
      have h' : ¬ (r' < 0 ∨ g.numRows - 1 < r' ∨ c' < 0 ∨ g.numCols - 1 < c') := by omega
      obtain ⟨h0', _⟩ := Grid.index_in_block g hwf r' c' h'
      have e : r' * g.numCols + c' = r * g.numCols + c := by
        simp only [Grid.numCols]
        omega
      obtain ⟨e1, e2⟩ := hinj r' c' hr' hc' e
      exact hne (by rw [e1, e2])
    have hxy : y = x := by
      simp only [List.getElem?_set_ne hidx] at hy
      rw [hx] at hy
      exact (Option.some.inj hy).symm
    exact ⟨x, hget, by rw [hget', hxy]⟩

theorem grid_cell_update_witness :
    exampleGrid.WF ∧ (0 ≤ (1 : Int) ∧ (1 : Int) < exampleGrid.numRows) ∧
    (0 ≤ (2 : Int) ∧ (2 : Int) < exampleGrid.numCols) ∧
    ∃ g', exampleGrid.setAt 1 2 7 = .returned () g' ∧ g'.getAt 1 2 = .returned 7 g' ∧
      g'.numRows = exampleGrid.numRows ∧ g'.numCols = exampleGrid.numCols ∧
      (∀ r' c', 0 ≤ r' ∧ r' < exampleGrid.numRows → 0 ≤ c' ∧ c' < exampleGrid.numCols →
        (r', c') ≠ (1, 2) →
        ∃ x, exampleGrid.getAt r' c' = .returned x exampleGrid ∧
          g'.getAt r' c' = .returned x g') ∧
      (∀ r' c', 0 ≤ r' ∧ r' < exampleGrid.numRows → 0 ≤ c' ∧ c' < exampleGrid.numCols →
        r' * exampleGrid.numCols + c' = 1 * exampleGrid.numCols + 2 → r' = 1 ∧ c' = 2) :=
  ⟨exampleGrid_wf, by decide, by decide,
    grid_cell_update exampleGrid exampleGrid_wf 1 2 7 (by decide) (by decide)⟩

end GridUpdate

section FixForms

variable {α : Type}

theorem fixLeftImbalance_single (d cd : α) (cl cr r : nodeT α) (bf cbf : Int)
    (h : cbf ≠ RightHeavy) :
    fixLeftImbalance (.node d (.node cd cl cr cbf) r bf)
      = some (if cbf = Even then .node cd cl (.node d cr r LeftHeavy) RightHeavy
              else .node cd cl (.node d cr r Even) Even) := by
  by_cases h0 : cbf = Even
  · subst h0
    rfl
  · simp [fixLeftImbalance, getLeft, getRight, getBF, setBF, setLeft, setRight, rotateRight,
      setRightBF, h, h0]

theorem fixRightImbalance_single (d cd : α) (l cl cr : nodeT α) (bf cbf : Int)
    (h : cbf ≠ LeftHeavy) :
    fixRightImbalance (.node d l (.node cd cl cr cbf) bf)
      = some (if cbf = Even then .node cd (.node d l cl RightHeavy) cr LeftHeavy
              else .node cd (.node d l cl Even) cr Even) := by
  by_cases h0 : cbf = Even
  · subst h0
    rfl
  · simp [fixRightImbalance, getLeft, getRight, getBF, setBF, setLeft, setRight, rotateLeft,
      setLeftBF, h, h0]

theorem fixLeftImbalance_double (d cd gd : α) (cl gl gr r : nodeT α) (bf gbf : Int) :
    ∃ lbf rbf, fixLeftImbalance (.node d (.node cd cl (.node gd gl gr gbf) RightHeavy) r bf)
      = some (.node gd (.node cd cl gl lbf) (.node d gr r rbf) Even) := by
  by_cases h1 : gbf = LeftHeavy
  · exact ⟨_, _, by rw [h1]; rfl⟩
  · by_cases h2 : gbf = Even
    · exact ⟨_, _, by rw [h2]; rfl⟩
    · by_cases h3 : gbf = RightHeavy
      · exact ⟨_, _, by rw [h3]; rfl⟩
      · exact ⟨RightHeavy, bf, by
          simp [fixLeftImbalance, getLeft, getRight, getBF, setBF, setLeft, setRight, rotateRight,
            rotateLeft, h1, h2, h3]⟩

theorem fixRightImbalance_double (d cd gd : α) (l gl gr cr : nodeT α) (bf gbf : Int) :
    ∃ lbf rbf, fixRightImbalance (.node d l (.node cd (.node gd gl gr gbf) cr LeftHeavy) bf)
      = some (.node gd (.node d l gl lbf) (.node cd gr cr rbf) Even) := by
  by_cases h1 : gbf = LeftHeavy
  · exact ⟨_, _, by rw [h1]; rfl⟩
  · by_cases h2 : gbf = Even
    · exact ⟨_, _, by rw [h2]; rfl⟩
    · by_cases h3 : gbf = RightHeavy
      · exact ⟨_, _, by rw [h3]; rfl⟩
      · exact ⟨bf, LeftHeavy, by
          simp [fixRightImbalance, getLeft, getRight, getBF, setBF, setLeft, setRight,
            rotateRight, rotateLeft, h1, h2, h3]⟩

theorem fixLeftImbalance_inorder (t t' : nodeT α) (h : fixLeftImbalance t = some t') :
    recBSTAll t' = recBSTAll t := by
  cases t with
  | NULL => simp [fixLeftImbalance, getLeft] at h
  | node d l r bf =>
    cases l with
    | NULL => simp [fixLeftImbalance, getLeft, getBF] at h
    | node cd cl cr cbf =>
      by_cases h1 : cbf = RightHeavy
      · subst h1
        cases cr with
        | NULL => simp [fixLeftImbalance, getLeft, getBF, getRight] at h
        | node gd gl gr gbf =>
          obtain ⟨lbf, rbf, he⟩ := fixLeftImbalance_double d cd gd cl gl gr r bf gbf
          rw [he] at h
          rw [← Option.some.inj h]
          simp [recBSTAll]
      · rw [fixLeftImbalance_single d cd cl cr r bf cbf h1] at h
        rw [← Option.some.inj h]
        split_ifs <;> simp [recBSTAll]

theorem fixRightImbalance_inorder (t t' : nodeT α) (h : fixRightImbalance t = some t') :
    recBSTAll t' = recBSTAll t := by
  cases t with
  | NULL => simp [fixRightImbalance, getRight] at h
  | node d l r bf =>
    cases r with
    | NULL => simp [fixRightImbalance, getRight, getBF] at h
    | node cd cl cr cbf =>
      by_cases h1 : cbf = LeftHeavy
      · subst h1
        cases cl with
        | NULL => simp [fixRightImbalance, getLeft, getBF, getRight] at h
        | node gd gl gr gbf =>
          obtain ⟨lbf, rbf, he⟩ := fixRightImbalance_double d cd gd l gl gr cr bf gbf
          rw [he] at h
          rw [← Option.some.inj h]
          simp [recBSTAll]
      · rw [fixRightImbalance_single d cd l cl cr bf cbf h1] at h
        rw [← Option.some.inj h]
        split_ifs <;> simp [recBSTAll]

end FixForms

section FixSpecs

variable {α : Type}

theorem fixLeftImbalance_spec (d : α) (l r : nodeT α) (hl : Balanced l) (hr : Balanced r)
    (hbf : (-2 : Int) = (height r : Int) - (height l : Int)) :
    ∃ t' bf', fixLeftImbalance (.node d l r (-2)) = some t' ∧ getBF t' = some bf' ∧
      Balanced t' ∧
      (getBF l = some Even → height t' = height l + 1 ∧ bf' = RightHeavy) ∧
      (getBF l ≠ some Even → height t' = height l ∧ bf' = Even) := by
  cases l with
  | NULL => simp only [height] at hbf; omega
  | node cd cl cr cbf =>
    obtain ⟨hcl, hcr, hcbf, hc1, hc2⟩ := hl
    simp only [height] at hbf hcbf
    have hc : cbf = -1 ∨ cbf = 0 ∨ cbf = 1 := by omega
    rcases hc with rfl | rfl | rfl
    · refine ⟨_, Even, fixLeftImbalance_single_L d cd cl cr r _, rfl, ?_, ?_, ?_⟩
      · simp only [Balanced, height, RightHeavy, LeftHeavy, Even]
        refine ⟨hcl, ⟨hcr, hr, ?_, ?_, ?_⟩, ?_, ?_, ?_⟩ <;> omega
      · intro he; simp [getBF, Even] at he
      · intro _; exact ⟨by simp only [height]; omega, rfl⟩
    · refine ⟨_, RightHeavy, fixLeftImbalance_single_E d cd cl cr r _, rfl, ?_, ?_, ?_⟩
      · simp only [Balanced, height, RightHeavy, LeftHeavy, Even]
        refine ⟨hcl, ⟨hcr, hr, ?_, ?_, ?_⟩, ?_, ?_, ?_⟩ <;> omega
      · intro _; exact ⟨by simp only [height]; omega, rfl⟩
      · intro hne; exact absurd rfl hne
    · cases cr with
      | NULL => simp only [height] at hcbf; omega
      | node gd gl gr gbf =>
        obtain ⟨hgl, hgr, hgbf, hg1, hg2⟩ := hcr
        simp only [height] at hbf hcbf hgbf
        have hg : gbf = -1 ∨ gbf = 0 ∨ gbf = 1 := by omega
        rcases hg with rfl | rfl | rfl
        · refine ⟨_, Even, fixLeftImbalance_double_L d cd gd cl gl gr r _, rfl, ?_, ?_, ?_⟩
          · simp only [Balanced, height, RightHeavy, LeftHeavy, Even]
            refine ⟨⟨hcl, hgl, ?_, ?_, ?_⟩, ⟨hgr, hr, ?_, ?_, ?_⟩, ?_, ?_, ?_⟩ <;> omega
          · intro he; simp [getBF, Even] at he
          · intro _; exact ⟨by simp only [height]; omega, rfl⟩
        · refine ⟨_, Even, fixLeftImbalance_double_E d cd gd cl gl gr r _, rfl, ?_, ?_, ?_⟩
          · simp only [Balanced, height, RightHeavy, LeftHeavy, Even]
            refine ⟨⟨hcl, hgl, ?_, ?_, ?_⟩, ⟨hgr, hr, ?_, ?_, ?_⟩, ?_, ?_, ?_⟩ <;> omega
          · intro he; simp [getBF, Even] at he
          · intro _; exact ⟨by simp only [height]; omega, rfl⟩
        · refine ⟨_, Even, fixLeftImbalance_double_R d cd gd cl gl gr r _, rfl, ?_, ?_, ?_⟩
          · simp only [Balanced, height, RightHeavy, LeftHeavy, Even]
            refine ⟨⟨hcl, hgl, ?_, ?_, ?_⟩, ⟨hgr, hr, ?_, ?_, ?_⟩, ?_, ?_, ?_⟩ <;> omega
          · intro he; simp [getBF, Even] at he
          · intro _; exact ⟨by simp only [height]; omega, rfl⟩

theorem fixRightImbalance_spec (d : α) (l r : nodeT α) (hl : Balanced l) (hr : Balanced r)
    (hbf : (2 : Int) = (height r : Int) - (height l : Int)) :
    ∃ t' bf', fixRightImbalance (.node d l r 2) = some t' ∧ getBF t' = some bf' ∧
      Balanced t' ∧
      (getBF r = some Even → height t' = height r + 1 ∧ bf' = LeftHeavy) ∧
      (getBF r ≠ some Even → height t' = height r ∧ bf' = Even) := by
  cases r with
  | NULL => simp only [height] at hbf; omega
  | node cd cl cr cbf =>
    obtain ⟨hcl, hcr, hcbf, hc1, hc2⟩ := hr
    simp only [height] at hbf hcbf
    have hc : cbf = -1 ∨ cbf = 0 ∨ cbf = 1 := by omega
    rcases hc with rfl | rfl | rfl
    · cases cl with
      | NULL => simp only [height] at hcbf; omega
      | node gd gl gr gbf =>
        obtain ⟨hgl, hgr, hgbf, hg1, hg2⟩ := hcl
        simp only [height] at hbf hcbf hgbf
        have hg : gbf = -1 ∨ gbf = 0 ∨ gbf = 1 := by omega
        rcases hg with rfl | rfl | rfl
        · refine ⟨_, Even, fixRightImbalance_double_L d cd gd l gl gr cr _, rfl, ?_, ?_, ?_⟩
          · simp only [Balanced, height, RightHeavy, LeftHeavy, Even]
            refine ⟨⟨hl, hgl, ?_, ?_, ?_⟩, ⟨hgr, hcr, ?_, ?_, ?_⟩, ?_, ?_, ?_⟩ <;> omega
          · intro he; simp [getBF, Even] at he
          · intro _; exact ⟨by simp only [height]; omega, rfl⟩
        · refine ⟨_, Even, fixRightImbalance_double_E d cd gd l gl gr cr _, rfl, ?_, ?_, ?_⟩
          · simp only [Balanced, height, RightHeavy, LeftHeavy, Even]
            refine ⟨⟨hl, hgl, ?_, ?_, ?_⟩, ⟨hgr, hcr, ?_, ?_, ?_⟩, ?_, ?_, ?_⟩ <;> omega
          · intro he; simp [getBF, Even] at he
          · intro _; exact ⟨by simp only [height]; omega, rfl⟩
        · refine ⟨_, Even, fixRightImbalance_double_R d cd gd l gl gr cr _, rfl, ?_, ?_, ?_⟩
          · simp only [Balanced, height, RightHeavy, LeftHeavy, Even]
            refine ⟨⟨hl, hgl, ?_, ?_, ?_⟩, ⟨hgr, hcr, ?_, ?_, ?_⟩, ?_, ?_, ?_⟩ <;> omega
          · intro he; simp [getBF, Even] at he
          · intro _; exact ⟨by simp only [height]; omega, rfl⟩
    · refine ⟨_, LeftHeavy, fixRightImbalance_single_E d cd l cl cr _, rfl, ?_, ?_, ?_⟩
      · simp only [Balanced, height, RightHeavy, LeftHeavy, Even]
        refine ⟨⟨hl, hcl, ?_, ?_, ?_⟩, hcr, ?_, ?_, ?_⟩ <;> omega
      · intro _; exact ⟨by simp only [height]; omega, rfl⟩
      · intro hne; exact absurd rfl hne
    · refine ⟨_, Even, fixRightImbalance_single_R d cd l cl cr _, rfl, ?_, ?_, ?_⟩
      · simp only [Balanced, height, RightHeavy, LeftHeavy, Even]
        refine ⟨⟨hl, hcl, ?_, ?_, ?_⟩, hcr, ?_, ?_, ?_⟩ <;> omega
      · intro he; simp [getBF, Even] at he
      · intro _; exact ⟨by simp only [height]; omega, rfl⟩

end FixSpecs

section RotationClaims

variable {α : Type}

/-- C24 (amended). Single-rotation balance factors: in the single rotation
of `fixLeftImbalance` (left child not right-heavy), if the child's factor was
even the child rotated up becomes right-heavy and the old subtree root
left-heavy, otherwise both become even; in the single rotation of
`fixRightImbalance` (right child not left-heavy), if the child's factor was
even the child rotated up becomes left-heavy and the old subtree root
right-heavy, otherwise both become even. -/
theorem single_rotation_factors (d cd : α) (a b c : nodeT α) (bf cbf : Int) :
    (cbf ≠ RightHeavy →
      fixLeftImbalance (.node d (.node cd a b cbf) c bf)
        = some (if cbf = Even then .node cd a (.node d b c LeftHeavy) RightHeavy
                else .node cd a (.node d b c Even) Even)) ∧
    (cbf ≠ LeftHeavy →
      fixRightImbalance (.node d a (.node cd b c cbf) bf)
        = some (if cbf = Even then .node cd (.node d a b RightHeavy) c LeftHeavy
                else .node cd (.node d a b Even) c Even)) :=
  ⟨fixLeftImbalance_single d cd a b c bf cbf, fixRightImbalance_single d cd a b c bf cbf⟩

theorem single_rotation_factors_witness :
    fixLeftImbalance (.node (5 : Int) (.node 3 (.node 1 .NULL .NULL 0) .NULL LeftHeavy) .NULL (-2))
      = some (if LeftHeavy = Even
          then .node 3 (.node 1 .NULL .NULL 0) (.node 5 .NULL .NULL LeftHeavy) RightHeavy
          else .node 3 (.node 1 .NULL .NULL 0) (.node 5 .NULL .NULL Even) Even) ∧
    fixRightImbalance (.node (5 : Int) .NULL
        (.node 8 (.node 7 .NULL .NULL 0) (.node 9 .NULL .NULL 0) Even) 2)
      = some (if Even = Even
          then .node 8 (.node 5 .NULL (.node 7 .NULL .NULL 0) RightHeavy) (.node 9 .NULL .NULL 0)
            LeftHeavy
          else .node 8 (.node 5 .NULL (.node 7 .NULL .NULL 0) Even) (.node 9 .NULL .NULL 0) Even) :=
  ⟨(single_rotation_factors 5 3 (.node 1 .NULL .NULL 0) .NULL .NULL (-2) LeftHeavy).1
      (by decide),
    (single_rotation_factors 5 8 .NULL (.node 7 .NULL .NULL 0) (.node 9 .NULL .NULL 0) 2 Even).2
      (by decide)⟩

/-- C24 (as stated, refuted). With an even left child, `fixLeftImbalance`
leaves the child rotated up right-heavy (+1) and the old root left-heavy (-1):
neither is reset to even.  With a left-heavy left child both nodes become
even: they are not split one heavy / one even.  The same holds mirrored for
`fixRightImbalance`. -/
theorem single_rotation_even_child_stays_heavy :
    fixLeftImbalance (.node (5 : Int)
        (.node 3 (.node 1 .NULL .NULL 0) (.node 4 .NULL .NULL 0) 0) .NULL (-2))
      = some (.node 3 (.node 1 .NULL .NULL 0) (.node 5 (.node 4 .NULL .NULL 0) .NULL (-1)) 1) ∧
    fixLeftImbalance (.node (5 : Int) (.node 3 (.node 1 .NULL .NULL 0) .NULL (-1)) .NULL (-2))
      = some (.node 3 (.node 1 .NULL .NULL 0) (.node 5 .NULL .NULL 0) 0) ∧
    fixRightImbalance (.node (5 : Int) .NULL
        (.node 8 (.node 7 .NULL .NULL 0) (.node 9 .NULL .NULL 0) 0) 2)
      = some (.node 8 (.node 5 .NULL (.node 7 .NULL .NULL 0) 1) (.node 9 .NULL .NULL 0) (-1)) ∧
    fixRightImbalance (.node (5 : Int) .NULL (.node 8 .NULL (.node 9 .NULL .NULL 0) 1) 2)
      = some (.node 8 (.node 5 .NULL .NULL 0) (.node 9 .NULL .NULL 0) 0) := by
  decide

/-- C25. Double-rotation case table: in `fixLeftImbalance` with a right-heavy
left child and in `fixRightImbalance` with a left-heavy right child, the
grandchild rotated up gets factor even, and its two new children get: for a
left-heavy grandchild, left even and right right-heavy; for an even
grandchild, both even; for a right-heavy grandchild, left left-heavy and
right even. -/
theorem double_rotation_case_table (d cd gd : α) (a gl gr b : nodeT α) (bf : Int) :
    fixLeftImbalance (.node d (.node cd a (.node gd gl gr LeftHeavy) RightHeavy) b bf)
      = some (.node gd (.node cd a gl Even) (.node d gr b RightHeavy) Even) ∧
    fixLeftImbalance (.node d (.node cd a (.node gd gl gr Even) RightHeavy) b bf)
      = some (.node gd (.node cd a gl Even) (.node d gr b Even) Even) ∧
    fixLeftImbalance (.node d (.node cd a (.node gd gl gr RightHeavy) RightHeavy) b bf)
      = some (.node gd (.node cd a gl LeftHeavy) (.node d gr b Even) Even) ∧
    fixRightImbalance (.node d a (.node cd (.node gd gl gr LeftHeavy) b LeftHeavy) bf)
      = some (.node gd (.node d a gl Even) (.node cd gr b RightHeavy) Even) ∧
    fixRightImbalance (.node d a (.node cd (.node gd gl gr Even) b LeftHeavy) bf)
      = some (.node gd (.node d a gl Even) (.node cd gr b Even) Even) ∧
    fixRightImbalance (.node d a (.node cd (.node gd gl gr RightHeavy) b LeftHeavy) bf)
      = some (.node gd (.node d a gl LeftHeavy) (.node cd gr b Even) Even) :=
  ⟨rfl, rfl, rfl, rfl, rfl, rfl⟩

/-- C26. Rebalancing restores the invariant: if both subtrees of `t` have
correct stored factors in `{-1,0,+1}` and `t` stores the factor -2, equal to
its true height difference, then `fixLeftImbalance(t)` returns a subtree in
which every stored factor is the true height difference and lies in
`{-1,0,+1}`; its height is the height of `t` when the left child was even and
one less otherwise.  Symmetrically for `fixRightImbalance` with factor +2 and
the right child. -/
theorem fix_restores_invariant (d : α) (l r : nodeT α) (hl : Balanced l) (hr : Balanced r) :
    ((-2 : Int) = (height r : Int) - (height l : Int) →
      ∃ t', fixLeftImbalance (.node d l r (-2)) = some t' ∧ Balanced t' ∧
        (getBF l = some Even → height t' = height (.node d l r (-2))) ∧
        (getBF l ≠ some Even → height t' + 1 = height (.node d l r (-2)))) ∧
    ((2 : Int) = (height r : Int) - (height l : Int) →
      ∃ t', fixRightImbalance (.node d l r 2) = some t' ∧ Balanced t' ∧
        (getBF r = some Even → height t' = height (.node d l r 2)) ∧
        (getBF r ≠ some Even → height t' + 1 = height (.node d l r 2))) := by
  constructor
  · intro hbf
    obtain ⟨t', bf', h, _, hb, he, hne⟩ := fixLeftImbalance_spec d l r hl hr hbf
    refine ⟨t', h, hb, fun h0 => ?_, fun h0 => ?_⟩
    · have := (he h0).1
      simp only [height]
      omega
    · have := (hne h0).1
      simp only [height]
      omega
  · intro hbf
    obtain ⟨t', bf', h, _, hb, he, hne⟩ := fixRightImbalance_spec d l r hl hr hbf
    refine ⟨t', h, hb, fun h0 => ?_, fun h0 => ?_⟩
    · have := (he h0).1
      simp only [height]
      omega
    · have := (hne h0).1
      simp only [height]
      omega

theorem fix_restores_invariant_witness :
    Balanced (.node (3 : Int) (.node 1 .NULL .NULL 0) (.node 4 .NULL .NULL 0) 0) ∧
    Balanced (.NULL : nodeT Int) ∧
    ∃ t', fixLeftImbalance (.node (5 : Int)
        (.node 3 (.node 1 .NULL .NULL 0) (.node 4 .NULL .NULL 0) 0) .NULL (-2)) = some t' ∧
      Balanced t' ∧
      (getBF (.node (3 : Int) (.node 1 .NULL .NULL 0) (.node 4 .NULL .NULL 0) 0) = some Even →
        height t' = height (.node (5 : Int)
          (.node 3 (.node 1 .NULL .NULL 0) (.node 4 .NULL .NULL 0) 0) .NULL (-2))) ∧
      (getBF (.node (3 : Int) (.node 1 .NULL .NULL 0) (.node 4 .NULL .NULL 0) 0) ≠ some Even →
        height t' + 1 = height (.node (5 : Int)
          (.node 3 (.node 1 .NULL .NULL 0) (.node 4 .NULL .NULL 0) 0) .NULL (-2))) :=
  ⟨by decide, by decide,
    (fix_restores_invariant 5 (.node 3 (.node 1 .NULL .NULL 0) (.node 4 .NULL .NULL 0) 0) .NULL
      (by decide) (by decide)).1 (by decide)⟩

/-- C27. Rotations preserve sorted order: on a subtree with a right child
`rotateLeft` returns a subtree with the same in-order sequence, on a subtree
with a left child so does `rotateRight`; `fixLeftImbalance` and
`fixRightImbalance` return (single or double rotation) whenever the child
and, for the double rotation, the grandchild they dereference exist, and
whatever they return has the same in-order sequence as their argument. -/
theorem rotations_preserve_inorder :
    (∀ (d rd : α) (l rl rr : nodeT α) (bf rbf : Int),
      ∃ t', rotateLeft (.node d l (.node rd rl rr rbf) bf) = some t' ∧
        recBSTAll t' = recBSTAll (.node d l (.node rd rl rr rbf) bf)) ∧
    (∀ (d ld : α) (ll lr r : nodeT α) (bf lbf : Int),
      ∃ t', rotateRight (.node d (.node ld ll lr lbf) r bf) = some t' ∧
        recBSTAll t' = recBSTAll (.node d (.node ld ll lr lbf) r bf)) ∧
    (∀ t t' : nodeT α, fixLeftImbalance t = some t' → recBSTAll t' = recBSTAll t) ∧
    (∀ t t' : nodeT α, fixRightImbalance t = some t' → recBSTAll t' = recBSTAll t) ∧
    (∀ (d cd : α) (cl cr r : nodeT α) (bf cbf : Int), (cbf = RightHeavy → cr ≠ .NULL) →
      ∃ t', fixLeftImbalance (.node d (.node cd cl cr cbf) r bf) = some t') ∧
    (∀ (d cd : α) (l cl cr : nodeT α) (bf cbf : Int), (cbf = LeftHeavy → cl ≠ .NULL) →
      ∃ t', fixRightImbalance (.node d l (.node cd cl cr cbf) bf) = some t') := by
  refine ⟨?_, ?_, fixLeftImbalance_inorder, fixRightImbalance_inorder, ?_, ?_⟩
  · intro d rd l rl rr bf rbf
    exact ⟨.node rd (.node d l rl bf) rr rbf, rfl, by simp [recBSTAll]⟩
  · intro d ld ll lr r bf lbf
    exact ⟨.node ld ll (.node d lr r bf) lbf, rfl, by simp [recBSTAll]⟩
  · intro d cd cl cr r bf cbf hcr
    by_cases h1 : cbf = RightHeavy
    · subst h1
      cases cr with
      | NULL => exact absurd rfl (hcr rfl)
      | node gd gl gr gbf =>
        obtain ⟨lbf, rbf, he⟩ := fixLeftImbalance_double d cd gd cl gl gr r bf gbf
        exact ⟨_, he⟩
    · exact ⟨_, fixLeftImbalance_single d cd cl cr r bf cbf h1⟩
  · intro d cd l cl cr bf cbf hcl
    by_cases h1 : cbf = LeftHeavy
    · subst h1
      cases cl with
      | NULL => exact absurd rfl (hcl rfl)
      | node gd gl gr gbf =>
        obtain ⟨lbf, rbf, he⟩ := fixRightImbalance_double d cd gd l gl gr cr bf gbf
        exact ⟨_, he⟩
    · exact ⟨_, fixRightImbalance_single d cd l cl cr bf cbf h1⟩

end RotationClaims

section HeightReports

variable {α : Type} {cmpFn : α → α → Int}

/-- C22. Height report on insertion: on a valid AVL subtree `t` (ordered,
correct stored factors, consistent comparator) `recAddNode(t, x)` returns,
the resulting subtree again has correct stored factors, and the returned
`bool` is `true` if and only if the height grew by exactly one and `false` if
and only if the height is unchanged. -/
theorem height_report_insertion (hc : ConsistentCmp cmpFn) (t : nodeT α)
    (ho : Ordered cmpFn t) (hb : Balanced t) (x : α) (c : Bool) (n : Int) :
    ∃ grew t' c' n', recAddNode cmpFn t x c n = some (grew, t', c', n') ∧ Balanced t' ∧
      (grew = true ↔ height t' = height t + 1) ∧ (grew = false ↔ height t' = height t) := by
  obtain ⟨grew, t', c', n', _, _, _, h, hb', hh, _⟩ := recAddNode_spec hc x t c n ho hb
  refine ⟨grew, t', c', n', h, hb', ?_, ?_⟩ <;> cases grew <;> simp at hh ⊢ <;> omega

theorem height_report_insertion_witness :
    ConsistentCmp OperatorCmp ∧ Ordered OperatorCmp exampleTree.root ∧
    Balanced exampleTree.root ∧
    (recAddNode OperatorCmp exampleTree.root 1 false 3).map
        (fun r => (r.1, height r.2.1, height exampleTree.root)) = some (true, 3, 2) ∧
    (recAddNode OperatorCmp exampleTreeWith4.root 7 false 4).map
        (fun r => (r.1, height r.2.1, height exampleTreeWith4.root)) = some (false, 3, 3) ∧
    ∃ grew t' c' n', recAddNode OperatorCmp exampleTree.root 1 false 3
        = some (grew, t', c', n') ∧ Balanced t' ∧
      (grew = true ↔ height t' = height exampleTree.root + 1) ∧
      (grew = false ↔ height t' = height exampleTree.root) :=
  ⟨OperatorCmp_consistent, by decide, by decide, by decide, by decide,
    height_report_insertion OperatorCmp_consistent exampleTree.root (by decide) (by decide) 1
      false 3⟩

theorem removeTargetNode_of_recRemoveNode (hc : ConsistentCmp cmpFn) (d : α) (l r : nodeT α)
    (bf : Int) (c : Bool) (n : Int) (res : Bool × nodeT α × Bool × Int)
    (h : recRemoveNode cmpFn (.node d l r bf) d c n = some res) :
    removeTargetNode (fun key m => recRemoveNode cmpFn l key false m) (.node d l r bf) n
      = some (res.1, res.2.1, res.2.2.2) := by
  simp only [recRemoveNode, hc.refl d, if_true] at h
  cases hrt : removeTargetNode (fun key m => recRemoveNode cmpFn l key false m)
      (.node d l r bf) n with
  | none => simp [hrt] at h
  | some p =>
    obtain ⟨s, t', n'⟩ := p
    simp [hrt] at h
    rw [← h]

/-- C23. Height report on deletion: on a valid AVL subtree `t`,
`recRemoveNode(t, k)` returns, the resulting subtree again has correct stored
factors, and the returned `bool` is `true` if and only if the height dropped
by exactly one and `false` if and only if the height is unchanged; the same
holds for `removeTargetNode` called on a valid node (no, one or two
children). -/
theorem height_report_deletion (hc : ConsistentCmp cmpFn) (t : nodeT α)
    (ho : Ordered cmpFn t) (hb : Balanced t) (k : α) (c : Bool) (n : Int) :
    (∃ shrank t' c' n', recRemoveNode cmpFn t k c n = some (shrank, t', c', n') ∧ Balanced t' ∧
      (shrank = true ↔ height t' + 1 = height t) ∧ (shrank = false ↔ height t' = height t)) ∧
    (∀ d l r bf, t = .node d l r bf →
      ∃ shrank t' n',
        removeTargetNode (fun key m => recRemoveNode cmpFn l key false m) t n
          = some (shrank, t', n') ∧ Balanced t' ∧
        (shrank = true ↔ height t' + 1 = height t) ∧
        (shrank = false ↔ height t' = height t)) := by
  constructor
  · obtain ⟨shrank, t', c', n', h, hb', hh, _⟩ := recRemoveNode_spec hc t k c n ho hb
    refine ⟨shrank, t', c', n', h, hb', ?_, ?_⟩ <;> cases shrank <;> simp at hh ⊢ <;> omega
  · rintro d l r bf rfl
    obtain ⟨shrank, t', c', n', h, hb', hh, _⟩ :=
      recRemoveNode_spec hc (.node d l r bf) d c n ho hb
    have h' := removeTargetNode_of_recRemoveNode hc d l r bf c n _ h
    refine ⟨shrank, t', n', h', hb', ?_, ?_⟩ <;> cases shrank <;> simp at hh ⊢ <;> omega

theorem height_report_deletion_witness :
    ConsistentCmp OperatorCmp ∧ Ordered OperatorCmp exampleTreeWith4.root ∧
    Balanced exampleTreeWith4.root ∧
    (recRemoveNode OperatorCmp exampleTreeWith4.root 8 false 4).map
        (fun r => (r.1, height r.2.1, height exampleTreeWith4.root)) = some (true, 2, 3) ∧
    (recRemoveNode OperatorCmp exampleTreeWith4.root 3 false 4).map
        (fun r => (r.1, height r.2.1, height exampleTreeWith4.root)) = some (true, 2, 3) ∧
    (recRemoveNode OperatorCmp exampleTreeWith4.root 5 false 4).map
        (fun r => (r.1, height r.2.1, height exampleTreeWith4.root)) = some (true, 2, 3) ∧
    (recRemoveNode OperatorCmp exampleTree.root 5 false 3).map
        (fun r => (r.1, height r.2.1, height exampleTree.root)) = some (false, 2, 2) ∧
    (∃ shrank t' c' n', recRemoveNode OperatorCmp exampleTreeWith4.root 5 false 4
        = some (shrank, t', c', n') ∧ Balanced t' ∧
      (shrank = true ↔ height t' + 1 = height exampleTreeWith4.root) ∧
      (shrank = false ↔ height t' = height exampleTreeWith4.root)) :=
  ⟨OperatorCmp_consistent, by decide, by decide, by decide, by decide, by decide, by decide,
    (height_report_deletion OperatorCmp_consistent exampleTreeWith4.root (by decide) (by decide)
      5 false 4).1⟩

end HeightReports

section Overwrite

variable {α : Type} {cmpFn : α → α → Int}

theorem recAddNode_overwrite (hc : ConsistentCmp cmpFn) (x e : α) (hxe : cmpFn x e = 0) :
    ∀ (t : nodeT α) (c : Bool) (n : Int), Ordered cmpFn t → Balanced t → e ∈ recBSTAll t →
      ∃ t' l1 l2, recAddNode cmpFn t x c n = some (false, t', false, n) ∧
        skeleton t' = skeleton t ∧ recBSTAll t = l1 ++ e :: l2 ∧ recBSTAll t' = l1 ++ x :: l2
  | .NULL, _, _, _, _, he => by simp [recBSTAll] at he
  | .node d l r bf, c, n, hord, hbal, he => by
    obtain ⟨hol, hor, hld, hdr⟩ := (Ordered.node_iff cmpFn d l r bf hc).1 hord
    obtain ⟨hbl, hbr, hbf, hb1, hb2⟩ := hbal
    simp only [recBSTAll, List.mem_append, List.mem_cons] at he
    by_cases h0 : cmpFn x d = 0
    · have hed : e = d := by
        rcases he with he | rfl | he
        · have := hc.eq_lt hxe (hld e he)
          omega
        · rfl
        · have := hc.gt_of_lt (hc.lt_eq (hdr e he) (hc.eq_symm hxe))
          omega
      subst hed
      exact ⟨.node x l r bf, recBSTAll l, recBSTAll r, by simp [recAddNode, h0], rfl, rfl, rfl⟩
    · by_cases hlt : cmpFn x d < 0
      · have hel : e ∈ recBSTAll l := by
          rcases he with he | rfl | he
          · exact he
          · exact absurd hxe h0
          · have := hc.lt_trans hlt (hdr e he)
            omega
        obtain ⟨l', l1, l2, hrec, hsk, hin, hin'⟩ :=
          recAddNode_overwrite hc x e hxe l c n hol hbl hel
        have hupd : updateBF (.node d l' r bf) (if false = true then -1 else 0)
            = some (.node d l' r bf) := by
          have := updateBF_inrange d l' r bf 0 (by omega) (by omega)
          simpa using this
        refine ⟨.node d l' r bf, l1, l2 ++ d :: recBSTAll r, ?_, ?_, ?_, ?_⟩
        · have := recAddNode_left d l r bf x c n h0 hlt false l' false n hrec _ bf hupd rfl
          simpa using this
        · simp [skeleton, hsk]
        · simp [recBSTAll, hin]
        · simp [recBSTAll, hin']
      · have hgt : 0 < cmpFn x d := by omega
        have her : e ∈ recBSTAll r := by
          rcases he with he | rfl | he
          · have := hc.gt_of_lt (hc.lt_trans (hld e he) (hc.lt_of_gt hgt))
            omega
          · exact absurd hxe h0
          · exact he
        obtain ⟨r', l1, l2, hrec, hsk, hin, hin'⟩ :=
          recAddNode_overwrite hc x e hxe r c n hor hbr her
        have hupd : updateBF (.node d l r' bf) (if false = true then 1 else 0)
            = some (.node d l r' bf) := by
          have := updateBF_inrange d l r' bf 0 (by omega) (by omega)
          simpa using this
        refine ⟨.node d l r' bf, recBSTAll l ++ d :: l1, l2, ?_, ?_, ?_, ?_⟩
        · have := recAddNode_right d l r bf x c n h0 hlt false r' false n hrec _ bf hupd rfl
          simpa using this
        · simp [skeleton, hsk]
        · simp [recBSTAll, hin]
        · simp [recBSTAll, hin']

/-- C30. Overwrite is structure-preserving: on a valid tree holding an element
`e` that compares equal to `x`, `add(x)` returns `false` and the tree
afterwards has the same shape with the same balance factor at every node
(`skeleton`), its in-order sequence is the old one with `x` in the place of
`e` and every other element where it was, and `size()`, `numNodes` and the
epoch (`timestamp`) are unchanged. -/
theorem overwrite_preserves_structure (b : BST α) (hv : b.Valid) (x e : α)
    (he : e ∈ b.mapAll) (hxe : b.cmpFn x e = 0) :
    ∃ b' l1 l2, b.add x = some (false, b') ∧ skeleton b'.root = skeleton b.root ∧
      b.mapAll = l1 ++ e :: l2 ∧ b'.mapAll = l1 ++ x :: l2 ∧
      b'.size = b.size ∧ b'.numNodes = b.numNodes ∧ b'.timestamp = b.timestamp ∧
      b'.cmpFn = b.cmpFn := by
  obtain ⟨t', l1, l2, hrec, hsk, hin, hin'⟩ :=
    recAddNode_overwrite hv.cmp x e hxe b.root false b.numNodes hv.ordered hv.balanced he
  refine ⟨{ b with root := t' }, l1, l2, ?_, hsk, hin, hin', rfl, rfl, rfl, rfl⟩
  simp [BST.add, hrec]

theorem overwrite_preserves_structure_witness :
    exampleRecords.Valid ∧ (2, 20) ∈ exampleRecords.mapAll ∧
    exampleRecords.cmpFn (2, 99) (2, 20) = 0 ∧
    exampleRecords.add (2, 99) = some (false,
      { root := .node (2, 99) (.node (1, 10) .NULL .NULL 0) (.node (3, 30) .NULL .NULL 0) 0,
        numNodes := 3, timestamp := 3, cmpFn := CompareKey }) ∧
    ∃ b' l1 l2, exampleRecords.add (2, 99) = some (false, b') ∧
      skeleton b'.root = skeleton exampleRecords.root ∧
      exampleRecords.mapAll = l1 ++ (2, 20) :: l2 ∧ b'.mapAll = l1 ++ (2, 99) :: l2 ∧
      b'.size = exampleRecords.size ∧ b'.numNodes = exampleRecords.numNodes ∧
      b'.timestamp = exampleRecords.timestamp ∧ b'.cmpFn = exampleRecords.cmpFn :=
  ⟨exampleRecords_valid, by decide, by decide, rfl,
    overwrite_preserves_structure exampleRecords exampleRecords_valid (2, 99) (2, 20)
      (by decide) (by decide)⟩

end Overwrite

section Predecessor

variable {α : Type} {cmpFn : α → α → Int}

theorem predecessor_removed (hc : ConsistentCmp cmpFn) (l : nodeT α) (ho : Ordered cmpFn l)
    (hb : Balanced l) (hl : l ≠ .NULL) (n : Int) :
    ∃ s init shrank l' c',
      successorData l = some s ∧ recBSTAll l = init ++ [s] ∧ (∀ a ∈ init, cmpFn a s < 0) ∧
      recRemoveNode cmpFn l s false n = some (shrank, l', c', n - 1) ∧ recBSTAll l' = init ∧
      Balanced l' ∧ height l = height l' + (if shrank then 1 else 0) := by
  obtain ⟨init, s, hs, hinit⟩ := successorData_spec l hl
  obtain ⟨shrank, l', c', n', hrec, hbl', hh, hcase⟩ := recRemoveNode_spec hc l s false n ho hb
  have hmax : ∀ a ∈ init, cmpFn a s < 0 := by
    have h : Ascending cmpFn (init ++ [s]) := by rw [← hinit]; exact ho
    intro a ha
    exact (List.pairwise_append.1 h).2.2 a ha s (by simp)
  rcases hcase with ⟨habs, _⟩ | ⟨l1, e, l2, h1, h2, h3, _, h5, _⟩
  · exact absurd (hc.refl s) (habs s (by simp [hinit]))
  · obtain ⟨rfl, rfl, rfl⟩ := ascending_last_unique hc l1 l2 init e s
      (by rw [← h1]; exact ho) (by rw [← h1]; exact hinit) h2
    subst h5
    exact ⟨e, l1, shrank, l', c', hs, hinit, hmax, hrec, by simpa using h3, hbl', hh⟩

/-- C29. Predecessor replacement: when `recRemoveNode` reaches a node of a valid
tree that compares equal to `k` and has two children, the left subtree has a
maximum element `s` (found by the `successor` loop), `s` is the element
`recRemoveNode` removes from the left subtree (giving `l'`), and the node that
is then handed to rebalancing is `node s l' r bf`: value replaced by `s`, right
subtree `r` untouched.  In particular, if the node is not right-heavy no
rotation follows and the subtree afterwards is `node s l' r bf'` for some
balance factor `bf'`; when that node is the root of a tree, `remove(k)` returns
`true` and leaves exactly that root. -/
theorem predecessor_replacement (hc : ConsistentCmp cmpFn) (d : α) (l r : nodeT α) (bf : Int)
    (ho : Ordered cmpFn (.node d l r bf)) (hb : Balanced (.node d l r bf))
    (hl : l ≠ .NULL) (hr : r ≠ .NULL) (k : α) (hk : cmpFn k d = 0) (c : Bool) (n : Int) :
    ∃ s init shrank l' c',
      successorData l = some s ∧ recBSTAll l = init ++ [s] ∧ (∀ a ∈ init, cmpFn a s < 0) ∧
      recRemoveNode cmpFn l s false n = some (shrank, l', c', n - 1) ∧ recBSTAll l' = init ∧
      recRemoveNode cmpFn (.node d l r bf) k c n =
        (if shrank = true then
          (updateBF (.node s l' r bf) 1).bind fun t' =>
            (getBF t').map fun bf' => (decide (bf' = Even), t', true, n - 1)
         else some (false, .node s l' r bf, true, n - 1)) ∧
      (bf ≠ RightHeavy →
        ∃ shrank' bf', recRemoveNode cmpFn (.node d l r bf) k c n
            = some (shrank', .node s l' r bf', true, n - 1) ∧
          ∀ b : BST α, b.cmpFn = cmpFn → b.root = .node d l r bf → b.numNodes = n →
            b.remove k = some (true, BST.mk (.node s l' r bf') (n - 1) b.timestamp cmpFn)) := by
  obtain ⟨hol, hor, hld, hdr⟩ := (Ordered.node_iff cmpFn d l r bf hc).1 ho
  obtain ⟨hbl, hbr, hbf, hb1, hb2⟩ := hb
  obtain ⟨s, init, shrank, l', c', hs, hinit, hmax, hrec, hin', hbl', hh⟩ :=
    predecessor_removed hc l hol hbl hl n
  have hmain : ∀ c0 : Bool, recRemoveNode cmpFn (.node d l r bf) k c0 n =
      (if shrank = true then
        (updateBF (.node s l' r bf) 1).bind fun t' =>
          (getBF t').map fun bf' => (decide (bf' = Even), t', true, n - 1)
       else some (false, .node s l' r bf, true, n - 1)) := by
    intro c0
    cases l with
    | NULL => exact absurd rfl hl
    | node ld ll lr lbf =>
      cases r with
      | NULL => exact absurd rfl hr
      | node rd rl rr rbf =>
        cases shrank with
        | false =>
          simpa using recRemoveNode_target d _ _ bf k c0 n hk false _ (n - 1)
            (removeTargetNode_two_same _ d ld rd ll lr rl rr lbf rbf bf n s hs l' c' (n - 1)
              hrec)
        | true =>
          obtain ⟨t', bf', hupd, hgb, _⟩ :=
            updateBF_spec s l' (.node rd rl rr rbf) bf 1 hbl' hbr
              (by simp at hh; omega) (by omega) (by omega)
          have := recRemoveNode_target d _ _ bf k c0 n hk _ t' (n - 1)
            (removeTargetNode_two_shrank _ d ld rd ll lr rl rr lbf rbf bf n s hs l' c' (n - 1)
              hrec t' bf' hupd hgb)
          simpa [hupd, hgb, Even] using this
  refine ⟨s, init, shrank, l', c', hs, hinit, hmax, hrec, hin', hmain c, ?_⟩
  intro hnr
  have hres : ∃ shrank' bf', ∀ c0 : Bool, recRemoveNode cmpFn (.node d l r bf) k c0 n
      = some (shrank', .node s l' r bf', true, n - 1) := by
    cases shrank with
    | false => exact ⟨false, bf, fun c0 => by simpa using hmain c0⟩
    | true =>
      have hr1 : bf + 1 ≤ 1 := by
        simp only [RightHeavy] at hnr
        omega
      have hupd := updateBF_inrange s l' r bf 1 (by omega) hr1
      exact ⟨decide (bf + 1 = Even), bf + 1, fun c0 => by
        rw [hmain c0]
        simp [hupd, getBF]⟩
  obtain ⟨shrank', bf', hres⟩ := hres
  refine ⟨shrank', bf', hres c, ?_⟩
  intro b hcmp hroot hnum
  simp [BST.remove, hcmp, hroot, hnum, hres false]

theorem predecessor_replacement_witness :
    ConsistentCmp OperatorCmp ∧ Ordered OperatorCmp exampleTreeWith4.root ∧
    Balanced exampleTreeWith4.root ∧
    exampleTreeWith4.remove 5 = some (true,
      { root := .node 4 (.node 3 .NULL .NULL 0) (.node 8 .NULL .NULL 0) 0,
        numNodes := 3, timestamp := 4, cmpFn := OperatorCmp }) ∧
    ∃ s init shrank l' c',
      successorData (.node 3 .NULL (.node 4 .NULL .NULL 0) 1) = some s ∧
      recBSTAll (.node 3 .NULL (.node 4 .NULL .NULL 0) 1) = init ++ [s] ∧
      (∀ a ∈ init, OperatorCmp a s < 0) ∧
      recRemoveNode OperatorCmp (.node 3 .NULL (.node 4 .NULL .NULL 0) 1) s false 4
        = some (shrank, l', c', 4 - 1) ∧ recBSTAll l' = init ∧
      recRemoveNode OperatorCmp
          (.node 5 (.node 3 .NULL (.node 4 .NULL .NULL 0) 1) (.node 8 .NULL .NULL 0) (-1))
          5 false 4 =
        (if shrank = true then
          (updateBF (.node s l' (.node 8 .NULL .NULL 0) (-1)) 1).bind fun t' =>
            (getBF t').map fun bf' => (decide (bf' = Even), t', true, 4 - 1)
         else some (false, .node s l' (.node 8 .NULL .NULL 0) (-1), true, 4 - 1)) ∧
      ((-1 : Int) ≠ RightHeavy →
        ∃ shrank' bf', recRemoveNode OperatorCmp
            (.node 5 (.node 3 .NULL (.node 4 .NULL .NULL 0) 1) (.node 8 .NULL .NULL 0) (-1))
            5 false 4
            = some (shrank', .node s l' (.node 8 .NULL .NULL 0) bf', true, 4 - 1) ∧
          ∀ b : BST Int, b.cmpFn = OperatorCmp →
            b.root = .node 5 (.node 3 .NULL (.node 4 .NULL .NULL 0) 1)
              (.node 8 .NULL .NULL 0) (-1) → b.numNodes = 4 →
            b.remove 5 = some (true,
              BST.mk (.node s l' (.node 8 .NULL .NULL 0) bf') (4 - 1) b.timestamp
                OperatorCmp)) :=
  ⟨OperatorCmp_consistent, by decide, by decide, rfl,
    predecessor_replacement OperatorCmp_consistent 5 (.node 3 .NULL (.node 4 .NULL .NULL 0) 1)
      (.node 8 .NULL .NULL 0) (-1) (by decide) (by decide) (by simp) (by simp) 5 (by decide)
      false 4⟩

end Predecessor

section Absorb

variable {α : Type} {cmpFn : α → α → Int}

theorem updateBFCalls_inrange (d : α) (l r : nodeT α) (bf delta : Int)
    (h1 : -1 ≤ bf + delta) (h2 : bf + delta ≤ 1) :
    updateBFCalls (.node d l r bf) delta = [] := by
  have h3 : ¬ (bf + delta < -1) := by omega
  have h4 : ¬ (1 < bf + delta) := by omega
  simp [updateBFCalls, getBF, setBF, LeftHeavy, RightHeavy, h3, h4]

theorem updateBFCalls_left (d : α) (l r : nodeT α) (bf delta : Int) (h : bf + delta = -2) :
    updateBFCalls (.node d l r bf) delta = [(true, .node d l r (-2))] := by
  simp [updateBFCalls, getBF, setBF, LeftHeavy, h]

theorem updateBFCalls_right (d : α) (l r : nodeT α) (bf delta : Int) (h : bf + delta = 2) :
    updateBFCalls (.node d l r bf) delta = [(false, .node d l r 2)] := by
  simp [updateBFCalls, getBF, setBF, LeftHeavy, RightHeavy, h]

theorem recAddNodeCalls_left (d : α) (l r : nodeT α) (bf : Int) (x : α) (c : Bool) (n : Int)
    (h0 : cmpFn x d ≠ 0) (hlt : cmpFn x d < 0)
    (grew : Bool) (l' : nodeT α) (c' : Bool) (n' : Int)
    (hrec : recAddNode cmpFn l x c n = some (grew, l', c', n')) :
    recAddNodeCalls cmpFn (.node d l r bf) x c n =
      (recAddNodeCalls cmpFn l x c n).map (fun e => { e with depth := e.depth + 1 }) ++
        (updateBFCalls (.node d l' r bf) (if grew then -1 else 0)).map
          (fun p => { depth := 0, onLeft := p.1, before := .node d l r bf, arg := p.2 }) := by
  simp [recAddNodeCalls, h0, hlt, hrec]

theorem recAddNodeCalls_right (d : α) (l r : nodeT α) (bf : Int) (x : α) (c : Bool) (n : Int)
    (h0 : cmpFn x d ≠ 0) (hlt : ¬ cmpFn x d < 0)
    (grew : Bool) (r' : nodeT α) (c' : Bool) (n' : Int)
    (hrec : recAddNode cmpFn r x c n = some (grew, r', c', n')) :
    recAddNodeCalls cmpFn (.node d l r bf) x c n =
      (recAddNodeCalls cmpFn r x c n).map (fun e => { e with depth := e.depth + 1 }) ++
        (updateBFCalls (.node d l r' bf) (if grew then 1 else 0)).map
          (fun p => { depth := 0, onLeft := p.1, before := .node d l r bf, arg := p.2 }) := by
  simp [recAddNodeCalls, h0, hlt, hrec]

theorem ancestorBFs_graftAt (x : α) (sub : nodeT α) :
    ∀ (t : nodeT α) (k : Nat),
      ancestorBFs cmpFn (graftAt cmpFn t x k sub) x k = ancestorBFs cmpFn t x k
  | t, 0 => by cases t <;> simp [ancestorBFs]
  | .NULL, k + 1 => by simp [graftAt]
  | .node d l r bf, k + 1 => by
    by_cases h0 : cmpFn x d = 0
    · simp [graftAt, h0]
    · by_cases hlt : cmpFn x d < 0
      · simp [graftAt, ancestorBFs, h0, hlt, ancestorBFs_graftAt x sub l k]
      · simp [graftAt, ancestorBFs, h0, hlt, ancestorBFs_graftAt x sub r k]

theorem recAddNodeCalls_spec (hc : ConsistentCmp cmpFn) (x : α) :
    ∀ (t : nodeT α) (c : Bool) (n : Int), Ordered cmpFn t → Balanced t →
      ∃ grew t' c' n', recAddNode cmpFn t x c n = some (grew, t', c', n') ∧
        Balanced t' ∧ height t' = height t + (if grew then 1 else 0) ∧
        (grew = true → height t = 0 ∨ ∃ b, getBF t' = some b ∧ b ≠ Even) ∧
        (recAddNodeCalls cmpFn t x c n = [] ∨
          ∃ e, recAddNodeCalls cmpFn t x c n = [e] ∧ grew = false ∧
            subtreeAt cmpFn t x e.depth = e.before ∧
            (ancestorBFs cmpFn t x e.depth).length = e.depth ∧
            (∃ b, (if e.onLeft then (getLeft e.arg).bind getBF
                else (getRight e.arg).bind getBF) = some b ∧ b ≠ Even) ∧
            ∃ sub c'' n'', (if e.onLeft then fixLeftImbalance e.arg
                else fixRightImbalance e.arg) = some sub ∧
              height sub = height e.before ∧
              recAddNode cmpFn e.before x c n = some (false, sub, c'', n'') ∧
              t' = graftAt cmpFn t x e.depth sub)
  | .NULL, c, n, _, _ =>
    ⟨true, .node x .NULL .NULL Even, true, n + 1, rfl,
      ⟨trivial, trivial, by simp [height, Even], by simp [Even], by simp [Even]⟩,
      by simp [height], fun _ => Or.inl rfl, Or.inl rfl⟩
  | .node d l r bf, c, n, hord, hbal => by
    obtain ⟨hol, hor, hld, hdr⟩ := (Ordered.node_iff cmpFn d l r bf hc).1 hord
    obtain ⟨hbl, hbr, hbf, hb1, hb2⟩ := hbal
    by_cases h0 : cmpFn x d = 0
    · exact ⟨false, .node x l r bf, false, n, by simp [recAddNode, h0],
        ⟨hbl, hbr, hbf, hb1, hb2⟩, by simp [height], by simp,
        Or.inl (by simp [recAddNodeCalls, h0])⟩
    · by_cases hlt : cmpFn x d < 0
      · obtain ⟨grew, l', c', n', hrec, hbl', hh, hinv, hcalls⟩ :=
          recAddNodeCalls_spec hc x l c n hol hbl
        have hcalls_eq := recAddNodeCalls_left d l r bf x c n h0 hlt grew l' c' n' hrec
        cases grew with
        | false =>
          have hh' : height l' = height l := by simpa using hh
          have hupd : updateBF (.node d l' r bf) (if false = true then -1 else 0)
              = some (.node d l' r bf) := by
            simpa using updateBF_inrange d l' r bf 0 (by omega) (by omega)
          have hres := recAddNode_left d l r bf x c n h0 hlt false l' c' n' hrec _ bf hupd rfl
          have hnone : updateBFCalls (.node d l' r bf) (if false = true then -1 else 0) = [] := by
            simpa using updateBFCalls_inrange d l' r bf 0 (by omega) (by omega)
          rw [hnone] at hcalls_eq
          simp only [List.map_nil, List.append_nil] at hcalls_eq
          refine ⟨false, .node d l' r bf, c', n', by simpa using hres,
            ⟨hbl', hbr, by rw [hh']; exact hbf, hb1, hb2⟩, by simp [height, hh'], by simp, ?_⟩
          rcases hcalls with hnil | ⟨e, he, _, hsub, hlen, hchild, sub, c'', n'', hfix, hhs,
            hrecb, hgraft⟩
          · left
            rw [hcalls_eq, hnil]
            rfl
          · right
            refine ⟨{ e with depth := e.depth + 1 }, by rw [hcalls_eq, he]; rfl, rfl, ?_, ?_,
              hchild, sub, c'', n'', hfix, hhs, hrecb, ?_⟩
            · simp [subtreeAt, h0, hlt, hsub]
            · simp [ancestorBFs, h0, hlt, hlen]
            · simp [graftAt, h0, hlt, hgraft]
        | true =>
          have hnil : recAddNodeCalls cmpFn l x c n = [] := by
            rcases hcalls with hnil | ⟨e, _, hf, _⟩
            · exact hnil
            · exact absurd hf (by simp)
          rw [hnil] at hcalls_eq
          simp only [List.map_nil, List.nil_append, ite_true] at hcalls_eq
          have hh' : height l' = height l + 1 := by simpa using hh
          by_cases hm : bf = -1
          · subst hm
            have hl0 : height l ≠ 0 := by omega
            obtain ⟨b, hb, hbne⟩ := (hinv rfl).resolve_left hl0
            have hupd := updateBF_left d l' r (-1) (-1) (by norm_num)
            obtain ⟨t'', bf'', hfix, hgb, hbt, _, hne⟩ :=
              fixLeftImbalance_spec d l' r hbl' hbr (by omega)
            obtain ⟨hht, hbf''⟩ := hne (by rw [hb]; simpa using hbne)
            subst hbf''
            have hres := recAddNode_left d l r (-1) x c n h0 hlt true l' c' n' hrec t'' Even
              (by simpa [hupd] using hfix) hgb
            have hcall := updateBFCalls_left d l' r (-1) (-1) (by norm_num)
            rw [hcall] at hcalls_eq
            simp only [List.map_cons, List.map_nil] at hcalls_eq
            have hres' : recAddNode cmpFn (.node d l r (-1)) x c n
                = some (false, t'', c', n') := by simpa [Even] using hres
            refine ⟨false, t'', c', n', hres', hbt, by simp [height]; omega, by simp,
              Or.inr ⟨_, hcalls_eq, rfl, by simp [subtreeAt], by simp [ancestorBFs],
                ⟨b, by simpa [getLeft] using hb, hbne⟩, t'', c', n', by simpa using hfix,
                by simp [height]; omega, hres', by simp [graftAt]⟩⟩
          · have hupd : updateBF (.node d l' r bf) (if true = true then -1 else 0)
                = some (.node d l' r (bf + -1)) := by
              simpa using updateBF_inrange d l' r bf (-1) (by omega) (by omega)
            have hres := recAddNode_left d l r bf x c n h0 hlt true l' c' n' hrec _ (bf + -1)
              hupd rfl
            have hnone := updateBFCalls_inrange d l' r bf (-1) (by omega) (by omega)
            rw [hnone] at hcalls_eq
            refine ⟨_, _, c', n', hres, ⟨hbl', hbr, by omega, by omega, by omega⟩, ?_, ?_,
              Or.inl hcalls_eq⟩
            · by_cases hz : bf + -1 = 0 <;> simp [height, hz] <;> omega
            · intro hg
              right
              refine ⟨bf + -1, rfl, ?_⟩
              simpa [Even] using hg
      · have hgt : 0 < cmpFn x d := by omega
        obtain ⟨grew, r', c', n', hrec, hbr', hh, hinv, hcalls⟩ :=
          recAddNodeCalls_spec hc x r c n hor hbr
        have hcalls_eq := recAddNodeCalls_right d l r bf x c n h0 hlt grew r' c' n' hrec
        cases grew with
        | false =>
          have hh' : height r' = height r := by simpa using hh
          have hupd : updateBF (.node d l r' bf) (if false = true then 1 else 0)
              = some (.node d l r' bf) := by
            simpa using updateBF_inrange d l r' bf 0 (by omega) (by omega)
          have hres := recAddNode_right d l r bf x c n h0 hlt false r' c' n' hrec _ bf hupd rfl
          have hnone : updateBFCalls (.node d l r' bf) (if false = true then 1 else 0) = [] := by
            simpa using updateBFCalls_inrange d l r' bf 0 (by omega) (by omega)
          rw [hnone] at hcalls_eq
          simp only [List.map_nil, List.append_nil] at hcalls_eq
          refine ⟨false, .node d l r' bf, c', n', by simpa using hres,
            ⟨hbl, hbr', by rw [hh']; exact hbf, hb1, hb2⟩, by simp [height, hh'], by simp, ?_⟩
          rcases hcalls with hnil | ⟨e, he, _, hsub, hlen, hchild, sub, c'', n'', hfix, hhs,
            hrecb, hgraft⟩
          · left
            rw [hcalls_eq, hnil]
            rfl
          · right
            refine ⟨{ e with depth := e.depth + 1 }, by rw [hcalls_eq, he]; rfl, rfl, ?_, ?_,
              hchild, sub, c'', n'', hfix, hhs, hrecb, ?_⟩
            · simp [subtreeAt, h0, hlt, hsub]
            · simp [ancestorBFs, h0, hlt, hlen]
            · simp [graftAt, h0, hlt, hgraft]
        | true =>
          have hnil : recAddNodeCalls cmpFn r x c n = [] := by
            rcases hcalls with hnil | ⟨e, _, hf, _⟩
            · exact hnil
            · exact absurd hf (by simp)
          rw [hnil] at hcalls_eq
          simp only [List.map_nil, List.nil_append, ite_true] at hcalls_eq
          have hh' : height r' = height r + 1 := by simpa using hh
          by_cases hm : bf = 1
          · subst hm
            have hr0 : height r ≠ 0 := by omega
            obtain ⟨b, hb, hbne⟩ := (hinv rfl).resolve_left hr0
            have hupd := updateBF_right d l r' 1 1 (by norm_num)
            obtain ⟨t'', bf'', hfix, hgb, hbt, _, hne⟩ :=
              fixRightImbalance_spec d l r' hbl hbr' (by omega)
            obtain ⟨hht, hbf''⟩ := hne (by rw [hb]; simpa using hbne)
            subst hbf''
            have hres := recAddNode_right d l r 1 x c n h0 hlt true r' c' n' hrec t'' Even
              (by simpa [hupd] using hfix) hgb
            have hcall := updateBFCalls_right d l r' 1 1 (by norm_num)
            rw [hcall] at hcalls_eq
            simp only [List.map_cons, List.map_nil] at hcalls_eq
            have hres' : recAddNode cmpFn (.node d l r 1) x c n
                = some (false, t'', c', n') := by simpa [Even] using hres
            refine ⟨false, t'', c', n', hres', hbt, by simp [height]; omega, by simp,
              Or.inr ⟨_, hcalls_eq, rfl, by simp [subtreeAt], by simp [ancestorBFs],
                ⟨b, by simpa [getRight] using hb, hbne⟩, t'', c', n', by simpa using hfix,
                by simp [height]; omega, hres', by simp [graftAt]⟩⟩
          · have hupd : updateBF (.node d l r' bf) (if true = true then 1 else 0)
                = some (.node d l r' (bf + 1)) := by
              simpa using updateBF_inrange d l r' bf 1 (by omega) (by omega)
            have hres := recAddNode_right d l r bf x c n h0 hlt true r' c' n' hrec _ (bf + 1)
              hupd rfl
            have hnone := updateBFCalls_inrange d l r' bf 1 (by omega) (by omega)
            rw [hnone] at hcalls_eq
            refine ⟨_, _, c', n', hres, ⟨hbl, hbr', by omega, by omega, by omega⟩, ?_, ?_,
              Or.inl hcalls_eq⟩
            · by_cases hz : bf + 1 = 0 <;> simp [height, hz] <;> omega
            · intro hg
              right
              refine ⟨bf + 1, rfl, ?_⟩
              simpa [Even] using hg

end Absorb

section AbsorbClaim

variable {α : Type}

/-- C28. A rotation absorbs an insertion: during `add(x)` on a valid tree the
two rebalancing functions `fixLeftImbalance`/`fixRightImbalance` are called at
most once in total.  When one is called, on the node `e.depth` levels below the
root, the child it inspects is not `Even` (so the child-even branch is not
taken), the subtree it returns has the height the subtree at that node had
before the insertion, `recAddNode` returns `false` at that node, and the tree
after `add` is the old tree with only that subtree replaced: every ancestor
above it keeps its balance factor. -/
theorem rotation_absorbs_insertion (b : BST α) (hv : b.Valid) (x : α) :
    ∃ r b', b.add x = some (r, b') ∧
      (recAddNodeCalls b.cmpFn b.root x false b.numNodes).length ≤ 1 ∧
      ∀ e ∈ recAddNodeCalls b.cmpFn b.root x false b.numNodes,
        subtreeAt b.cmpFn b.root x e.depth = e.before ∧
        (∃ bf, (if e.onLeft then (getLeft e.arg).bind getBF
            else (getRight e.arg).bind getBF) = some bf ∧ bf ≠ Even) ∧
        ∃ sub c' n', (if e.onLeft then fixLeftImbalance e.arg
            else fixRightImbalance e.arg) = some sub ∧
          height sub = height e.before ∧
          recAddNode b.cmpFn e.before x false b.numNodes = some (false, sub, c', n') ∧
          b'.root = graftAt b.cmpFn b.root x e.depth sub ∧
          (ancestorBFs b.cmpFn b.root x e.depth).length = e.depth ∧
          ancestorBFs b.cmpFn b'.root x e.depth = ancestorBFs b.cmpFn b.root x e.depth := by
  obtain ⟨grew, t', c', n', hrec, _, _, _, hcalls⟩ :=
    recAddNodeCalls_spec hv.cmp x b.root false b.numNodes hv.ordered hv.balanced
  refine ⟨c', _, by simp [BST.add, hrec]; rfl, ?_, ?_⟩
  · rcases hcalls with hnil | ⟨e, he, _⟩
    · simp [hnil]
    · simp [he]
  · intro e he
    rcases hcalls with hnil | ⟨e', he', _, hsub, hlen, hchild, sub, c'', n'', hfix, hhs, hrecb,
      hgraft⟩
    · simp [hnil] at he
    · rw [he'] at he
      obtain rfl : e = e' := by simpa using he
      refine ⟨hsub, hchild, sub, c'', n'', hfix, hhs, hrecb, hgraft, hlen, ?_⟩
      show ancestorBFs b.cmpFn t' x e.depth = _
      rw [hgraft]
      exact ancestorBFs_graftAt x sub b.root e.depth

theorem rotation_absorbs_insertion_witness :
    exampleTreeTens.Valid ∧
    recAddNodeCalls OperatorCmp exampleTreeTens.root 45 false 4 =
      [{ depth := 1, onLeft := false,
         before := .node 30 .NULL (.node 40 .NULL .NULL 0) 1,
         arg := .node 30 .NULL (.node 40 .NULL (.node 45 .NULL .NULL 0) 1) 2 }] ∧
    (exampleTreeTens.add 45).map (fun p => (p.1, p.2.root)) = some (true,
      .node 50 (.node 40 (.node 30 .NULL .NULL 0) (.node 45 .NULL .NULL 0) 0)
        (.node 80 .NULL .NULL 0) (-1)) ∧
    ∃ r b', exampleTreeTens.add 45 = some (r, b') ∧
      (recAddNodeCalls exampleTreeTens.cmpFn exampleTreeTens.root 45 false
        exampleTreeTens.numNodes).length ≤ 1 ∧
      ∀ e ∈ recAddNodeCalls exampleTreeTens.cmpFn exampleTreeTens.root 45 false
          exampleTreeTens.numNodes,
        subtreeAt exampleTreeTens.cmpFn exampleTreeTens.root 45 e.depth = e.before ∧
        (∃ bf, (if e.onLeft then (getLeft e.arg).bind getBF
            else (getRight e.arg).bind getBF) = some bf ∧ bf ≠ Even) ∧
        ∃ sub c' n', (if e.onLeft then fixLeftImbalance e.arg
            else fixRightImbalance e.arg) = some sub ∧
          height sub = height e.before ∧
          recAddNode exampleTreeTens.cmpFn e.before 45 false exampleTreeTens.numNodes
            = some (false, sub, c', n') ∧
          b'.root = graftAt exampleTreeTens.cmpFn exampleTreeTens.root 45 e.depth sub ∧
          (ancestorBFs exampleTreeTens.cmpFn exampleTreeTens.root 45 e.depth).length
            = e.depth ∧
          ancestorBFs exampleTreeTens.cmpFn b'.root 45 e.depth
            = ancestorBFs exampleTreeTens.cmpFn exampleTreeTens.root 45 e.depth :=
  ⟨⟨OperatorCmp_consistent, by decide, by decide, by decide⟩, by decide, by decide,
    rotation_absorbs_insertion exampleTreeTens
      ⟨OperatorCmp_consistent, by decide, by decide, by decide⟩ 45⟩

end AbsorbClaim

section CopyShape

/-- C31. Copy shape may differ: the tree `S` obtained from the empty
`BST<int>` by `add(3); add(2); add(4); add(1)` has root 3 with 1 below 2 on
the left, while every copy of `S` made by the copy constructor (whatever the
uninitialised members held) has the same in-order sequence 1, 2, 3, 4 and the
same size but root 2 with 4 below 3 on the right: a different root element
and a different child structure. -/
theorem copy_shape_may_differ :
    ∃ S : BST Int,
      (BST.new OperatorCmp).run [.add 3, .add 2, .add 4, .add 1] = some S ∧
      S.root = .node 3 (.node 2 (.node 1 .NULL .NULL 0) .NULL (-1)) (.node 4 .NULL .NULL 0) (-1) ∧
      ∀ raw : BST Int, ∃ C : BST Int, BST.copyConstruct raw S = some C ∧
        C.root = .node 2 (.node 1 .NULL .NULL 0) (.node 3 .NULL (.node 4 .NULL .NULL 0) 1) 1 ∧
        C.mapAll = S.mapAll ∧ C.size = S.size ∧
        getData C.root ≠ getData S.root ∧ skeleton C.root ≠ skeleton S.root :=
  ⟨BST.mk (.node 3 (.node 2 (.node 1 .NULL .NULL 0) .NULL (-1)) (.node 4 .NULL .NULL 0) (-1))
      4 4 OperatorCmp, by rfl, rfl,
    fun raw => ⟨BST.mk
      (.node 2 (.node 1 .NULL .NULL 0) (.node 3 .NULL (.node 4 .NULL .NULL 0) 1) 1)
      4 (raw.timestamp + 1 + 1 + 1 + 1) OperatorCmp, by rfl, rfl, rfl, rfl,
      by simp [getData], by simp [skeleton]⟩⟩

end CopyShape

section BoggleWalk

theorem AdjacentPoint_stalled (boardRow boardCol row col : Int)
    (hr : row < boardRow) (h1 : boardRow ≤ col) (h2 : col < boardCol) :
    AdjacentPoint boardRow boardCol row col = (true, row, col) := by
  have h3 : ¬ col < boardRow := by omega
  have h4 : ¬ col ≥ boardCol := by omega
  have h5 : ¬ row ≥ boardRow := by omega
  simp [AdjacentPoint, h3, h4, h5]

theorem boardWalk_stalled (boardRow boardCol row col : Int)
    (hr : row < boardRow) (h1 : boardRow ≤ col) (h2 : col < boardCol) :
    ∀ fuel : Nat, boardWalk boardRow boardCol fuel row col = none
  | 0 => rfl
  | fuel + 1 => by
    simp [boardWalk, AdjacentPoint_stalled boardRow boardCol row col hr h1 h2,
      boardWalk_stalled boardRow boardCol row col hr h1 h2 fuel]

theorem boardWalk_first_row (boardRow boardCol : Int) (hR : 1 ≤ boardRow)
    (hlt : boardRow < boardCol) :
    ∀ (k : Nat) (col : Int), 0 ≤ col → col + k = boardRow →
      ∀ fuel : Nat, boardWalk boardRow boardCol fuel 0 col = none
  | 0, col, _, hk => boardWalk_stalled boardRow boardCol 0 col (by omega) (by omega) (by omega)
  | k + 1, col, h0, hk => by
    intro fuel
    cases fuel with
    | zero => rfl
    | succ fuel =>
      have h3 : col < boardRow := by omega
      have h4 : ¬ col + 1 ≥ boardCol := by omega
      have h5 : ¬ (0 : Int) ≥ boardRow := by omega
      have hstep : AdjacentPoint boardRow boardCol 0 col = (true, 0, col + 1) := by
        simp [AdjacentPoint, h3, h4, h5]
      have ih := boardWalk_first_row boardRow boardCol hR hlt k (col + 1) (by omega)
        (by push_cast at hk ⊢; omega) fuel
      simp [boardWalk, hstep, ih]

/-- C35 (code as it is). Boggle board walk: `AdjacentPoint` compares `col`
with `boardRow`, not with `boardCol`.  On a board with at least as many rows
as columns (every square board) it returns `false` exactly at the last
position and otherwise returns `true` with `(row, col)` advanced to the next
position in row-major order.  On a board with fewer rows than columns it
returns `true` without moving at every in-range position whose column is at
least `boardRow`, the last position included, and the callers' loop started at
`(0, 0)` never ends. -/
theorem adjacent_point_walk (boardRow boardCol : Int) (hR : 1 ≤ boardRow) :
    (boardCol ≤ boardRow → ∀ row col, 0 ≤ row → row < boardRow → 0 ≤ col → col < boardCol →
      AdjacentPoint boardRow boardCol row col =
        if col + 1 < boardCol then (true, row, col + 1)
        else if row + 1 < boardRow then (true, row + 1, 0) else (false, row + 1, 0)) ∧
    (boardRow < boardCol →
      (∀ row col, 0 ≤ row → row < boardRow → boardRow ≤ col → col < boardCol →
        AdjacentPoint boardRow boardCol row col = (true, row, col)) ∧
      ∀ fuel : Nat, boardWalk boardRow boardCol fuel 0 0 = none) := by
  constructor
  · intro hle row col hr0 hr hc0 hc
    have h3 : col < boardRow := by omega
    by_cases h4 : col + 1 < boardCol
    · have h4' : ¬ col + 1 ≥ boardCol := by omega
      have h5 : ¬ row ≥ boardRow := by omega
      simp [AdjacentPoint, h3, h4, h4', h5]
    · have h4' : col + 1 ≥ boardCol := by omega
      by_cases h6 : row + 1 < boardRow
      · have h6' : ¬ row + 1 ≥ boardRow := by omega
        simp [AdjacentPoint, h3, h4, h4', h6, h6']
      · have h6' : row + 1 ≥ boardRow := by omega
        simp [AdjacentPoint, h3, h4, h4', h6, h6']
  · intro hlt
    refine ⟨fun row col _ hr h1 h2 => AdjacentPoint_stalled boardRow boardCol row col hr h1 h2,
      ?_⟩
    exact boardWalk_first_row boardRow boardCol hR hlt boardRow.toNat 0 (le_refl 0)
      (by rw [Int.toNat_of_nonneg (by omega)]; omega)

theorem adjacent_point_walk_witness :
    (1 : Int) ≤ 1 ∧
    AdjacentPoint 1 3 0 1 = (true, 0, 1) ∧ AdjacentPoint 1 3 0 2 = (true, 0, 2) ∧
    boardWalk 4 4 16 0 0 = some [(0, 0), (0, 1), (0, 2), (0, 3), (1, 0), (1, 1), (1, 2), (1, 3),
      (2, 0), (2, 1), (2, 2), (2, 3), (3, 0), (3, 1), (3, 2), (3, 3)] ∧
    ((1 : Int) < 3 →
      (∀ row col : Int, 0 ≤ row → row < 1 → 1 ≤ col → col < 3 →
        AdjacentPoint 1 3 row col = (true, row, col)) ∧
      ∀ fuel : Nat, boardWalk 1 3 fuel 0 0 = none) :=
  ⟨by decide, by decide, by decide, by decide, (adjacent_point_walk 1 3 (by decide)).2⟩

end BoggleWalk

section LifeReads

theorem Grid.readIn_inrange {α : Type} (g : Grid α) (hwf : g.WF) (row col : Int)
    (hr : 0 ≤ row ∧ row < g.numRows) (hc : 0 ≤ col ∧ col < g.numCols) :
    ∃ x, g.cell row col = some x ∧ g.getAt row col = .returned x g ∧
      ∀ (σ : Type) (s : σ), g.readIn row col s = .returned x s := by
  obtain ⟨x, _, hget⟩ := Grid.getAt_inrange g hwf row col hr hc
  exact ⟨x, by simp [Grid.cell, hget], hget, fun σ s => by simp [Grid.readIn, hget]⟩

theorem DonutAdjust_spec (i R : Int) (hR : 1 ≤ R) (hi : -1 ≤ i ∧ i ≤ R) :
    i + DonutAdjust i R = i % R ∧ 0 ≤ i + DonutAdjust i R ∧ i + DonutAdjust i R < R := by
  have hpos : 0 < R := by omega
  unfold DonutAdjust
  by_cases h1 : i < 0
  · have hi1 : i = -1 := by omega
    subst hi1
    have := (Int.ediv_emod_unique (a := -1) (q := -1) (r := R - 1) hpos).2
      ⟨by ring, by omega, by omega⟩
    rw [if_pos h1, this.2]
    omega
  · rw [if_neg h1]
    by_cases h2 : i = R
    · subst h2
      rw [if_pos rfl, Int.emod_self]
      omega
    · rw [if_neg h2, Int.emod_eq_of_lt (by omega) (by omega)]
      omega

theorem MirrorAdjust_spec (i R : Int) (hR : 1 ≤ R) (hi : -1 ≤ i ∧ i ≤ R) :
    i + MirrorAdjust i R = max 0 (min i (R - 1)) ∧ 0 ≤ i + MirrorAdjust i R ∧
      i + MirrorAdjust i R < R := by
  unfold MirrorAdjust
  by_cases h1 : i < 0
  · rw [if_pos h1]
    omega
  · rw [if_neg h1]
    by_cases h2 : i = R
    · rw [if_pos h2]
      omega
    · rw [if_neg h2]
      omega

theorem liveAt_of_mapped (g : Grid Int) (mode : Char) (r c r' c' v : Int)
    (hm : mappedCell g.numRows g.numCols mode r c = some (r', c'))
    (hv : g.cell r' c' = some v) : liveAt g mode r c = decide (v ≠ 0) := by
  simp [liveAt, hm, hv]

theorem CountNeighbors.column_spec (g : Grid Int) (hwf : g.WF) (mode : Char)
    (hmode : mode = 'P' ∨ mode = 'D' ∨ mode = 'M') (i j ra : Int)
    (hR : 1 ≤ g.numRows) (hC : 1 ≤ g.numCols)
    (hi : -1 ≤ i ∧ i ≤ g.numRows) (hj : -1 ≤ j ∧ j ≤ g.numCols)
    (hD : mode = 'D' → ra = DonutAdjust i g.numRows)
    (hM : mode = 'M' → ra = MirrorAdjust i g.numRows) (locals : Int × Int) :
    ∃ ca, CountNeighbors.column g mode i ra j locals () =
      .returned (locals.1 + (if liveAt g mode i j = true then 1 else 0), ca) () := by
  rcases hmode with rfl | rfl | rfl
  · by_cases hin : i ≥ 0 ∧ i < g.numRows ∧ j ≥ 0 ∧ j < g.numCols
    · obtain ⟨v, hcell, _, hread⟩ := Grid.readIn_inrange g hwf i j ⟨hin.1, hin.2.1⟩
        ⟨hin.2.2.1, hin.2.2.2⟩
      have hm : mappedCell g.numRows g.numCols 'P' i j = some (i, j) := by
        have : 0 ≤ i ∧ i < g.numRows ∧ 0 ≤ j ∧ j < g.numCols := hin
        simp [mappedCell, this]
      have hl := liveAt_of_mapped g 'P' i j i j v hm hcell
      refine ⟨locals.2, ?_⟩
      by_cases hv : v = 0 <;>
        simp [CountNeighbors.column, hin, hread Unit (), Outcome.bind, hl, hv]
    · have hm : mappedCell g.numRows g.numCols 'P' i j = none := by
        have : ¬ (0 ≤ i ∧ i < g.numRows ∧ 0 ≤ j ∧ j < g.numCols) := hin
        simp [mappedCell, this]
      refine ⟨locals.2, ?_⟩
      simp [CountNeighbors.column, hin, liveAt, hm]
  · obtain ⟨hi1, hi2, hi3⟩ := DonutAdjust_spec i g.numRows hR hi
    obtain ⟨hj1, hj2, hj3⟩ := DonutAdjust_spec j g.numCols hC hj
    obtain ⟨v, hcell, _, hread⟩ := Grid.readIn_inrange g hwf _ _ ⟨hi2, hi3⟩ ⟨hj2, hj3⟩
    have hm : mappedCell g.numRows g.numCols 'D' i j
        = some (i + DonutAdjust i g.numRows, j + DonutAdjust j g.numCols) := by
      simp [mappedCell, hi1, hj1]
    have hl := liveAt_of_mapped g 'D' i j _ _ v hm hcell
    refine ⟨DonutAdjust j g.numCols, ?_⟩
    by_cases hv : v = 0 <;>
      simp [CountNeighbors.column, hD rfl, hread Unit (), Outcome.bind, hl, hv]
  · obtain ⟨hi1, hi2, hi3⟩ := MirrorAdjust_spec i g.numRows hR hi
    obtain ⟨hj1, hj2, hj3⟩ := MirrorAdjust_spec j g.numCols hC hj
    obtain ⟨v, hcell, _, hread⟩ := Grid.readIn_inrange g hwf _ _ ⟨hi2, hi3⟩ ⟨hj2, hj3⟩
    have hm : mappedCell g.numRows g.numCols 'M' i j
        = some (i + MirrorAdjust i g.numRows, j + MirrorAdjust j g.numCols) := by
      simp [mappedCell, hi1, hj1]
    have hl := liveAt_of_mapped g 'M' i j _ _ v hm hcell
    refine ⟨MirrorAdjust j g.numCols, ?_⟩
    by_cases hv : v = 0 <;>
      simp [CountNeighbors.column, hM rfl, hread Unit (), Outcome.bind, hl, hv]

end LifeReads

section LifeCount

theorem countUp_three (x : Int) : countUp (x - 1) 3 = [x - 1, x, x + 1] := by
  simp [countUp]

theorem CountNeighbors.row_spec (g : Grid Int) (hwf : g.WF) (mode : Char)
    (hmode : mode = 'P' ∨ mode = 'D' ∨ mode = 'M') (i col : Int)
    (hR : 1 ≤ g.numRows) (hi : -1 ≤ i ∧ i ≤ g.numRows)
    (hc : 0 ≤ col ∧ col < g.numCols) (locals : Int × Int × Int) :
    ∃ ra ca, CountNeighbors.row g mode col i locals () =
      .returned (locals.1 + (if liveAt g mode i (col - 1) = true then 1 else 0)
        + (if liveAt g mode i col = true then 1 else 0)
        + (if liveAt g mode i (col + 1) = true then 1 else 0), ra, ca) () := by
  have hC : 1 ≤ g.numCols := by omega
  let ra : Int := if mode = 'D' then DonutAdjust i g.numRows
    else if mode = 'M' then MirrorAdjust i g.numRows else locals.2.1
  have hD : mode = 'D' → ra = DonutAdjust i g.numRows := fun h => by simp [ra, h]
  have hM : mode = 'M' → ra = MirrorAdjust i g.numRows := fun h => by
    subst h
    simp [ra]
  obtain ⟨c1, h1⟩ := CountNeighbors.column_spec g hwf mode hmode i (col - 1) ra hR hC hi
    (by omega) hD hM (locals.1, locals.2.2)
  obtain ⟨c2, h2⟩ := CountNeighbors.column_spec g hwf mode hmode i col ra hR hC hi
    (by omega) hD hM
    (locals.1 + (if liveAt g mode i (col - 1) = true then 1 else 0), c1)
  obtain ⟨c3, h3⟩ := CountNeighbors.column_spec g hwf mode hmode i (col + 1) ra hR hC hi
    (by omega) hD hM
    (locals.1 + (if liveAt g mode i (col - 1) = true then 1 else 0)
      + (if liveAt g mode i col = true then 1 else 0), c2)
  refine ⟨ra, c3, ?_⟩
  simp only [CountNeighbors.row]
  rw [countUp_three]
  simp only [forEach, Outcome.bind]
  rw [show (if mode = 'D' then DonutAdjust i g.numRows
    else if mode = 'M' then MirrorAdjust i g.numRows else locals.2.1) = ra from rfl]
  simp only [h1, h2, h3]

theorem CountNeighbors_spec (g : Grid Int) (hwf : g.WF) (mode : Char)
    (hmode : mode = 'P' ∨ mode = 'D' ∨ mode = 'M') (row col : Int)
    (hr : 0 ≤ row ∧ row < g.numRows) (hc : 0 ≤ col ∧ col < g.numCols) :
    CountNeighbors row col g mode = .returned (liveNeighbours g mode row col : Int) () := by
  have hR : 1 ≤ g.numRows := by omega
  obtain ⟨v, hcell, _, hread⟩ := Grid.readIn_inrange g hwf row col hr hc
  have hcentre : liveAt g mode row col = decide (v ≠ 0) := by
    apply liveAt_of_mapped g mode row col row col v _ hcell
    rcases hmode with rfl | rfl | rfl
    · simp [mappedCell, hr.1, hr.2, hc.1, hc.2]
    · simp [mappedCell, Int.emod_eq_of_lt hr.1 hr.2, Int.emod_eq_of_lt hc.1 hc.2]
    · have e1 : max 0 (min row (g.numRows - 1)) = row := by omega
      have e2 : max 0 (min col (g.numCols - 1)) = col := by omega
      simp [mappedCell, e1, e2]
  obtain ⟨r1, c1, h1⟩ := CountNeighbors.row_spec g hwf mode hmode (row - 1) col hR
    (by omega) hc ((if v ≠ 0 then 0 - 1 else 0), 0, 0)
  obtain ⟨r2, c2, h2⟩ := CountNeighbors.row_spec g hwf mode hmode row col hR
    (by omega) hc
    ((if v ≠ 0 then 0 - 1 else 0)
      + (if liveAt g mode (row - 1) (col - 1) = true then 1 else 0)
      + (if liveAt g mode (row - 1) col = true then 1 else 0)
      + (if liveAt g mode (row - 1) (col + 1) = true then 1 else 0), r1, c1)
  obtain ⟨r3, c3, h3⟩ := CountNeighbors.row_spec g hwf mode hmode (row + 1) col hR
    (by omega) hc
    ((if v ≠ 0 then 0 - 1 else 0)
      + (if liveAt g mode (row - 1) (col - 1) = true then 1 else 0)
      + (if liveAt g mode (row - 1) col = true then 1 else 0)
      + (if liveAt g mode (row - 1) (col + 1) = true then 1 else 0)
      + (if liveAt g mode row (col - 1) = true then 1 else 0)
      + (if liveAt g mode row col = true then 1 else 0)
      + (if liveAt g mode row (col + 1) = true then 1 else 0), r2, c2)
  simp only [CountNeighbors, hread Unit (), Outcome.bind]
  rw [countUp_three]
  simp only [forEach, Outcome.bind, h1, h2, h3]
  congr 1
  simp only [liveNeighbours, neighbourOffsets, List.countP_cons, List.countP_nil]
  have e1 : row + -1 = row - 1 := by ring
  have e2 : col + -1 = col - 1 := by ring
  simp only [e1, e2, add_zero, Nat.cast_add, Nat.cast_ite, Nat.cast_one, Nat.cast_zero,
    zero_add]
  have hmid : (if v ≠ 0 then (0 : Int) - 1 else 0)
      + (if liveAt g mode row col = true then 1 else 0) = 0 := by
    rw [hcentre]
    by_cases hv : v = 0 <;> simp [hv]
  generalize (if liveAt g mode (row - 1) (col - 1) = true then (1 : Int) else 0) = a1 at hmid ⊢
  generalize (if liveAt g mode (row - 1) col = true then (1 : Int) else 0) = a2 at hmid ⊢
  generalize (if liveAt g mode (row - 1) (col + 1) = true then (1 : Int) else 0) = a3 at hmid ⊢
  generalize (if liveAt g mode row (col - 1) = true then (1 : Int) else 0) = a4 at hmid ⊢
  generalize (if liveAt g mode row (col + 1) = true then (1 : Int) else 0) = a6 at hmid ⊢
  generalize (if liveAt g mode (row + 1) (col - 1) = true then (1 : Int) else 0) = a7 at hmid ⊢
  generalize (if liveAt g mode (row + 1) col = true then (1 : Int) else 0) = a8 at hmid ⊢
  generalize (if liveAt g mode (row + 1) (col + 1) = true then (1 : Int) else 0) = a9 at hmid ⊢
  generalize (if liveAt g mode row col = true then (1 : Int) else 0) = a5 at hmid ⊢
  generalize (if v ≠ 0 then (0 : Int) - 1 else 0) = a0 at hmid ⊢
  omega

end LifeCount

section LifeClaims

theorem mem_countUp_three (x j : Int) (h : j ∈ countUp (x - 1) 3) : x - 1 ≤ j ∧ j ≤ x + 1 := by
  rw [countUp_three] at h
  simp only [List.mem_cons, List.mem_singleton, List.not_mem_nil, or_false] at h
  omega

theorem CountNeighbors.reads_inrange (g : Grid Int) (mode : Char)
    (hmode : mode = 'P' ∨ mode = 'D' ∨ mode = 'M') (row col : Int)
    (hr : 0 ≤ row ∧ row < g.numRows) (hc : 0 ≤ col ∧ col < g.numCols) :
    ∀ p ∈ CountNeighbors.reads row col g mode,
      (0 ≤ p.1 ∧ p.1 < g.numRows) ∧ (0 ≤ p.2 ∧ p.2 < g.numCols) := by
  intro p hp
  simp only [CountNeighbors.reads, List.mem_cons, List.mem_flatMap, List.mem_filterMap] at hp
  rcases hp with rfl | ⟨i, hi, j, hj, hp⟩
  · exact ⟨hr, hc⟩
  · have hi' := mem_countUp_three row i hi
    have hj' := mem_countUp_three col j hj
    obtain ⟨_, hd1, hd2⟩ := DonutAdjust_spec i g.numRows (by omega) (by omega)
    obtain ⟨_, hd3, hd4⟩ := DonutAdjust_spec j g.numCols (by omega) (by omega)
    obtain ⟨_, hm1, hm2⟩ := MirrorAdjust_spec i g.numRows (by omega) (by omega)
    obtain ⟨_, hm3, hm4⟩ := MirrorAdjust_spec j g.numCols (by omega) (by omega)
    rcases hmode with rfl | rfl | rfl
    · by_cases hin : i ≥ 0 ∧ i < g.numRows ∧ j ≥ 0 ∧ j < g.numCols
      · simp only [if_pos hin, if_true, Option.some.injEq] at hp
        subst hp
        exact ⟨⟨hin.1, hin.2.1⟩, hin.2.2.1, hin.2.2.2⟩
      · simp [if_neg hin] at hp
    · simp at hp
      subst hp
      exact ⟨⟨hd1, hd2⟩, hd3, hd4⟩
    · simp at hp
      subst hp
      exact ⟨⟨hm1, hm2⟩, hm3, hm4⟩

/-- C39. Life neighbour counting stays in bounds: on a well-formed grid with an
in-range `(row, col)` and a mode in `'P'`, `'D'`, `'M'`, for every `i` in
`{row-1, row, row+1}` the adjusted indices `i + DonutAdjust(i, R)` and
`i + MirrorAdjust(i, R)` lie in `[0, R-1]`, likewise for the columns; every
`getAt` call `CountNeighbors` makes uses an in-range location and returns, and
`CountNeighbors` returns a value: it never raises the range error. -/
theorem life_reads_in_bounds (g : Grid Int) (hwf : g.WF) (mode : Char)
    (hmode : mode = 'P' ∨ mode = 'D' ∨ mode = 'M') (row col : Int)
    (hr : 0 ≤ row ∧ row < g.numRows) (hc : 0 ≤ col ∧ col < g.numCols) :
    (∀ i, row - 1 ≤ i → i ≤ row + 1 →
      (0 ≤ i + DonutAdjust i g.numRows ∧ i + DonutAdjust i g.numRows ≤ g.numRows - 1) ∧
      (0 ≤ i + MirrorAdjust i g.numRows ∧ i + MirrorAdjust i g.numRows ≤ g.numRows - 1)) ∧
    (∀ j, col - 1 ≤ j → j ≤ col + 1 →
      (0 ≤ j + DonutAdjust j g.numCols ∧ j + DonutAdjust j g.numCols ≤ g.numCols - 1) ∧
      (0 ≤ j + MirrorAdjust j g.numCols ∧ j + MirrorAdjust j g.numCols ≤ g.numCols - 1)) ∧
    (∀ p ∈ CountNeighbors.reads row col g mode,
      (0 ≤ p.1 ∧ p.1 < g.numRows) ∧ (0 ≤ p.2 ∧ p.2 < g.numCols) ∧
      g.checkRange p.1 p.2 = none ∧ ∃ x, g.getAt p.1 p.2 = .returned x g) ∧
    (∃ n, CountNeighbors row col g mode = .returned n ()) ∧
    (∀ msg state, CountNeighbors row col g mode ≠ .raised msg state) ∧
    CountNeighbors row col g mode ≠ .undefined := by
  have hspec := CountNeighbors_spec g hwf mode hmode row col hr hc
  refine ⟨?_, ?_, ?_, ⟨_, hspec⟩, ?_, ?_⟩
  · intro i h1 h2
    obtain ⟨_, hd1, hd2⟩ := DonutAdjust_spec i g.numRows (by omega) (by omega)
    obtain ⟨_, hm1, hm2⟩ := MirrorAdjust_spec i g.numRows (by omega) (by omega)
    omega
  · intro j h1 h2
    obtain ⟨_, hd1, hd2⟩ := DonutAdjust_spec j g.numCols (by omega) (by omega)
    obtain ⟨_, hm1, hm2⟩ := MirrorAdjust_spec j g.numCols (by omega) (by omega)
    omega
  · intro p hp
    obtain ⟨h1, h2⟩ := CountNeighbors.reads_inrange g mode hmode row col hr hc p hp
    obtain ⟨x, _, hget, _⟩ := Grid.readIn_inrange g hwf p.1 p.2 h1 h2
    refine ⟨h1, h2, ?_, x, hget⟩
    have : ¬ (p.1 < 0 ∨ p.1 ≥ g.numRows ∨ p.2 < 0 ∨ p.2 ≥ g.numCols) := by omega
    simp [Grid.checkRange, this]
  · intro msg state h
    rw [hspec] at h
    cases h
  · intro h
    rw [hspec] at h
    cases h

theorem life_reads_in_bounds_witness :
    exampleColony.WF ∧
    CountNeighbors.reads 2 2 exampleColony 'M'
      = [(2, 2), (1, 1), (1, 2), (1, 2), (2, 1), (2, 2), (2, 2), (2, 1), (2, 2), (2, 2)] ∧
    CountNeighbors.reads 0 0 exampleColony 'D'
      = [(0, 0), (2, 2), (2, 0), (2, 1), (0, 2), (0, 0), (0, 1), (1, 2), (1, 0), (1, 1)] ∧
    CountNeighbors.reads 0 0 exampleColony 'P' = [(0, 0), (0, 0), (0, 1), (1, 0), (1, 1)] ∧
    (∃ n, CountNeighbors 2 2 exampleColony 'M' = .returned n ()) ∧
    (∀ p ∈ CountNeighbors.reads 2 2 exampleColony 'M',
      (0 ≤ p.1 ∧ p.1 < exampleColony.numRows) ∧ (0 ≤ p.2 ∧ p.2 < exampleColony.numCols) ∧
      exampleColony.checkRange p.1 p.2 = none ∧
      ∃ x, exampleColony.getAt p.1 p.2 = .returned x exampleColony) :=
  ⟨⟨by decide, by decide, by decide⟩, by decide, by decide, by decide,
    (life_reads_in_bounds exampleColony ⟨by decide, by decide, by decide⟩ 'M'
      (Or.inr (Or.inr rfl)) 2 2 (by decide) (by decide)).2.2.2.1,
    (life_reads_in_bounds exampleColony ⟨by decide, by decide, by decide⟩ 'M'
      (Or.inr (Or.inr rfl)) 2 2 (by decide) (by decide)).2.2.1⟩

end LifeClaims

section LifeGeneration

theorem Grid.setAt_inrange {α : Type} (g : Grid α) (hwf : g.WF) (row col : Int) (v : α)
    (hr : 0 ≤ row ∧ row < g.numRows) (hc : 0 ≤ col ∧ col < g.numCols) :
    g.setAt row col v = .returned ()
        (Grid.mk (g.elements.set (row * g.nCols + col).toNat v) g.nRows g.nCols g.timestamp) ∧
      (row * g.nCols + col).toNat < g.elements.length ∧ 0 ≤ row * g.nCols + col := by
  have h : ¬ (row < 0 ∨ g.numRows - 1 < row ∨ col < 0 ∨ g.numCols - 1 < col) := by omega
  obtain ⟨h0, hlt⟩ := Grid.index_in_block g hwf row col h
  refine ⟨?_, hlt, h0⟩
  simp only [Grid.setAt, Grid.elementRef_ok g row col h, arraySet, if_pos (And.intro h0 hlt)]

theorem mem_countUp (j : Int) : ∀ (n : Nat) (lo : Int), j ∈ countUp lo n ↔ lo ≤ j ∧ j < lo + n
  | 0, lo => by
    simp only [countUp, List.not_mem_nil, false_iff]
    push_cast
    omega
  | n + 1, lo => by
    simp only [countUp, List.mem_cons, mem_countUp j n (lo + 1)]
    push_cast
    omega

theorem GenerateNewGeneration.cell_spec (mainGrid : Grid Int) (hwf : mainGrid.WF)
    (mode : Char) (hmode : mode = 'P' ∨ mode = 'D' ∨ mode = 'M')
    (hmax : ∀ r c a, mainGrid.cell r c = some a → a < INT_MAX)
    (i j : Int) (hi : 0 ≤ i ∧ i < mainGrid.numRows) (hj : 0 ≤ j ∧ j < mainGrid.numCols)
    (newGrid : Grid Int) (hwf' : newGrid.WF)
    (hrows : newGrid.nRows = mainGrid.nRows) (hcols : newGrid.nCols = mainGrid.nCols) :
    ∃ a, mainGrid.cell i j = some a ∧
      GenerateNewGeneration.cell mainGrid mode i j newGrid = .returned ()
        (Grid.mk (newGrid.elements.set (i * mainGrid.nCols + j).toNat
          (lifeRule (liveNeighbours mainGrid mode i j) a))
          newGrid.nRows newGrid.nCols newGrid.timestamp) := by
  obtain ⟨a, hcell, _, hread⟩ := Grid.readIn_inrange mainGrid hwf i j hi hj
  have ha := hmax i j a hcell
  have hset : ∀ v, newGrid.setAt i j v = .returned ()
      (Grid.mk (newGrid.elements.set (i * mainGrid.nCols + j).toNat v)
        newGrid.nRows newGrid.nCols newGrid.timestamp) := fun v => by
    rw [← hcols]
    exact (Grid.setAt_inrange newGrid hwf' i j v
      (by simpa [Grid.numRows, hrows] using hi) (by simpa [Grid.numCols, hcols] using hj)).1
  have hsucc : intSucc a newGrid = .returned (a + 1) newGrid := by
    have : a + 1 ≤ INT_MAX := by omega
    simp [intSucc, this]
  refine ⟨a, hcell, ?_⟩
  simp only [GenerateNewGeneration.cell, CountNeighbors_spec mainGrid hwf mode hmode i j hi hj,
    Outcome.inState, Outcome.bind]
  by_cases h3 : (liveNeighbours mainGrid mode i j : Int) = 3
  · simp only [h3, if_true, hread, Outcome.bind, hsucc, hset, lifeRule]
  · by_cases h2 : (liveNeighbours mainGrid mode i j : Int) = 2
    · by_cases h0 : a = 0
      · simp [h2, hread, Outcome.bind, hset, lifeRule, h0]
      · simp [h2, hread, Outcome.bind, hsucc, hset, lifeRule, h0]
    · simp only [h3, h2, if_false, hset, lifeRule]

theorem GenerateNewGeneration.columns_spec (mainGrid : Grid Int) (hwf : mainGrid.WF)
    (mode : Char) (hmode : mode = 'P' ∨ mode = 'D' ∨ mode = 'M')
    (hmax : ∀ r c a, mainGrid.cell r c = some a → a < INT_MAX)
    (i : Int) (hi : 0 ≤ i ∧ i < mainGrid.numRows) :
    ∀ (js : List Int) (newGrid : Grid Int), (∀ j ∈ js, 0 ≤ j ∧ j < mainGrid.numCols) →
      newGrid.WF → newGrid.nRows = mainGrid.nRows → newGrid.nCols = mainGrid.nCols →
      ∃ g', forEach (fun j _ newGrid => GenerateNewGeneration.cell mainGrid mode i j newGrid)
          js () newGrid = .returned () g' ∧
        g'.WF ∧ g'.nRows = mainGrid.nRows ∧ g'.nCols = mainGrid.nCols ∧
        (∀ k : Nat, (∀ j ∈ js, k ≠ (i * mainGrid.nCols + j).toNat) →
          g'.elements[k]? = newGrid.elements[k]?) ∧
        (∀ j ∈ js, ∃ a, mainGrid.cell i j = some a ∧
          g'.elements[(i * mainGrid.nCols + j).toNat]?
            = some (lifeRule (liveNeighbours mainGrid mode i j) a))
  | [], newGrid, _, hwf', hrows, hcols =>
    ⟨newGrid, rfl, hwf', hrows, hcols, fun _ _ => rfl, fun j hj => absurd hj (by simp)⟩
  | j :: js, newGrid, hjs, hwf', hrows, hcols => by
    have hj := hjs j (by simp)
    obtain ⟨a, hcell, hstep⟩ := GenerateNewGeneration.cell_spec mainGrid hwf mode hmode hmax
      i j hi hj newGrid hwf' hrows hcols
    have hidx := (Grid.setAt_inrange newGrid hwf' i j 0
      (by simpa [Grid.numRows, hrows] using hi) (by simpa [Grid.numCols, hcols] using hj)).2
    rw [hcols] at hidx
    have hwf1 : (Grid.mk (newGrid.elements.set (i * mainGrid.nCols + j).toNat
        (lifeRule (liveNeighbours mainGrid mode i j) a))
        newGrid.nRows newGrid.nCols newGrid.timestamp).WF :=
      ⟨hwf'.rows_nonneg, hwf'.cols_nonneg, by simpa using hwf'.allocated⟩
    obtain ⟨g', hrest, hwfg, hr', hc', hframe, hvals⟩ :=
      GenerateNewGeneration.columns_spec mainGrid hwf mode hmode hmax i hi js _
        (fun j' hj' => hjs j' (by simp [hj'])) hwf1 hrows hcols
    refine ⟨g', by simp only [forEach, hstep, Outcome.bind, hrest], hwfg, hr', hc', ?_, ?_⟩
    · intro k hk
      rw [hframe k (fun j' hj' => hk j' (by simp [hj']))]
      simp only [List.getElem?_set_ne (hk j (by simp)).symm]
    · intro j' hj'
      by_cases hmem : j' ∈ js
      · exact hvals j' hmem
      · have hjj : j' = j := by
          rcases List.mem_cons.1 hj' with h | h
          · exact h
          · exact absurd h hmem
        subst hjj
        refine ⟨a, hcell, ?_⟩
        rw [hframe _ (fun j'' hj'' => ?_)]
        · simp only [List.getElem?_set, hidx.1, if_true]
        · have hj2 := hjs j'' (by simp [hj''])
          have hne : j'' ≠ j' := fun h => hmem (h ▸ hj'')
          have h1 : 0 ≤ i * mainGrid.nCols := Int.mul_nonneg hi.1 (by rw [← hcols]; exact hwf'.cols_nonneg)
          simp only [Grid.numCols] at hj hj2
          omega

theorem GenerateNewGeneration.rows_spec (mainGrid : Grid Int) (hwf : mainGrid.WF)
    (mode : Char) (hmode : mode = 'P' ∨ mode = 'D' ∨ mode = 'M')
    (hmax : ∀ r c a, mainGrid.cell r c = some a → a < INT_MAX) :
    ∀ (is : List Int) (newGrid : Grid Int), (∀ i ∈ is, 0 ≤ i ∧ i < mainGrid.numRows) →
      newGrid.WF → newGrid.nRows = mainGrid.nRows → newGrid.nCols = mainGrid.nCols →
      ∃ g', forEach (GenerateNewGeneration.row mainGrid mode) is () newGrid
          = .returned () g' ∧
        g'.WF ∧ g'.nRows = mainGrid.nRows ∧ g'.nCols = mainGrid.nCols ∧
        (∀ k : Nat, (∀ i ∈ is, ∀ j, 0 ≤ j ∧ j < mainGrid.numCols →
            k ≠ (i * mainGrid.nCols + j).toNat) → g'.elements[k]? = newGrid.elements[k]?) ∧
        (∀ i ∈ is, ∀ j, 0 ≤ j ∧ j < mainGrid.numCols → ∃ a, mainGrid.cell i j = some a ∧
          g'.elements[(i * mainGrid.nCols + j).toNat]?
            = some (lifeRule (liveNeighbours mainGrid mode i j) a))
  | [], newGrid, _, hwf', hrows, hcols =>
    ⟨newGrid, rfl, hwf', hrows, hcols, fun _ _ => rfl, fun i hi => absurd hi (by simp)⟩
  | i :: is, newGrid, his, hwf', hrows, hcols => by
    have hi := his i (by simp)
    have hmemj : ∀ j, j ∈ countUp 0 mainGrid.numCols.toNat ↔ 0 ≤ j ∧ j < mainGrid.numCols := by
      intro j
      have := hwf.cols_nonneg
      rw [mem_countUp]
      simp only [Grid.numCols]
      omega
    obtain ⟨g1, hrow, hwf1, hr1, hc1, hframe1, hvals1⟩ :=
      GenerateNewGeneration.columns_spec mainGrid hwf mode hmode hmax i hi
        (countUp 0 mainGrid.numCols.toNat) newGrid (fun j hj => (hmemj j).1 hj) hwf' hrows hcols
    obtain ⟨g', hrest, hwfg, hr', hc', hframe, hvals⟩ :=
      GenerateNewGeneration.rows_spec mainGrid hwf mode hmode hmax is g1
        (fun i' hi' => his i' (by simp [hi'])) hwf1 hr1 hc1
    refine ⟨g', by simp only [forEach, GenerateNewGeneration.row, hrow, Outcome.bind, hrest],
      hwfg, hr', hc', ?_, ?_⟩
    · intro k hk
      rw [hframe k (fun i' hi' j hj => hk i' (by simp [hi']) j hj)]
      exact hframe1 k (fun j hj => hk i (by simp) j ((hmemj j).1 hj))
    · intro i' hi' j hj
      by_cases hmem : i' ∈ is
      · exact hvals i' hmem j hj
      · have hii : i' = i := by
          rcases List.mem_cons.1 hi' with h | h
          · exact h
          · exact absurd h hmem
        subst hii
        obtain ⟨a, hcell, hv⟩ := hvals1 j ((hmemj j).2 hj)
        refine ⟨a, hcell, ?_⟩
        rw [hframe _ (fun i'' hi'' j'' hj'' => ?_)]
        · exact hv
        · have hi2 := his i'' (by simp [hi''])
          have hne : i'' ≠ i' := fun h => hmem (h ▸ hi'')
          intro he
          have h0 : 0 ≤ i' * mainGrid.nCols := Int.mul_nonneg hi.1 hwf.cols_nonneg
          have h0' : 0 ≤ i'' * mainGrid.nCols := Int.mul_nonneg hi2.1 hwf.cols_nonneg
          simp only [Grid.numCols] at hj hj''
          have e : i' * mainGrid.nCols + j = i'' * mainGrid.nCols + j'' := by omega
          exact hne (rowMajor_injective mainGrid.nCols i' j i'' j'' hj hj'' e).1.symm

end LifeGeneration

section LifeGenerationClaim

theorem Grid.cell_mem {α : Type} (g : Grid α) (row col : Int) (a : α)
    (h : g.cell row col = some a) : a ∈ g.elements := by
  unfold Grid.cell Grid.getAt at h
  cases he : g.elementRef row col with
  | error msg => simp [he] at h
  | ok i =>
    simp only [he] at h
    cases hg : arrayGet g.elements i with
    | none => simp [hg] at h
    | some x =>
      simp only [hg, Option.some.injEq] at h
      subst h
      unfold arrayGet at hg
      split at hg
      · exact List.getElem?_mem hg
      · cases hg

/-- C33. Life generation rule: for a well-formed `mainGrid` whose cells are
below `INT_MAX`, a well-formed `newGrid` of the same dimensions and a mode in
`'P'`, `'D'`, `'M'`, `GenerateNewGeneration` returns, keeps the dimensions of
`newGrid`, and for every in-range cell `(i, j)` with neighbour count
`n = CountNeighbors(i, j, mainGrid, mode)` and old value `a = mainGrid(i, j)`
the new `newGrid(i, j)` is `a + 1` if `n = 3`; `a + 1` if `n = 2` and
`a ≠ 0`; `0` if `n = 2` and `a = 0`; `0` if `n < 2` or `n > 3`.  `mainGrid` is
received by value: the function has no effect on it. -/
theorem life_generation_rule (mainGrid newGrid : Grid Int) (hwf : mainGrid.WF)
    (hwf' : newGrid.WF) (hrows : newGrid.numRows = mainGrid.numRows)
    (hcols : newGrid.numCols = mainGrid.numCols) (mode : Char)
    (hmode : mode = 'P' ∨ mode = 'D' ∨ mode = 'M')
    (hmax : ∀ r c a, mainGrid.cell r c = some a → a < INT_MAX) :
    ∃ newGrid', GenerateNewGeneration mainGrid mode newGrid = .returned () newGrid' ∧
      newGrid'.numRows = newGrid.numRows ∧ newGrid'.numCols = newGrid.numCols ∧
      ∀ i j, 0 ≤ i ∧ i < mainGrid.numRows → 0 ≤ j ∧ j < mainGrid.numCols →
        ∃ n a v, CountNeighbors i j mainGrid mode = .returned n () ∧
          mainGrid.getAt i j = .returned a mainGrid ∧
          newGrid'.getAt i j = .returned v newGrid' ∧
          (n = 3 → v = a + 1) ∧ (n = 2 → a ≠ 0 → v = a + 1) ∧ (n = 2 → a = 0 → v = 0) ∧
          (n < 2 ∨ n > 3 → v = 0) := by
  have hmemi : ∀ i, i ∈ countUp 0 mainGrid.numRows.toNat → 0 ≤ i ∧ i < mainGrid.numRows := by
    intro i hi
    have := hwf.rows_nonneg
    rw [mem_countUp] at hi
    simp only [Grid.numRows] at hi ⊢
    omega
  obtain ⟨g', hrun, hwfg, hr', hc', _, hvals⟩ :=
    GenerateNewGeneration.rows_spec mainGrid hwf mode hmode hmax
      (countUp 0 mainGrid.numRows.toNat) newGrid hmemi hwf' hrows hcols
  refine ⟨g', hrun, by simp only [Grid.numRows, hr']; exact hrows.symm,
    by simp only [Grid.numCols, hc']; exact hcols.symm, ?_⟩
  intro i j hi hj
  have hi' : i ∈ countUp 0 mainGrid.numRows.toNat := by
    have := hwf.rows_nonneg
    rw [mem_countUp]
    simp only [Grid.numRows] at hi ⊢
    omega
  obtain ⟨a, hcell, hv⟩ := hvals i hi' j hj
  obtain ⟨a', hcell', hget, _⟩ := Grid.readIn_inrange mainGrid hwf i j hi hj
  obtain rfl : a' = a := by
    rw [hcell] at hcell'
    exact (Option.some.inj hcell').symm
  obtain ⟨x, hx, hgetx⟩ := Grid.getAt_inrange g' hwfg i j
    (by simpa [Grid.numRows, hr'] using hi) (by simpa [Grid.numCols, hc'] using hj)
  rw [hc', hv] at hx
  obtain rfl := Option.some.inj hx
  refine ⟨(liveNeighbours mainGrid mode i j : Int), a', _, CountNeighbors_spec mainGrid hwf mode
    hmode i j hi hj, hget, hgetx, ?_, ?_, ?_, ?_⟩
  · intro h
    simp [lifeRule, h]
  · intro h h0
    simp [lifeRule, h, h0]
  · intro h h0
    simp [lifeRule, h, h0]
  · intro h
    have h3 : ¬ (liveNeighbours mainGrid mode i j : Int) = 3 := by omega
    have h2 : ¬ (liveNeighbours mainGrid mode i j : Int) = 2 := by omega
    simp [lifeRule, h3, h2]

theorem life_generation_rule_witness :
    exampleColony.WF ∧
    GenerateNewGeneration exampleColony 'P'
        { elements := [9, 9, 9, 9, 9, 9, 9, 9, 9], nRows := 3, nCols := 3, timestamp := 1 }
      = .returned ()
        { elements := [2, 2, 0, 0, 0, 0, 0, 2, 2], nRows := 3, nCols := 3, timestamp := 1 } ∧
    ∃ newGrid', GenerateNewGeneration exampleColony 'P'
        { elements := [9, 9, 9, 9, 9, 9, 9, 9, 9], nRows := 3, nCols := 3, timestamp := 1 }
        = .returned () newGrid' ∧
      newGrid'.numRows = 3 ∧ newGrid'.numCols = 3 ∧
      ∀ i j, 0 ≤ i ∧ i < exampleColony.numRows → 0 ≤ j ∧ j < exampleColony.numCols →
        ∃ n a v, CountNeighbors i j exampleColony 'P' = .returned n () ∧
          exampleColony.getAt i j = .returned a exampleColony ∧
          newGrid'.getAt i j = .returned v newGrid' ∧
          (n = 3 → v = a + 1) ∧ (n = 2 → a ≠ 0 → v = a + 1) ∧ (n = 2 → a = 0 → v = 0) ∧
          (n < 2 ∨ n > 3 → v = 0) :=
  ⟨⟨by decide, by decide, by decide⟩, by rfl,
    life_generation_rule exampleColony
      { elements := [9, 9, 9, 9, 9, 9, 9, 9, 9], nRows := 3, nCols := 3, timestamp := 1 }
      ⟨by decide, by decide, by decide⟩ ⟨by decide, by decide, by decide⟩ rfl rfl 'P'
      (Or.inl rfl) (fun r c a h => by
        have hm := Grid.cell_mem exampleColony r c a h
        simp only [exampleColony, List.mem_cons, List.mem_singleton, List.not_mem_nil,
          or_false] at hm
        simp only [INT_MAX]
        omega)⟩

end LifeGenerationClaim

section LifeStable

theorem StableColony.columns_stable (MaxAge : Int) (g : Grid Int) (hwf : g.WF) (i : Int)
    (hi : 0 ≤ i ∧ i < g.numRows) :
    ∀ (js : List Int) (deadCells : Int), (∀ j ∈ js, 0 ≤ j ∧ j < g.numCols) →
      ∃ flow, forEachReturn (StableColony.cell MaxAge g i) js deadCells ()
          = .returned flow () ∧
        (flow = .error false ∨ ∃ d, flow = .ok d) ∧
        ((∃ d, flow = .ok d) ↔ ∀ j ∈ js, ∀ v, g.cell i j = some v → v = 0 ∨ MaxAge ≤ v)
  | [], deadCells, _ => ⟨.ok deadCells, rfl, Or.inr ⟨_, rfl⟩, by simp⟩
  | j :: js, deadCells, hjs => by
    obtain ⟨v, hcell, _, hread⟩ := Grid.readIn_inrange g hwf i j hi (hjs j (by simp))
    by_cases hyoung : v ≠ 0 ∧ v < MaxAge
    · refine ⟨.error false, ?_, Or.inl rfl, ?_⟩
      · simp [forEachReturn, StableColony.cell, hread, Outcome.bind, hyoung.1, hyoung.2]
      · constructor
        · rintro ⟨d, hd⟩
          cases hd
        · intro h
          have := h j (by simp) v hcell
          omega
    · obtain ⟨flow, hrest, hshape, hiff⟩ := StableColony.columns_stable MaxAge g hwf i hi js
        (if v = 0 then deadCells + 1 else deadCells) (fun j' hj' => hjs j' (by simp [hj']))
      refine ⟨flow, ?_, hshape, ?_⟩
      · have hstep : StableColony.cell MaxAge g i j deadCells ()
            = .returned (.ok (if v = 0 then deadCells + 1 else deadCells)) () := by
          by_cases h0 : v = 0
          · simp [StableColony.cell, hread, Outcome.bind, h0]
          · have hge : ¬ v < MaxAge := fun h => hyoung ⟨h0, h⟩
            simp [StableColony.cell, hread, Outcome.bind, h0, hge]
        simp only [forEachReturn, hstep, Outcome.bind, hrest]
      · rw [hiff]
        constructor
        · intro h j' hj' v' hv'
          rcases List.mem_cons.1 hj' with rfl | hj'
          · rw [hcell] at hv'
            obtain rfl := Option.some.inj hv'
            omega
          · exact h j' hj' v' hv'
        · intro h j' hj'
          exact h j' (by simp [hj'])

theorem StableColony.rows_stable (MaxAge : Int) (g : Grid Int) (hwf : g.WF) :
    ∀ (is : List Int) (deadCells : Int), (∀ i ∈ is, 0 ≤ i ∧ i < g.numRows) →
      ∃ flow, forEachReturn (StableColony.row MaxAge g) is deadCells ()
          = .returned flow () ∧
        (flow = .error false ∨ ∃ d, flow = .ok d) ∧
        ((∃ d, flow = .ok d) ↔ ∀ i ∈ is, ∀ j, 0 ≤ j ∧ j < g.numCols →
          ∀ v, g.cell i j = some v → v = 0 ∨ MaxAge ≤ v)
  | [], deadCells, _ => ⟨.ok deadCells, rfl, Or.inr ⟨_, rfl⟩, by simp⟩
  | i :: is, deadCells, his => by
    have hmemj : ∀ j, j ∈ countUp 0 g.numCols.toNat ↔ 0 ≤ j ∧ j < g.numCols := by
      intro j
      have := hwf.cols_nonneg
      rw [mem_countUp]
      simp only [Grid.numCols]
      omega
    obtain ⟨flow1, hrow, hshape1, hiff1⟩ := StableColony.columns_stable MaxAge g hwf i
      (his i (by simp)) (countUp 0 g.numCols.toNat) deadCells (fun j hj => (hmemj j).1 hj)
    rcases hshape1 with rfl | ⟨d, rfl⟩
    · refine ⟨.error false, by simp only [forEachReturn, StableColony.row, hrow, Outcome.bind],
        Or.inl rfl, ?_⟩
      constructor
      · rintro ⟨d, hd⟩
        cases hd
      · intro h
        exact hiff1.2 (fun j hj v hv => h i (by simp) j ((hmemj j).1 hj) v hv)
    · obtain ⟨flow, hrest, hshape, hiff⟩ := StableColony.rows_stable MaxAge g hwf is d
        (fun i' hi' => his i' (by simp [hi']))
      refine ⟨flow, by simp only [forEachReturn, StableColony.row, hrow, Outcome.bind, hrest],
        hshape, ?_⟩
      rw [hiff]
      constructor
      · intro h i' hi' j hj v hv
        rcases List.mem_cons.1 hi' with rfl | hi'
        · exact hiff1.1 ⟨d, rfl⟩ j ((hmemj j).2 hj) v hv
        · exact h i' hi' j hj v hv
      · intro h i' hi'
        exact h i' (by simp [hi'])

theorem StableColony_spec (MaxAge : Int) (g : Grid Int) (hwf : g.WF) :
    ∃ b, StableColony MaxAge g = .returned b () ∧
      (b = true ↔ ∀ i j v, 0 ≤ i ∧ i < g.numRows → 0 ≤ j ∧ j < g.numCols →
        g.cell i j = some v → v = 0 ∨ MaxAge ≤ v) := by
  have hmemi : ∀ i, i ∈ countUp 0 g.numRows.toNat ↔ 0 ≤ i ∧ i < g.numRows := by
    intro i
    have := hwf.rows_nonneg
    rw [mem_countUp]
    simp only [Grid.numRows]
    omega
  obtain ⟨flow, hrun, hshape, hiff⟩ := StableColony.rows_stable MaxAge g hwf
    (countUp 0 g.numRows.toNat) 0 (fun i hi => (hmemi i).1 hi)
  rcases hshape with rfl | ⟨d, rfl⟩
  · refine ⟨false, by simp [StableColony, hrun, Outcome.bind], ?_⟩
    constructor
    · intro h
      cases h
    · intro h
      have := hiff.2 (fun i hi j hj v hv => h i j v ((hmemi i).1 hi) hj hv)
      obtain ⟨d, hd⟩ := this
      cases hd
  · refine ⟨true, by simp [StableColony, hrun, Outcome.bind], ?_⟩
    constructor
    · intro _ i j v hi hj hv
      exact hiff.1 ⟨d, rfl⟩ i ((hmemi i).2 hi) j hj v hv
    · intro _
      rfl

end LifeStable

section LifeStableClaim

/-- C34 (code as it is). Life stabilisation test: `StableColony` tests the ages
only.  On every well-formed grid it returns `true` exactly when every
non-zero cell has reached `MaxAge`, whether or not the configuration still
changes.  A single live cell of age `MaxAge` makes it return `true` although
the cell dies in the next generation; and with `MaxAge = 12` the run of
`GenerateSimulation` in Plateau mode from a row of 25 live cells of age 1
stops after 11 generations ("Colony stabilized.") on three live cells of age
12, of which two die in the following generation. -/
theorem stable_colony_ignores_change :
    (∀ (MaxAge : Int) (g : Grid Int), g.WF →
      ∃ b, StableColony MaxAge g = .returned b () ∧
        (b = true ↔ ∀ i j v, 0 ≤ i ∧ i < g.numRows → 0 ≤ j ∧ j < g.numCols →
          g.cell i j = some v → v = 0 ∨ MaxAge ≤ v)) ∧
    (∀ MaxAge : Int, MaxAge ≠ 0 →
      StableColony MaxAge { elements := [MaxAge], nRows := 1, nCols := 1, timestamp := 1 }
        = .returned true () ∧
      GenerateNewGeneration { elements := [MaxAge], nRows := 1, nCols := 1, timestamp := 1 } 'P'
          { elements := [MaxAge], nRows := 1, nCols := 1, timestamp := 1 }
        = .returned () { elements := [0], nRows := 1, nCols := 1, timestamp := 1 }) ∧
    (GenerateSimulation 12 'P' 100 (rowColony 25) (rowColony 25)).map
        (fun result => (result.1, result.2.elements))
      = some (11, [0, 0, 0, 0, 0, 0, 0, 0, 0, 0, 0, 12, 12, 12, 0, 0, 0, 0, 0, 0, 0, 0, 0, 0, 0]) ∧
    StableColony 12
        { elements := [0, 0, 0, 0, 0, 0, 0, 0, 0, 0, 0, 12, 12, 12,
            0, 0, 0, 0, 0, 0, 0, 0, 0, 0, 0], nRows := 1, nCols := 25, timestamp := 1 }
      = .returned true () ∧
    GenerateNewGeneration
        { elements := [0, 0, 0, 0, 0, 0, 0, 0, 0, 0, 0, 12, 12, 12,
            0, 0, 0, 0, 0, 0, 0, 0, 0, 0, 0], nRows := 1, nCols := 25, timestamp := 1 } 'P'
        { elements := [0, 0, 0, 0, 0, 0, 0, 0, 0, 0, 0, 12, 12, 12,
            0, 0, 0, 0, 0, 0, 0, 0, 0, 0, 0], nRows := 1, nCols := 25, timestamp := 1 }
      = .returned ()
        { elements := [0, 0, 0, 0, 0, 0, 0, 0, 0, 0, 0, 0, 13, 0,
            0, 0, 0, 0, 0, 0, 0, 0, 0, 0, 0], nRows := 1, nCols := 25, timestamp := 1 } := by
  refine ⟨StableColony_spec, ?_, by decide, by rfl, by rfl⟩
  intro MaxAge h0
  constructor
  · have hlt : ¬ MaxAge < MaxAge := lt_irrefl _
    simp [StableColony, StableColony.row, StableColony.cell, forEachReturn, countUp,
      Grid.numRows, Grid.numCols, Grid.readIn, Grid.getAt, Grid.elementRef, Grid.checkRange,
      arrayGet, Outcome.bind, h0, hlt]
  · simp [GenerateNewGeneration, GenerateNewGeneration.row, GenerateNewGeneration.cell,
      CountNeighbors, CountNeighbors.row, CountNeighbors.column, forEach, countUp,
      Grid.numRows, Grid.numCols, Grid.readIn, Grid.getAt, Grid.setAt, Grid.elementRef,
      Grid.checkRange, arrayGet, arraySet, Outcome.bind, Outcome.inState, h0]

theorem stable_colony_ignores_change_witness :
    exampleColony.WF ∧ StableColony 12 exampleColony = .returned false () ∧
    ∃ b, StableColony 12 exampleColony = .returned b () ∧
      (b = true ↔ ∀ i j v, 0 ≤ i ∧ i < exampleColony.numRows →
        0 ≤ j ∧ j < exampleColony.numCols →
        exampleColony.cell i j = some v → v = 0 ∨ 12 ≤ v) :=
  ⟨⟨by decide, by decide, by decide⟩, by rfl,
    stable_colony_ignores_change.1 12 exampleColony ⟨by decide, by decide, by decide⟩⟩

end LifeStableClaim

section IteratorPath

variable {α : Type} {cmpFn : α → α → Int}

theorem StackPath.tail {root : nodeT α} {m : iteratorMarkerT α} {s : Stack (iteratorMarkerT α)}
    (h : StackPath root (m :: s)) : StackPath root s := by
  cases s with
  | nil => trivial
  | cons m' s => exact h.2.2

theorem StackPath.flag {root : nodeT α} {m : iteratorMarkerT α} {s : Stack (iteratorMarkerT α)}
    (h : StackPath root (m :: s)) (b : Bool) :
    StackPath root ({ m with processed := b } :: s) := by
  cases s with
  | nil => exact h
  | cons m' s => exact h

theorem StackPath.top_nonnull {root : nodeT α} {m : iteratorMarkerT α}
    {s : Stack (iteratorMarkerT α)} (h : StackPath root (m :: s)) : m.np ≠ .NULL := by
  cases s with
  | nil => exact h.2
  | cons m' s => exact h.1

theorem findLeftmostChildLoop_eq : ∀ (d : α) (l r : nodeT α) (bf : Int)
    (st : Stack (iteratorMarkerT α)),
    findLeftmostChildLoop (.node d l r bf) st
      = .ok (((leftSpine l).reverse.map fun t => { np := t, processed := false }) ++ st)
  | d, .NULL, r, bf, st => rfl
  | d, .node ld ll lr lbf, r, bf, st => by
    rw [findLeftmostChildLoop, findLeftmostChildLoop_eq ld ll lr lbf]
    simp [leftSpine, Stack.push]

theorem StackPath.spine (root : nodeT α) : ∀ (l : nodeT α) (d : α) (r : nodeT α) (bf : Int)
    (st : Stack (iteratorMarkerT α)),
    StackPath root ({ np := .node d l r bf, processed := false } :: st) →
    StackPath root (((leftSpine l).reverse.map fun t => { np := t, processed := false })
      ++ { np := .node d l r bf, processed := false } :: st)
  | .NULL, d, r, bf, st, h => by simpa [leftSpine] using h
  | .node ld ll lr lbf, d, r, bf, st, h => by
    have h1 : StackPath root ({ np := .node ld ll lr lbf, processed := false } ::
        { np := .node d (.node ld ll lr lbf) r bf, processed := false } :: st) :=
      ⟨by simp, by simp [getLeft], h⟩
    have := StackPath.spine root ll ld lr lbf _ h1
    simpa [leftSpine] using this

theorem popProcessed_path (root : nodeT α) : ∀ (st : Stack (iteratorMarkerT α)),
    StackPath root st → StackPath root (popProcessed st)
  | [], _ => trivial
  | m :: s, h => by
    by_cases hp : m.processed = true
    · simp only [popProcessed, hp, if_true]
      exact popProcessed_path root s h.tail
    · simp only [popProcessed, hp]
      exact h

theorem advanceToNextNode_path (root : nodeT α) (m : iteratorMarkerT α)
    (s : Stack (iteratorMarkerT α)) (hpath : StackPath root (m :: s))
    (s' : Stack (iteratorMarkerT α)) (hadv : advanceToNextNode (m :: s) = .ok s') :
    StackPath root s' := by
  obtain ⟨np, processed⟩ := m
  cases np with
  | NULL => exact absurd rfl hpath.top_nonnull
  | node d l r bf =>
    cases r with
    | NULL =>
      have : s' = popProcessed s := by
        have h : advanceToNextNode ({ np := .node d l .NULL bf, processed := processed } :: s)
            = .ok (popProcessed s) := rfl
        rw [h] at hadv
        exact (Except.ok.inj hadv).symm
      rw [this]
      exact popProcessed_path root s hpath.tail
    | node rd rl rr rbf =>
      have h : advanceToNextNode
          ({ np := .node d l (.node rd rl rr rbf) bf, processed := processed } :: s)
          = findLeftmostChildLoop (.node rd rl rr rbf)
              ({ np := .node rd rl rr rbf, processed := false } ::
                { np := .node d l (.node rd rl rr rbf) bf, processed := true } :: s) := rfl
      rw [h, findLeftmostChildLoop_eq] at hadv
      have hs := (Except.ok.inj hadv).symm
      rw [hs]
      apply StackPath.spine
      exact ⟨by simp, by simp [getRight], hpath.flag true⟩

theorem next_path (it : Iterator α) (bst : BST α) (h : it.Active bst)
    (hpath : StackPath bst.root it.stack) (hne : it.stack ≠ []) :
    ∃ x it', it.next bst = .ok (x, it') ∧ it'.Active bst ∧ StackPath bst.root it'.stack := by
  obtain ⟨bstp, stack, ts⟩ := it
  cases stack with
  | nil => exact absurd rfl hne
  | cons m s =>
    obtain ⟨d, l, r, bf, s', hnp, hadv, _, hok'⟩ := advanceToNextNode_spec m s h.stackOK
    have hb : bstp = true := h.bound
    have ht : ts = bst.timestamp := h.epoch
    subst hb ht
    have hp' := advanceToNextNode_path bst.root m s hpath s' hadv
    obtain ⟨np, pr⟩ := m
    simp only at hnp
    subst hnp
    refine ⟨d, Iterator.mk true s' bst.timestamp, ?_, ⟨rfl, rfl, hok'⟩, hp'⟩
    simp [Iterator.next, Iterator.hasNext, Stack.isEmpty, Stack.peek, getData, deref, hadv]

theorem iterate_path (bst : BST α) : ∀ (fuel : Nat) (it : Iterator α), it.Active bst →
    StackPath bst.root it.stack →
    ∃ xs it', iterate bst fuel it = .ok (xs, it') ∧ it'.Active bst ∧
      StackPath bst.root it'.stack
  | 0, it, h, hp => ⟨[], it, by simp [iterate]; rfl, h, hp⟩
  | fuel + 1, it, h, hp => by
    by_cases hne : it.stack = []
    · refine ⟨[], it, ?_, h, hp⟩
      simp [iterate, hasNext_active it bst h, hne, Stack.isEmpty]
      rfl
    · obtain ⟨x, it1, hnext, hact, hp1⟩ := next_path it bst h hp hne
      obtain ⟨xs, it2, hit, hact2, hp2⟩ := iterate_path bst fuel it1 hact hp1
      refine ⟨x :: xs, it2, ?_, hact2, hp2⟩
      have hemp : Stack.isEmpty it.stack = false := by
        cases hs : it.stack with
        | nil => exact absurd hs hne
        | cons _ _ => rfl
      simp [iterate, hasNext_active it bst h, hemp, hnext, hit, bind, Except.bind]
      rfl

theorem BST.iterator_path (b : BST α) :
    ∃ it0, b.iterator = .ok it0 ∧ it0.Active b ∧ StackPath b.root it0.stack ∧
      it0.stack = (leftSpine b.root).reverse.map fun t => { np := t, processed := false } := by
  obtain ⟨it0, h0, hact, _⟩ := BST.iterator_spec b
  obtain ⟨root, n, ts, cmp⟩ := b
  cases root with
  | NULL =>
    have : it0 = Iterator.mk true [] ts := by
      have h : BST.iterator (BST.mk (.NULL : nodeT α) n ts cmp) = .ok (Iterator.mk true [] ts) := rfl
      rw [h] at h0
      exact (Except.ok.inj h0).symm
    subst this
    exact ⟨_, rfl, hact, trivial, rfl⟩
  | node d l r bf =>
    have h : BST.iterator (BST.mk (.node d l r bf) n ts cmp)
        = .ok (Iterator.mk true (((leftSpine l).reverse.map
            fun t => { np := t, processed := false }) ++
            [{ np := .node d l r bf, processed := false }]) ts) := by
      simp only [BST.iterator]
      have := findLeftmostChildLoop_eq d l r bf [{ np := .node d l r bf, processed := false }]
      simp only [findLeftmostChild, Stack.push, Stack.peek, bind, Except.bind, pure, Except.pure,
        this]
    have hit : it0 = Iterator.mk true (((leftSpine l).reverse.map
            fun t => { np := t, processed := false }) ++
            [{ np := .node d l r bf, processed := false }]) ts := by
      rw [h] at h0
      exact (Except.ok.inj h0).symm
    subst hit
    refine ⟨_, h, hact, ?_, by simp [leftSpine]⟩
    exact StackPath.spine _ l d r bf [] ⟨rfl, by simp⟩

end IteratorPath

section IteratorPathClaim

variable {α : Type} {cmpFn : α → α → Int}

theorem Ordered.child_ne (hc : ConsistentCmp cmpFn) (d : α) (l r : nodeT α) (bf : Int)
    (ho : Ordered cmpFn (.node d l r bf)) (hl : l ≠ .NULL) : l ≠ r := by
  obtain ⟨_, _, hld, hdr⟩ := (Ordered.node_iff cmpFn d l r bf hc).1 ho
  intro h
  subst h
  cases l with
  | NULL => exact hl rfl
  | node ld ll lr lbf =>
    have hm : ld ∈ recBSTAll (.node ld ll lr lbf) := by simp [recBSTAll]
    have h1 := hld ld hm
    have h2 := hc.gt_of_lt (hdr ld hm)
    omega

theorem StackPath.ordered (hc : ConsistentCmp cmpFn) (root : nodeT α)
    (ho : Ordered cmpFn root) : ∀ (st : Stack (iteratorMarkerT α)), StackPath root st →
    ∀ m ∈ st, Ordered cmpFn m.np
  | [], _, m, hm => by simp at hm
  | [m0], h, m, hm => by
    obtain rfl : m = m0 := by simpa using hm
    rw [h.1]
    exact ho
  | m0 :: m' :: s, h, m, hm => by
    have ih := StackPath.ordered hc root ho (m' :: s) h.2.2
    rcases List.mem_cons.1 hm with rfl | hm
    · have ho' := ih m' (by simp)
      have hchild := h.2.1
      cases hnp : m'.np with
      | NULL =>
        rw [hnp] at hchild
        split at hchild <;> simp [getLeft, getRight] at hchild
      | node d l r bf =>
        rw [hnp] at hchild ho'
        obtain ⟨hol, hor, _, _⟩ := (Ordered.node_iff cmpFn d l r bf hc).1 ho'
        split at hchild
        · simp only [getRight, Option.some.injEq] at hchild
          rw [← hchild]
          exact hor
        · simp only [getLeft, Option.some.injEq] at hchild
          rw [← hchild]
          exact hol
    · exact ih m hm

theorem StackPath.pair (root : nodeT α) : ∀ (st : Stack (iteratorMarkerT α)),
    StackPath root st → ∀ (k : Nat) (m m' : iteratorMarkerT α),
      st[k]? = some m → st[k + 1]? = some m' →
      m.np ≠ .NULL ∧
      (if m'.processed then getRight m'.np = some m.np else getLeft m'.np = some m.np)
  | [], _, k, m, m', h1, _ => by simp at h1
  | [m0], _, k, m, m', _, h2 => by simp at h2
  | m0 :: m1 :: s, h, 0, m, m', h1, h2 => by
    simp only [List.getElem?_cons_zero, Option.some.injEq, List.getElem?_cons_succ] at h1 h2
    subst h1 h2
    exact ⟨h.1, h.2.1⟩
  | m0 :: m1 :: s, h, k + 1, m, m', h1, h2 => by
    simp only [List.getElem?_cons_succ] at h1 h2
    exact StackPath.pair root (m1 :: s) h.2.2 k m m' h1 (by simpa using h2)

theorem StackPath.length_le (root : nodeT α) : ∀ (m : iteratorMarkerT α)
    (s : Stack (iteratorMarkerT α)), StackPath root (m :: s) →
    (m :: s).length + height m.np ≤ height root + 1
  | m, [], h => by
    rw [h.1]
    simp only [List.length_cons, List.length_nil]
    omega
  | m, m' :: s, h => by
    have ih := StackPath.length_le root m' s h.2.2
    have hchild := h.2.1
    have hlt : height m.np + 1 ≤ height m'.np := by
      cases hnp : m'.np with
      | NULL =>
        rw [hnp] at hchild
        split at hchild <;> simp [getLeft, getRight] at hchild
      | node d l r bf =>
        rw [hnp] at hchild
        split at hchild
        · simp only [getRight, Option.some.injEq] at hchild
          rw [← hchild]
          simp only [height]
          omega
        · simp only [getLeft, Option.some.injEq] at hchild
          rw [← hchild]
          simp only [height]
          omega
    simp only [List.length_cons] at ih ⊢
    omega

theorem StackPath.bottom (root : nodeT α) : ∀ (st : Stack (iteratorMarkerT α)),
    StackPath root st → ∀ m, st.getLast? = some m → m.np = root
  | [], _, m, hm => by simp at hm
  | [m0], h, m, hm => by
    obtain rfl : m0 = m := by simpa using hm
    exact h.1
  | m0 :: m1 :: s, h, m, hm => by
    apply StackPath.bottom root (m1 :: s) h.2.2 m
    simpa [List.getLast?_cons_cons] using hm

theorem StackPath.nonnull (root : nodeT α) : ∀ (st : Stack (iteratorMarkerT α)),
    StackPath root st → ∀ m ∈ st, m.np ≠ .NULL
  | [], _, m, hm => by simp at hm
  | m0 :: s, h, m, hm => by
    rcases List.mem_cons.1 hm with rfl | hm
    · exact h.top_nonnull
    · exact StackPath.nonnull root s h.tail m hm

theorem leftSpine_last : ∀ (t : nodeT α),
    ((leftSpine t).getLast?.bind getData) = (recBSTAll t).head?
  | .NULL => rfl
  | .node d .NULL r bf => by simp [leftSpine, recBSTAll, getData]
  | .node d (.node ld ll lr lbf) r bf => by
    have ih := leftSpine_last (.node ld ll lr lbf)
    have h1 : leftSpine (.node d (.node ld ll lr lbf) r bf)
        = .node d (.node ld ll lr lbf) r bf :: leftSpine (.node ld ll lr lbf) := rfl
    have h2 : leftSpine (.node ld ll lr lbf) = .node ld ll lr lbf :: leftSpine ll := rfl
    have h3 : recBSTAll (.node ld ll lr lbf) ≠ [] := by simp [recBSTAll]
    rw [h1, h2, List.getLast?_cons_cons, ← h2, ih]
    simp only [recBSTAll] at h3 ⊢
    rw [List.head?_append_of_ne_nil _ h3]

/-- C38. Iterator stack invariant: on a valid tree, `iterator()` returns an
iterator whose pending stack is the left spine from the root down to the node
of the minimum element, all markers unprocessed; and after construction and
after every `next()` of the client loop the stack, read bottom to top, starts
at the root, every marker above another holds a child of that marker's node,
a marker is flagged processed exactly when the marker above it holds its
right child, the top marker is unprocessed, no marker is null, and the stack
holds at most `height` markers. -/
theorem iterator_stack_invariant (b : BST α) (hv : b.Valid) :
    ∃ it0, b.iterator = .ok it0 ∧
      it0.stack = ((leftSpine b.root).reverse.map fun t => { np := t, processed := false }) ∧
      (it0.stack.head?.bind fun m => getData m.np) = b.mapAll.head? ∧
      ∀ fuel : Nat, ∃ xs it, iterate b fuel it0 = .ok (xs, it) ∧
        (∀ m, it.stack.getLast? = some m → m.np = b.root) ∧
        (∀ m ∈ it.stack, m.np ≠ .NULL) ∧
        (∀ (k : Nat) (m m' : iteratorMarkerT α),
          it.stack[k]? = some m → it.stack[k + 1]? = some m' →
          (getLeft m'.np = some m.np ∨ getRight m'.np = some m.np) ∧
          (m'.processed = true ↔ getRight m'.np = some m.np)) ∧
        (∀ m, it.stack.head? = some m → m.processed = false) ∧
        it.stack.length ≤ height b.root := by
  obtain ⟨it0, h0, hact0, hp0, hspine⟩ := BST.iterator_path b
  refine ⟨it0, h0, hspine, ?_, ?_⟩
  · rw [hspine, BST.mapAll, ← leftSpine_last]
    simp only [List.head?_map, List.head?_reverse]
    cases (leftSpine b.root).getLast? <;> rfl
  · intro fuel
    obtain ⟨xs, it, hit, hact, hp⟩ := iterate_path b fuel it0 hact0 hp0
    refine ⟨xs, it, hit, StackPath.bottom _ _ hp, StackPath.nonnull _ _ hp, ?_, ?_, ?_⟩
    · intro k m m' h1 h2
      obtain ⟨hnn, hchild⟩ := StackPath.pair _ _ hp k m m' h1 h2
      have hord := StackPath.ordered hv.cmp b.root hv.ordered it.stack hp m'
        (List.getElem?_mem h2)
      by_cases hpr : m'.processed = true
      · rw [if_pos hpr] at hchild
        exact ⟨Or.inr hchild, fun _ => hchild, fun _ => hpr⟩
      · rw [if_neg hpr] at hchild
        refine ⟨Or.inl hchild, fun h => absurd h hpr, fun hr => ?_⟩
        exfalso
        cases hnp : m'.np with
        | NULL =>
          rw [hnp] at hr
          simp [getRight] at hr
        | node d l r bf =>
          rw [hnp] at hr hchild hord
          simp only [getRight, getLeft, Option.some.injEq] at hr hchild
          exact Ordered.child_ne hv.cmp d l r bf hord (by rw [hchild]; exact hnn)
            (by rw [hchild, hr])
    · intro m hm
      cases hs : it.stack with
      | nil => rw [hs] at hm; simp at hm
      | cons m0 s =>
        rw [hs] at hm
        obtain rfl : m0 = m := by simpa using hm
        have := hact.stackOK
        rw [hs] at this
        exact this.1
    · cases hs : it.stack with
      | nil => simp
      | cons m0 s =>
        rw [hs] at hp
        have h1 := StackPath.length_le _ m0 s hp
        have h2 : 1 ≤ height m0.np := by
          have := hp.top_nonnull
          cases hnp : m0.np with
          | NULL => exact absurd hnp this
          | node d l r bf => simp [height]
        omega

theorem iterator_stack_invariant_witness :
    exampleTreeWith4.Valid ∧
    (exampleTreeWith4.iterator.toOption.map fun it => it.stack.map fun m => getData m.np)
      = some [some 3, some 5] ∧
    ((exampleTreeWith4.iterator.toOption.bind fun it0 =>
        (iterate exampleTreeWith4 1 it0).toOption).map
      fun r => r.2.stack.map fun m => (getData m.np, m.processed))
      = some [(some 4, false), (some 3, true), (some 5, false)] ∧
    ∃ it0, exampleTreeWith4.iterator = .ok it0 ∧
      it0.stack = ((leftSpine exampleTreeWith4.root).reverse.map
        fun t => { np := t, processed := false }) ∧
      (it0.stack.head?.bind fun m => getData m.np) = exampleTreeWith4.mapAll.head? ∧
      ∀ fuel : Nat, ∃ xs it, iterate exampleTreeWith4 fuel it0 = .ok (xs, it) ∧
        (∀ m, it.stack.getLast? = some m → m.np = exampleTreeWith4.root) ∧
        (∀ m ∈ it.stack, m.np ≠ .NULL) ∧
        (∀ (k : Nat) (m m' : iteratorMarkerT Int),
          it.stack[k]? = some m → it.stack[k + 1]? = some m' →
          (getLeft m'.np = some m.np ∨ getRight m'.np = some m.np) ∧
          (m'.processed = true ↔ getRight m'.np = some m.np)) ∧
        (∀ m, it.stack.head? = some m → m.processed = false) ∧
        it.stack.length ≤ height exampleTreeWith4.root :=
  ⟨⟨OperatorCmp_consistent, by decide, by decide, by decide⟩, by decide, by decide,
    iterator_stack_invariant exampleTreeWith4
      ⟨OperatorCmp_consistent, by decide, by decide, by decide⟩⟩

end IteratorPathClaim

section NoNullDeref

variable {α : Type} {cmpFn : α → α → Int}

theorem updateBFCalls_ok (d : α) (l r : nodeT α) (bf delta : Int)
    (hl : Balanced l) (hr : Balanced r)
    (hbf : bf + delta = (height r : Int) - (height l : Int))
    (hlo : -2 ≤ bf + delta) (hhi : bf + delta ≤ 2) :
    ∀ p ∈ updateBFCalls (.node d l r bf) delta, FixArgOK p.1 p.2 ∧
      ∃ t', (if p.1 = true then fixLeftImbalance p.2 else fixRightImbalance p.2) = some t' := by
  intro p hp
  by_cases h1 : bf + delta = -2
  · rw [updateBFCalls_left d l r bf delta h1] at hp
    obtain rfl : p = (true, .node d l r (-2)) := by simpa using hp
    obtain ⟨t', _, hfix, _⟩ := fixLeftImbalance_spec d l r hl hr (by omega)
    refine ⟨?_, t', by simpa using hfix⟩
    cases l with
    | NULL => simp only [height] at hbf; omega
    | node cd cl cr cbf =>
      obtain ⟨_, _, hcbf, _, _⟩ := hl
      intro hh
      cases cr with
      | NULL =>
        simp only [height, RightHeavy] at hcbf hh
        omega
      | node _ _ _ _ => simp
  · by_cases h2 : bf + delta = 2
    · rw [updateBFCalls_right d l r bf delta h2] at hp
      obtain rfl : p = (false, .node d l r 2) := by simpa using hp
      obtain ⟨t', _, hfix, _⟩ := fixRightImbalance_spec d l r hl hr (by omega)
      refine ⟨?_, t', by simpa using hfix⟩
      cases r with
      | NULL => simp only [height] at hbf; omega
      | node cd cl cr cbf =>
        obtain ⟨_, _, hcbf, _, _⟩ := hr
        intro hh
        cases cl with
        | NULL =>
          simp only [height, LeftHeavy] at hcbf hh
          omega
        | node _ _ _ _ => simp
    · rw [updateBFCalls_inrange d l r bf delta (by omega) (by omega)] at hp
      simp at hp

theorem recAddNodeCalls_ok (hc : ConsistentCmp cmpFn) (x : α) :
    ∀ (t : nodeT α) (c : Bool) (n : Int), Ordered cmpFn t → Balanced t →
      ∀ e ∈ recAddNodeCalls cmpFn t x c n, FixArgOK e.onLeft e.arg ∧
        ∃ t', (if e.onLeft = true then fixLeftImbalance e.arg else fixRightImbalance e.arg)
          = some t'
  | .NULL, c, n, _, _ => by simp [recAddNodeCalls]
  | .node d l r bf, c, n, hord, hbal => by
    obtain ⟨hol, hor, _, _⟩ := (Ordered.node_iff cmpFn d l r bf hc).1 hord
    obtain ⟨hbl, hbr, hbf, hb1, hb2⟩ := hbal
    by_cases h0 : cmpFn x d = 0
    · simp [recAddNodeCalls, h0]
    · by_cases hlt : cmpFn x d < 0
      · obtain ⟨grew, l', c', n', _, _, _, hrec, hbl', hh, _⟩ :=
          recAddNode_spec hc x l c n hol hbl
        rw [recAddNodeCalls_left d l r bf x c n h0 hlt grew l' c' n' hrec]
        intro e he
        rcases List.mem_append.1 he with he | he
        · obtain ⟨e0, he0, rfl⟩ := List.mem_map.1 he
          exact recAddNodeCalls_ok hc x l c n hol hbl e0 he0
        · obtain ⟨p, hp, rfl⟩ := List.mem_map.1 he
          exact updateBFCalls_ok d l' r bf _ hbl' hbr
            (by cases grew <;> simp at hh ⊢ <;> omega)
            (by cases grew <;> simp <;> omega) (by cases grew <;> simp <;> omega) p hp
      · obtain ⟨grew, r', c', n', _, _, _, hrec, hbr', hh, _⟩ :=
          recAddNode_spec hc x r c n hor hbr
        rw [recAddNodeCalls_right d l r bf x c n h0 hlt grew r' c' n' hrec]
        intro e he
        rcases List.mem_append.1 he with he | he
        · obtain ⟨e0, he0, rfl⟩ := List.mem_map.1 he
          exact recAddNodeCalls_ok hc x r c n hor hbr e0 he0
        · obtain ⟨p, hp, rfl⟩ := List.mem_map.1 he
          exact updateBFCalls_ok d l r' bf _ hbl hbr'
            (by cases grew <;> simp at hh ⊢ <;> omega)
            (by cases grew <;> simp <;> omega) (by cases grew <;> simp <;> omega) p hp

theorem recRemoveNodeCalls_ok (hc : ConsistentCmp cmpFn) :
    ∀ (t : nodeT α) (k : α) (c : Bool) (n : Int), Ordered cmpFn t → Balanced t →
      ∀ p ∈ recRemoveNodeCalls cmpFn t k c n, FixArgOK p.1 p.2 ∧
        ∃ t', (if p.1 = true then fixLeftImbalance p.2 else fixRightImbalance p.2) = some t'
  | .NULL, k, c, n, _, _ => by simp [recRemoveNodeCalls]
  | .node d l r bf, k, c, n, hord, hbal => by
    obtain ⟨hol, hor, _, _⟩ := (Ordered.node_iff cmpFn d l r bf hc).1 hord
    obtain ⟨hbl, hbr, hbf, hb1, hb2⟩ := hbal
    have IHl := fun k c n => recRemoveNodeCalls_ok hc l k c n hol hbl
    have IHr := fun k c n => recRemoveNodeCalls_ok hc r k c n hor hbr
    by_cases h0 : cmpFn k d = 0
    · cases l with
      | NULL => simp [recRemoveNodeCalls, h0]
      | node ld ll lr lbf =>
        cases r with
        | NULL => simp [recRemoveNodeCalls, h0]
        | node rd rl rr rbf =>
          obtain ⟨init, s, hs, _⟩ := successorData_spec (.node ld ll lr lbf) (by simp)
          obtain ⟨shrank, l', c', n', hrec, hbl', hh, _⟩ :=
            recRemoveNode_spec hc (.node ld ll lr lbf) s false n hol hbl
          intro p hp
          simp only [recRemoveNodeCalls, h0, if_true, hs, hrec, List.mem_append] at hp
          rcases hp with hp | hp
          · exact IHl s false n p hp
          · cases shrank with
            | false => simp at hp
            | true =>
              exact updateBFCalls_ok s l' (.node rd rl rr rbf) bf 1 hbl' hbr
                (by simp at hh; omega) (by omega) (by omega) p hp
    · by_cases hlt : cmpFn k d < 0
      · obtain ⟨shrank, l', c', n', hrec, hbl', hh, _⟩ := recRemoveNode_spec hc l k c n hol hbl
        intro p hp
        simp only [recRemoveNodeCalls, h0, hlt, if_true, if_false, hrec, List.mem_append] at hp
        rcases hp with hp | hp
        · exact IHl k c n p hp
        · exact updateBFCalls_ok d l' r bf _ hbl' hbr
            (by cases shrank <;> simp at hh ⊢ <;> omega)
            (by cases shrank <;> simp <;> omega) (by cases shrank <;> simp <;> omega) p hp
      · obtain ⟨shrank, r', c', n', hrec, hbr', hh, _⟩ := recRemoveNode_spec hc r k c n hor hbr
        intro p hp
        simp only [recRemoveNodeCalls, h0, hlt, if_true, if_false, hrec, List.mem_append] at hp
        rcases hp with hp | hp
        · exact IHr k c n p hp
        · exact updateBFCalls_ok d l r' bf _ hbl hbr'
            (by cases shrank <;> simp at hh ⊢ <;> omega)
            (by cases shrank <;> simp <;> omega) (by cases shrank <;> simp <;> omega) p hp

end NoNullDeref

section NoNullDerefClaim

variable {α : Type}

/-- C37. Rebalancing never dereferences a missing node: on a valid tree
`add(x)` and `remove(x)` return (no pointer access fails); every call of
`fixLeftImbalance(t)` made during them finds the left child of `t` and, when
that child is right-heavy (double rotation), the child's right child, and
returns; symmetrically for `fixRightImbalance`.  For such an argument the
rotations inside are applied to nodes having the child they need:
`rotateLeft` on the left child and then `rotateRight` on `t` in the double
rotation, `rotateRight` on `t` in the single one, and mirrored. -/
theorem rebalancing_never_dereferences_null (b : BST α) (hv : b.Valid) (x : α) :
    (∃ r b', b.add x = some (r, b')) ∧ (∃ r b', b.remove x = some (r, b')) ∧
    (∀ e ∈ recAddNodeCalls b.cmpFn b.root x false b.numNodes, FixArgOK e.onLeft e.arg ∧
      ∃ t', (if e.onLeft = true then fixLeftImbalance e.arg else fixRightImbalance e.arg)
        = some t') ∧
    (∀ p ∈ recRemoveNodeCalls b.cmpFn b.root x false b.numNodes, FixArgOK p.1 p.2 ∧
      ∃ t', (if p.1 = true then fixLeftImbalance p.2 else fixRightImbalance p.2) = some t') ∧
    (∀ t : nodeT α, FixArgOK true t →
      ∃ child, getLeft t = some child ∧ child ≠ .NULL ∧
        (getBF child = some RightHeavy →
          ∃ child' t1 t2, getRight child ≠ some .NULL ∧ rotateLeft child = some child' ∧
            setLeft t child' = some t1 ∧ rotateRight t1 = some t2) ∧
        (getBF child ≠ some RightHeavy → ∃ t1, rotateRight t = some t1)) ∧
    (∀ t : nodeT α, FixArgOK false t →
      ∃ child, getRight t = some child ∧ child ≠ .NULL ∧
        (getBF child = some LeftHeavy →
          ∃ child' t1 t2, getLeft child ≠ some .NULL ∧ rotateRight child = some child' ∧
            setRight t child' = some t1 ∧ rotateLeft t1 = some t2) ∧
        (getBF child ≠ some LeftHeavy → ∃ t1, rotateLeft t = some t1)) := by
  refine ⟨?_, ?_, recAddNodeCalls_ok hv.cmp x b.root false b.numNodes hv.ordered hv.balanced,
    recRemoveNodeCalls_ok hv.cmp b.root x false b.numNodes hv.ordered hv.balanced, ?_, ?_⟩
  · obtain ⟨r, b', _, _, _, h, _⟩ := BST.add_spec b hv x
    exact ⟨r, b', h⟩
  · rcases BST.remove_spec b hv x with ⟨_, h⟩ | ⟨b', _, _, _, h, _⟩
    · exact ⟨false, b, h⟩
    · exact ⟨true, b', h⟩
  · intro t ht
    match t, ht with
    | .node d (.node cd cl cr cbf) r bf, ht =>
      refine ⟨.node cd cl cr cbf, rfl, by simp, ?_, fun _ => ⟨_, rfl⟩⟩
      intro hbf
      have hcr : cr ≠ .NULL := ht (by simpa [getBF] using hbf)
      cases cr with
      | NULL => exact absurd rfl hcr
      | node gd gl gr gbf => exact ⟨_, _, _, by simp [getRight], rfl, rfl, rfl⟩
  · intro t ht
    match t, ht with
    | .node d l (.node cd cl cr cbf) bf, ht =>
      refine ⟨.node cd cl cr cbf, rfl, by simp, ?_, fun _ => ⟨_, rfl⟩⟩
      intro hbf
      have hcl : cl ≠ .NULL := ht (by simpa [getBF] using hbf)
      cases cl with
      | NULL => exact absurd rfl hcl
      | node gd gl gr gbf => exact ⟨_, _, _, by simp [getLeft], rfl, rfl, rfl⟩

theorem rebalancing_never_dereferences_null_witness :
    exampleTreeTens.Valid ∧
    (recAddNodeCalls OperatorCmp exampleTreeTens.root 35 false 4).map
        (fun e => (e.onLeft, e.arg))
      = [(false, .node 30 .NULL (.node 40 (.node 35 .NULL .NULL 0) .NULL (-1)) 2)] ∧
    recRemoveNodeCalls OperatorCmp exampleTreeTens.root 80 false 4
      = [(true, .node 50 (.node 30 .NULL (.node 40 .NULL .NULL 0) 1) .NULL (-2))] ∧
    (∃ r b', exampleTreeTens.add 35 = some (r, b')) ∧
    (∃ r b', exampleTreeTens.remove 35 = some (r, b')) ∧
    (∀ e ∈ recAddNodeCalls exampleTreeTens.cmpFn exampleTreeTens.root 35 false
        exampleTreeTens.numNodes, FixArgOK e.onLeft e.arg ∧
      ∃ t', (if e.onLeft = true then fixLeftImbalance e.arg else fixRightImbalance e.arg)
        = some t') :=
  ⟨⟨OperatorCmp_consistent, by decide, by decide, by decide⟩, by decide, by decide,
    (rebalancing_never_dereferences_null exampleTreeTens
      ⟨OperatorCmp_consistent, by decide, by decide, by decide⟩ 35).1,
    (rebalancing_never_dereferences_null exampleTreeTens
      ⟨OperatorCmp_consistent, by decide, by decide, by decide⟩ 35).2.1,
    (rebalancing_never_dereferences_null exampleTreeTens
      ⟨OperatorCmp_consistent, by decide, by decide, by decide⟩ 35).2.2.1⟩

end NoNullDerefClaim

section BoggleTrace

theorem Grid.cell_setAt {α : Type} (g : Grid α) (hwf : g.WF) (row col : Int) (v : α)
    (hr : 0 ≤ row ∧ row < g.numRows) (hc : 0 ≤ col ∧ col < g.numCols) :
    ∃ g', g.setAt row col v = .returned () g' ∧ g'.WF ∧ g'.nRows = g.nRows ∧
      g'.nCols = g.nCols ∧
      ∀ r c, 0 ≤ r ∧ r < g.numRows → 0 ≤ c ∧ c < g.numCols →
        g'.cell r c = if r = row ∧ c = col then some v else g.cell r c := by
  obtain ⟨hset, hlt, h0⟩ := Grid.setAt_inrange g hwf row col v hr hc
  have hwf' : (Grid.mk (g.elements.set (row * g.nCols + col).toNat v) g.nRows g.nCols
      g.timestamp).WF := ⟨hwf.rows_nonneg, hwf.cols_nonneg, by simpa using hwf.allocated⟩
  refine ⟨_, hset, hwf', rfl, rfl, ?_⟩
  intro r c hr' hc'
  obtain ⟨x, hx, hgetx⟩ := Grid.getAt_inrange g hwf r c hr' hc'
  obtain ⟨y, hy, hgety⟩ := Grid.getAt_inrange _ hwf' r c hr' hc'
  have hcx : g.cell r c = some x := by simp [Grid.cell, hgetx]
  rw [hcx]
  have hcy : (Grid.mk (g.elements.set (row * g.nCols + col).toNat v) g.nRows g.nCols
      g.timestamp).cell r c = some y := by simp [Grid.cell, hgety]
  rw [hcy]
  by_cases he : r = row ∧ c = col
  · obtain ⟨rfl, rfl⟩ := he
    simp only [List.getElem?_set, if_pos hlt, if_true] at hy
    simp only [and_self, if_true]
    exact hy.symm
  · rw [if_neg he]
    have hidx : (row * g.nCols + col).toNat ≠ (r * g.nCols + c).toNat := by
      intro hcontra
      have h' : ¬ (r < 0 ∨ g.numRows - 1 < r ∨ c < 0 ∨ g.numCols - 1 < c) := by omega
      obtain ⟨h0', _⟩ := Grid.index_in_block g hwf r c h'
      have e : r * g.numCols + c = row * g.numCols + col := by
        simp only [Grid.numCols]
        omega
      have := rowMajor_injective g.numCols r c row col hc' hc e
      exact he this
    simp only [List.getElem?_set_ne hidx] at hy
    rw [hx] at hy
    exact hy.symm

theorem Grid.writeIn_inrange {α : Type} (g : Grid α) (hwf : g.WF) (row col : Int) (v : α)
    (hr : 0 ≤ row ∧ row < g.numRows) (hc : 0 ≤ col ∧ col < g.numCols) :
    ∃ g', (∀ (σ : Type) (s : σ), g.writeIn row col v s = .returned g' s) ∧ g'.WF ∧
      g'.nRows = g.nRows ∧ g'.nCols = g.nCols ∧
      ∀ r c, 0 ≤ r ∧ r < g.numRows → 0 ≤ c ∧ c < g.numCols →
        g'.cell r c = if r = row ∧ c = col then some v else g.cell r c := by
  obtain ⟨g', hset, h⟩ := Grid.cell_setAt g hwf row col v hr hc
  exact ⟨g', fun σ s => by simp [Grid.writeIn, hset], h⟩

theorem countUp_eight : countUp 0 8 = [0, 1, 2, 3, 4, 5, 6, 7] := by
  simp [countUp]

theorem FindPossiblePath_adjacent (o : Option (Int × Int)) (row col i : Int)
    (hi : i ∈ countUp 0 8) :
    ∃ q, (∀ o' : Option (Int × Int), FindPossiblePath o' row col i = some q) ∧
      FindPossiblePath o row col i = some q ∧ adjacentCells (row, col) q := by
  rw [countUp_eight] at hi
  simp only [List.mem_cons, List.mem_singleton, List.not_mem_nil, or_false] at hi
  rcases hi with rfl | rfl | rfl | rfl | rfl | rfl | rfl | rfl
  · exact ⟨(row - 1, col), fun _ => by simp [FindPossiblePath], by simp [FindPossiblePath],
      by simp only [adjacentCells, ne_eq, Prod.mk.injEq]; omega⟩
  · exact ⟨(row - 1, col + 1), fun _ => by simp [FindPossiblePath], by simp [FindPossiblePath],
      by simp only [adjacentCells, ne_eq, Prod.mk.injEq]; omega⟩
  · exact ⟨(row, col + 1), fun _ => by simp [FindPossiblePath], by simp [FindPossiblePath],
      by simp only [adjacentCells, ne_eq, Prod.mk.injEq]; omega⟩
  · exact ⟨(row + 1, col + 1), fun _ => by simp [FindPossiblePath], by simp [FindPossiblePath],
      by simp only [adjacentCells, ne_eq, Prod.mk.injEq]; omega⟩
  · exact ⟨(row + 1, col), fun _ => by simp [FindPossiblePath], by simp [FindPossiblePath],
      by simp only [adjacentCells, ne_eq, Prod.mk.injEq]; omega⟩
  · exact ⟨(row + 1, col - 1), fun _ => by simp [FindPossiblePath], by simp [FindPossiblePath],
      by simp only [adjacentCells, ne_eq, Prod.mk.injEq]; omega⟩
  · exact ⟨(row, col - 1), fun _ => by simp [FindPossiblePath], by simp [FindPossiblePath],
      by simp only [adjacentCells, ne_eq, Prod.mk.injEq]; omega⟩
  · exact ⟨(row - 1, col - 1), fun _ => by simp [FindPossiblePath], by simp [FindPossiblePath],
      by simp only [adjacentCells, ne_eq, Prod.mk.injEq]; omega⟩

theorem adjacent_FindPossiblePath (o : Option (Int × Int)) (row col : Int) (q : Int × Int)
    (h : adjacentCells (row, col) q) :
    ∃ i ∈ countUp 0 8, FindPossiblePath o row col i = some q := by
  obtain ⟨qr, qc⟩ := q
  simp only [adjacentCells, ne_eq, Prod.mk.injEq] at h
  have h1 : qr = row - 1 ∨ qr = row ∨ qr = row + 1 := by omega
  have h2 : qc = col - 1 ∨ qc = col ∨ qc = col + 1 := by omega
  rw [countUp_eight]
  rcases h1 with rfl | rfl | rfl <;> rcases h2 with rfl | rfl | rfl
  · exact ⟨7, by simp, by simp [FindPossiblePath]⟩
  · exact ⟨0, by simp, by simp [FindPossiblePath]⟩
  · exact ⟨1, by simp, by simp [FindPossiblePath]⟩
  · exact ⟨6, by simp, by simp [FindPossiblePath]⟩
  · exact absurd ⟨rfl, rfl⟩ h.1
  · exact ⟨2, by simp, by simp [FindPossiblePath]⟩
  · exact ⟨5, by simp, by simp [FindPossiblePath]⟩
  · exact ⟨4, by simp, by simp [FindPossiblePath]⟩
  · exact ⟨3, by simp, by simp [FindPossiblePath]⟩

theorem forEachReturn_search {τ ρ : Type} (body : Int → τ → Unit → Outcome Unit (Except ρ τ))
    (found : Int → Bool) (value : ρ) (next : Int → τ) :
    ∀ (is : List Int),
      (∀ i ∈ is, ∀ t, body i t () = .returned (if found i = true then .error value
        else .ok (next i)) ()) →
      ∀ t, ∃ flow, forEachReturn body is t () = .returned flow () ∧
        ((flow = .error value ∧ ∃ i ∈ is, found i = true) ∨
         ((∃ t', flow = .ok t') ∧ ∀ i ∈ is, found i = false))
  | [], _, t => ⟨.ok t, rfl, Or.inr ⟨⟨t, rfl⟩, by simp⟩⟩
  | i :: is, h, t => by
    by_cases hf : found i = true
    · refine ⟨.error value, ?_, Or.inl ⟨rfl, i, by simp, hf⟩⟩
      simp only [forEachReturn, h i (by simp) t, hf, if_true, Outcome.bind]
    · obtain ⟨flow, hrest, hcase⟩ := forEachReturn_search body found value next is
        (fun i' hi' => h i' (by simp [hi'])) (next i)
      refine ⟨flow, ?_, ?_⟩
      · simp only [forEachReturn, h i (by simp) t, hf, Outcome.bind]
        exact hrest
      · rcases hcase with ⟨he, i', hi', hf'⟩ | ⟨hok, hall⟩
        · exact Or.inl ⟨he, i', by simp [hi'], hf'⟩
        · refine Or.inr ⟨hok, ?_⟩
          intro i' hi'
          rcases List.mem_cons.1 hi' with rfl | hi'
          · simpa using hf
          · exact hall i' hi'

theorem IsTrace.cons (board : Grid Char) (usedDice used' : Grid Bool) (row col : Int)
    (hr : 0 ≤ row ∧ row < board.numRows) (hc : 0 ≤ col ∧ col < board.numCols)
    (letter : Char) (hletter : board.cell row col = some letter)
    (hfree : usedDice.cell row col = some false)
    (hused : ∀ r c, 0 ≤ r ∧ r < board.numRows → 0 ≤ c ∧ c < board.numCols →
      used'.cell r c = if r = row ∧ c = col then some true else usedDice.cell r c)
    (q : Int × Int) (hadj : adjacentCells (row, col) q) (rest : List Char)
    (cells : List (Int × Int)) (h : IsTrace board used' q rest cells) :
    IsTrace board usedDice (row, col) (letter :: rest) ((row, col) :: cells) := by
  obtain ⟨hhead, hnodup, hin, hchain, hletters⟩ := h
  have hfresh : ∀ c' ∈ cells, c' ≠ (row, col) := by
    rintro c' hc' rfl
    obtain ⟨h1, h2, h3⟩ := hin _ hc'
    rw [hused _ _ h1 h2] at h3
    simp at h3
  refine ⟨rfl, List.nodup_cons.2 ⟨fun hmem => hfresh _ hmem rfl, hnodup⟩, ?_, ?_, ?_⟩
  · intro c' hc'
    rcases List.mem_cons.1 hc' with rfl | hc'
    · exact ⟨hr, hc, hfree⟩
    · obtain ⟨h1, h2, h3⟩ := hin _ hc'
      refine ⟨h1, h2, ?_⟩
      rw [hused _ _ h1 h2] at h3
      have hne := hfresh c' hc'
      have : ¬ (c'.1 = row ∧ c'.2 = col) := fun h => hne (Prod.ext h.1 h.2)
      rwa [if_neg this] at h3
  · cases cells with
    | nil => simp at hhead
    | cons q' cells' =>
      obtain rfl : q' = q := by simpa using hhead
      exact List.Chain'.cons hadj hchain
  · simp [hletter, hletters]

theorem IsTrace.uncons (board : Grid Char) (usedDice used' : Grid Bool) (row col : Int)
    (hused : ∀ r c, 0 ≤ r ∧ r < board.numRows → 0 ≤ c ∧ c < board.numCols →
      used'.cell r c = if r = row ∧ c = col then some true else usedDice.cell r c)
    (letter : Char) (rest : List Char) (hrest : rest ≠ []) (cells : List (Int × Int))
    (h : IsTrace board usedDice (row, col) (letter :: rest) cells) :
    ∃ q cells', cells = (row, col) :: cells' ∧ adjacentCells (row, col) q ∧
      IsTrace board used' q rest cells' := by
  obtain ⟨hhead, hnodup, hin, hchain, hletters⟩ := h
  cases cells with
  | nil => simp at hhead
  | cons c0 cells' =>
    obtain rfl : c0 = (row, col) := by simpa using hhead
    cases cells' with
    | nil =>
      exfalso
      have := congrArg List.length hletters
      simp at this
      exact hrest this
    | cons q cells'' =>
      obtain ⟨hn1, hn2⟩ := List.nodup_cons.1 hnodup
      refine ⟨q, q :: cells'', rfl, (List.chain'_cons.1 hchain).1, rfl, hn2, ?_,
        (List.chain'_cons.1 hchain).2, ?_⟩
      · intro c' hc'
        obtain ⟨h1, h2, h3⟩ := hin c' (List.mem_cons_of_mem _ hc')
        refine ⟨h1, h2, ?_⟩
        rw [hused _ _ h1 h2]
        have : ¬ (c'.1 = row ∧ c'.2 = col) := by
          rintro ⟨e1, e2⟩
          apply hn1
          have : c' = (row, col) := Prod.ext e1 e2
          rw [← this]
          exact hc'
        rw [if_neg this]
        exact h3
      · simp only [List.map_cons, List.cons.injEq] at hletters
        simpa using hletters.2

theorem IsTrace.start (board : Grid Char) (usedDice : Grid Bool) (start : Int × Int)
    (word : List Char) (cells : List (Int × Int)) (h : IsTrace board usedDice start word cells) :
    (0 ≤ start.1 ∧ start.1 < board.numRows) ∧ (0 ≤ start.2 ∧ start.2 < board.numCols) ∧
      usedDice.cell start.1 start.2 = some false ∧
      ∃ letter word', word = letter :: word' ∧ board.cell start.1 start.2 = some letter := by
  obtain ⟨hhead, _, hin, _, hletters⟩ := h
  cases cells with
  | nil => simp at hhead
  | cons c0 cells' =>
    obtain rfl : c0 = start := by simpa using hhead
    obtain ⟨h1, h2, h3⟩ := hin c0 (by simp)
    refine ⟨h1, h2, h3, ?_⟩
    cases word with
    | nil => simp at hletters
    | cons letter word' =>
      simp only [List.map_cons, List.cons.injEq] at hletters
      exact ⟨letter, word', rfl, hletters.1⟩

end BoggleTrace

section BoggleSearch

theorem take_extended (p rest : List Char) (c letter : Char) :
    ((p ++ c :: rest).take (p ++ [letter]).length ≠ p ++ [letter]) ↔ c ≠ letter := by
  have h : (p ++ c :: rest).take (p ++ [letter]).length = p ++ [c] := by
    rw [List.length_append, List.length_singleton, List.take_append]
    simp
  rw [h]
  simp

theorem FindUserGuessOnBoard_spec (board : Grid Char) (hwf : board.WF) :
    ∀ (fuel : Nat) (row col : Int) (p rest : List Char) (usedDice : Grid Bool),
      usedDice.WF → usedDice.nRows = board.nRows → usedDice.nCols = board.nCols →
      rest ≠ [] → rest.length ≤ fuel →
      ∃ b, FindUserGuessOnBoard board fuel row col p (p ++ rest) usedDice
          = .returned (some b) () ∧
        (b = true ↔ ∃ cells, IsTrace board usedDice (row, col) rest cells)
  | 0, _, _, _, rest, _, _, _, _, hne, hlen => by
    exfalso
    exact hne (List.length_eq_zero.1 (by omega))
  | fuel + 1, row, col, p, rest, usedDice, hwfu, hrows, hcols, hne, hlen => by
    cases rest with
    | nil => exact absurd rfl hne
    | cons c rest' =>
      by_cases hoff : OffBoard board row col = true
      · refine ⟨false, by simp [FindUserGuessOnBoard, hoff], ?_⟩
        constructor
        · intro h
          cases h
        · rintro ⟨cells, h⟩
          obtain ⟨h1, h2, _⟩ := IsTrace.start board usedDice (row, col) _ cells h
          simp only [OffBoard, decide_eq_true_eq] at hoff
          omega
      · have hin : (0 ≤ row ∧ row < board.numRows) ∧ (0 ≤ col ∧ col < board.numCols) := by
          simp only [OffBoard, decide_eq_true_eq] at hoff
          omega
        have hinu : (0 ≤ row ∧ row < usedDice.numRows) ∧ (0 ≤ col ∧ col < usedDice.numCols) := by
          simpa [Grid.numRows, Grid.numCols, hrows, hcols] using hin
        obtain ⟨u, hucell, _, huread⟩ := Grid.readIn_inrange usedDice hwfu row col hinu.1 hinu.2
        by_cases hu : u = true
        · subst hu
          refine ⟨false, by simp [FindUserGuessOnBoard, hoff, huread, Outcome.bind], ?_⟩
          constructor
          · intro h
            cases h
          · rintro ⟨cells, h⟩
            obtain ⟨_, _, h3, _⟩ := IsTrace.start board usedDice (row, col) _ cells h
            rw [hucell] at h3
            simp at h3
        · have hu' : u = false := by simpa using hu
          subst hu'
          obtain ⟨letter, hlcell, _, hlread⟩ :=
            Grid.readIn_inrange board hwf row col hin.1 hin.2
          by_cases hc : c = letter
          · subst hc
            obtain ⟨used', hwrite, hwfu', hrows', hcols', hcells'⟩ :=
              Grid.writeIn_inrange usedDice hwfu row col true hinu.1 hinu.2
            have hused : ∀ r c', 0 ≤ r ∧ r < board.numRows → 0 ≤ c' ∧ c' < board.numCols →
                used'.cell r c' = if r = row ∧ c' = col then some true
                  else usedDice.cell r c' := by
              intro r c' hr hc'
              exact hcells' r c' (by simpa [Grid.numRows, hrows] using hr)
                (by simpa [Grid.numCols, hcols] using hc')
            have hnt : ¬ ((p ++ c :: rest').take (p ++ [c]).length ≠ p ++ [c]) := by
              rw [take_extended]
              simp
            by_cases hlast : rest' = []
            · subst hlast
              refine ⟨true, ?_, ?_⟩
              · simp only [FindUserGuessOnBoard, hoff, huread, hlread, Outcome.bind, hnt,
                  hwrite]
                simp
              · refine ⟨fun _ => ⟨[(row, col)], rfl, by simp, ?_, by simp, by simp [hlcell]⟩,
                  fun _ => rfl⟩
                intro c' hc'
                obtain rfl : c' = (row, col) := by simpa using hc'
                exact ⟨hin.1, hin.2, hucell⟩
            · have hneq : ¬ (p ++ [c] = p ++ c :: rest') := by
                intro h
                have := List.append_cancel_left h
                simp only [List.cons.injEq, true_and] at this
                exact hlast this.symm
              have hassoc : p ++ c :: rest' = (p ++ [c]) ++ rest' := by simp
              have IH : ∀ nr nc, ∃ b, FindUserGuessOnBoard board fuel nr nc (p ++ [c])
                  (p ++ c :: rest') used' = .returned (some b) () ∧
                  (b = true ↔ ∃ cells, IsTrace board used' (nr, nc) rest' cells) := by
                intro nr nc
                rw [hassoc]
                exact FindUserGuessOnBoard_spec board hwf fuel nr nc (p ++ [c]) rest' used' hwfu'
                  (hrows'.trans hrows) (hcols'.trans hcols) hlast
                  (by simp only [List.length_cons] at hlen; omega)
              obtain ⟨closing, hclosing, _⟩ :=
                Grid.writeIn_inrange used' hwfu' row col false
                  (by simpa [Grid.numRows, hrows'] using hinu.1)
                  (by simpa [Grid.numCols, hcols'] using hinu.2)
              let recurse : Int → Int → Outcome Unit (Option Bool) := fun nr nc =>
                FindUserGuessOnBoard board fuel nr nc (p ++ [c]) (p ++ c :: rest') used'
              let found : Int → Bool := fun i =>
                match FindPossiblePath none row col i with
                | some q =>
                  (match recurse q.1 q.2 with
                  | .returned (some true) _ => true
                  | _ => false)
                | none => false
              have hbody : ∀ i ∈ countUp 0 8, ∀ t,
                  FindUserGuessOnBoard.direction recurse row col i t ()
                    = .returned (if found i = true then .error (some true)
                        else .ok (FindPossiblePath none row col i)) () := by
                intro i hi t
                obtain ⟨q, hq, hqt, _⟩ := FindPossiblePath_adjacent t row col i hi
                obtain ⟨b, hb, _⟩ := IH q.1 q.2
                have hrec : recurse q.1 q.2 = .returned (some b) () := hb
                cases b <;>
                  simp [FindUserGuessOnBoard.direction, hqt, hq none, found, hrec, Outcome.bind]
              obtain ⟨flow, hloop, hcase⟩ := forEachReturn_search
                (FindUserGuessOnBoard.direction recurse row col) found (some true)
                (fun i => FindPossiblePath none row col i) (countUp 0 8) hbody none
              have hfound : ∀ i ∈ countUp 0 8, ∀ q, FindPossiblePath none row col i = some q →
                  (found i = true ↔ ∃ cells, IsTrace board used' q rest' cells) := by
                intro i hi q hq
                obtain ⟨b, hb, hiff⟩ := IH q.1 q.2
                have hrec : recurse q.1 q.2 = .returned (some b) () := hb
                rw [← hiff]
                cases b <;> simp [found, hq, hrec]
              rcases hcase with ⟨rfl, i, hi, hfi⟩ | ⟨⟨t', rfl⟩, hall⟩
              · refine ⟨true, ?_, ?_⟩
                · simp only [FindUserGuessOnBoard, hoff, huread, hlread, Outcome.bind, hnt,
                    hwrite, hneq]
                  simp only [Bool.false_eq_true, if_false]
                  rw [show (fun newRow newCol => FindUserGuessOnBoard board fuel newRow newCol
                    (p ++ [c]) (p ++ c :: rest') used') = recurse from rfl, hloop]
                · refine ⟨fun _ => ?_, fun _ => rfl⟩
                  obtain ⟨q, hq, _, hadj⟩ := FindPossiblePath_adjacent none row col i hi
                  obtain ⟨cells', hcells⟩ := (hfound i hi q (hq none)).1 hfi
                  exact ⟨(row, col) :: cells', IsTrace.cons board usedDice used' row col hin.1
                    hin.2 c hlcell hucell hused q hadj rest' cells' hcells⟩
              · refine ⟨false, ?_, ?_⟩
                · simp only [FindUserGuessOnBoard, hoff, huread, hlread, Outcome.bind, hnt,
                    hwrite, hneq]
                  simp only [Bool.false_eq_true, if_false]
                  rw [show (fun newRow newCol => FindUserGuessOnBoard board fuel newRow newCol
                    (p ++ [c]) (p ++ c :: rest') used') = recurse from rfl, hloop]
                  simp only [hclosing]
                · constructor
                  · intro h
                    cases h
                  · rintro ⟨cells, h⟩
                    exfalso
                    obtain ⟨q, cells', _, hadj, htr⟩ := IsTrace.uncons board usedDice used' row
                      col hused c rest' hlast cells h
                    obtain ⟨i, hi, hq⟩ := adjacent_FindPossiblePath none row col q hadj
                    have := (hfound i hi q hq).2 ⟨cells', htr⟩
                    rw [hall i hi] at this
                    cases this
          · refine ⟨false, ?_, ?_⟩
            · have hnt : (p ++ c :: rest').take (p ++ [letter]).length ≠ p ++ [letter] :=
                (take_extended p rest' c letter).2 hc
              simp only [FindUserGuessOnBoard, hoff, huread, hlread, Outcome.bind, if_pos hnt,
                Bool.false_eq_true, if_false]
            · constructor
              · intro h
                cases h
              · rintro ⟨cells, h⟩
                exfalso
                obtain ⟨_, _, _, l', w', hw, hl⟩ :=
                  IsTrace.start board usedDice (row, col) _ cells h
                rw [hlcell] at hl
                simp only [List.cons.injEq] at hw
                simp only [Option.some.injEq] at hl
                exact hc (hw.1.trans hl.symm)

end BoggleSearch

section BoggleTraceClaim

/-- C36. Boggle word tracing: for a well-formed board, a non-empty word
`userGuess`, any start position and an all-false `usedDice` grid of the
board's dimensions, `FindUserGuessOnBoard(board, row, col, "", userGuess,
usedDice)` returns (a recursion depth of the length of the word suffices) and
it returns `true` if and only if there is a sequence of pairwise distinct
in-range cells, starting at `(row, col)`, with consecutive cells horizontally,
vertically or diagonally adjacent, whose letters in order spell `userGuess`. -/
theorem boggle_word_tracing (board : Grid Char) (hwf : board.WF) (usedDice : Grid Bool)
    (hwfu : usedDice.WF) (hrows : usedDice.numRows = board.numRows)
    (hcols : usedDice.numCols = board.numCols)
    (hfalse : ∀ r c, 0 ≤ r ∧ r < board.numRows → 0 ≤ c ∧ c < board.numCols →
      usedDice.cell r c = some false)
    (userGuess : List Char) (hne : userGuess ≠ []) (row col : Int) :
    ∃ b, (∀ fuel : Nat, userGuess.length ≤ fuel →
        FindUserGuessOnBoard board fuel row col [] userGuess usedDice
          = .returned (some b) ()) ∧
      (b = true ↔ ∃ cells : List (Int × Int),
        cells.head? = some (row, col) ∧ cells.Nodup ∧
        (∀ c ∈ cells, (0 ≤ c.1 ∧ c.1 < board.numRows) ∧ (0 ≤ c.2 ∧ c.2 < board.numCols)) ∧
        cells.Chain' adjacentCells ∧
        cells.map (fun c => board.cell c.1 c.2) = userGuess.map some) := by
  have htrace : (∃ cells, IsTrace board usedDice (row, col) userGuess cells) ↔
      ∃ cells : List (Int × Int),
        cells.head? = some (row, col) ∧ cells.Nodup ∧
        (∀ c ∈ cells, (0 ≤ c.1 ∧ c.1 < board.numRows) ∧ (0 ≤ c.2 ∧ c.2 < board.numCols)) ∧
        cells.Chain' adjacentCells ∧
        cells.map (fun c => board.cell c.1 c.2) = userGuess.map some := by
    constructor
    · rintro ⟨cells, h1, h2, h3, h4, h5⟩
      exact ⟨cells, h1, h2, fun c hc => ⟨(h3 c hc).1, (h3 c hc).2.1⟩, h4, h5⟩
    · rintro ⟨cells, h1, h2, h3, h4, h5⟩
      exact ⟨cells, h1, h2,
        fun c hc => ⟨(h3 c hc).1, (h3 c hc).2, hfalse _ _ (h3 c hc).1 (h3 c hc).2⟩, h4, h5⟩
  have key := fun fuel (hfuel : userGuess.length ≤ fuel) =>
    FindUserGuessOnBoard_spec board hwf fuel row col [] userGuess usedDice hwfu hrows hcols hne
      hfuel
  simp only [List.nil_append] at key
  obtain ⟨b, hb, hiff⟩ := key userGuess.length (le_refl _)
  refine ⟨b, ?_, hiff.trans htrace⟩
  intro fuel hfuel
  obtain ⟨b', hb', hiff'⟩ := key fuel hfuel
  have : b' = b := by
    have h : b' = true ↔ b = true := hiff'.trans hiff.symm
    cases b <;> cases b' <;> simp at h ⊢
  rw [hb', this]

theorem boggle_word_tracing_witness :
    exampleBoard.WF ∧ exampleMarker.WF ∧
    FindUserGuessOnBoard exampleBoard 4 0 0 [] ['C', 'O', 'A', 'T'] exampleMarker
      = .returned (some true) () ∧
    FindUserGuessOnBoard exampleBoard 4 0 0 [] ['C', 'O', 'C', 'O'] exampleMarker
      = .returned (some false) () ∧
    FindUserGuessOnBoard exampleBoard 3 0 0 [] ['C', 'O', 'A', 'T'] exampleMarker
      = .returned none () ∧
    ∃ b, (∀ fuel : Nat, ['C', 'O', 'A', 'T'].length ≤ fuel →
        FindUserGuessOnBoard exampleBoard fuel 0 0 [] ['C', 'O', 'A', 'T'] exampleMarker
          = .returned (some b) ()) ∧
      (b = true ↔ ∃ cells : List (Int × Int),
        cells.head? = some (0, 0) ∧ cells.Nodup ∧
        (∀ c ∈ cells, (0 ≤ c.1 ∧ c.1 < exampleBoard.numRows) ∧
          (0 ≤ c.2 ∧ c.2 < exampleBoard.numCols)) ∧
        cells.Chain' adjacentCells ∧
        cells.map (fun c => exampleBoard.cell c.1 c.2) = ['C', 'O', 'A', 'T'].map some) :=
  ⟨⟨by decide, by decide, by decide⟩, ⟨by decide, by decide, by decide⟩, by rfl, by rfl, by rfl,
    boggle_word_tracing exampleBoard ⟨by decide, by decide, by decide⟩ exampleMarker
      ⟨by decide, by decide, by decide⟩ rfl rfl
      (fun r c hr hc => by
        obtain ⟨v, hv, _⟩ := Grid.readIn_inrange exampleMarker
          ⟨by decide, by decide, by decide⟩ r c hr hc
        have hm := Grid.cell_mem exampleMarker r c v hv
        have hvf : v = false := by simpa [exampleMarker] using hm
        rw [hv, hvf])
      ['C', 'O', 'A', 'T'] (by simp) 0 0⟩

end BoggleTraceClaim

section LifeSelf

theorem countP_split {β : Type} (p s : β → Bool) : ∀ (l : List β),
    l.countP p = l.countP (fun d => p d && !s d) + l.countP (fun d => p d && s d)
  | [] => rfl
  | d :: l => by
    have ih := countP_split p s l
    simp only [List.countP_cons, ih]
    cases p d <;> cases s d <;> simp <;> omega

theorem countP_and_const {β : Type} (p s : β → Bool) (b : Bool) : ∀ (l : List β),
    (∀ d ∈ l, s d = true → p d = b) →
    l.countP (fun d => p d && s d) = if b = true then l.countP s else 0
  | [], _ => by simp
  | d :: l, h => by
    have ih := countP_and_const p s b l (fun d hd => h d (List.mem_cons_of_mem _ hd))
    have hd := h d (List.mem_cons_self _ _)
    simp only [List.countP_cons, ih]
    cases hs : s d
    · cases b <;> simp
    · rw [hd hs]
      cases b <;> simp

theorem liveAt_eq_cellLive (g : Grid Int) (mode : Char) (r c r' c' : Int)
    (hm : mappedCell g.numRows g.numCols mode r c = some (r', c')) :
    liveAt g mode r c = cellLive g r' c' := by
  cases h : g.cell r' c' <;> simp [liveAt, hm, cellLive, h]

theorem liveNeighbours_split (g : Grid Int) (mode : Char) (row col : Int) :
    liveNeighbours g mode row col = liveOthers g mode row col +
      (if cellLive g row col = true then selfOffsets g.numRows g.numCols mode row col else 0) := by
  unfold liveNeighbours liveOthers selfOffsets
  rw [countP_split (fun d => liveAt g mode (row + d.1) (col + d.2))
    (mapsToSelf g.numRows g.numCols mode row col)]
  congr 1
  apply countP_and_const
  intro d _ hs
  exact liveAt_eq_cellLive g mode _ _ row col (by simpa [mapsToSelf] using hs)

theorem mappedCell_inrange (R C : Int) (hR : 1 ≤ R) (hC : 1 ≤ C) (mode : Char)
    (hmode : mode = 'P' ∨ mode = 'D' ∨ mode = 'M') (r c r' c' : Int)
    (hm : mappedCell R C mode r c = some (r', c')) :
    (0 ≤ r' ∧ r' < R) ∧ (0 ≤ c' ∧ c' < C) := by
  rcases hmode with rfl | rfl | rfl
  · by_cases hin : 0 ≤ r ∧ r < R ∧ 0 ≤ c ∧ c < C
    · simp only [mappedCell, if_true, if_pos hin, Option.some.injEq, Prod.mk.injEq] at hm
      omega
    · simp [mappedCell, if_neg hin] at hm
  · simp [mappedCell] at hm
    obtain ⟨rfl, rfl⟩ := hm
    exact ⟨⟨Int.emod_nonneg _ (by omega), Int.emod_lt_of_pos _ (by omega)⟩,
      Int.emod_nonneg _ (by omega), Int.emod_lt_of_pos _ (by omega)⟩
  · simp [mappedCell] at hm
    omega

theorem liveOthers_setAt (g g' : Grid Int) (hwf : g.WF) (mode : Char)
    (hmode : mode = 'P' ∨ mode = 'D' ∨ mode = 'M') (row col v : Int)
    (hr : 0 ≤ row ∧ row < g.numRows) (hc : 0 ≤ col ∧ col < g.numCols)
    (hset : g.setAt row col v = .returned () g') :
    g'.WF ∧ g'.numRows = g.numRows ∧ g'.numCols = g.numCols ∧
    liveOthers g' mode row col = liveOthers g mode row col ∧
    cellLive g' row col = decide (v ≠ 0) := by
  obtain ⟨g'', hset', hwf', hrows, hcols, hcell⟩ := Grid.cell_setAt g hwf row col v hr hc
  rw [hset] at hset'
  have e : g' = g'' := by
    injection hset'
  subst e
  have hR : g'.numRows = g.numRows := hrows
  have hC : g'.numCols = g.numCols := hcols
  refine ⟨hwf', hR, hC, ?_, ?_⟩
  · unfold liveOthers
    rw [hR, hC]
    apply List.countP_congr
    intro d _
    cases hs : mapsToSelf g.numRows g.numCols mode row col d
    · simp only [Bool.not_false, Bool.and_true]
      cases hm : mappedCell g.numRows g.numCols mode (row + d.1) (col + d.2) with
      | none => simp [liveAt, hm, hR, hC]
      | some p =>
        obtain ⟨r', c'⟩ := p
        have hin := mappedCell_inrange g.numRows g.numCols (by omega) (by omega) mode hmode
          _ _ r' c' hm
        have hne : ¬ (r' = row ∧ c' = col) := by
          rintro ⟨rfl, rfl⟩
          simp [mapsToSelf, hm] at hs
        have h1 := liveAt_eq_cellLive g mode _ _ r' c' hm
        have h2 := liveAt_eq_cellLive g' mode (row + d.1) (col + d.2) r' c' (by rw [hR, hC]; exact hm)
        rw [h1, h2]
        simp only [cellLive, hcell r' c' hin.1 hin.2, if_neg hne]
    · simp
  · simp only [cellLive, hcell row col hr hc, and_self, if_true]

theorem selfOffsets_eq_zero_iff (R C : Int) (mode : Char) (row col : Int) :
    selfOffsets R C mode row col = 0 ↔
      ∀ d ∈ neighbourOffsets, mappedCell R C mode (row + d.1) (col + d.2) ≠ some (row, col) := by
  simp [selfOffsets, List.countP_eq_zero, mapsToSelf]

theorem selfOffsets_plateau (R C row col : Int) : selfOffsets R C 'P' row col = 0 := by
  rw [selfOffsets_eq_zero_iff]
  intro d hd hm
  by_cases hin : 0 ≤ row + d.1 ∧ row + d.1 < R ∧ 0 ≤ col + d.2 ∧ col + d.2 < C
  · simp only [mappedCell, if_true, if_pos hin, Option.some.injEq, Prod.mk.injEq] at hm
    have h0 : d = (0, 0) := by
      ext <;> simp <;> omega
    rw [h0] at hd
    exact absurd hd (by decide)
  · simp [mappedCell, if_neg hin] at hm

theorem selfOffsets_mirror (R C row col : Int) (hr : 0 ≤ row ∧ row < R)
    (hc : 0 ≤ col ∧ col < C) :
    selfOffsets R C 'M' row col = 0 ↔ (0 < row ∧ row < R - 1 ∧ 0 < col ∧ col < C - 1) := by
  rw [selfOffsets_eq_zero_iff]
  simp only [neighbourOffsets, List.mem_cons, List.mem_singleton, List.not_mem_nil, or_false,
    forall_eq_or_imp, forall_eq, mappedCell, ne_eq, Option.some.injEq, Prod.mk.injEq]
  simp
  omega

theorem selfOffsets_donut (R C row col : Int) (hr : 0 ≤ row ∧ row < R)
    (hc : 0 ≤ col ∧ col < C) :
    selfOffsets R C 'D' row col = 0 ↔ (2 ≤ R ∧ 2 ≤ C) := by
  have hr0 : row % R = row := Int.emod_eq_of_lt hr.1 hr.2
  have hc0 : col % C = col := Int.emod_eq_of_lt hc.1 hc.2
  have hrm := (DonutAdjust_spec (row - 1) R (by omega) (by omega)).1
  have hrp := (DonutAdjust_spec (row + 1) R (by omega) (by omega)).1
  have hcm := (DonutAdjust_spec (col - 1) C (by omega) (by omega)).1
  have hcp := (DonutAdjust_spec (col + 1) C (by omega) (by omega)).1
  rw [selfOffsets_eq_zero_iff]
  simp only [neighbourOffsets, List.mem_cons, List.mem_singleton, List.not_mem_nil, or_false,
    forall_eq_or_imp, forall_eq, mappedCell, ne_eq, Option.some.injEq, Prod.mk.injEq]
  have e1 : row + -1 = row - 1 := by ring
  have e2 : col + -1 = col - 1 := by ring
  simp only [e1, e2, add_zero, ← hrm, ← hrp, ← hcm, ← hcp, hr0, hc0]
  simp [DonutAdjust]
  split_ifs <;> omega

end LifeSelf

section LifeCountClaim

/-- C32 (as stated, refuted). The cell itself can be counted: in the 3 x 3
colony whose only live cell is the corner `(0, 0)`, `CountNeighbors(0, 0)` in
Mirror mode returns 3 (the references at the offsets `(-1, -1)`, `(-1, 0)` and
`(0, -1)` are bounced back onto `(0, 0)`), and it returns 0 once that one cell
is cleared; in a 1 x 1 grid holding a live cell it returns 8 in Donut mode and
in Mirror mode. -/
theorem neighbour_count_includes_cell_itself :
    exampleCorner.WF ∧
    exampleCorner.setAt 0 0 0 = .returned () exampleDesert ∧
    CountNeighbors 0 0 exampleCorner 'M' = .returned 3 () ∧
    CountNeighbors 0 0 exampleDesert 'M' = .returned 0 () ∧
    CountNeighbors.reads 0 0 exampleCorner 'M'
      = [(0, 0), (0, 0), (0, 0), (0, 1), (0, 0), (0, 0), (0, 1), (1, 0), (1, 0), (1, 1)] ∧
    exampleSingle.WF ∧
    CountNeighbors 0 0 exampleSingle 'D' = .returned 8 () ∧
    CountNeighbors 0 0 exampleSingle 'M' = .returned 8 () ∧
    CountNeighbors 0 0 exampleSingle 'P' = .returned 0 () :=
  ⟨⟨by decide, by decide, by decide⟩, by rfl, by rfl, by rfl, by decide,
    ⟨by decide, by decide, by decide⟩, by rfl, by rfl, by rfl⟩

/-- C32 (amended). Life neighbour count: on a well-formed grid, for an in-range
`(row, col)` and a mode in `'P'`, `'D'`, `'M'`, `CountNeighbors` returns the
number of the eight offsets `(dr, dc) ≠ (0, 0)` whose mapped cell (the cell
itself if in range in Plateau mode, coordinates wrapped modulo the dimensions
in Donut mode, coordinates clamped into range in Mirror mode) is non-zero, and
the result lies in `[0, 8]`.  That number is the number of offsets mapped onto
a non-zero cell other than `(row, col)`, plus, when `(row, col)` is non-zero,
the number of offsets mapped back onto `(row, col)` itself: whatever value `v`
is stored in `(row, col)`, `CountNeighbors` then returns the former number
(which does not depend on `v`) plus the latter if `v` is non-zero.  No offset
is mapped back onto the cell in Plateau mode; in Donut mode none is exactly
when the grid has at least two rows and two columns; in Mirror mode none is
exactly when `(row, col)` is not on the border of the grid. -/
theorem life_neighbour_count (g : Grid Int) (hwf : g.WF) (mode : Char)
    (hmode : mode = 'P' ∨ mode = 'D' ∨ mode = 'M') (row col : Int)
    (hr : 0 ≤ row ∧ row < g.numRows) (hc : 0 ≤ col ∧ col < g.numCols) :
    CountNeighbors row col g mode = .returned (liveNeighbours g mode row col : Int) () ∧
    (0 : Int) ≤ (liveNeighbours g mode row col : Int) ∧
    (liveNeighbours g mode row col : Int) ≤ 8 ∧
    ((0 : Int), (0 : Int)) ∉ neighbourOffsets ∧ neighbourOffsets.length = 8 ∧
    neighbourOffsets.Nodup ∧
    (∀ d ∈ neighbourOffsets, (-1 ≤ d.1 ∧ d.1 ≤ 1) ∧ (-1 ≤ d.2 ∧ d.2 ≤ 1)) ∧
    liveNeighbours g mode row col = liveOthers g mode row col +
      (if cellLive g row col = true then selfOffsets g.numRows g.numCols mode row col else 0) ∧
    (∀ (v : Int) (g' : Grid Int), g.setAt row col v = .returned () g' →
      CountNeighbors row col g' mode = .returned ((liveOthers g mode row col +
        (if v ≠ 0 then selfOffsets g.numRows g.numCols mode row col else 0) : Nat) : Int) ()) ∧
    (∀ v : Int, ∃ g', g.setAt row col v = .returned () g') ∧
    (mode = 'P' → selfOffsets g.numRows g.numCols mode row col = 0) ∧
    (mode = 'D' → (selfOffsets g.numRows g.numCols mode row col = 0 ↔
      (2 ≤ g.numRows ∧ 2 ≤ g.numCols))) ∧
    (mode = 'M' → (selfOffsets g.numRows g.numCols mode row col = 0 ↔
      (0 < row ∧ row < g.numRows - 1 ∧ 0 < col ∧ col < g.numCols - 1))) := by
  refine ⟨CountNeighbors_spec g hwf mode hmode row col hr hc, by omega, ?_, by decide,
    by decide, by decide, by decide, liveNeighbours_split g mode row col, ?_, ?_, ?_, ?_, ?_⟩
  · have := List.countP_le_length (l := neighbourOffsets)
      (fun d => liveAt g mode (row + d.1) (col + d.2))
    have h8 : neighbourOffsets.length = 8 := by decide
    unfold liveNeighbours
    omega
  · intro v g' hset
    obtain ⟨hwf', hR, hC, hothers, hlive⟩ :=
      liveOthers_setAt g g' hwf mode hmode row col v hr hc hset
    rw [CountNeighbors_spec g' hwf' mode hmode row col (by rw [hR]; exact hr)
      (by rw [hC]; exact hc), liveNeighbours_split, hothers, hlive, hR, hC]
    simp
  · intro v
    obtain ⟨g', hset, _⟩ := Grid.cell_setAt g hwf row col v hr hc
    exact ⟨g', hset⟩
  · rintro rfl
    exact selfOffsets_plateau _ _ _ _
  · rintro rfl
    exact selfOffsets_donut _ _ _ _ hr hc
  · rintro rfl
    exact selfOffsets_mirror _ _ _ _ hr hc

theorem life_neighbour_count_witness :
    exampleCorner.WF ∧
    liveOthers exampleCorner 'M' 0 0 = 0 ∧ cellLive exampleCorner 0 0 = true ∧
    selfOffsets 3 3 'M' 0 0 = 3 ∧ selfOffsets 3 3 'M' 1 1 = 0 ∧
    selfOffsets 3 3 'D' 0 0 = 0 ∧ selfOffsets 1 1 'D' 0 0 = 8 ∧
    CountNeighbors 0 0 exampleColony 'P' = .returned 2 () ∧
    CountNeighbors 0 0 exampleColony 'D' = .returned 4 () ∧
    CountNeighbors 0 0 exampleColony 'M' = .returned 6 () ∧
    CountNeighbors 0 0 exampleCorner 'M'
      = .returned (liveNeighbours exampleCorner 'M' 0 0 : Int) () ∧
    liveNeighbours exampleCorner 'M' 0 0 = liveOthers exampleCorner 'M' 0 0 +
      (if cellLive exampleCorner 0 0 = true
        then selfOffsets exampleCorner.numRows exampleCorner.numCols 'M' 0 0 else 0) :=
  ⟨⟨by decide, by decide, by decide⟩, by decide, by decide, by decide, by decide, by decide,
    by decide, by rfl, by rfl, by rfl,
    (life_neighbour_count exampleCorner ⟨by decide, by decide, by decide⟩ 'M'
      (Or.inr (Or.inr rfl)) 0 0 (by decide) (by decide)).1,
    (life_neighbour_count exampleCorner ⟨by decide, by decide, by decide⟩ 'M'
      (Or.inr (Or.inr rfl)) 0 0 (by decide) (by decide)).2.2.2.2.2.2.2.1⟩

end LifeCountClaim

section IteratorAttached

variable {α : Type}

theorem IsNodeOf.ne_null {p : nodeT α} : ∀ {t : nodeT α}, IsNodeOf p t → p ≠ .NULL
  | .NULL, h => absurd h (fun h => h)
  | .node d l r bf, h => by
    rcases h with h | h | h
    · rw [h]
      simp
    · exact IsNodeOf.ne_null h
    · exact IsNodeOf.ne_null h

theorem IsNodeOf.trans {a b : nodeT α} (hab : IsNodeOf a b) :
    ∀ {c : nodeT α}, IsNodeOf b c → IsNodeOf a c
  | .NULL, h => absurd h (fun h => h)
  | .node d l r bf, h => by
    rcases h with h | h | h
    · rw [← h]
      exact hab
    · exact Or.inr (Or.inl (IsNodeOf.trans hab h))
    · exact Or.inr (Or.inr (IsNodeOf.trans hab h))

theorem IsNodeOf.left {d : α} {l r : nodeT α} {bf : Int} {t : nodeT α}
    (h : IsNodeOf (.node d l r bf) t) (hl : l ≠ .NULL) : IsNodeOf l t := by
  refine IsNodeOf.trans ?_ h
  cases l with
  | NULL => exact absurd rfl hl
  | node ld ll lr lbf => exact Or.inr (Or.inl (Or.inl rfl))

theorem IsNodeOf.right {d : α} {l r : nodeT α} {bf : Int} {t : nodeT α}
    (h : IsNodeOf (.node d l r bf) t) (hr : r ≠ .NULL) : IsNodeOf r t := by
  refine IsNodeOf.trans ?_ h
  cases r with
  | NULL => exact absurd rfl hr
  | node rd rl rr rbf => exact Or.inr (Or.inr (Or.inl rfl))

theorem StackPath.attached (root : nodeT α) : ∀ (st : Stack (iteratorMarkerT α)),
    StackPath root st → ∀ m ∈ st, IsNodeOf m.np root
  | [], _, m, hm => by simp at hm
  | [m0], h, m, hm => by
    simp only [List.mem_singleton] at hm
    subst hm
    obtain ⟨h1, h2⟩ := h
    rw [h1] at h2 ⊢
    cases root with
    | NULL => exact absurd rfl h2
    | node d l r bf => exact Or.inl rfl
  | m0 :: m1 :: s, h, m, hm => by
    have ih := StackPath.attached root (m1 :: s) h.2.2
    rcases List.mem_cons.1 hm with rfl | hm
    · have h1 := ih m1 (List.mem_cons_self _ _)
      obtain ⟨hnn, hchild, _⟩ := h
      cases hnp : m1.np with
      | NULL => exact absurd hnp (IsNodeOf.ne_null h1)
      | node d l r bf =>
        rw [hnp] at h1 hchild
        by_cases hp : m1.processed = true
        · simp only [hp, if_true, getRight, Option.some.injEq] at hchild
          rw [← hchild]
          exact IsNodeOf.right h1 (by rw [hchild]; exact hnn)
        · simp only [hp, getLeft, Option.some.injEq] at hchild
          rw [← hchild]
          exact IsNodeOf.left h1 (by rw [hchild]; exact hnn)
    · exact ih m hm

theorem iterate_attached (b : BST α) (fuel : Nat) :
    ∃ it0 xs it, b.iterator = .ok it0 ∧ iterate b fuel it0 = .ok (xs, it) ∧ it.Attached b := by
  obtain ⟨it0, h0, hact, hpath, _⟩ := BST.iterator_path b
  obtain ⟨xs, it, hit, _, hp⟩ := iterate_path b fuel it0 hact hpath
  exact ⟨it0, xs, it, h0, hit, StackPath.attached b.root it.stack hp⟩

end IteratorAttached

section IteratorContractClaim

variable {α : Type}

end IteratorContractClaim

section IteratorContractWitness

end IteratorContractWitness

end Stanford
